import Mathlib

/-!
# egelis/calculator: risk-formula engine

A shallow embedding of the Go packages `calculator` and `calculator/core`:
tokenizer, backtracking grammar parser, shunting-yard converter, typed stack
evaluator and the batch driver `Calculate`, followed by theorems about them.

Conventions of the embedding.

* Go values of the string-based types `ValueType` and `Color` are Lean strings;
  `TokenType` is the closed set of its nine constants plus the zero value.
* A Go `(T, error)` result is `Except Error T` (`Except CoreError T` in
  package core).
* The float64 arithmetic, `strconv.ParseFloat` and the `%f` verb of `fmt` are
  not part of the repository; they are taken as a parameter `FloatLib`.
* Loops are recursive functions.  Where the recursion is not structural a
  depth bound is passed, and `none` is returned when the bound is exhausted or
  when the Go code would read a slice out of range.
-/

set_option autoImplicit false
set_option linter.dupNamespace false

/-! ## Go standard library -/

namespace strconv

/-- Go `strconv.ParseBool`: the twelve accepted spellings; `none` stands for the
syntax error. -/
def ParseBool (str : String) : Option Bool :=
  if str = "1" ∨ str = "t" ∨ str = "T" ∨ str = "true" ∨ str = "TRUE" ∨ str = "True" then
    some true
  else if str = "0" ∨ str = "f" ∨ str = "F" ∨ str = "false" ∨ str = "FALSE" ∨ str = "False" then
    some false
  else
    none

end strconv

namespace unicode

/-- Go `unicode.IsSpace`: the Latin-1 spaces and the code points with the
White_Space property. -/
def IsSpace (r : Char) : Bool :=
  let n := r.toNat
  (9 ≤ n && n ≤ 13) || n == 32 || n == 133 || n == 160 || n == 5760 ||
  (8192 ≤ n && n ≤ 8202) || n == 8232 || n == 8233 || n == 8239 || n == 8287 || n == 12288

end unicode

/-- The float64 services the engine takes from the platform:
`strconv.ParseFloat(s, 64)` (`none` when it returns an error), the `%f` verb of
`fmt.Sprintf`, the four arithmetic operations, the comparisons and the
constant `0`. -/
structure FloatLib where
  F64 : Type
  ParseFloat : String → Option F64
  Sprintf_f : F64 → String
  add : F64 → F64 → F64
  sub : F64 → F64 → F64
  mul : F64 → F64 → F64
  div : F64 → F64 → F64
  eq : F64 → F64 → Bool
  lt : F64 → F64 → Bool
  le : F64 → F64 → Bool
  gt : F64 → F64 → Bool
  ge : F64 → F64 → Bool
  zero : F64

/-- Go `fmt.Sprintf("%t", b)`. -/
def Sprintf_t (b : Bool) : String :=
  if b then "true" else "false"

/-- Equality of Go `(T, error)` results is decidable when it is for both parts. -/
instance instDecidableEqExcept {ε α : Type} [DecidableEq ε] [DecidableEq α] :
    DecidableEq (Except ε α)
  | .ok a, .ok b => if h : a = b then isTrue (by rw [h]) else isFalse (by intro h2; cases h2; exact h rfl)
  | .error a, .error b =>
    if h : a = b then isTrue (by rw [h]) else isFalse (by intro h2; cases h2; exact h rfl)
  | .ok _, .error _ => isFalse (by intro h; cases h)
  | .error _, .ok _ => isFalse (by intro h; cases h)

/-- A parameter row, `jparser.RawMessageSet` (a Go map from the parameter name
to its raw JSON text): the lookup `rawSet[name]`, `none` when the key is absent.
The nil map is the lookup that is `none` everywhere. -/
abbrev RawMessageSet := String → Option String

/-! ## Package core -/

namespace core

/-- The constants of `type TokenType string`, and `zero` for the zero value
`""` carried by `Token{}`. -/
inductive TokenType
  | ARITH_OP
  | COMP_OP
  | LOG_OP
  | LBR
  | RBR
  | NUMBER
  | BOOL
  | IDENT
  | EXISTS_FUNC
  | zero
  deriving DecidableEq

open TokenType

/-- The Go string behind a `TokenType`. -/
def TokenType.str : TokenType → String
  | ARITH_OP => "arithmeticOp"
  | COMP_OP => "comparisonOp"
  | LOG_OP => "logicOp"
  | LBR => "leftBranch"
  | RBR => "rightBranch"
  | NUMBER => "number"
  | BOOL => "boolWord"
  | IDENT => "identificator"
  | EXISTS_FUNC => "existsFunc"
  | zero => ""

/-- Go `type ValueType string`. -/
abbrev ValueType := String

abbrev NUMBER_TYPE : ValueType := "number"
abbrev BOOL_TYPE : ValueType := "bool"
abbrev UNKNOWN_TYPE : ValueType := "unknown"

structure Token where
  Type_ : TokenType
  Value : String
  ValueType : ValueType
  deriving DecidableEq

/-- The Go zero value `Token{}`. -/
def Token.zero : Token := ⟨TokenType.zero, "", ""⟩

abbrev errUnknownToken : String := "unknown token"
abbrev errDifferentType : String := "operands must be of the same type"
abbrev errInvalidOperatorForType : String := "operator not defined for types"
abbrev errTypeCast : String := "typecast error"
abbrev errDivisionByZero : String := "division by zero"

end core

namespace core

/-- The error values of package core: `UnknownTokenTypeError`,
`UnknownParameterError` and `CalculationError`. -/
inductive CoreError
  | UnknownTokenTypeError (TokenType : TokenType)
  | UnknownParameterError (Param : String)
  | CalculationError (Reason : String) (Value : String)
  deriving DecidableEq

/-- The `Error()` methods of the three error types of package core. -/
def CoreError.Error : CoreError → String
  | .UnknownTokenTypeError t => "unknown token type: " ++ t.str
  | .UnknownParameterError p => "parameter not found: " ++ p
  | .CalculationError r v => r ++ ": " ++ v

end core

/-- The error values that `Calculate` can return: `InvalidTokenError` and
`ParseError` of package calculator, and `NumError` of `strconv.ParseBool`. -/
inductive Error
  | InvalidTokenError (Position : Nat)
  | ParseError (Reason : String)
  | NumError (Func : String) (Num : String)
  deriving DecidableEq

namespace core

open TokenType

/-- The slice-backed `TokenStack`; the head of the list is the top of the
stack (the last element of the Go slice). -/
abbrev TokenStack := List Token

def TokenStack.IsEmpty (s : TokenStack) : Bool :=
  s.length == 0

def TokenStack.Push (s : TokenStack) (value : Token) : TokenStack :=
  value :: s

/-- Go `Pop`: the popped token, the `ok` flag and the stack left. -/
def TokenStack.Pop : TokenStack → Token × Bool × TokenStack
  | [] => (Token.zero, false, [])
  | value :: s => (value, true, s)

def TokenStack.Peek : TokenStack → Token × Bool
  | [] => (Token.zero, false)
  | value :: _ => (value, true)

/-- The map `operatorPrecedence`; `none` when the key is absent. -/
def operatorPrecedence (key : String) : Option Int :=
  if key = "(" then some 10
  else if key = "OR" then some 20
  else if key = "AND" then some 30
  else if key = "=" then some 40
  else if key = "!=" then some 40
  else if key = ">" then some 50
  else if key = "<" then some 50
  else if key = ">=" then some 50
  else if key = "<=" then some 50
  else if key = "+" then some 120
  else if key = "-" then some 120
  else if key = "/" then some 130
  else if key = "*" then some 130
  else none

/-- Go `operatorPrecedence[key]` read without the `ok` flag: 0 for an absent
key. -/
def operatorPrecedenceD (key : String) : Int :=
  (operatorPrecedence key).getD 0

/-- The loop of the `RBR` case of `ToPostfixExp`: pop and emit until a token
with value `(` has been popped, or the stack is empty. -/
def popToLeftBracket : TokenStack → List Token → TokenStack × List Token
  | [], output => ([], output)
  | operation :: s, output =>
    if operation.Value = "(" then (s, output)
    else popToLeftBracket s (output ++ [operation])

/-- The loop of the operator case of `ToPostfixExp`: pop and emit while the
top of the stack has a strictly greater precedence than `weight`. -/
def popGreater (weight : Int) : TokenStack → List Token → TokenStack × List Token
  | [], output => ([], output)
  | stackOperation :: s, output =>
    if operatorPrecedenceD stackOperation.Value > weight then
      popGreater weight s (output ++ [stackOperation])
    else (stackOperation :: s, output)

/-- The main loop of `ToPostfixExp`. -/
def toPostfixLoop : List Token → TokenStack → List Token → Except CoreError (TokenStack × List Token)
  | [], operationStack, output => .ok (operationStack, output)
  | token :: rest, operationStack, output =>
    match token.Type_ with
    | NUMBER | BOOL | IDENT => toPostfixLoop rest operationStack (output ++ [token])
    | LBR => toPostfixLoop rest (operationStack.Push token) output
    | RBR =>
      let r := popToLeftBracket operationStack output
      toPostfixLoop rest r.1 r.2
    | LOG_OP | COMP_OP | ARITH_OP =>
      match operatorPrecedence token.Value with
      | some weight =>
        let r := popGreater weight operationStack output
        toPostfixLoop rest (r.1.Push token) r.2
      | none => toPostfixLoop rest operationStack output
    | EXISTS_FUNC | TokenType.zero => .error (.UnknownTokenTypeError token.Type_)

/-- The "Shunting yard" conversion `ToPostfixExp`; the stack left by the main
loop is flushed to the output, top first. -/
def ToPostfixExp (infixExp : List Token) : Except CoreError (List Token) :=
  match toPostfixLoop infixExp [] [] with
  | .error e => .error e
  | .ok (operationStack, output) => .ok (output ++ operationStack)

/-- The value of the type-mismatch error: Go `fmt.Sprintf("'%s' '%s'", x.Value, y.Value)`. -/
def quote2 (a b : String) : String :=
  "'" ++ a ++ "' '" ++ b ++ "'"

/-- Go `fmt.Sprintf("'%s'", a)`. -/
def quote1 (a : String) : String :=
  "'" ++ a ++ "'"

/-- Go `fmt.Sprintf("'%s' failed cast to '%s'", value, t)`. -/
def castMsg (value : String) (t : ValueType) : String :=
  "'" ++ value ++ "' failed cast to '" ++ t ++ "'"

def parseBoolOperands (value1 value2 : String) : Except CoreError (Bool × Bool) :=
  match strconv.ParseBool value1 with
  | none => .error (.CalculationError errTypeCast (castMsg value1 BOOL_TYPE))
  | some op1 =>
    match strconv.ParseBool value2 with
    | none => .error (.CalculationError errTypeCast (castMsg value2 BOOL_TYPE))
    | some op2 => .ok (op1, op2)

def parseFloatOperands (L : FloatLib) (value1 value2 : String) : Except CoreError (L.F64 × L.F64) :=
  match L.ParseFloat value1 with
  | none => .error (.CalculationError errTypeCast (castMsg value1 NUMBER_TYPE))
  | some op1 =>
    match L.ParseFloat value2 with
    | none => .error (.CalculationError errTypeCast (castMsg value2 NUMBER_TYPE))
    | some op2 => .ok (op1, op2)

def addOperator (L : FloatLib) (x y : Token) : Except CoreError Token :=
  if x.ValueType ≠ y.ValueType then
    .error (.CalculationError errDifferentType (quote2 x.Value y.Value))
  else if x.ValueType = NUMBER_TYPE then
    match parseFloatOperands L x.Value y.Value with
    | .error err => .error err
    | .ok op => .ok ⟨NUMBER, L.Sprintf_f (L.add op.1 op.2), NUMBER_TYPE⟩
  else
    .error (.CalculationError errInvalidOperatorForType (quote1 x.ValueType))

def subOperator (L : FloatLib) (x y : Token) : Except CoreError Token :=
  if x.ValueType ≠ y.ValueType then
    .error (.CalculationError errDifferentType (quote2 x.Value y.Value))
  else if x.ValueType = NUMBER_TYPE then
    match parseFloatOperands L x.Value y.Value with
    | .error err => .error err
    | .ok op => .ok ⟨NUMBER, L.Sprintf_f (L.sub op.1 op.2), NUMBER_TYPE⟩
  else
    .error (.CalculationError errInvalidOperatorForType (quote1 x.ValueType))

def mulOperator (L : FloatLib) (x y : Token) : Except CoreError Token :=
  if x.ValueType ≠ y.ValueType then
    .error (.CalculationError errDifferentType (quote2 x.Value y.Value))
  else if x.ValueType = NUMBER_TYPE then
    match parseFloatOperands L x.Value y.Value with
    | .error err => .error err
    | .ok op => .ok ⟨NUMBER, L.Sprintf_f (L.mul op.1 op.2), NUMBER_TYPE⟩
  else
    .error (.CalculationError errInvalidOperatorForType (quote1 x.ValueType))

def divOperator (L : FloatLib) (x y : Token) : Except CoreError Token :=
  if x.ValueType ≠ y.ValueType then
    .error (.CalculationError errDifferentType (quote2 x.Value y.Value))
  else if x.ValueType = NUMBER_TYPE then
    match parseFloatOperands L x.Value y.Value with
    | .error err => .error err
    | .ok op =>
      if L.eq op.2 L.zero then
        .error (.CalculationError errDivisionByZero "")
      else
        .ok ⟨NUMBER, L.Sprintf_f (L.div op.1 op.2), NUMBER_TYPE⟩
  else
    .error (.CalculationError errInvalidOperatorForType (quote1 x.ValueType))

def lessEqualOperator (L : FloatLib) (x y : Token) : Except CoreError Token :=
  if x.ValueType ≠ y.ValueType then
    .error (.CalculationError errDifferentType (quote2 x.Value y.Value))
  else if x.ValueType = NUMBER_TYPE then
    match parseFloatOperands L x.Value y.Value with
    | .error err => .error err
    | .ok op => .ok ⟨BOOL, Sprintf_t (L.le op.1 op.2), BOOL_TYPE⟩
  else
    .error (.CalculationError errInvalidOperatorForType (quote1 x.ValueType))

def moreEqualOperator (L : FloatLib) (x y : Token) : Except CoreError Token :=
  if x.ValueType ≠ y.ValueType then
    .error (.CalculationError errDifferentType (quote2 x.Value y.Value))
  else if x.ValueType = NUMBER_TYPE then
    match parseFloatOperands L x.Value y.Value with
    | .error err => .error err
    | .ok op => .ok ⟨BOOL, Sprintf_t (L.ge op.1 op.2), BOOL_TYPE⟩
  else
    .error (.CalculationError errInvalidOperatorForType (quote1 x.ValueType))

def moreOperator (L : FloatLib) (x y : Token) : Except CoreError Token :=
  if x.ValueType ≠ y.ValueType then
    .error (.CalculationError errDifferentType (quote2 x.Value y.Value))
  else if x.ValueType = NUMBER_TYPE then
    match parseFloatOperands L x.Value y.Value with
    | .error err => .error err
    | .ok op => .ok ⟨BOOL, Sprintf_t (L.gt op.1 op.2), BOOL_TYPE⟩
  else
    .error (.CalculationError errInvalidOperatorForType (quote1 x.ValueType))

def lessOperator (L : FloatLib) (x y : Token) : Except CoreError Token :=
  if x.ValueType ≠ y.ValueType then
    .error (.CalculationError errDifferentType (quote2 x.Value y.Value))
  else if x.ValueType = NUMBER_TYPE then
    match parseFloatOperands L x.Value y.Value with
    | .error err => .error err
    | .ok op => .ok ⟨BOOL, Sprintf_t (L.lt op.1 op.2), BOOL_TYPE⟩
  else
    .error (.CalculationError errInvalidOperatorForType (quote1 x.ValueType))

def orOperator (x y : Token) : Except CoreError Token :=
  if x.ValueType ≠ y.ValueType then
    .error (.CalculationError errDifferentType (quote2 x.Value y.Value))
  else if x.ValueType = BOOL_TYPE then
    match parseBoolOperands x.Value y.Value with
    | .error err => .error err
    | .ok op => .ok ⟨BOOL, Sprintf_t (op.1 || op.2), BOOL_TYPE⟩
  else
    .error (.CalculationError errInvalidOperatorForType (quote1 x.ValueType))

def andOperator (x y : Token) : Except CoreError Token :=
  if x.ValueType ≠ y.ValueType then
    .error (.CalculationError errDifferentType (quote2 x.Value y.Value))
  else if x.ValueType = BOOL_TYPE then
    match parseBoolOperands x.Value y.Value with
    | .error err => .error err
    | .ok op => .ok ⟨BOOL, Sprintf_t (op.1 && op.2), BOOL_TYPE⟩
  else
    .error (.CalculationError errInvalidOperatorForType (quote1 x.ValueType))

def equalOperator (L : FloatLib) (x y : Token) : Except CoreError Token :=
  if x.ValueType ≠ y.ValueType then
    .error (.CalculationError errDifferentType (quote2 x.Value y.Value))
  else if x.ValueType = BOOL_TYPE then
    match parseBoolOperands x.Value y.Value with
    | .error err => .error err
    | .ok op => .ok ⟨BOOL, Sprintf_t (op.1 == op.2), BOOL_TYPE⟩
  else if x.ValueType = NUMBER_TYPE then
    match parseFloatOperands L x.Value y.Value with
    | .error err => .error err
    | .ok op => .ok ⟨BOOL, Sprintf_t (L.eq op.1 op.2), BOOL_TYPE⟩
  else
    .error (.CalculationError errInvalidOperatorForType (quote1 x.ValueType))

def notEqualOperator (L : FloatLib) (x y : Token) : Except CoreError Token :=
  if x.ValueType ≠ y.ValueType then
    .error (.CalculationError errDifferentType (quote2 x.Value y.Value))
  else if x.ValueType = BOOL_TYPE then
    match parseBoolOperands x.Value y.Value with
    | .error err => .error err
    | .ok op => .ok ⟨BOOL, Sprintf_t (op.1 != op.2), BOOL_TYPE⟩
  else if x.ValueType = NUMBER_TYPE then
    match parseFloatOperands L x.Value y.Value with
    | .error err => .error err
    | .ok op => .ok ⟨BOOL, Sprintf_t (!(L.eq op.1 op.2)), BOOL_TYPE⟩
  else
    .error (.CalculationError errInvalidOperatorForType (quote1 x.ValueType))

/-- The map `operatorFuncs`; `none` when the key is absent. -/
def operatorFuncs (L : FloatLib) (key : String) : Option (Token → Token → Except CoreError Token) :=
  if key = "OR" then some orOperator
  else if key = "AND" then some andOperator
  else if key = "=" then some (equalOperator L)
  else if key = "!=" then some (notEqualOperator L)
  else if key = ">" then some (moreOperator L)
  else if key = "<" then some (lessOperator L)
  else if key = ">=" then some (moreEqualOperator L)
  else if key = "<=" then some (lessEqualOperator L)
  else if key = "+" then some (addOperator L)
  else if key = "-" then some (subOperator L)
  else if key = "*" then some (mulOperator L)
  else if key = "/" then some (divOperator L)
  else none

/-- The loop of `Evaluate` over the postfix tokens, threading the value stack. -/
def evalLoop (L : FloatLib) (knownParams : RawMessageSet) :
    List Token → TokenStack → Except CoreError TokenStack
  | [], resStack => .ok resStack
  | token :: rest, resStack =>
    match token.Type_ with
    | LOG_OP | COMP_OP | ARITH_OP =>
      match operatorFuncs L token.Value with
      | none => .error (.CalculationError errUnknownToken token.Value)
      | some opFunc =>
        let py := resStack.Pop
        let px := py.2.2.Pop
        match opFunc px.1 py.1 with
        | .error err => .error err
        | .ok res => evalLoop L knownParams rest (px.2.2.Push res)
    | NUMBER | BOOL => evalLoop L knownParams rest (resStack.Push token)
    | IDENT =>
      match knownParams token.Value with
      | none => .error (.UnknownParameterError token.Value)
      | some rawValue => evalLoop L knownParams rest (resStack.Push ⟨token.Type_, rawValue, token.ValueType⟩)
    | LBR | RBR | EXISTS_FUNC | TokenType.zero => .error (.UnknownTokenTypeError token.Type_)

def Evaluate (L : FloatLib) (tokens : List Token) (knownParams : RawMessageSet) : Except CoreError Token :=
  match evalLoop L knownParams tokens [] with
  | .error err => .error err
  | .ok resStack =>
    let res := resStack.Pop.1
    if res.ValueType = BOOL_TYPE then .ok ⟨BOOL, res.Value, BOOL_TYPE⟩
    else if res.ValueType = NUMBER_TYPE then .ok ⟨NUMBER, res.Value, NUMBER_TYPE⟩
    else .error (.CalculationError errUnknownToken res.Value)

/-- Package-level `core.Calculate`: postfix conversion followed by evaluation. -/
def Calculate (L : FloatLib) (tokens : List Token) (knownParams : RawMessageSet) : Except CoreError Token :=
  match ToPostfixExp tokens with
  | .error err => .error err
  | .ok exp =>
    match Evaluate L exp knownParams with
    | .error err => .error err
    | .ok res => .ok res

end core

/-! ## Package calculator -/

namespace calculator

open core core.TokenType

/-- Go `type Color string`. -/
abbrev Color := String

abbrev BlackColor : Color := "black"
abbrev GreyColor : Color := "grey"
abbrev GreenColor : Color := "green"
abbrev YellowColor : Color := "yellow"
abbrev RedColor : Color := "red"

structure Formula where
  Name : String
  Expression : String
  Color : Color
  Version : Int
  IsEnable : Bool
  deriving DecidableEq

structure Value where
  Version : Int
  Color : Color
  Result : Bool
  deriving DecidableEq

/-- Go `type FormulaResult map[string]Value`: the entries in the order in which
their keys were first written; a key occurs once. -/
abbrev FormulaResult := List (String × Value)

/-- The map write `result[key] = value`. -/
def FormulaResult.set : FormulaResult → String → Value → FormulaResult
  | [], key, value => [(key, value)]
  | (k, v) :: rest, key, value =>
    if k = key then (key, value) :: rest else (k, v) :: FormulaResult.set rest key value

/-- The map `colorPrecedence`, read without the `ok` flag: 0 for an absent key. -/
def colorPrecedence (c : Color) : Int :=
  if c = BlackColor then 0
  else if c = GreyColor then 1
  else if c = GreenColor then 2
  else if c = YellowColor then 3
  else if c = RedColor then 4
  else 0

/-! ### tokenizer.go -/

/-- The Go slice expression `chars[lo:hi]`. -/
def slice (chars : List Char) (lo hi : Nat) : List Char :=
  (chars.take hi).drop lo

def isExistsFunc (chars : List Char) : Bool :=
  String.mk chars = "exists"

def isBool (chars : List Char) : Bool :=
  String.mk chars = "true" || String.mk chars = "false"

def isOrAnd (chars : List Char) : Bool :=
  String.mk chars = "OR" || String.mk chars = "AND"

def isAlpha (char : Char) : Bool :=
  (char ≥ 'a' && char ≤ 'z') || (char ≥ 'A' && char ≤ 'Z')

def isDigit (char : Char) : Bool :=
  char ≥ '0' && char ≤ '9'

def isLeftBracket (char : Char) : Bool :=
  char = '('

def isRightBracket (char : Char) : Bool :=
  char = ')'

def isArithmeticOp (char : Char) : Bool :=
  String.singleton char = "+" || String.singleton char = "-" ||
  String.singleton char = "*" || String.singleton char = "/"

/-- Go `isLogicOp(chars, &i, length)`: the verdict and the new value of `i`.
Every branch of the Go loop body returns, so the body runs at most once. -/
def isLogicOp (chars : List Char) (i length : Nat) : Bool × Nat :=
  if i < length then
    if chars[i]? = some '>' ∨ chars[i]? = some '<' then
      if i + 1 < length ∧ chars[i + 1]? = some '=' then (true, i + 1) else (true, i)
    else if chars[i]? = some '=' then (true, i)
    else if chars[i]? = some '!' then
      if i + 1 < length ∧ chars[i + 1]? = some '=' then (true, i + 1) else (false, i)
    else (false, i)
  else (false, i)

/-- The loop of `isNumber`; the first argument is the unread part `chars[i:]`,
which stands for the guard `*i < inputLen`.  Returns the final `i` and `c`. -/
def isNumberLoop (L : FloatLib) (chars : List Char) : List Char → Nat → Nat → Nat × Nat
  | [], i, c => (i, c)
  | _ :: rest, i, c =>
    match L.ParseFloat (String.mk (slice chars (i - c) (i + 1))) with
    | none => (i, c)
    | some _ => isNumberLoop L chars rest (i + 1) (c + 1)

/-- Go `isNumber(chars, &i, inputLen)`: the verdict and the new value of `i`. -/
def isNumber (L : FloatLib) (chars : List Char) (i : Nat) : Bool × Nat :=
  let r := isNumberLoop L chars (chars.drop i) i 0
  (decide (r.2 > 0), r.1)

/-- The inner loop of the identifier branch of `tokenize`: advance `i` over
letters, digits and underscores; the first argument is the unread part
`chars[i:]`. -/
def identLoop : List Char → Nat → Nat
  | [], i => i
  | char :: rest, i =>
    if isAlpha char || isDigit char || char = '_' then identLoop rest (i + 1) else i

/-- The classification `switch` of the identifier branch of `tokenize`. -/
def classify (paramTypes : String → Option ValueType) (word : List Char) : Token :=
  if isBool word then ⟨BOOL, String.mk word, BOOL_TYPE⟩
  else if isOrAnd word then ⟨LOG_OP, String.mk word, ""⟩
  else if isExistsFunc word then ⟨EXISTS_FUNC, String.mk word, ""⟩
  else
    match paramTypes (String.mk word) with
    | some valueType => ⟨IDENT, String.mk word, valueType⟩
    | none => ⟨IDENT, String.mk word, UNKNOWN_TYPE⟩

/-- The scanning loop of `tokenize`.  The first argument bounds the number of
iterations; `none` is returned when it is exhausted before the input is. -/
def tokenizeLoop (L : FloatLib) (paramTypes : String → Option ValueType) (chars : List Char)
    (inputLen : Nat) : Nat → Nat → List Token → Option (Except Error (List Token))
  | 0, i, tokens => if i < inputLen then none else some (.ok tokens)
  | fuel + 1, i, tokens =>
    if i < inputLen then
      match chars[i]? with
      | none => none
      | some char =>
        if unicode.IsSpace char then
          tokenizeLoop L paramTypes chars inputLen fuel (i + 1) tokens
        else if isAlpha char then
          let start := i
          let i := identLoop (chars.drop (i + 1)) (i + 1)
          tokenizeLoop L paramTypes chars inputLen fuel i
            (tokens ++ [classify paramTypes (slice chars start i)])
        else if isArithmeticOp char then
          tokenizeLoop L paramTypes chars inputLen fuel (i + 1)
            (tokens ++ [⟨ARITH_OP, String.singleton char, ""⟩])
        else if isLeftBracket char then
          tokenizeLoop L paramTypes chars inputLen fuel (i + 1)
            (tokens ++ [⟨LBR, String.singleton char, ""⟩])
        else if isRightBracket char then
          tokenizeLoop L paramTypes chars inputLen fuel (i + 1)
            (tokens ++ [⟨RBR, String.singleton char, ""⟩])
        else
          let start := i
          let r := isLogicOp chars i inputLen
          if r.1 then
            let i := r.2 + 1
            tokenizeLoop L paramTypes chars inputLen fuel i
              (tokens ++ [⟨COMP_OP, String.mk (slice chars start i), ""⟩])
          else
            let i := r.2
            let start := i
            let r := isNumber L chars i
            if r.1 then
              tokenizeLoop L paramTypes chars inputLen fuel r.2
                (tokens ++ [⟨NUMBER, String.mk (slice chars start r.2), NUMBER_TYPE⟩])
            else
              some (.error (.InvalidTokenError r.2))
    else some (.ok tokens)

/-- Go `tokenize(input, paramTypes)`.  Every iteration of the scanning loop
advances `i`, so `inputLen` iterations are enough. -/
def tokenize (L : FloatLib) (input : String) (paramTypes : String → Option ValueType) :
    Option (Except Error (List Token)) :=
  let chars := input.data
  let inputLen := chars.length
  tokenizeLoop L paramTypes chars inputLen inputLen 0 []

/-! ### parser.go -/

abbrev errSyntax : String := "found a syntax error"
abbrev errCalc : String := "calculation failed"

structure parser where
  rawSet : RawMessageSet
  tokens : List Token
  tokensSize : Int
  it : Int
  calculationTokens : List Token

def newParser (tokens : List Token) (rawSet : RawMessageSet) : parser :=
  { rawSet := rawSet, tokens := tokens, tokensSize := tokens.length, it := -1,
    calculationTokens := [] }

/-- The read `p.tokens[p.it]`; `none` when the index is out of range (a Go
panic). -/
def parser.cur (p : parser) : Option Token :=
  if p.it < 0 then none else p.tokens[p.it.toNat]?

/-- The slice `p.tokens[lo:hi]`; `none` when the bounds are out of range (a Go
panic). -/
def parser.span (p : parser) (lo hi : Int) : Option (List Token) :=
  if 0 ≤ lo ∧ lo ≤ hi ∧ hi ≤ p.tokens.length then
    some ((p.tokens.take hi.toNat).drop lo.toNat)
  else none

/-- The common shape of the terminal checks: `p.it++` and then the comparison
of `p.tokens[p.it].Type` with `t`. -/
def parser.terminal (p : parser) (t : TokenType) : Option (Bool × parser) :=
  let p := { p with it := p.it + 1 }
  match p.cur with
  | none => none
  | some token => some (decide (token.Type_ = t), p)

def parser.IdentExists (p : parser) : Option (Bool × parser) := p.terminal EXISTS_FUNC
def parser.CompOperator (p : parser) : Option (Bool × parser) := p.terminal COMP_OP
def parser.LogicOperator (p : parser) : Option (Bool × parser) := p.terminal LOG_OP
def parser.LBracket (p : parser) : Option (Bool × parser) := p.terminal LBR
def parser.RBracket (p : parser) : Option (Bool × parser) := p.terminal RBR
def parser.Bool_ (p : parser) : Option (Bool × parser) := p.terminal BOOL
def parser.Num (p : parser) : Option (Bool × parser) := p.terminal NUMBER
def parser.Ident (p : parser) : Option (Bool × parser) := p.terminal IDENT
def parser.ArithmeticOp (p : parser) : Option (Bool × parser) := p.terminal ARITH_OP

/-- Go `checkNext`: `f` runs only when a next token exists. -/
def parser.checkNext (p : parser) (f : parser → Option (Bool × parser)) : Option (Bool × parser) :=
  if p.it + 1 < p.tokensSize then f p else some (false, p)

/-- Go `ExistsFunc`: the keyword, `(`, an identifier and `)`; on a match the
presence of the identifier in the row is appended as a BOOL token. -/
def parser.ExistsFunc (p : parser) : Option (Bool × parser) :=
  match p.checkNext parser.IdentExists with
  | none => none
  | some (false, p) => some (false, p)
  | some (true, p) =>
    match p.checkNext parser.LBracket with
    | none => none
    | some (false, p) => some (false, p)
    | some (true, p) =>
      match p.checkNext parser.Ident with
      | none => none
      | some (false, p) => some (false, p)
      | some (true, p) =>
        match p.cur with
        | none => none
        | some token =>
          let field := token.Value
          match p.checkNext parser.RBracket with
          | none => none
          | some (false, p) => some (false, p)
          | some (true, p) =>
            let ok := (p.rawSet field).isSome
            some (true, { p with calculationTokens :=
              p.calculationTokens ++ [⟨BOOL, Sprintf_t ok, BOOL_TYPE⟩] })

/-- The operator step that opens an iteration of the loop of `LogicExp`: a
logic operator or, after the cursor is put back to `savedIt`, a comparison
operator. -/
def parser.LogicOrCompOperator (p : parser) : Option (Bool × parser) :=
  let savedIt := p.it
  match p.checkNext parser.LogicOperator with
  | none => none
  | some (true, p) => some (true, p)
  | some (false, p) =>
    let p := { p with it := savedIt }
    p.checkNext parser.CompOperator

mutual

/-- Go `ArithmeticTerm`. -/
def parser.ArithmeticTerm : Nat → parser → Option (Bool × parser)
  | 0, _ => none
  | fuel + 1, p =>
    let savedIt := p.it
    match p.checkNext parser.Num with
    | none => none
    | some (true, p) => some (true, p)
    | some (false, p) =>
      let p := { p with it := savedIt }
      match p.checkNext parser.Ident with
      | none => none
      | some (true, p) => some (true, p)
      | some (false, p) =>
        let p := { p with it := savedIt }
        match p.checkNext parser.LBracket with
        | none => none
        | some (false, p) => some (false, p)
        | some (true, p) =>
          match p.checkNext (parser.ArithmeticExp fuel) with
          | none => none
          | some (false, p) => some (false, p)
          | some (true, p) =>
            match p.checkNext parser.RBracket with
            | none => none
            | some (false, p) => some (false, p)
            | some (true, p) => some (true, p)

/-- Go `ArithmeticExp`: a term, then the loop. -/
def parser.ArithmeticExp : Nat → parser → Option (Bool × parser)
  | 0, _ => none
  | fuel + 1, p =>
    match p.checkNext (parser.ArithmeticTerm fuel) with
    | none => none
    | some (false, p) => some (false, p)
    | some (true, p) => parser.ArithmeticExpLoop fuel p

/-- The `for` loop of `ArithmeticExp`; it always ends with `return true`. -/
def parser.ArithmeticExpLoop : Nat → parser → Option (Bool × parser)
  | 0, _ => none
  | fuel + 1, p =>
    let savedIt := p.it
    match p.checkNext parser.ArithmeticOp with
    | none => none
    | some (false, p) => some (true, { p with it := savedIt })
    | some (true, p) =>
      match p.checkNext (parser.ArithmeticTerm fuel) with
      | none => none
      | some (false, p) => some (true, { p with it := savedIt })
      | some (true, p) => parser.ArithmeticExpLoop fuel p

end

mutual

/-- Go `LogicTerm`. -/
def parser.LogicTerm : Nat → parser → Option (Bool × parser)
  | 0, _ => none
  | fuel + 1, p =>
    let savedIt := p.it
    match p.checkNext parser.Bool_ with
    | none => none
    | some (true, p) =>
      match p.cur with
      | none => none
      | some token => some (true, { p with calculationTokens := p.calculationTokens ++ [token] })
    | some (false, p) =>
      let p := { p with it := savedIt }
      match p.checkNext parser.ExistsFunc with
      | none => none
      | some (true, p) => some (true, p)
      | some (false, p) =>
        let p := { p with it := savedIt }
        let startIt := p.it
        match p.checkNext (parser.ArithmeticExp fuel) with
        | none => none
        | some (true, p) =>
          match p.span (startIt + 1) (p.it + 1) with
          | none => none
          | some span => some (true, { p with calculationTokens := p.calculationTokens ++ span })
        | some (false, p) =>
          let p := { p with it := savedIt }
          match p.checkNext parser.LBracket with
          | none => none
          | some (false, p) => some (false, p)
          | some (true, p) =>
            match p.cur with
            | none => none
            | some token =>
              let p := { p with calculationTokens := p.calculationTokens ++ [token] }
              match p.checkNext (parser.LogicExp fuel) with
              | none => none
              | some (false, p) => some (false, p)
              | some (true, p) =>
                match p.checkNext parser.RBracket with
                | none => none
                | some (false, p) => some (false, p)
                | some (true, p) =>
                  match p.cur with
                  | none => none
                  | some token =>
                    some (true, { p with calculationTokens := p.calculationTokens ++ [token] })

/-- Go `LogicExp`: a term, then the loop. -/
def parser.LogicExp : Nat → parser → Option (Bool × parser)
  | 0, _ => none
  | fuel + 1, p =>
    match p.checkNext (parser.LogicTerm fuel) with
    | none => none
    | some (false, p) => some (false, p)
    | some (true, p) => parser.LogicExpLoop fuel p

/-- The `for` loop of `LogicExp`; it always ends with `return true`. -/
def parser.LogicExpLoop : Nat → parser → Option (Bool × parser)
  | 0, _ => none
  | fuel + 1, p =>
    let savedIt := p.it
    match p.LogicOrCompOperator with
    | none => none
    | some (false, p) => some (true, { p with it := savedIt })
    | some (true, p) =>
      match p.cur with
      | none => none
      | some token =>
        let p := { p with calculationTokens := p.calculationTokens ++ [token] }
        match p.checkNext (parser.LogicTerm fuel) with
        | none => none
        | some (false, p) => some (true, { p with it := savedIt })
        | some (true, p) => parser.LogicExpLoop fuel p

end

/-- The recursion bound with which `start` calls `LogicExp`: three calls per
token and four more are the deepest nesting the grammar functions reach. -/
def parser.fuel (p : parser) : Nat :=
  3 * p.tokens.length + 4

/-- The last part of Go `start` ("Result calculation"): `core.Calculate` on the
calculation tokens; an unknown parameter gives the token `false`, any other
error is wrapped in a `ParseError`. -/
def parser.calculation (L : FloatLib) (calculationTokens : List Token) (rawSet : RawMessageSet) :
    Except Error Token :=
  match core.Calculate L calculationTokens rawSet with
  | .error err =>
    match err with
    | .UnknownParameterError _ => .ok ⟨BOOL, "false", BOOL_TYPE⟩
    | _ => .error (.ParseError (errCalc ++ ": " ++ err.Error))
  | .ok res => .ok res

/-- Go `start`: the grammar check, the check that every token was consumed,
then the calculation. -/
def parser.start (L : FloatLib) (p : parser) : Option (Except Error Token) :=
  match p.checkNext (parser.LogicExp p.fuel) with
  | none => none
  | some (false, _) => some (.error (.ParseError errSyntax))
  | some (true, p) =>
    if p.it + 1 ≠ p.tokensSize then
      some (.error (.ParseError errSyntax))
    else
      some (parser.calculation L p.calculationTokens p.rawSet)

/-! ### calculator.go -/

structure tokenizedFormula where
  Tokens : List Token
  Name : String
  Version : Int
  Color : Color

/-- The loop of `getTokenizedFormulas`, threading the slice `res`. -/
def getTokenizedFormulasLoop (L : FloatLib) (paramTypes : String → Option ValueType) :
    List Formula → List tokenizedFormula → Option (Except Error (List tokenizedFormula))
  | [], res => some (.ok res)
  | formula :: rest, res =>
    if !formula.IsEnable then
      getTokenizedFormulasLoop L paramTypes rest res
    else
      match tokenize L formula.Expression paramTypes with
      | none => none
      | some (.error err) => some (.error err)
      | some (.ok formulaTokens) =>
        getTokenizedFormulasLoop L paramTypes rest
          (res ++ [⟨formulaTokens, formula.Name, formula.Version, formula.Color⟩])

def getTokenizedFormulas (L : FloatLib) (formulas : List Formula)
    (paramTypes : String → Option ValueType) : Option (Except Error (List tokenizedFormula)) :=
  getTokenizedFormulasLoop L paramTypes formulas []

/-- The inner loop of `Calculate` (over the tokenized formulas, for one row),
threading `resColor` and the row's `result` map. -/
def formulasLoop (L : FloatLib) (rawSet : RawMessageSet) :
    List tokenizedFormula → Color → FormulaResult → Option (Except Error (Color × FormulaResult))
  | [], resColor, result => some (.ok (resColor, result))
  | formula :: rest, resColor, result =>
    match (newParser formula.Tokens rawSet).start L with
    | none => none
    | some (.error err) => some (.error err)
    | some (.ok resToken) =>
      match strconv.ParseBool resToken.Value with
      | none => some (.error (.NumError "ParseBool" resToken.Value))
      | some resValue =>
        let resColor :=
          if resValue = true ∧ colorPrecedence formula.Color > colorPrecedence resColor then
            formula.Color
          else resColor
        formulasLoop L rawSet rest resColor
          (result.set formula.Name ⟨formula.Version, formula.Color, resValue⟩)

/-- The outer loop of `Calculate` (over the rows), threading `resColor` and
`formulaResults`. -/
def rowsLoop (L : FloatLib) (tokenizedFormulas : List tokenizedFormula) :
    List RawMessageSet → Color → List FormulaResult →
      Option (Except Error (Color × List FormulaResult))
  | [], resColor, formulaResults => some (.ok (resColor, formulaResults))
  | rawSet :: rest, resColor, formulaResults =>
    match formulasLoop L rawSet tokenizedFormulas resColor [] with
    | none => none
    | some (.error err) => some (.error err)
    | some (.ok (resColor, result)) =>
      if result.length > 0 then
        rowsLoop L tokenizedFormulas rest resColor (formulaResults ++ [result])
      else
        rowsLoop L tokenizedFormulas rest resColor formulaResults

/-- The nil `RawMessageSet`. -/
def nilRawSet : RawMessageSet := fun _ => none

/-- What `Calculate` returns: the color, the result slice (`none` for the nil
slice) and the error (`none` for nil). -/
structure Outcome where
  color : Color
  results : Option (List FormulaResult)
  err : Option Error
  deriving DecidableEq

/-- Go `Calculate(formulas, rawSets, paramTypes)`. -/
def Calculate (L : FloatLib) (formulas : List Formula) (rawSets : List RawMessageSet)
    (paramTypes : String → Option ValueType) : Option Outcome :=
  match getTokenizedFormulas L formulas paramTypes with
  | none => none
  | some (.error err) => some ⟨BlackColor, none, some err⟩
  | some (.ok tokenizedFormulas) =>
    let rawSets := if rawSets.length = 0 then [nilRawSet] else rawSets
    match rowsLoop L tokenizedFormulas rawSets GreyColor [] with
    | none => none
    | some (.error err) => some ⟨BlackColor, none, some err⟩
    | some (.ok (resColor, formulaResults)) => some ⟨resColor, some formulaResults, none⟩

/-! ### Verdicts and folds of the driver -/

/-- The element that `getTokenizedFormulas` appends for an enabled formula;
`none` when its expression does not tokenize. -/
def tokenizedOf (L : FloatLib) (paramTypes : String → Option ValueType) (formula : Formula) :
    Option tokenizedFormula :=
  match tokenize L formula.Expression paramTypes with
  | some (.ok formulaTokens) =>
    some ⟨formulaTokens, formula.Name, formula.Version, formula.Color⟩
  | _ => none

/-- The verdict `resValue` that the body of the inner loop of `Calculate`
computes from the tokens of a formula and a row: `start`, then
`strconv.ParseBool` of the value of the result token; `none` when one of the
two fails. -/
def verdictOfTokens (L : FloatLib) (tokens : List Token) (rawSet : RawMessageSet) : Option Bool :=
  match (newParser tokens rawSet).start L with
  | some (.ok resToken) => strconv.ParseBool resToken.Value
  | _ => none

/-- The verdict of a formula for a row: `tokenize`, then `verdictOfTokens`. -/
def verdict (L : FloatLib) (paramTypes : String → Option ValueType) (formula : Formula)
    (rawSet : RawMessageSet) : Option Bool :=
  match tokenize L formula.Expression paramTypes with
  | some (.ok formulaTokens) => verdictOfTokens L formulaTokens rawSet
  | _ => none

/-- The rows `Calculate` iterates over: the nil row replaces an empty list. -/
def effectiveRows (rawSets : List RawMessageSet) : List RawMessageSet :=
  if rawSets.length = 0 then [nilRawSet] else rawSets

/-- The value of `resColor` after the inner loop of `Calculate` has run over
the formulas without an error. -/
def colorFold (L : FloatLib) (rawSet : RawMessageSet) : List tokenizedFormula → Color → Color
  | [], resColor => resColor
  | formula :: rest, resColor =>
    colorFold L rawSet rest
      (if verdictOfTokens L formula.Tokens rawSet = some true ∧
          colorPrecedence formula.Color > colorPrecedence resColor then formula.Color
        else resColor)

/-- The `result` map after the inner loop of `Calculate` has run over the
formulas without an error. -/
def resultFold (L : FloatLib) (rawSet : RawMessageSet) :
    List tokenizedFormula → FormulaResult → FormulaResult
  | [], result => result
  | formula :: rest, result =>
    resultFold L rawSet rest (result.set formula.Name
      ⟨formula.Version, formula.Color, (verdictOfTokens L formula.Tokens rawSet).getD false⟩)

/-- The value of `resColor` after the outer loop of `Calculate` has run over
the rows without an error. -/
def rowsColor (L : FloatLib) (tokenizedFormulas : List tokenizedFormula) :
    List RawMessageSet → Color → Color
  | [], resColor => resColor
  | rawSet :: rest, resColor =>
    rowsColor L tokenizedFormulas rest (colorFold L rawSet tokenizedFormulas resColor)

/-- The slice `formulaResults` after the outer loop of `Calculate` has run
over the rows without an error. -/
def rowsResults (L : FloatLib) (tokenizedFormulas : List tokenizedFormula) :
    List RawMessageSet → List FormulaResult → List FormulaResult
  | [], formulaResults => formulaResults
  | rawSet :: rest, formulaResults =>
    rowsResults L tokenizedFormulas rest
      (if (resultFold L rawSet tokenizedFormulas []).length > 0 then
        formulaResults ++ [resultFold L rawSet tokenizedFormulas []]
      else formulaResults)

/-- The calculation tokens that `start` passes to `core.Calculate` for a token
sequence and a row; `none` when `start` reports a syntax error instead (the
grammar check fails or leaves tokens unread). -/
def calcTokensOf (tokens : List Token) (rawSet : RawMessageSet) : Option (List Token) :=
  match (newParser tokens rawSet).checkNext (parser.LogicExp (newParser tokens rawSet).fuel) with
  | some (true, p) => if p.it + 1 ≠ p.tokensSize then none else some p.calculationTokens
  | _ => none

/-- The bracket depth after a scan of the tokens that starts at depth `d`;
`none` when a `)` arrives at depth 0. -/
def bracketDepth : List Token → Nat → Option Nat
  | [], d => some d
  | t :: rest, d =>
    if t.Type_ = LBR then bracketDepth rest (d + 1)
    else if t.Type_ = RBR then
      match d with
      | 0 => none
      | d + 1 => bracketDepth rest d
    else bracketDepth rest d

/-- The brackets of a token sequence are balanced and properly nested. -/
def balanced (tokens : List Token) : Bool :=
  bracketDepth tokens 0 = some 0

/-- Every `exists` keyword token of the sequence is immediately followed by
`(`, one identifier token and `)`. -/
def existsCallsOK : List Token → Bool
  | [] => true
  | k :: rest =>
    (k.Type_ ≠ EXISTS_FUNC ||
      match rest with
      | l :: x :: r :: _ => l.Type_ = LBR && x.Type_ = IDENT && r.Type_ = RBR
      | _ => false) && existsCallsOK rest

/-- The keys of the map `operatorFuncs`. -/
def operatorKeys : List String :=
  ["+", "-", "*", "/", ">", "<", ">=", "<=", "=", "!=", "AND", "OR"]

/-- The characters that continue an identifier. -/
def isIdentChar (c : Char) : Bool :=
  isAlpha c || isDigit c || c = '_'

/-- An identifier name: a letter followed by letters, digits and underscores,
other than the keywords `true`, `false`, `AND`, `OR` and `exists`. -/
def isIdentName (x : String) : Bool :=
  match x.data with
  | [] => false
  | c :: cs =>
    isAlpha c && cs.all isIdentChar && !isBool x.data && !isOrAnd x.data && !isExistsFunc x.data

/-- The characters of the texts that Go `strconv.ParseFloat` accepts: digits,
letters (exponent, hexadecimal digits, `inf`, `nan`), the point, the signs and
the underscore. -/
def isFloatChar (x : Char) : Bool :=
  isDigit x || isAlpha x || x = '.' || x = '+' || x = '-' || x = '_'

/-- The float parser accepts no text with a character outside the alphabet of
float literals (as Go `strconv.ParseFloat` does not). -/
def floatAlphabet (L : FloatLib) : Prop :=
  ∀ (s : String) (x : Char), x ∈ s.data → isFloatChar x = false → L.ParseFloat s = none

/-- A boolean literal of the expression language. -/
def isBoolLit (s : String) : Bool :=
  s = "true" || s = "false"

/-- An integer number literal: a non-empty string of decimal digits that the
float parser accepts, as it accepts each of its non-empty prefixes (the probe
of `isNumber`). -/
def isNumLit (L : FloatLib) (s : String) : Bool :=
  !s.data.isEmpty && s.data.all isDigit &&
    (List.range s.data.length).all (fun k => (L.ParseFloat (String.mk (s.data.take (k + 1)))).isSome)

/-- Two boolean literals or two integer number literals. -/
def isLitPair (L : FloatLib) (a b : String) : Bool :=
  (isBoolLit a && isBoolLit b) || (isNumLit L a && isNumLit L b)

/-- The token of a literal: kind BOOL for `true` and `false`, kind NUMBER
otherwise. -/
def litToken (s : String) : Token :=
  if isBoolLit s then ⟨BOOL, s, BOOL_TYPE⟩ else ⟨NUMBER, s, NUMBER_TYPE⟩

/-- The value of `a = b` for a pair of literals: equality of the two booleans,
or the float comparison `==` of the two parsed numbers. -/
def litEq (L : FloatLib) (a b : String) : Bool :=
  if isBoolLit a then decide (a = b)
  else
    match L.ParseFloat a, L.ParseFloat b with
    | some u, some v => L.eq u v
    | _, _ => false

/-- The characters that end a literal in the formulas considered: `=`, the
blank and `)`. -/
def isDelim (x : Char) : Bool :=
  x = '=' || x = ' ' || x = ')'

/-- The BOOL token that a comparison or logic operator returns for `r`. -/
def resultToken (r : Bool) : Token :=
  ⟨BOOL, Sprintf_t r, BOOL_TYPE⟩

/-- The row `paramsWithOneElement` of the test file. -/
def testRowOne : RawMessageSet := fun name =>
  if name = "s2001" then some "2000000"
  else if name = "s6004" then some "10"
  else if name = "stated_capital" then some "50"
  else if name = "bool_param" then some "false"
  else none

/-- The tokens of the expression of the test "unknown parameter",
`exists(founder_url)=false AND s2001 > (s2001-s6004)* unknown_param + 0.5`. -/
def unknownParamTokens : List Token :=
  [⟨EXISTS_FUNC, "exists", ""⟩, ⟨LBR, "(", ""⟩, ⟨IDENT, "founder_url", UNKNOWN_TYPE⟩,
    ⟨RBR, ")", ""⟩, ⟨COMP_OP, "=", ""⟩, ⟨BOOL, "false", BOOL_TYPE⟩, ⟨LOG_OP, "AND", ""⟩,
    ⟨IDENT, "s2001", NUMBER_TYPE⟩, ⟨COMP_OP, ">", ""⟩, ⟨LBR, "(", ""⟩,
    ⟨IDENT, "s2001", NUMBER_TYPE⟩, ⟨ARITH_OP, "-", ""⟩, ⟨IDENT, "s6004", NUMBER_TYPE⟩,
    ⟨RBR, ")", ""⟩, ⟨ARITH_OP, "*", ""⟩, ⟨IDENT, "unknown_param", UNKNOWN_TYPE⟩,
    ⟨ARITH_OP, "+", ""⟩, ⟨NUMBER, "0.5", NUMBER_TYPE⟩]

/-! ### Notions used in the statements about operators, rows and postfix forms -/

/-- The keys of the arithmetic and ordering operators. -/
def numericKeys : List String := ["+", "-", "*", "/", ">", "<", ">=", "<="]

/-- The keys of the arithmetic operators. -/
def arithmeticKeys : List String := ["+", "-", "*", "/"]

/-- The keys of the comparison and logic operators, whose result is a boolean. -/
def booleanResultKeys : List String := [">", "<", ">=", "<=", "=", "!=", "AND", "OR"]

/-- The row in which `x` has the raw text `abc`, which is neither a float nor
a boolean. -/
def rowAbc : RawMessageSet := fun name => if name = "x" then some "abc" else none

/-- An operand token: a number, a boolean or an identifier. -/
def isOperandToken (t : Token) : Prop :=
  t.Type_ = NUMBER ∨ t.Type_ = BOOL ∨ t.Type_ = IDENT

/-- An operator token: of one of the three operator kinds, with one of the
twelve operator texts. -/
def isOperatorToken (t : Token) : Prop :=
  (t.Type_ = LOG_OP ∨ t.Type_ = COMP_OP ∨ t.Type_ = ARITH_OP) ∧ t.Value ∈ operatorKeys

/-- The identifier of a call `exists ( IDENT )` that starts with the token `k`
and goes on in `rest`; `none` when there is no such call there. -/
def existsCallAt (k : Token) (rest : List Token) : Option Token :=
  match rest with
  | l :: x :: r :: _ =>
    if k.Type_ = EXISTS_FUNC ∧ l.Type_ = LBR ∧ x.Type_ = IDENT ∧ r.Type_ = RBR then some x
    else none
  | _ => none

/-- The scan behind `existsReplaced`; `skip` counts the tokens of a replaced
group that are still to be passed over. -/
def existsReplacedFrom (rawSet : RawMessageSet) : Nat → List Token → List Token
  | _, [] => []
  | skip + 1, _ :: rest => existsReplacedFrom rawSet skip rest
  | 0, k :: rest =>
    match existsCallAt k rest with
    | some x =>
      ⟨BOOL, Sprintf_t (rawSet x.Value).isSome, BOOL_TYPE⟩ :: existsReplacedFrom rawSet 3 rest
    | none => k :: existsReplacedFrom rawSet 0 rest

/-- The calculation tokens documented for a token sequence: every group
`exists ( IDENT )` is replaced by the BOOL token of the presence of the
identifier in the row, every other token is copied. -/
def existsReplaced (rawSet : RawMessageSet) (tokens : List Token) : List Token :=
  existsReplacedFrom rawSet 0 tokens

/-- Two rows agree on the identifiers of a token sequence. -/
def rowsAgree (r1 r2 : RawMessageSet) (tokens : List Token) : Prop :=
  ∀ t ∈ tokens, t.Type_ = IDENT → r1 t.Value = r2 t.Value

/-- What a result map holds for a row: every key once; the keys are the names
of the enabled formulas; every entry carries the version and color of an
enabled formula of that name together with its verdict for the row; and an
enabled formula whose name no other enabled formula shares has its own
entry. -/
def rowEntry (L : FloatLib) (paramTypes : String → Option ValueType) (formulas : List Formula)
    (rawSet : RawMessageSet) (entry : FormulaResult) : Prop :=
  (entry.map Prod.fst).Nodup ∧
  (∀ k, k ∈ entry.map Prod.fst ↔ ∃ f ∈ formulas, f.IsEnable = true ∧ f.Name = k) ∧
  (∀ k v, (k, v) ∈ entry → ∃ f ∈ formulas, f.IsEnable = true ∧ f.Name = k ∧
    v.Version = f.Version ∧ v.Color = f.Color ∧
    verdict L paramTypes f rawSet = some v.Result) ∧
  (∀ f ∈ formulas, f.IsEnable = true →
    (∀ g ∈ formulas, g.IsEnable = true → g.Name = f.Name →
      g.Version = f.Version ∧ g.Color = f.Color ∧ g.Expression = f.Expression) →
    ∃ b, verdict L paramTypes f rawSet = some b ∧ (f.Name, ⟨f.Version, f.Color, b⟩) ∈ entry)

/-- The pending operators of an arithmetic expression on the operation stack:
arithmetic operator tokens with one of the four operator texts. -/
def arithOps (ops : List Token) : Prop :=
  ∀ o ∈ ops, o.Type_ = ARITH_OP ∧ o.Value ∈ arithmeticKeys

/-- The part of the operation stack that the operators of a bracketed
expression never pop: the empty stack, or a stack with `(` on top. -/
def barrier (st : TokenStack) : Prop :=
  st = [] ∨ ∃ l rest, st = l :: rest ∧ l.Value = "("

/-- The texts of the arithmetic operators and of the opening brackets of a
token sequence are the ones the tokenizer writes. -/
def arithWellFormed (tokens : List Token) : Prop :=
  ∀ t ∈ tokens, (t.Type_ = ARITH_OP → t.Value ∈ arithmeticKeys) ∧
    (t.Type_ = LBR → t.Value = "(") ∧ (t.Type_ = NUMBER → t.ValueType = NUMBER_TYPE)

/-- A token sequence contains an arithmetic operator. -/
def hasArithOp (tokens : List Token) : Prop :=
  ∃ t ∈ tokens, t.Type_ = ARITH_OP

/-- A token sequence ends with an arithmetic operator token. -/
def endsWithArithOp (tokens : List Token) : Prop :=
  ∃ pre o, tokens = pre ++ [o] ∧ o.Type_ = ARITH_OP ∧ o.Value ∈ arithmeticKeys

/-- A token of a purely arithmetic expression: a number, an identifier, an
arithmetic operator or a bracket. -/
def isArithToken (t : Token) : Prop :=
  t.Type_ = NUMBER ∨ t.Type_ = IDENT ∨ t.Type_ = ARITH_OP ∨ t.Type_ = LBR ∨ t.Type_ = RBR

/-! ### The scan of the tokenizer -/

/-- One turn of the scanning loop of `tokenize` at the position `i`: the
position at which the scan goes on with the tokens the turn has written (none
for a white space), or the error the turn returns. -/
def scanStep (L : FloatLib) (paramTypes : String → Option ValueType) (chars : List Char)
    (inputLen i : Nat) : Option (Except Error (Nat × List Token)) :=
  match chars[i]? with
  | none => none
  | some char =>
    if unicode.IsSpace char then some (.ok (i + 1, []))
    else if isAlpha char then
      let start := i
      let i := identLoop (chars.drop (i + 1)) (i + 1)
      some (.ok (i, [classify paramTypes (slice chars start i)]))
    else if isArithmeticOp char then
      some (.ok (i + 1, [⟨ARITH_OP, String.singleton char, ""⟩]))
    else if isLeftBracket char then
      some (.ok (i + 1, [⟨LBR, String.singleton char, ""⟩]))
    else if isRightBracket char then
      some (.ok (i + 1, [⟨RBR, String.singleton char, ""⟩]))
    else
      let start := i
      let r := isLogicOp chars i inputLen
      if r.1 then
        let i := r.2 + 1
        some (.ok (i, [⟨COMP_OP, String.mk (slice chars start i), ""⟩]))
      else
        let i := r.2
        let start := i
        let r := isNumber L chars i
        if r.1 then
          some (.ok (r.2, [⟨NUMBER, String.mk (slice chars start r.2), NUMBER_TYPE⟩]))
        else
          some (.error (.InvalidTokenError r.2))

/-- The states of the left-to-right scan of `tokenize`: `Scan L paramTypes
chars i tokens` when the scanning loop arrives at the position `i` with the
tokens `tokens` written. -/
inductive Scan (L : FloatLib) (paramTypes : String → Option ValueType) (chars : List Char) :
    Nat → List Token → Prop
  | start : Scan L paramTypes chars 0 []
  | step (i i2 : Nat) (tokens ts : List Token) : Scan L paramTypes chars i tokens →
      i < chars.length →
      scanStep L paramTypes chars chars.length i = some (.ok (i2, ts)) →
      Scan L paramTypes chars i2 (tokens ++ ts)

/-- The six texts of the comparison operators. -/
def compTexts : List String := [">", "<", "=", ">=", "<=", "!="]

/-- The token `t` that the scan writes for the text `w`, by the kind of the
text: a word (a letter, then letters, digits and underscores) is classified;
one of the four arithmetic signs, `(` and `)` are one-character tokens; the
comparison operators have one of six texts; a number is a text that the float
parser accepts together with each of its non-empty prefixes. -/
def Lexeme (L : FloatLib) (paramTypes : String → Option ValueType) (w : List Char)
    (t : Token) : Prop :=
  (∃ c cs, w = c :: cs ∧ isAlpha c = true ∧ (∀ x ∈ cs, isIdentChar x = true) ∧
    t = classify paramTypes w) ∨
  (∃ c, w = [c] ∧ isArithmeticOp c = true ∧ t = ⟨ARITH_OP, String.mk w, ""⟩) ∨
  (w = ['('] ∧ t = ⟨LBR, String.mk w, ""⟩) ∨
  (w = [')'] ∧ t = ⟨RBR, String.mk w, ""⟩) ∨
  (String.mk w ∈ compTexts ∧ t = ⟨COMP_OP, String.mk w, ""⟩) ∨
  (w ≠ [] ∧ (∀ k, 0 < k → k ≤ w.length → (L.ParseFloat (String.mk (w.take k))).isSome = true) ∧
    t = ⟨NUMBER, String.mk w, NUMBER_TYPE⟩)

/-- The float parser accepts a text of one character exactly when the character
is a decimal digit (as Go `strconv.ParseFloat` does). -/
def digitProbe (L : FloatLib) : Prop :=
  ∀ c : Char, (L.ParseFloat (String.mk [c])).isSome = isDigit c

/-- The character at the position `i` cannot start a token: it is not a white
space, not an ASCII letter, not one of `+ - * / ( ) > < =`, not a `!` that is
immediately followed by `=`, and not a decimal digit. -/
def cannotStart (chars : List Char) (i : Nat) : Prop :=
  ∃ c, chars[i]? = some c ∧ unicode.IsSpace c = false ∧ isAlpha c = false ∧
    c ∉ ['+', '-', '*', '/', '(', ')', '>', '<', '='] ∧
    ¬ (c = '!' ∧ chars[i + 1]? = some '=') ∧ isDigit c = false

/-- The float parser rejects a text that ends with a sign (as Go
`strconv.ParseFloat` does). -/
def signProbe (L : FloatLib) : Prop :=
  ∀ (w : List Char) (c : Char), c = '+' ∨ c = '-' → L.ParseFloat (String.mk (w ++ [c])) = none

/-- A token after which the grammar has no arithmetic operator: an operator of
any kind or an opening bracket. -/
def opensOperand (t : Token) : Bool :=
  t.Type_ = ARITH_OP || t.Type_ = COMP_OP || t.Type_ = LOG_OP || t.Type_ = LBR

/-- No arithmetic operator token of the sequence stands directly after an
operator or an opening bracket; `first` tells whether the sequence starts where
an operand is due (at the start of the input, or after such a token). -/
def signsPlaced : Bool → List Token → Bool
  | _, [] => true
  | first, t :: rest => (t.Type_ ≠ ARITH_OP || !first) && signsPlaced (opensOperand t) rest

/-- An arithmetic operator token stands first in the sequence, or directly
after an operator token or an opening bracket. -/
def signMisplaced (tokens : List Token) : Prop :=
  (∃ o post, tokens = o :: post ∧ o.Type_ = ARITH_OP) ∨
  ∃ pre a o post, tokens = pre ++ a :: o :: post ∧ o.Type_ = ARITH_OP ∧
    (a.Type_ = ARITH_OP ∨ a.Type_ = COMP_OP ∨ a.Type_ = LOG_OP ∨ a.Type_ = LBR)

/-- An operand token: a number, a boolean or an identifier. -/
def isOperand (t : Token) : Bool :=
  match t.Type_ with
  | NUMBER | BOOL | IDENT => true
  | _ => false

/-- An operator token: a logic, comparison or arithmetic operator. -/
def isOperator (t : Token) : Bool :=
  match t.Type_ with
  | LOG_OP | COMP_OP | ARITH_OP => true
  | _ => false

/-- A bracket token. -/
def isBracket (t : Token) : Bool :=
  match t.Type_ with
  | LBR | RBR => true
  | _ => false

/-- The texts of the operator tokens and of the opening brackets of a token
sequence are the ones the tokenizer writes: one of the twelve operator texts,
and `(`. -/
def tableTexts (tokens : List Token) : Prop :=
  ∀ t ∈ tokens, (isOperator t = true → t.Value ∈ operatorKeys) ∧ (t.Type_ = LBR → t.Value = "(")

/-- The depth of the value stack of `Evaluate` after a postfix sequence, from
the depth `d`: an operand adds one token, an operator needs two tokens and
leaves one; `none` when an operator finds fewer than two tokens, or a token is
neither an operand nor an operator. -/
def postfixDepth : List Token → Nat → Option Nat
  | [], d => some d
  | t :: rest, d =>
    if isOperator t then (if 2 ≤ d then postfixDepth rest (d - 1) else none)
    else if isOperand t then postfixDepth rest (d + 1)
    else none

/-- The shape of a grammatical token sequence read from the left: an operand
or `(` where an operand is expected, an operator or `)` after an operand, every
`)` closing an open `(`, and at the end an operand has been read and no `(` is
open. -/
def shaped : Bool → Nat → List Token → Bool
  | expecting, k, [] => !expecting && decide (k = 0)
  | expecting, k, t :: rest =>
    match t.Type_ with
    | NUMBER | BOOL | IDENT => expecting && shaped false k rest
    | LBR => expecting && shaped true (k + 1) rest
    | RBR => !expecting && decide (0 < k) && shaped false (k - 1) rest
    | LOG_OP | COMP_OP | ARITH_OP => !expecting && shaped true k rest
    | EXISTS_FUNC | TokenType.zero => false

/-- The operation stack of `ToPostfixExp` holds operators with one of the
twelve operator texts and opening brackets with the text `(`. -/
def pending (st : TokenStack) : Prop :=
  ∀ o ∈ st, (isOperator o = true ∧ o.Value ∈ operatorKeys) ∨ (o.Type_ = LBR ∧ o.Value = "(")

/-! ### The documented grammar and the parser states -/

/-- The states the grammar functions work on: `tokensSize` is the length of
`tokens` and the cursor lies between -1 and the last index. -/
def parser.wf (p : parser) : Prop :=
  p.tokensSize = p.tokens.length ∧ -1 ≤ p.it ∧ p.it < p.tokensSize

/-- The tokens after the cursor. -/
def parser.rest (p : parser) : List Token :=
  p.tokens.drop (p.it + 1).toNat

/-- The state after `n` more tokens were consumed and `c` was appended to the
calculation tokens. -/
def parser.move (p : parser) (n : Nat) (c : List Token) : parser :=
  { p with it := p.it + n, calculationTokens := p.calculationTokens ++ c }

/-- The nonterminals of the grammar in the comment of parser.go; the two
`Rest` symbols are the repetitions `{op term}`. -/
inductive NT
  | ArithTerm
  | ArithRest
  | ArithExp
  | LogicTerm
  | LogicRest
  | LogicExp
  deriving DecidableEq

/-- The grammar of parser.go, `Derives rawSet X seg calc`: the token sequence
`seg` is derived from `X`, and `calc` is the calculation-token sequence
documented for it (`exists(x)` becomes the BOOL token of the presence of `x`
in the row, every other token is copied).

    LOG_EXP:    LOG_TERM {(LOG_OP | COMP_OP) LOG_TERM}
    LOG_TERM:   BOOL | EXISTS | ARITH_EXP | "(" LOG_EXP ")"
    ARITH_EXP:  ARITH_TERM {ARITH_OP ARITH_TERM}
    ARITH_TERM: NUM | IDENT | "(" ARITH_EXP ")"
    EXISTS:     exists "(" IDENT ")"  -/
inductive Derives (rawSet : RawMessageSet) : NT → List Token → List Token → Prop
  | num (t : Token) : t.Type_ = NUMBER → Derives rawSet NT.ArithTerm [t] [t]
  | ident (t : Token) : t.Type_ = IDENT → Derives rawSet NT.ArithTerm [t] [t]
  | arithBr (l r : Token) (e c : List Token) : l.Type_ = LBR →
      Derives rawSet NT.ArithExp e c → r.Type_ = RBR →
      Derives rawSet NT.ArithTerm (l :: e ++ [r]) (l :: c ++ [r])
  | arithNil : Derives rawSet NT.ArithRest [] []
  | arithMore (o : Token) (t ct e ce : List Token) : o.Type_ = ARITH_OP →
      Derives rawSet NT.ArithTerm t ct → Derives rawSet NT.ArithRest e ce →
      Derives rawSet NT.ArithRest (o :: t ++ e) (o :: ct ++ ce)
  | arithExp (t ct e ce : List Token) :
      Derives rawSet NT.ArithTerm t ct → Derives rawSet NT.ArithRest e ce →
      Derives rawSet NT.ArithExp (t ++ e) (ct ++ ce)
  | bool (t : Token) : t.Type_ = BOOL → Derives rawSet NT.LogicTerm [t] [t]
  | existsCall (k l x r : Token) : k.Type_ = EXISTS_FUNC → l.Type_ = LBR →
      x.Type_ = IDENT → r.Type_ = RBR →
      Derives rawSet NT.LogicTerm [k, l, x, r]
        [⟨BOOL, Sprintf_t (rawSet x.Value).isSome, BOOL_TYPE⟩]
  | arith (e c : List Token) : Derives rawSet NT.ArithExp e c →
      Derives rawSet NT.LogicTerm e c
  | logicBr (l r : Token) (e c : List Token) : l.Type_ = LBR →
      Derives rawSet NT.LogicExp e c → r.Type_ = RBR →
      Derives rawSet NT.LogicTerm (l :: e ++ [r]) (l :: c ++ [r])
  | logicNil : Derives rawSet NT.LogicRest [] []
  | logicMore (o : Token) (t ct e ce : List Token) :
      (o.Type_ = LOG_OP ∨ o.Type_ = COMP_OP) →
      Derives rawSet NT.LogicTerm t ct → Derives rawSet NT.LogicRest e ce →
      Derives rawSet NT.LogicRest (o :: t ++ e) (o :: ct ++ ce)
  | logicExp (t ct e ce : List Token) :
      Derives rawSet NT.LogicTerm t ct → Derives rawSet NT.LogicRest e ce →
      Derives rawSet NT.LogicExp (t ++ e) (ct ++ ce)

/-! ### Notions used in the proofs about the grammar -/

/-- What the main loop of `ToPostfixExp` does with a phrase of an arithmetic
nonterminal: a term leaves the stack as it was and emits a postfix sequence
that ends with an operator when the term has one and is the operand alone
otherwise; the repetition `{op term}` leaves pending operators above the
barrier; an expression starts at a barrier. -/
def Shunts (X : NT) (seg : List Token) : Prop :=
  match X with
  | NT.ArithTerm =>
    ∀ (ops : List Token) (B : TokenStack) (out rest : List Token),
      arithOps ops → barrier B → arithWellFormed seg →
      ∃ post, toPostfixLoop (seg ++ rest) (ops ++ B) out =
          toPostfixLoop rest (ops ++ B) (out ++ post) ∧
        (hasArithOp seg → endsWithArithOp post) ∧
        (¬ hasArithOp seg → ∃ x ∈ seg, (x.Type_ = NUMBER ∨ x.Type_ = IDENT) ∧ post = [x])
  | NT.ArithRest =>
    ∀ (ops : List Token) (B : TokenStack) (out rest : List Token),
      arithOps ops → barrier B → arithWellFormed seg →
      ∃ ops2 post, toPostfixLoop (seg ++ rest) (ops ++ B) out =
          toPostfixLoop rest (ops2 ++ B) (out ++ post) ∧
        arithOps ops2 ∧ (seg ≠ [] → ops2 ≠ []) ∧ (seg = [] → ops2 = ops ∧ post = [])
  | NT.ArithExp =>
    ∀ (B : TokenStack) (out rest : List Token), barrier B → arithWellFormed seg →
      ∃ ops2 post, toPostfixLoop (seg ++ rest) B out =
          toPostfixLoop rest (ops2 ++ B) (out ++ post) ∧
        arithOps ops2 ∧ (hasArithOp seg → ops2 ≠ [] ∨ endsWithArithOp post) ∧
        (¬ hasArithOp seg → ops2 = [] ∧
          ∃ x ∈ seg, (x.Type_ = NUMBER ∨ x.Type_ = IDENT) ∧ post = [x])
  | _ => True


/-- The recursion depth a grammar function needs beyond three calls per
remaining token. -/
def NT.fuel : NT → Nat
  | .ArithTerm => 1
  | .ArithRest => 1
  | .ArithExp => 2
  | .LogicTerm => 3
  | .LogicRest => 1
  | .LogicExp => 4

/-- The grammar function of parser.go that recognises a nonterminal. -/
def parser.run (p : parser) (fuel : Nat) : NT → Option (Bool × parser)
  | .ArithTerm => p.ArithmeticTerm fuel
  | .ArithRest => p.ArithmeticExpLoop fuel
  | .ArithExp => p.ArithmeticExp fuel
  | .LogicTerm => p.LogicTerm fuel
  | .LogicRest => p.LogicExpLoop fuel
  | .LogicExp => p.LogicExp fuel

/-- The next token, if there is one, is not of the kind `t`. -/
def nextIsNot (t : TokenType) (tail : List Token) : Prop :=
  ∀ tok, tail.head? = some tok → tok.Type_ ≠ t

/-- What may follow a phrase of a nonterminal in a derivation from `LOG_EXP`:
no arithmetic operator after an arithmetic expression or a logic term, and no
operator at all after a logic expression. -/
def NT.follow : NT → List Token → Prop
  | .ArithTerm, _ => True
  | .ArithRest, tail => nextIsNot ARITH_OP tail
  | .ArithExp, tail => nextIsNot ARITH_OP tail
  | .LogicTerm, tail => nextIsNot ARITH_OP tail
  | .LogicRest, tail => nextIsNot ARITH_OP tail ∧ nextIsNot LOG_OP tail ∧ nextIsNot COMP_OP tail
  | .LogicExp, tail => nextIsNot ARITH_OP tail ∧ nextIsNot LOG_OP tail ∧ nextIsNot COMP_OP tail

/-- The grammar function of `X` accepts `seg` wherever it is followed by what
may follow `X`: it returns `true` and has consumed exactly `seg`. -/
def Accepts (X : NT) (seg : List Token) : Prop :=
  ∀ (fuel : Nat) (p : parser) (tail : List Token), p.wf → p.rest = seg ++ tail →
    3 * p.rest.length + X.fuel ≤ fuel → X.follow tail →
    ∃ c, p.run fuel X = some (true, p.move seg.length c)


end calculator

/-! ## A reference float library -/

namespace decimal

open calculator

/-- An exact fraction `num / den`; it is not kept in lowest terms. -/
structure Frac where
  num : Int
  den : Nat
  deriving DecidableEq

/-- The number written by a string of decimal digits, most significant first,
added to ten times `acc` per digit. -/
def digitsVal : List Char → Nat → Nat
  | [], acc => acc
  | c :: rest, acc => digitsVal rest (10 * acc + (c.toNat - 48))

/-- The plain decimal forms of `strconv.ParseFloat`: an optional sign, digits
and an optional point, with at least one digit; the value is exact. -/
def parse (s : String) : Option Frac :=
  let cs := s.data
  let neg := decide (cs.head? = some '-')
  let cs := if cs.head? = some '-' ∨ cs.head? = some '+' then cs.tail else cs
  let ip := cs.takeWhile isDigit
  let rest := cs.dropWhile isDigit
  let fr := rest.tail
  if (rest = [] ∧ ip ≠ []) ∨ (rest.head? = some '.' ∧ fr.all isDigit ∧ (ip ≠ [] ∨ fr ≠ [])) then
    let v : Nat := digitsVal (ip ++ fr) 0
    some ⟨if neg then -(v : Int) else (v : Int), 10 ^ fr.length⟩
  else none

/-- Six digits of a number below one million, with leading zeros. -/
def pad6 (n : Nat) : String :=
  String.mk ((List.replicate (6 - (Nat.repr n).length) '0')) ++ Nat.repr n

/-- The `%f` verb: six fractional digits, rounded half to even. -/
def format (q : Frac) : String :=
  let x : Nat := q.num.natAbs * 1000000
  let f : Nat := x / q.den
  let r : Nat := x % q.den
  let n : Nat := if 2 * r > q.den ∨ (2 * r = q.den ∧ f % 2 = 1) then f + 1 else f
  (if q.num < 0 then "-" else "") ++ Nat.repr (n / 1000000) ++ "." ++ pad6 (n % 1000000)

def add (a b : Frac) : Frac := ⟨a.num * b.den + b.num * a.den, a.den * b.den⟩
def sub (a b : Frac) : Frac := ⟨a.num * b.den - b.num * a.den, a.den * b.den⟩
def mul (a b : Frac) : Frac := ⟨a.num * b.num, a.den * b.den⟩
def div (a b : Frac) : Frac := ⟨a.num * b.num.sign * b.den, a.den * b.num.natAbs⟩
def eq (a b : Frac) : Bool := decide (a.num * b.den = b.num * a.den)
def lt (a b : Frac) : Bool := decide (a.num * b.den < b.num * a.den)
def le (a b : Frac) : Bool := decide (a.num * b.den ≤ b.num * a.den)

/-- The decimal and the scientific forms of `strconv.ParseFloat`: a plain
decimal form, optionally followed by `e` or `E`, an optional sign and at least
one digit of the exponent. -/
def parseSci (s : String) : Option Frac :=
  let isExp : Char → Bool := fun c => c = 'e' || c = 'E'
  let mant := s.data.takeWhile (fun c => !isExp c)
  match s.data.dropWhile (fun c => !isExp c) with
  | [] => parse s
  | _ :: e =>
    let ds := if e.head? = some '-' ∨ e.head? = some '+' then e.tail else e
    if ds ≠ [] ∧ ds.all isDigit = true then
      match parse (String.mk mant) with
      | none => none
      | some q =>
        if e.head? = some '-' then some ⟨q.num, q.den * 10 ^ digitsVal ds 0⟩
        else some ⟨q.num * 10 ^ digitsVal ds 0, q.den⟩
    else none

/-- A float with the sign of its zero: an exact fraction and, for a zero,
whether it is the negative zero of IEEE 754. -/
structure Signed where
  val : Frac
  negZero : Bool
  deriving DecidableEq

/-- The sign bit of a signed float. -/
def Signed.isNeg (a : Signed) : Bool :=
  decide (a.val.num < 0) || (decide (a.val.num = 0) && a.negZero)

/-- The signed float of a value and a sign bit; the bit is kept for a zero
only. -/
def Signed.ofSign (v : Frac) (neg : Bool) : Signed :=
  ⟨v, decide (v.num = 0) && neg⟩

/-- The float parser with the sign of zero: `-0` is the negative zero. -/
def parseSigned (s : String) : Option Signed :=
  (parse s).map (fun q => Signed.ofSign q (decide (s.data.head? = some '-')))

/-- The `%f` verb with the sign of zero: the negative zero is written with its
sign. -/
def formatSigned (a : Signed) : String :=
  if a.val.num = 0 ∧ a.negZero = true then "-" ++ format a.val else format a.val

/-- Sum: a zero sum is negative only when both terms are negative zeros. -/
def addSigned (a b : Signed) : Signed := Signed.ofSign (add a.val b.val) (a.isNeg && b.isNeg)

/-- Difference: a zero difference is negative only for `-0 - +0`. -/
def subSigned (a b : Signed) : Signed := Signed.ofSign (sub a.val b.val) (a.isNeg && !b.isNeg)

/-- Product: the sign is the exclusive or of the signs, also for a zero. -/
def mulSigned (a b : Signed) : Signed := Signed.ofSign (mul a.val b.val) (xor a.isNeg b.isNeg)

/-- Quotient: the sign is the exclusive or of the signs, also for a zero. -/
def divSigned (a b : Signed) : Signed := Signed.ofSign (div a.val b.val) (xor a.isNeg b.isNeg)

end decimal

/-- A float library on exact fractions.  It agrees with float64 on the plain
decimal forms as long as every value involved is exactly representable in
float64 (for instance the integers below 2^53). -/
def decimalLib : FloatLib where
  F64 := decimal.Frac
  ParseFloat := decimal.parse
  Sprintf_f := decimal.format
  add := decimal.add
  sub := decimal.sub
  mul := decimal.mul
  div := decimal.div
  eq := decimal.eq
  lt := decimal.lt
  le := decimal.le
  gt := fun a b => decimal.lt b a
  ge := fun a b => decimal.le b a
  zero := ⟨0, 1⟩

/-- The reference float library with the scientific forms accepted by its
parser. -/
def scientificLib : FloatLib where
  F64 := decimal.Frac
  ParseFloat := decimal.parseSci
  Sprintf_f := decimal.format
  add := decimal.add
  sub := decimal.sub
  mul := decimal.mul
  div := decimal.div
  eq := decimal.eq
  lt := decimal.lt
  le := decimal.le
  gt := fun a b => decimal.lt b a
  ge := fun a b => decimal.le b a
  zero := ⟨0, 1⟩

/-- The reference float library with the signed zero of IEEE 754: exact
fractions, and a zero result carries the sign that float64 gives it (the
product of a zero and a negative number is the negative zero, which the `%f`
verb writes `-0.000000`; comparisons do not tell the two zeros apart). -/
def signedLib : FloatLib where
  F64 := decimal.Signed
  ParseFloat := decimal.parseSigned
  Sprintf_f := decimal.formatSigned
  add := decimal.addSigned
  sub := decimal.subSigned
  mul := decimal.mulSigned
  div := decimal.divSigned
  eq := fun a b => decimal.eq a.val b.val
  lt := fun a b => decimal.lt a.val b.val
  le := fun a b => decimal.le a.val b.val
  gt := fun a b => decimal.lt b.val a.val
  ge := fun a b => decimal.le b.val a.val
  zero := ⟨⟨0, 1⟩, false⟩

/-! ## The integers of the float library -/

namespace calculator

open core core.TokenType

/-- The decimal text of an integer. -/
def intText (k : Int) : String :=
  (if k < 0 then "-" else "") ++ Nat.repr k.natAbs

/-- The text `s` is an integer literal that writes `m`: a non-empty string of
decimal digits, or a minus sign followed by such a string that does not write
zero. -/
def intLiteral (s : String) (m : Int) : Prop :=
  ∃ ds : List Char, ds ≠ [] ∧ (∀ c ∈ ds, isDigit c = true) ∧
    ((s = String.mk ds ∧ m = (decimal.digitsVal ds 0 : Int)) ∨
      (s = String.mk ('-' :: ds) ∧ m = -(decimal.digitsVal ds 0 : Int) ∧ m ≠ 0))

/-- A decimal text with exactly six digits after the decimal point. -/
def sixDigits (s : String) : Prop :=
  ∃ ip fr : List Char, s.data = ip ++ '.' :: fr ∧ '.' ∉ ip ∧ fr.length = 6 ∧
    ∀ c ∈ fr, isDigit c = true

/-- What the engine uses of float64 on the integers below 2^53, which float64
holds exactly; `emb k` is the float of the integer `k` (the positive zero for
0).  Integer literals are parsed to their value; sums, differences and products
in the range are exact, the product of a zero and a negative number apart
(float64 gives the negative zero); the `%f` verb writes an integer as its
decimal text followed by `.000000`, and a quotient with six digits after the
point; a float equals zero exactly when the integer is 0. -/
def integerExact (L : FloatLib) (emb : Int → L.F64) : Prop :=
  (∀ (s : String) (m : Int), intLiteral s m → |m| < 2 ^ 53 → L.ParseFloat s = some (emb m)) ∧
  (∀ a b : Int, |a| < 2 ^ 53 → |b| < 2 ^ 53 → |a + b| < 2 ^ 53 →
    L.add (emb a) (emb b) = emb (a + b)) ∧
  (∀ a b : Int, |a| < 2 ^ 53 → |b| < 2 ^ 53 → |a - b| < 2 ^ 53 →
    L.sub (emb a) (emb b) = emb (a - b)) ∧
  (∀ a b : Int, |a| < 2 ^ 53 → |b| < 2 ^ 53 → |a * b| < 2 ^ 53 →
    (a ≠ 0 ∧ b ≠ 0) ∨ (0 ≤ a ∧ 0 ≤ b) → L.mul (emb a) (emb b) = emb (a * b)) ∧
  (∀ k : Int, |k| < 2 ^ 53 → L.Sprintf_f (emb k) = intText k ++ ".000000") ∧
  (∀ b : Int, |b| < 2 ^ 53 → L.eq (emb b) L.zero = decide (b = 0)) ∧
  (∀ a b : Int, |a| < 2 ^ 53 → |b| < 2 ^ 53 → b ≠ 0 →
    sixDigits (L.Sprintf_f (L.div (emb a) (emb b))))

end calculator

/-! ## Fixtures of calculator_test.go -/

namespace calculator

open core core.TokenType

/-- The declared types of the test file calculator_test.go. -/
def testTypes : String → Option ValueType := fun name =>
  if name = "s2001" ∨ name = "s6004" ∨ name = "stated_capital" then some NUMBER_TYPE
  else if name = "bool_param" then some BOOL_TYPE
  else none

/-- The three rows `paramsWithMultipleElements` of the test file. -/
def testRows : List RawMessageSet :=
  [ fun name => if name = "stated_capital" then some "50" else if name = "bool_param" then some "false"
      else if name = "s2001" then some "10" else none,
    fun name => if name = "stated_capital" then some "50" else if name = "bool_param" then some "false"
      else if name = "s2001" then some "0" else if name = "s6004" then some "10" else none,
    fun name => if name = "stated_capital" then some "50" else if name = "bool_param" then some "false"
      else if name = "s2001" then some "-10" else if name = "s6004" then some "10" else none ]

/-- The formulas of the test "multiple parameters and multiple formulas (red
color)". -/
def testFormulas : List Formula :=
  [ ⟨"formula_1", "bool_param = false", GreenColor, 0, true⟩,
    ⟨"formula_2", "s2001 < 0", YellowColor, 1, true⟩,
    ⟨"formula_3", "s2001 >= 0 AND exists(s6004)", RedColor, 2, true⟩ ]

/-- The outcome the test expects: Red, and one result map per row. -/
def testOutcome : Outcome :=
  ⟨RedColor, some [
    [("formula_1", ⟨0, GreenColor, true⟩), ("formula_2", ⟨1, YellowColor, false⟩),
      ("formula_3", ⟨2, RedColor, false⟩)],
    [("formula_1", ⟨0, GreenColor, true⟩), ("formula_2", ⟨1, YellowColor, false⟩),
      ("formula_3", ⟨2, RedColor, true⟩)],
    [("formula_1", ⟨0, GreenColor, true⟩), ("formula_2", ⟨1, YellowColor, true⟩),
      ("formula_3", ⟨2, RedColor, false⟩)]], none⟩

end calculator

/-! # Theorems -/

namespace calculator

open core core.TokenType

/-! ## Parser states -/

theorem parser.move_zero (p : parser) : p.move 0 [] = p := by
  cases p; simp [parser.move]

theorem parser.move_move (p : parser) (n m : Nat) (c d : List Token) :
    (p.move n c).move m d = p.move (n + m) (c ++ d) := by
  simp [parser.move, add_assoc]

theorem parser.restore_move (p : parser) (n : Nat) (c : List Token) :
    { p.move n c with it := p.it } = p.move 0 c := by
  simp [parser.move]

theorem parser.rest_move (p : parser) (hwf : p.wf) (n : Nat) (c : List Token) :
    (p.move n c).rest = p.rest.drop n := by
  obtain ⟨_, h2, _⟩ := hwf
  simp only [parser.rest, parser.move, List.drop_drop]
  congr 1
  omega

theorem parser.rest_length (p : parser) (hwf : p.wf) :
    (p.rest.length : Int) = p.tokensSize - (p.it + 1) := by
  obtain ⟨h1, h2, h3⟩ := hwf
  simp only [parser.rest, List.length_drop]
  omega

theorem parser.wf_move (p : parser) (hwf : p.wf) (n : Nat) (c : List Token)
    (hn : n ≤ p.rest.length) : (p.move n c).wf := by
  have hl := parser.rest_length p hwf
  obtain ⟨h1, h2, h3⟩ := hwf
  refine ⟨h1, ?_, ?_⟩
  · simp only [parser.move]; omega
  · simp only [parser.move]; omega


theorem parser.checkNext_nil (p : parser) (hwf : p.wf) (f : parser → Option (Bool × parser))
    (h : p.rest = []) : p.checkNext f = some (false, p) := by
  have hl := parser.rest_length p hwf
  rw [h] at hl
  simp only [List.length_nil, Nat.cast_zero] at hl
  simp only [parser.checkNext]
  rw [if_neg (by omega)]

theorem parser.checkNext_cons (p : parser) (hwf : p.wf) (f : parser → Option (Bool × parser))
    (tok : Token) (r : List Token) (h : p.rest = tok :: r) : p.checkNext f = f p := by
  have hl := parser.rest_length p hwf
  rw [h] at hl
  simp only [List.length_cons, Nat.cast_add, Nat.cast_one] at hl
  simp only [parser.checkNext]
  rw [if_pos (by omega)]

theorem parser.cur_move (p : parser) (hwf : p.wf) (n : Nat) (c : List Token) :
    (p.move (n + 1) c).cur = p.rest[n]? := by
  obtain ⟨_, h2, _⟩ := hwf
  simp only [parser.cur, parser.move, parser.rest]
  rw [if_neg (by omega), List.getElem?_drop]
  congr 1
  omega

theorem parser.terminal_cons (p : parser) (hwf : p.wf) (t : TokenType)
    (tok : Token) (r : List Token) (h : p.rest = tok :: r) :
    p.terminal t = some (decide (tok.Type_ = t), p.move 1 []) := by
  have hc := parser.cur_move p hwf 0 []
  rw [h] at hc
  simp only [List.getElem?_cons_zero] at hc
  have hm : ({ p with it := p.it + 1 } : parser) = p.move 1 [] := by
    simp [parser.move]
  simp only [parser.terminal, hm, hc, zero_add]

theorem parser.checkNext_terminal (p : parser) (hwf : p.wf) (t : TokenType)
    (f : parser → Option (Bool × parser)) (hf : ∀ q, f q = q.terminal t) :
    p.checkNext f =
      match p.rest with
      | [] => some (false, p)
      | tok :: _ => some (decide (tok.Type_ = t), p.move 1 []) := by
  cases h : p.rest with
  | nil => exact parser.checkNext_nil p hwf _ h
  | cons tok r =>
    rw [parser.checkNext_cons p hwf _ tok r h, hf]
    exact parser.terminal_cons p hwf t tok r h

theorem parser.restore_self (p : parser) : { p with it := p.it } = p := rfl

theorem parser.span_move (p : parser) (hwf : p.wf) (n : Nat) (c : List Token)
    (hn : n ≤ p.rest.length) :
    (p.move n c).span (p.it + 1) ((p.move n c).it + 1) = some (p.rest.take n) := by
  have hl := parser.rest_length p hwf
  obtain ⟨h1, h2, h3⟩ := hwf
  simp only [parser.span, parser.move, parser.rest]
  rw [if_pos (by omega)]
  congr 1
  rw [List.take_drop]
  congr 2
  omega


theorem List.take_succ_cons_drop {α : Type} (tok : α) (r : List α) (n : Nat) (t2 : α) (r2 : List α)
    (h : r.drop n = t2 :: r2) : (tok :: r).take (n + 2) = tok :: r.take n ++ [t2] := by
  have h1 : r = r.take n ++ t2 :: r2 := by rw [← h, List.take_append_drop]
  have hn : n ≤ r.length := by
    by_contra hc
    rw [List.drop_of_length_le (by omega)] at h
    cases h
  have hl : (r.take n).length = n := by simp [hn]
  show tok :: r.take (n + 1) = tok :: (r.take n ++ [t2])
  congr 1
  conv_lhs => rw [h1]
  rw [List.take_append_eq_append_take]
  simp [hl]

theorem arithTerm_step (fuel : Nat)
    (ihE : ∀ p : parser, p.wf → 3 * p.rest.length + 2 ≤ fuel →
      ∃ b n, p.ArithmeticExp fuel = some (b, p.move n []) ∧ n ≤ p.rest.length ∧
        (b = true → Derives p.rawSet NT.ArithExp (p.rest.take n) (p.rest.take n)))
    (p : parser) (hwf : p.wf) (hf : 3 * p.rest.length + 1 ≤ fuel + 1) :
    ∃ b n, p.ArithmeticTerm (fuel + 1) = some (b, p.move n []) ∧ n ≤ p.rest.length ∧
        (b = true → Derives p.rawSet NT.ArithTerm (p.rest.take n) (p.rest.take n)) := by
  rw [parser.ArithmeticTerm]
  simp only []
  rw [parser.checkNext_terminal p hwf NUMBER parser.Num (fun _ => rfl)]
  cases hr : p.rest with
  | nil =>
    simp only [parser.restore_self]
    rw [parser.checkNext_terminal p hwf IDENT parser.Ident (fun _ => rfl), hr]
    simp only [parser.restore_self]
    rw [parser.checkNext_terminal p hwf LBR parser.LBracket (fun _ => rfl), hr]
    exact ⟨false, 0, by simp [parser.move_zero], by simp, by simp⟩
  | cons tok r =>
    simp only []
    by_cases hnum : tok.Type_ = NUMBER
    · simp only [hnum, decide_True]
      exact ⟨true, 1, rfl, by simp, fun _ => by simpa using Derives.num tok hnum⟩
    · simp only [hnum, decide_False, parser.restore_move, parser.move_zero]
      rw [parser.checkNext_terminal p hwf IDENT parser.Ident (fun _ => rfl), hr]
      simp only []
      by_cases hid : tok.Type_ = IDENT
      · simp only [hid, decide_True]
        exact ⟨true, 1, rfl, by simp, fun _ => by simpa using Derives.ident tok hid⟩
      · simp only [hid, decide_False, parser.restore_move, parser.move_zero]
        rw [parser.checkNext_terminal p hwf LBR parser.LBracket (fun _ => rfl), hr]
        simp only []
        by_cases hl : tok.Type_ = LBR
        · simp only [hl, decide_True]
          have hwf1 : (p.move 1 []).wf := parser.wf_move p hwf 1 [] (by simp [hr])
          have hr1 : (p.move 1 []).rest = r := by
            rw [parser.rest_move p hwf, hr]; rfl
          by_cases hr' : r = []
          · rw [parser.checkNext_nil _ hwf1 _ (by rw [hr1, hr'])]
            exact ⟨false, 1, rfl, by simp, by simp⟩
          · obtain ⟨t1, r1, hr''⟩ := List.exists_cons_of_ne_nil hr'
            rw [parser.checkNext_cons _ hwf1 _ t1 r1 (by rw [hr1, hr''])]
            obtain ⟨b, n, he, hn, hd⟩ := ihE (p.move 1 []) hwf1 (by
              rw [hr1]; rw [hr] at hf; simp only [List.length_cons] at hf; omega)
            rw [he, parser.move_move]
            rw [hr1] at hn hd
            cases b with
            | false => exact ⟨false, 1 + n, by simp, by simp; omega, by simp⟩
            | true =>
              simp only []
              have hwf2 : (p.move (1 + n) ([] ++ [])).wf :=
                parser.wf_move p hwf _ _ (by simp [hr]; omega)
              have hr2 : (p.move (1 + n) ([] ++ [])).rest = r.drop n := by
                rw [parser.rest_move p hwf, hr, Nat.add_comm]; rfl
              rw [parser.checkNext_terminal _ hwf2 RBR parser.RBracket (fun _ => rfl), hr2]
              cases hr3 : r.drop n with
              | nil => exact ⟨false, 1 + n, by simp, by simp; omega, by simp⟩
              | cons t2 r2 =>
                simp only [parser.move_move]
                have hlen : n + 1 ≤ r.length := by
                  have := congrArg List.length hr3
                  simp only [List.length_drop, List.length_cons] at this
                  omega
                by_cases hrb : t2.Type_ = RBR
                · simp only [hrb, decide_True]
                  refine ⟨true, 1 + n + 1, by simp, by simp; omega, fun _ => ?_⟩
                  have ht : (tok :: r).take (1 + n + 1) = tok :: r.take n ++ [t2] := by
                    rw [show 1 + n + 1 = n + 2 by omega]
                    exact List.take_succ_cons_drop tok r n t2 r2 hr3
                  rw [ht]
                  exact Derives.arithBr tok t2 _ _ hl (hd rfl) hrb
                · simp only [hrb, decide_False]
                  exact ⟨false, 1 + n + 1, by simp, by simp; omega, by simp⟩
        · simp only [hl, decide_False]
          exact ⟨false, 1, rfl, by simp, by simp⟩


theorem arithLoop_step (fuel : Nat)
    (ihT : ∀ p : parser, p.wf → 3 * p.rest.length + 1 ≤ fuel →
      ∃ b n, p.ArithmeticTerm fuel = some (b, p.move n []) ∧ n ≤ p.rest.length ∧
        (b = true → Derives p.rawSet NT.ArithTerm (p.rest.take n) (p.rest.take n)))
    (ihL : ∀ p : parser, p.wf → 3 * p.rest.length + 1 ≤ fuel →
      ∃ n, p.ArithmeticExpLoop fuel = some (true, p.move n []) ∧ n ≤ p.rest.length ∧
        Derives p.rawSet NT.ArithRest (p.rest.take n) (p.rest.take n))
    (p : parser) (hwf : p.wf) (hf : 3 * p.rest.length + 1 ≤ fuel + 1) :
    ∃ n, p.ArithmeticExpLoop (fuel + 1) = some (true, p.move n []) ∧ n ≤ p.rest.length ∧
        Derives p.rawSet NT.ArithRest (p.rest.take n) (p.rest.take n) := by
  rw [parser.ArithmeticExpLoop]
  rw [parser.checkNext_terminal p hwf ARITH_OP parser.ArithmeticOp (fun _ => rfl)]
  have hstop : ∃ n, some (true, p.move 0 []) = some (true, p.move n []) ∧ n ≤ p.rest.length ∧
      Derives p.rawSet NT.ArithRest (p.rest.take n) (p.rest.take n) :=
    ⟨0, rfl, by simp, by simpa using Derives.arithNil⟩
  cases hr : p.rest with
  | nil =>
    rw [hr] at hstop
    simpa only [parser.restore_self, parser.move_zero] using hstop
  | cons tok r =>
    rw [hr] at hstop
    simp only []
    by_cases hop : tok.Type_ = ARITH_OP
    · simp only [hop, decide_True]
      have hwf1 : (p.move 1 []).wf := parser.wf_move p hwf 1 [] (by simp [hr])
      have hr1 : (p.move 1 []).rest = r := by
        rw [parser.rest_move p hwf, hr]; rfl
      by_cases hr' : r = []
      · rw [parser.checkNext_nil _ hwf1 _ (by rw [hr1, hr'])]
        simpa only [parser.restore_move] using hstop
      · obtain ⟨t1, r1, hr''⟩ := List.exists_cons_of_ne_nil hr'
        rw [parser.checkNext_cons _ hwf1 _ t1 r1 (by rw [hr1, hr''])]
        obtain ⟨b, n, he, hn, hd⟩ := ihT (p.move 1 []) hwf1 (by
          rw [hr1]; rw [hr] at hf; simp only [List.length_cons] at hf; omega)
        rw [he, parser.move_move]
        rw [hr1] at hn hd
        cases b with
        | false => simpa only [parser.restore_move] using hstop
        | true =>
          simp only []
          have hwf2 : (p.move (1 + n) ([] ++ [])).wf :=
            parser.wf_move p hwf _ _ (by simp [hr]; omega)
          have hr2 : (p.move (1 + n) ([] ++ [])).rest = r.drop n := by
            rw [parser.rest_move p hwf, hr, Nat.add_comm]; rfl
          obtain ⟨m, he2, hm, hd2⟩ := ihL _ hwf2 (by
            rw [hr2]; rw [hr] at hf; simp only [List.length_cons, List.length_drop] at hf ⊢; omega)
          rw [he2, parser.move_move]
          rw [hr2] at hm hd2
          simp only [List.length_drop] at hm
          refine ⟨1 + n + m, by simp, by simp; omega, ?_⟩
          have ht : (tok :: r).take (1 + n + m) = tok :: r.take n ++ (r.drop n).take m := by
            rw [show 1 + n + m = (n + m) + 1 by omega, List.take_succ_cons, List.take_add]
            rfl
          rw [ht]
          exact Derives.arithMore tok _ _ _ _ hop (hd rfl) hd2
    · simp only [hop, decide_False]
      simpa only [parser.restore_move] using hstop

theorem arithExp_step (fuel : Nat)
    (ihT : ∀ p : parser, p.wf → 3 * p.rest.length + 1 ≤ fuel →
      ∃ b n, p.ArithmeticTerm fuel = some (b, p.move n []) ∧ n ≤ p.rest.length ∧
        (b = true → Derives p.rawSet NT.ArithTerm (p.rest.take n) (p.rest.take n)))
    (ihL : ∀ p : parser, p.wf → 3 * p.rest.length + 1 ≤ fuel →
      ∃ n, p.ArithmeticExpLoop fuel = some (true, p.move n []) ∧ n ≤ p.rest.length ∧
        Derives p.rawSet NT.ArithRest (p.rest.take n) (p.rest.take n))
    (p : parser) (hwf : p.wf) (hf : 3 * p.rest.length + 2 ≤ fuel + 1) :
    ∃ b n, p.ArithmeticExp (fuel + 1) = some (b, p.move n []) ∧ n ≤ p.rest.length ∧
        (b = true → Derives p.rawSet NT.ArithExp (p.rest.take n) (p.rest.take n)) := by
  rw [parser.ArithmeticExp]
  by_cases hr : p.rest = []
  · rw [parser.checkNext_nil _ hwf _ hr]
    exact ⟨false, 0, by simp [parser.move_zero], by simp, by simp⟩
  · obtain ⟨t1, r1, hr'⟩ := List.exists_cons_of_ne_nil hr
    rw [parser.checkNext_cons _ hwf _ t1 r1 hr']
    obtain ⟨b, n, he, hn, hd⟩ := ihT p hwf (by omega)
    rw [he]
    cases b with
    | false => exact ⟨false, n, rfl, hn, by simp⟩
    | true =>
      simp only []
      have hwf2 : (p.move n []).wf := parser.wf_move p hwf _ _ hn
      have hr2 : (p.move n []).rest = p.rest.drop n := parser.rest_move p hwf _ _
      obtain ⟨m, he2, hm, hd2⟩ := ihL _ hwf2 (by
        rw [hr2]; simp only [List.length_drop]; omega)
      rw [he2, parser.move_move]
      rw [hr2] at hm hd2
      simp only [List.length_drop] at hm
      refine ⟨true, n + m, by simp, by omega, fun _ => ?_⟩
      rw [List.take_add]
      exact Derives.arithExp _ _ _ _ (hd rfl) hd2

theorem arith_spec (fuel : Nat) :
    (∀ p : parser, p.wf → 3 * p.rest.length + 1 ≤ fuel →
      ∃ b n, p.ArithmeticTerm fuel = some (b, p.move n []) ∧ n ≤ p.rest.length ∧
        (b = true → Derives p.rawSet NT.ArithTerm (p.rest.take n) (p.rest.take n))) ∧
    (∀ p : parser, p.wf → 3 * p.rest.length + 2 ≤ fuel →
      ∃ b n, p.ArithmeticExp fuel = some (b, p.move n []) ∧ n ≤ p.rest.length ∧
        (b = true → Derives p.rawSet NT.ArithExp (p.rest.take n) (p.rest.take n))) ∧
    (∀ p : parser, p.wf → 3 * p.rest.length + 1 ≤ fuel →
      ∃ n, p.ArithmeticExpLoop fuel = some (true, p.move n []) ∧ n ≤ p.rest.length ∧
        Derives p.rawSet NT.ArithRest (p.rest.take n) (p.rest.take n)) := by
  induction fuel with
  | zero =>
    refine ⟨fun p _ h => ?_, fun p _ h => ?_, fun p _ h => ?_⟩ <;> omega
  | succ fuel ih =>
    obtain ⟨ihT, ihE, ihL⟩ := ih
    exact ⟨arithTerm_step fuel ihE, arithExp_step fuel ihT ihL, arithLoop_step fuel ihT ihL⟩


theorem parser.checkNext_move (p : parser) (hwf : p.wf) (n : Nat) (c : List Token)
    (hn : n ≤ p.rest.length) (t : TokenType)
    (f : parser → Option (Bool × parser)) (hf : ∀ q, f q = q.terminal t) :
    (p.move n c).checkNext f =
      match p.rest.drop n with
      | [] => some (false, p.move n c)
      | tok :: _ => some (decide (tok.Type_ = t), p.move (n + 1) c) := by
  rw [parser.checkNext_terminal _ (parser.wf_move p hwf n c hn) t f hf,
    parser.rest_move p hwf]
  cases p.rest.drop n with
  | nil => rfl
  | cons tok r => simp [parser.move_move]

theorem ExistsFunc_spec (p : parser) (hwf : p.wf) :
    (∃ k l x r tl, p.rest = k :: l :: x :: r :: tl ∧ k.Type_ = EXISTS_FUNC ∧ l.Type_ = LBR ∧
        x.Type_ = IDENT ∧ r.Type_ = RBR ∧
        p.ExistsFunc = some (true, p.move 4 [⟨BOOL, Sprintf_t (p.rawSet x.Value).isSome, BOOL_TYPE⟩])) ∨
    ((∃ n, p.ExistsFunc = some (false, p.move n []) ∧ n ≤ p.rest.length) ∧
      ¬ ∃ k l x r tl, p.rest = k :: l :: x :: r :: tl ∧ k.Type_ = EXISTS_FUNC ∧ l.Type_ = LBR ∧
        x.Type_ = IDENT ∧ r.Type_ = RBR) := by
  have e0 := parser.checkNext_move p hwf 0 [] (by simp) EXISTS_FUNC parser.IdentExists (fun _ => rfl)
  rw [parser.move_zero] at e0
  rw [parser.ExistsFunc, e0]
  rcases hr : p.rest with _ | ⟨k, rs⟩
  · right
    exact ⟨⟨0, by simp [parser.move_zero], by simp⟩, by simp⟩
  simp only [List.drop_zero, zero_add]
  by_cases hk : k.Type_ = EXISTS_FUNC
  swap
  · right
    simp only [hk, decide_False]
    exact ⟨⟨1, rfl, by simp⟩, by rintro ⟨_, _, _, _, _, h, h1, h2, h3, h4⟩; injections; subst_vars; contradiction⟩
  simp only [hk, decide_True]
  have e1 := parser.checkNext_move p hwf 1 [] (by simp [hr]) LBR parser.LBracket (fun _ => rfl)
  rw [e1, hr]
  rcases rs with _ | ⟨l, rs⟩
  · right
    exact ⟨⟨1, rfl, by simp⟩, by simp⟩
  simp only [List.drop_succ_cons, List.drop_zero]
  by_cases hl : l.Type_ = LBR
  swap
  · right
    simp only [hl, decide_False]
    exact ⟨⟨2, rfl, by simp⟩, by rintro ⟨_, _, _, _, _, h, h1, h2, h3, h4⟩; injections; subst_vars; contradiction⟩
  simp only [hl, decide_True]
  have e2 := parser.checkNext_move p hwf 2 [] (by simp [hr]) IDENT parser.Ident (fun _ => rfl)
  rw [e2, hr]
  rcases rs with _ | ⟨x, rs⟩
  · right
    exact ⟨⟨2, rfl, by simp⟩, by simp⟩
  simp only [List.drop_succ_cons, List.drop_zero]
  by_cases hx : x.Type_ = IDENT
  swap
  · right
    simp only [hx, decide_False]
    exact ⟨⟨3, rfl, by simp⟩, by rintro ⟨_, _, _, _, _, h, h1, h2, h3, h4⟩; injections; subst_vars; contradiction⟩
  simp only [hx, decide_True]
  have hc := parser.cur_move p hwf 2 []
  rw [hr] at hc
  simp only [List.getElem?_cons_succ, List.getElem?_cons_zero] at hc
  rw [hc]
  simp only []
  have e3 := parser.checkNext_move p hwf 3 [] (by simp [hr]) RBR parser.RBracket (fun _ => rfl)
  rw [e3, hr]
  rcases rs with _ | ⟨r, rs⟩
  · right
    exact ⟨⟨3, rfl, by simp⟩, by simp⟩
  simp only [List.drop_succ_cons, List.drop_zero]
  by_cases hrb : r.Type_ = RBR
  swap
  · right
    simp only [hrb, decide_False]
    exact ⟨⟨4, rfl, by simp⟩, by rintro ⟨_, _, _, _, _, h, h1, h2, h3, h4⟩; injections; subst_vars; contradiction⟩
  simp only [hrb, decide_True]
  left
  refine ⟨k, l, x, r, rs, rfl, hk, hl, hx, hrb, ?_⟩
  simp [parser.move]


theorem parser.checkNext_cases (p : parser) (hwf : p.wf) (f : parser → Option (Bool × parser)) :
    (p.rest = [] ∧ p.checkNext f = some (false, p)) ∨ (p.rest ≠ [] ∧ p.checkNext f = f p) := by
  by_cases hr : p.rest = []
  · exact Or.inl ⟨hr, parser.checkNext_nil p hwf f hr⟩
  · obtain ⟨t1, r1, hr'⟩ := List.exists_cons_of_ne_nil hr
    exact Or.inr ⟨hr, parser.checkNext_cons p hwf f t1 r1 hr'⟩

theorem LogicOrCompOperator_spec (p : parser) (hwf : p.wf) :
    p.LogicOrCompOperator =
      match p.rest with
      | [] => some (false, p)
      | tok :: _ => some (decide (tok.Type_ = LOG_OP ∨ tok.Type_ = COMP_OP), p.move 1 []) := by
  rw [parser.LogicOrCompOperator]
  simp only []
  rw [parser.checkNext_terminal p hwf LOG_OP parser.LogicOperator (fun _ => rfl)]
  rcases hr : p.rest with _ | ⟨tok, r⟩
  · simp only [parser.restore_self]
    rw [parser.checkNext_terminal p hwf COMP_OP parser.CompOperator (fun _ => rfl), hr]
  · simp only []
    by_cases h1 : tok.Type_ = LOG_OP
    · simp [h1]
    · simp only [h1, decide_False, parser.restore_move, parser.move_zero, false_or]
      rw [parser.checkNext_terminal p hwf COMP_OP parser.CompOperator (fun _ => rfl), hr]

theorem parser.move_calc (p : parser) (n : Nat) (c d : List Token) :
    { p.move n c with calculationTokens := (p.move n c).calculationTokens ++ d } =
      p.move n (c ++ d) := by
  simp [parser.move]

theorem logicTerm_step (fuel : Nat)
    (ihE : ∀ p : parser, p.wf → 3 * p.rest.length + 4 ≤ fuel →
      ∃ b n c, p.LogicExp fuel = some (b, p.move n c) ∧ n ≤ p.rest.length ∧
        (b = true → ∃ c0, Derives p.rawSet NT.LogicExp (p.rest.take n) c0 ∧
          (c = c0 ∨ ∃ tok tl, p.rest.drop n = tok :: tl ∧
            (tok.Type_ = LOG_OP ∨ tok.Type_ = COMP_OP))))
    (p : parser) (hwf : p.wf) (hf : 3 * p.rest.length + 3 ≤ fuel + 1) :
    ∃ b n c, p.LogicTerm (fuel + 1) = some (b, p.move n c) ∧ n ≤ p.rest.length ∧
        (b = true → Derives p.rawSet NT.LogicTerm (p.rest.take n) c) := by
  rw [parser.LogicTerm]
  simp only []
  rw [parser.checkNext_terminal p hwf BOOL parser.Bool_ (fun _ => rfl)]
  rcases hr : p.rest with _ | ⟨tok, r⟩
  · -- no token left: every alternative fails
    simp only [parser.restore_self]
    rw [parser.checkNext_nil p hwf _ hr]
    simp only [parser.restore_self]
    rw [parser.checkNext_nil p hwf _ hr]
    simp only [parser.restore_self]
    rw [parser.checkNext_nil p hwf _ hr]
    exact ⟨false, 0, [], by simp [parser.move_zero], by simp, by simp⟩
  simp only []
  have hcur1 : ∀ c, (p.move 1 c).cur = some tok := by
    intro c
    have := parser.cur_move p hwf 0 c
    rw [hr] at this
    simpa using this
  by_cases hb : tok.Type_ = BOOL
  · simp only [hb, decide_True, hcur1, parser.move_calc]
    exact ⟨true, 1, _, rfl, by simp, fun _ => by simpa using Derives.bool tok hb⟩
  simp only [hb, decide_False, parser.restore_move, parser.move_zero]
  rw [parser.checkNext_cons p hwf _ tok r hr]
  rcases ExistsFunc_spec p hwf with ⟨k, l, x, rb, tl, hr4, hk, hl, hx, hrb, he⟩ | ⟨⟨n, he, hn⟩, _⟩
  · rw [he]
    simp only []
    refine ⟨true, 4, _, rfl, by simp [hr4, ← hr], fun _ => ?_⟩
    rw [← hr, hr4]
    exact Derives.existsCall k l x rb hk hl hx hrb
  rw [he]
  simp only [parser.restore_move, parser.move_zero]
  rw [parser.checkNext_cons p hwf _ tok r hr]
  obtain ⟨b, n, hea, hna, hda⟩ := (arith_spec fuel).2.1 p hwf (by omega)
  rw [hea]
  cases b with
  | true =>
    simp only []
    rw [parser.span_move p hwf n [] hna]
    simp only [parser.move_calc]
    refine ⟨true, n, _, rfl, by rw [← hr]; exact hna, fun _ => ?_⟩
    rw [← hr]
    simpa using Derives.arith _ _ (hda rfl)
  | false =>
    simp only [parser.restore_move, parser.move_zero]
    rw [parser.checkNext_terminal p hwf LBR parser.LBracket (fun _ => rfl), hr]
    simp only []
    by_cases hl : tok.Type_ = LBR
    swap
    · simp only [hl, decide_False]
      exact ⟨false, 1, [], rfl, by simp, by simp⟩
    simp only [hl, decide_True, hcur1, parser.move_calc, List.nil_append]
    have hwf1 : (p.move 1 [tok]).wf := parser.wf_move p hwf 1 _ (by simp [hr])
    have hr1 : (p.move 1 [tok]).rest = r := by
      rw [parser.rest_move p hwf, hr]; rfl
    rcases parser.checkNext_cases _ hwf1 (parser.LogicExp fuel) with ⟨_, hc⟩ | ⟨_, hc⟩
    · rw [hc]
      exact ⟨false, 1, _, rfl, by simp, by simp⟩
    rw [hc]
    obtain ⟨b, n, c, hee, hne, hde⟩ := ihE (p.move 1 [tok]) hwf1 (by
      rw [hr1]; rw [hr] at hf; simp only [List.length_cons] at hf; omega)
    rw [hee, parser.move_move]
    rw [hr1] at hne hde
    cases b with
    | false => exact ⟨false, 1 + n, _, rfl, by simp; omega, by simp⟩
    | true =>
      simp only []
      have hrd : p.rest.drop (1 + n) = r.drop n := by
        rw [hr, Nat.add_comm]; rfl
      rw [parser.checkNext_move p hwf (1 + n) _ (by simp [hr]; omega) RBR parser.RBracket
        (fun _ => rfl), hrd]
      rcases hr3 : r.drop n with _ | ⟨t2, r2⟩
      · exact ⟨false, 1 + n, _, rfl, by simp; omega, by simp⟩
      simp only []
      have hlen : n + 1 ≤ r.length := by
        have := congrArg List.length hr3
        simp only [List.length_drop, List.length_cons] at this
        omega
      by_cases hrb : t2.Type_ = RBR
      swap
      · simp only [hrb, decide_False]
        exact ⟨false, 1 + n + 1, _, rfl, by simp; omega, by simp⟩
      simp only [hrb, decide_True]
      have hcur2 : (p.move (1 + n + 1) ([tok] ++ c)).cur = some t2 := by
        have h1 := parser.cur_move p hwf (1 + n) ([tok] ++ c)
        rw [h1, hr, Nat.add_comm 1 n, List.getElem?_cons_succ]
        have h2 : r[n]? = (r.drop n)[0]? := by simp
        rw [h2, hr3]; simp
      rw [hcur2]
      simp only [parser.move_calc]
      refine ⟨true, 1 + n + 1, _, rfl, by simp; omega, fun _ => ?_⟩
      obtain ⟨c0, hd0, hclean⟩ := hde rfl
      have hcc : c = c0 := by
        rcases hclean with h | ⟨t3, tl3, h3, hop⟩
        · exact h
        · rw [hr3] at h3
          injection h3 with h3 _
          subst h3
          rcases hop with hop | hop <;> rw [hrb] at hop <;> cases hop
      subst hcc
      have ht : (tok :: r).take (1 + n + 1) = tok :: r.take n ++ [t2] := by
        rw [show 1 + n + 1 = n + 2 by omega]
        exact List.take_succ_cons_drop tok r n t2 r2 hr3
      rw [ht]
      simpa using Derives.logicBr tok t2 _ _ hl hd0 hrb


theorem logicLoop_step (fuel : Nat)
    (ihT : ∀ p : parser, p.wf → 3 * p.rest.length + 3 ≤ fuel →
      ∃ b n c, p.LogicTerm fuel = some (b, p.move n c) ∧ n ≤ p.rest.length ∧
        (b = true → Derives p.rawSet NT.LogicTerm (p.rest.take n) c))
    (ihL : ∀ p : parser, p.wf → 3 * p.rest.length + 1 ≤ fuel →
      ∃ n c, p.LogicExpLoop fuel = some (true, p.move n c) ∧ n ≤ p.rest.length ∧
        ∃ c0, Derives p.rawSet NT.LogicRest (p.rest.take n) c0 ∧
          (c = c0 ∨ ∃ tok tl, p.rest.drop n = tok :: tl ∧
            (tok.Type_ = LOG_OP ∨ tok.Type_ = COMP_OP)))
    (p : parser) (hwf : p.wf) (hf : 3 * p.rest.length + 1 ≤ fuel + 1) :
    ∃ n c, p.LogicExpLoop (fuel + 1) = some (true, p.move n c) ∧ n ≤ p.rest.length ∧
        ∃ c0, Derives p.rawSet NT.LogicRest (p.rest.take n) c0 ∧
          (c = c0 ∨ ∃ tok tl, p.rest.drop n = tok :: tl ∧
            (tok.Type_ = LOG_OP ∨ tok.Type_ = COMP_OP)) := by
  rw [parser.LogicExpLoop]
  simp only []
  rw [LogicOrCompOperator_spec p hwf]
  rcases hr : p.rest with _ | ⟨tok, r⟩
  · simp only [parser.restore_self]
    exact ⟨0, [], by simp [parser.move_zero], by simp, [], by simpa using Derives.logicNil,
      Or.inl rfl⟩
  simp only []
  by_cases hop : tok.Type_ = LOG_OP ∨ tok.Type_ = COMP_OP
  swap
  · simp only [hop, decide_False, parser.restore_move]
    exact ⟨0, [], rfl, by simp, [], by simpa using Derives.logicNil, Or.inl rfl⟩
  simp only [hop, decide_True]
  have hcur1 : ∀ c, (p.move 1 c).cur = some tok := by
    intro c
    have := parser.cur_move p hwf 0 c
    rw [hr] at this
    simpa using this
  simp only [hcur1, parser.move_calc, List.nil_append]
  have hdirty : ∀ c, ∃ n c', some (true, p.move 0 c) = some (true, p.move n c') ∧
      n ≤ (tok :: r).length ∧
      ∃ c0, Derives p.rawSet NT.LogicRest ((tok :: r).take n) c0 ∧
        (c' = c0 ∨ ∃ tok' tl, (tok :: r).drop n = tok' :: tl ∧
          (tok'.Type_ = LOG_OP ∨ tok'.Type_ = COMP_OP)) :=
    fun c => ⟨0, c, rfl, by simp, [], by simpa using Derives.logicNil,
      Or.inr ⟨tok, r, rfl, hop⟩⟩
  have hwf1 : (p.move 1 [tok]).wf := parser.wf_move p hwf 1 _ (by simp [hr])
  have hr1 : (p.move 1 [tok]).rest = r := by
    rw [parser.rest_move p hwf, hr]; rfl
  rcases parser.checkNext_cases _ hwf1 (parser.LogicTerm fuel) with ⟨_, hc⟩ | ⟨hne, hc⟩
  · rw [hc]
    simpa only [parser.restore_move] using hdirty [tok]
  rw [hc]
  rw [hr1] at hne
  have hrl : 1 ≤ r.length := by
    cases r with
    | nil => exact absurd rfl hne
    | cons _ _ => simp
  obtain ⟨b, n, c, hee, hn, hd⟩ := ihT (p.move 1 [tok]) hwf1 (by
    rw [hr1]; rw [hr] at hf; simp only [List.length_cons] at hf; omega)
  rw [hee, parser.move_move]
  rw [hr1] at hn hd
  cases b with
  | false => simpa only [parser.restore_move] using hdirty ([tok] ++ c)
  | true =>
    simp only []
    have hwf2 : (p.move (1 + n) ([tok] ++ c)).wf :=
      parser.wf_move p hwf _ _ (by simp [hr]; omega)
    have hr2 : (p.move (1 + n) ([tok] ++ c)).rest = r.drop n := by
      rw [parser.rest_move p hwf, hr, Nat.add_comm]; rfl
    obtain ⟨m, d, he2, hm, d0, hd2, hcl⟩ := ihL _ hwf2 (by
      rw [hr2]; rw [hr] at hf; simp only [List.length_cons, List.length_drop] at hf ⊢; omega)
    rw [he2, parser.move_move]
    rw [hr2] at hm hd2 hcl
    simp only [List.length_drop] at hm
    have ht : (tok :: r).take (1 + n + m) = tok :: r.take n ++ (r.drop n).take m := by
      rw [show 1 + n + m = (n + m) + 1 by omega, List.take_succ_cons, List.take_add]
      rfl
    have hdr : (tok :: r).drop (1 + n + m) = (r.drop n).drop m := by
      rw [show 1 + n + m = (n + m) + 1 by omega, List.drop_succ_cons, List.drop_drop]
    refine ⟨1 + n + m, _, rfl, by simp; omega, tok :: c ++ d0, ?_, ?_⟩
    · rw [ht]
      exact Derives.logicMore tok _ _ _ _ hop (hd rfl) hd2
    · rcases hcl with h | h
      · left; rw [h]; simp
      · right; rw [hdr]; exact h

theorem logicExp_step (fuel : Nat)
    (ihT : ∀ p : parser, p.wf → 3 * p.rest.length + 3 ≤ fuel →
      ∃ b n c, p.LogicTerm fuel = some (b, p.move n c) ∧ n ≤ p.rest.length ∧
        (b = true → Derives p.rawSet NT.LogicTerm (p.rest.take n) c))
    (ihL : ∀ p : parser, p.wf → 3 * p.rest.length + 1 ≤ fuel →
      ∃ n c, p.LogicExpLoop fuel = some (true, p.move n c) ∧ n ≤ p.rest.length ∧
        ∃ c0, Derives p.rawSet NT.LogicRest (p.rest.take n) c0 ∧
          (c = c0 ∨ ∃ tok tl, p.rest.drop n = tok :: tl ∧
            (tok.Type_ = LOG_OP ∨ tok.Type_ = COMP_OP)))
    (p : parser) (hwf : p.wf) (hf : 3 * p.rest.length + 4 ≤ fuel + 1) :
    ∃ b n c, p.LogicExp (fuel + 1) = some (b, p.move n c) ∧ n ≤ p.rest.length ∧
        (b = true → ∃ c0, Derives p.rawSet NT.LogicExp (p.rest.take n) c0 ∧
          (c = c0 ∨ ∃ tok tl, p.rest.drop n = tok :: tl ∧
            (tok.Type_ = LOG_OP ∨ tok.Type_ = COMP_OP))) := by
  rw [parser.LogicExp]
  rcases parser.checkNext_cases _ hwf (parser.LogicTerm fuel) with ⟨_, hc⟩ | ⟨_, hc⟩
  · rw [hc]
    exact ⟨false, 0, [], by simp [parser.move_zero], by simp, by simp⟩
  rw [hc]
  obtain ⟨b, n, c, he, hn, hd⟩ := ihT p hwf (by omega)
  rw [he]
  cases b with
  | false => exact ⟨false, n, c, rfl, hn, by simp⟩
  | true =>
    simp only []
    have hwf2 : (p.move n c).wf := parser.wf_move p hwf _ _ hn
    have hr2 : (p.move n c).rest = p.rest.drop n := parser.rest_move p hwf _ _
    obtain ⟨m, d, he2, hm, d0, hd2, hcl⟩ := ihL _ hwf2 (by
      rw [hr2]; simp only [List.length_drop]; omega)
    rw [he2, parser.move_move]
    rw [hr2] at hm hd2 hcl
    simp only [List.length_drop] at hm
    refine ⟨true, n + m, _, rfl, by omega, fun _ => ⟨c ++ d0, ?_, ?_⟩⟩
    · rw [List.take_add]
      exact Derives.logicExp _ _ _ _ (hd rfl) hd2
    · rcases hcl with h | h
      · left; rw [h]
      · right
        rw [List.drop_drop] at h
        exact h

theorem logic_spec (fuel : Nat) :
    (∀ p : parser, p.wf → 3 * p.rest.length + 3 ≤ fuel →
      ∃ b n c, p.LogicTerm fuel = some (b, p.move n c) ∧ n ≤ p.rest.length ∧
        (b = true → Derives p.rawSet NT.LogicTerm (p.rest.take n) c)) ∧
    (∀ p : parser, p.wf → 3 * p.rest.length + 4 ≤ fuel →
      ∃ b n c, p.LogicExp fuel = some (b, p.move n c) ∧ n ≤ p.rest.length ∧
        (b = true → ∃ c0, Derives p.rawSet NT.LogicExp (p.rest.take n) c0 ∧
          (c = c0 ∨ ∃ tok tl, p.rest.drop n = tok :: tl ∧
            (tok.Type_ = LOG_OP ∨ tok.Type_ = COMP_OP)))) ∧
    (∀ p : parser, p.wf → 3 * p.rest.length + 1 ≤ fuel →
      ∃ n c, p.LogicExpLoop fuel = some (true, p.move n c) ∧ n ≤ p.rest.length ∧
        ∃ c0, Derives p.rawSet NT.LogicRest (p.rest.take n) c0 ∧
          (c = c0 ∨ ∃ tok tl, p.rest.drop n = tok :: tl ∧
            (tok.Type_ = LOG_OP ∨ tok.Type_ = COMP_OP))) := by
  induction fuel with
  | zero =>
    refine ⟨fun p _ h => ?_, fun p _ h => ?_, fun p _ h => ?_⟩ <;> omega
  | succ fuel ih =>
    obtain ⟨ihT, ihE, ihL⟩ := ih
    exact ⟨logicTerm_step fuel ihE, logicExp_step fuel ihT ihL, logicLoop_step fuel ihT ihL⟩


theorem newParser_wf (tokens : List Token) (rawSet : RawMessageSet) :
    (newParser tokens rawSet).wf := by
  refine ⟨rfl, ?_, ?_⟩
  · simp [newParser]
  · simp only [newParser]; omega

theorem newParser_rest (tokens : List Token) (rawSet : RawMessageSet) :
    (newParser tokens rawSet).rest = tokens := by
  simp [newParser, parser.rest]

/-- The grammar check of `start`: its result is a syntax error, or the token
sequence is derived from `LOG_EXP` and the result is the calculation on the
calculation tokens the grammar documents. -/
theorem start_spec (L : FloatLib) (tokens : List Token) (rawSet : RawMessageSet) :
    (newParser tokens rawSet).start L = some (.error (.ParseError errSyntax)) ∨
    ∃ c, Derives rawSet NT.LogicExp tokens c ∧
      (newParser tokens rawSet).start L = some (parser.calculation L c rawSet) := by
  have hwf := newParser_wf tokens rawSet
  have hrest := newParser_rest tokens rawSet
  rw [parser.start]
  rcases parser.checkNext_cases _ hwf (parser.LogicExp (newParser tokens rawSet).fuel)
    with ⟨_, hc⟩ | ⟨_, hc⟩
  · rw [hc]; exact Or.inl rfl
  rw [hc]
  obtain ⟨b, n, c, he, hn, hd⟩ := (logic_spec (newParser tokens rawSet).fuel).2.1 _ hwf (by
    rw [hrest]; simp [parser.fuel, newParser])
  rw [he]
  cases b with
  | false => exact Or.inl rfl
  | true =>
    simp only []
    rw [hrest] at hn hd
    by_cases hend : ((newParser tokens rawSet).move n c).it + 1 ≠
        ((newParser tokens rawSet).move n c).tokensSize
    · rw [if_pos hend]; exact Or.inl rfl
    · rw [if_neg hend]
      right
      have hnl : n = tokens.length := by
        simp only [parser.move, newParser, ne_eq, not_not] at hend
        omega
      obtain ⟨c0, hd0, hcl⟩ := hd rfl
      rw [hnl, List.take_length] at hd0
      rw [hnl, List.drop_length] at hcl
      have hcc : c = c0 := by
        rcases hcl with h | ⟨_, _, h, _⟩
        · exact h
        · cases h
      subst hcc
      exact ⟨c, hd0, by simp [parser.move, newParser]⟩

theorem start_total (L : FloatLib) (tokens : List Token) (rawSet : RawMessageSet) :
    ∃ r, (newParser tokens rawSet).start L = some r := by
  rcases start_spec L tokens rawSet with h | ⟨c, _, h⟩
  · exact ⟨_, h⟩
  · exact ⟨_, h⟩


theorem identLoop_ge (rest : List Char) (i : Nat) : i ≤ identLoop rest i := by
  induction rest generalizing i with
  | nil => simp [identLoop]
  | cons c rest ih =>
    rw [identLoop]
    split
    · exact Nat.le_trans (Nat.le_succ i) (ih (i + 1))
    · exact Nat.le_refl i

theorem isLogicOp_ge (chars : List Char) (i length : Nat) : i ≤ (isLogicOp chars i length).2 := by
  rw [isLogicOp]
  repeat' split
  all_goals simp

theorem isLogicOp_false (chars : List Char) (i length : Nat)
    (h : (isLogicOp chars i length).1 = false) : (isLogicOp chars i length).2 = i := by
  rw [isLogicOp] at h ⊢
  repeat' split
  all_goals simp_all

theorem isNumberLoop_spec (L : FloatLib) (chars rest : List Char) (i c : Nat) :
    (isNumberLoop L chars rest i c).1 + c = (isNumberLoop L chars rest i c).2 + i ∧
      c ≤ (isNumberLoop L chars rest i c).2 := by
  induction rest generalizing i c with
  | nil => simp [isNumberLoop, Nat.add_comm]
  | cons x rest ih =>
    rw [isNumberLoop]
    split
    · simp [Nat.add_comm]
    · have := ih (i + 1) (c + 1)
      omega

theorem isNumber_gt (L : FloatLib) (chars : List Char) (i : Nat)
    (h : (isNumber L chars i).1 = true) : i < (isNumber L chars i).2 := by
  have := isNumberLoop_spec L chars (chars.drop i) i 0
  simp only [isNumber, decide_eq_true_eq] at h ⊢
  omega

theorem tokenizeLoop_total (L : FloatLib) (paramTypes : String → Option ValueType)
    (chars : List Char) (fuel : Nat) :
    ∀ (i : Nat) (tokens : List Token), chars.length ≤ fuel + i →
      ∃ r, tokenizeLoop L paramTypes chars chars.length fuel i tokens = some r := by
  induction fuel with
  | zero =>
    intro i tokens h
    rw [tokenizeLoop, if_neg (by omega)]
    exact ⟨_, rfl⟩
  | succ fuel ih =>
    intro i tokens h
    rw [tokenizeLoop]
    split
    next hlt =>
      have hget : chars[i]? = some chars[i] := List.getElem?_eq_getElem hlt
      rw [hget]
      simp only []
      split
      · exact ih _ _ (by omega)
      split
      · exact ih _ _ (by have := identLoop_ge (chars.drop (i + 1)) (i + 1); omega)
      split
      · exact ih _ _ (by omega)
      split
      · exact ih _ _ (by omega)
      split
      · exact ih _ _ (by omega)
      split
      · exact ih _ _ (by have := isLogicOp_ge chars i chars.length; omega)
      next hlo =>
        have h2 := isLogicOp_false chars i chars.length (by simpa using hlo)
        split
        next hnum =>
          exact ih _ _ (by
            have := isNumber_gt L chars _ hnum
            rw [h2] at this ⊢
            omega)
        · exact ⟨_, rfl⟩
    · exact ⟨_, rfl⟩

theorem tokenize_total (L : FloatLib) (input : String) (paramTypes : String → Option ValueType) :
    ∃ r, tokenize L input paramTypes = some r :=
  tokenizeLoop_total L paramTypes input.data input.data.length 0 [] (by omega)

theorem getTokenizedFormulasLoop_spec (L : FloatLib) (paramTypes : String → Option ValueType)
    (formulas : List Formula) :
    ∀ res : List tokenizedFormula,
      (∃ err, getTokenizedFormulasLoop L paramTypes formulas res = some (.error err) ∧
        ∃ f ∈ formulas, f.IsEnable = true ∧ tokenizedOf L paramTypes f = none) ∨
      (getTokenizedFormulasLoop L paramTypes formulas res =
          some (.ok (res ++ (formulas.filter (fun f => f.IsEnable)).filterMap
            (tokenizedOf L paramTypes))) ∧
        ∀ f ∈ formulas, f.IsEnable = true → ∃ tf, tokenizedOf L paramTypes f = some tf) := by
  induction formulas with
  | nil => intro res; right; simp [getTokenizedFormulasLoop]
  | cons f rest ih =>
    intro res
    rw [getTokenizedFormulasLoop]
    by_cases hen : f.IsEnable = true
    · simp only [hen, Bool.not_true, Bool.false_eq_true, if_false]
      obtain ⟨r, hr⟩ := tokenize_total L f.Expression paramTypes
      rw [hr]
      cases r with
      | error e =>
        left
        exact ⟨e, rfl, f, by simp, hen, by simp [tokenizedOf, hr]⟩
      | ok toks =>
        simp only []
        have hto : tokenizedOf L paramTypes f = some ⟨toks, f.Name, f.Version, f.Color⟩ := by
          simp [tokenizedOf, hr]
        rcases ih (res ++ [⟨toks, f.Name, f.Version, f.Color⟩]) with
          ⟨e, he, g, hg, hge, hgn⟩ | ⟨he, hall⟩
        · left
          exact ⟨e, he, g, by simp [hg], hge, hgn⟩
        · right
          refine ⟨?_, ?_⟩
          · rw [he]
            simp [List.filter_cons, hen, List.filterMap_cons, hto]
          · intro g hg hge
            rcases List.mem_cons.1 hg with rfl | hg
            · exact ⟨_, hto⟩
            · exact hall g hg hge
    · have hen' : f.IsEnable = false := by simpa using hen
      simp only [hen', Bool.not_false, if_true]
      rcases ih res with ⟨e, he, g, hg, hge, hgn⟩ | ⟨he, hall⟩
      · left
        exact ⟨e, he, g, by simp [hg], hge, hgn⟩
      · right
        refine ⟨?_, ?_⟩
        · rw [he]
          simp [List.filter_cons, hen']
        · intro g hg hge
          rcases List.mem_cons.1 hg with rfl | hg
          · rw [hen'] at hge; cases hge
          · exact hall g hg hge

theorem formulasLoop_spec (L : FloatLib) (rawSet : RawMessageSet)
    (tfs : List tokenizedFormula) :
    ∀ (resColor : Color) (result : FormulaResult),
      (∃ err, formulasLoop L rawSet tfs resColor result = some (.error err) ∧
        ∃ tf ∈ tfs, verdictOfTokens L tf.Tokens rawSet = none) ∨
      (formulasLoop L rawSet tfs resColor result =
          some (.ok (colorFold L rawSet tfs resColor, resultFold L rawSet tfs result)) ∧
        ∀ tf ∈ tfs, ∃ b, verdictOfTokens L tf.Tokens rawSet = some b) := by
  induction tfs with
  | nil => intro c m; right; simp [formulasLoop, colorFold, resultFold]
  | cons tf rest ih =>
    intro c m
    rw [formulasLoop]
    obtain ⟨r, hr⟩ := start_total L tf.Tokens rawSet
    rw [hr]
    cases r with
    | error e =>
      left
      exact ⟨e, rfl, tf, by simp, by simp [verdictOfTokens, hr]⟩
    | ok resToken =>
      simp only []
      cases hb : strconv.ParseBool resToken.Value with
      | none =>
        left
        exact ⟨_, rfl, tf, by simp, by simp [verdictOfTokens, hr, hb]⟩
      | some resValue =>
        simp only []
        have hv : verdictOfTokens L tf.Tokens rawSet = some resValue := by
          simp [verdictOfTokens, hr, hb]
        rcases ih (if resValue = true ∧ colorPrecedence tf.Color > colorPrecedence c
            then tf.Color else c) (m.set tf.Name ⟨tf.Version, tf.Color, resValue⟩) with
          ⟨e, he, g, hg, hgn⟩ | ⟨he, hall⟩
        · left
          exact ⟨e, he, g, by simp [hg], hgn⟩
        · right
          refine ⟨?_, ?_⟩
          · rw [he]
            simp [colorFold, resultFold, hv]
          · intro g hg
            rcases List.mem_cons.1 hg with rfl | hg
            · exact ⟨_, hv⟩
            · exact hall g hg

theorem rowsLoop_spec (L : FloatLib) (tfs : List tokenizedFormula)
    (rawSets : List RawMessageSet) :
    ∀ (resColor : Color) (formulaResults : List FormulaResult),
      (∃ err, rowsLoop L tfs rawSets resColor formulaResults = some (.error err) ∧
        ∃ rawSet ∈ rawSets, ∃ tf ∈ tfs, verdictOfTokens L tf.Tokens rawSet = none) ∨
      (rowsLoop L tfs rawSets resColor formulaResults =
          some (.ok (rowsColor L tfs rawSets resColor, rowsResults L tfs rawSets formulaResults)) ∧
        ∀ rawSet ∈ rawSets, ∀ tf ∈ tfs, ∃ b, verdictOfTokens L tf.Tokens rawSet = some b) := by
  induction rawSets with
  | nil => intro c m; right; simp [rowsLoop, rowsColor, rowsResults]
  | cons rawSet rest ih =>
    intro c m
    rw [rowsLoop]
    rcases formulasLoop_spec L rawSet tfs c [] with ⟨e, he, tf, htf, hn⟩ | ⟨he, hall⟩
    · rw [he]
      left
      exact ⟨e, rfl, rawSet, by simp, tf, htf, hn⟩
    · rw [he]
      simp only []
      have key : ∀ m', (∃ err, rowsLoop L tfs rest (colorFold L rawSet tfs c) m' =
            some (.error err) ∧
            ∃ rawSet ∈ rest, ∃ tf ∈ tfs, verdictOfTokens L tf.Tokens rawSet = none) ∨
          (rowsLoop L tfs rest (colorFold L rawSet tfs c) m' =
            some (.ok (rowsColor L tfs rest (colorFold L rawSet tfs c),
              rowsResults L tfs rest m')) ∧
            ∀ rawSet ∈ rest, ∀ tf ∈ tfs, ∃ b, verdictOfTokens L tf.Tokens rawSet = some b) :=
        fun m' => ih _ m'
      split
      next hpos =>
        rcases key (m ++ [resultFold L rawSet tfs []]) with ⟨e, he2, r, hr, x⟩ | ⟨he2, hall2⟩
        · left; exact ⟨e, he2, r, by simp [hr], x⟩
        · right
          refine ⟨?_, ?_⟩
          · rw [he2]; simp [rowsColor, rowsResults, hpos]
          · intro r hr
            rcases List.mem_cons.1 hr with rfl | hr
            · exact hall
            · exact hall2 r hr
      next hpos =>
        rcases key m with ⟨e, he2, r, hr, x⟩ | ⟨he2, hall2⟩
        · left; exact ⟨e, he2, r, by simp [hr], x⟩
        · right
          refine ⟨?_, ?_⟩
          · rw [he2]; simp [rowsColor, rowsResults, hpos]
          · intro r hr
            rcases List.mem_cons.1 hr with rfl | hr
            · exact hall
            · exact hall2 r hr


theorem colorFold_spec (L : FloatLib) (rawSet : RawMessageSet) (tfs : List tokenizedFormula) :
    ∀ c : Color,
      (colorFold L rawSet tfs c = c ∨
        ∃ tf ∈ tfs, verdictOfTokens L tf.Tokens rawSet = some true ∧
          colorFold L rawSet tfs c = tf.Color) ∧
      colorPrecedence c ≤ colorPrecedence (colorFold L rawSet tfs c) ∧
      ∀ tf ∈ tfs, verdictOfTokens L tf.Tokens rawSet = some true →
        colorPrecedence tf.Color ≤ colorPrecedence (colorFold L rawSet tfs c) := by
  induction tfs with
  | nil => intro c; simp [colorFold]
  | cons tf rest ih =>
    intro c
    rw [colorFold]
    by_cases hc : verdictOfTokens L tf.Tokens rawSet = some true ∧
        colorPrecedence tf.Color > colorPrecedence c
    · rw [if_pos hc]
      obtain ⟨h1, h2, h3⟩ := ih tf.Color
      refine ⟨?_, by omega, ?_⟩
      · right
        rcases h1 with h | ⟨g, hg, hv, he⟩
        · exact ⟨tf, by simp, hc.1, h⟩
        · exact ⟨g, by simp [hg], hv, he⟩
      · intro g hg hv
        rcases List.mem_cons.1 hg with rfl | hg
        · exact h2
        · exact h3 g hg hv
    · rw [if_neg hc]
      obtain ⟨h1, h2, h3⟩ := ih c
      refine ⟨?_, h2, ?_⟩
      · rcases h1 with h | ⟨g, hg, hv, he⟩
        · exact Or.inl h
        · exact Or.inr ⟨g, by simp [hg], hv, he⟩
      · intro g hg hv
        rcases List.mem_cons.1 hg with rfl | hg
        · have : ¬ colorPrecedence g.Color > colorPrecedence c := fun h => hc ⟨hv, h⟩
          omega
        · exact h3 g hg hv

theorem rowsColor_spec (L : FloatLib) (tfs : List tokenizedFormula)
    (rawSets : List RawMessageSet) :
    ∀ c : Color,
      (rowsColor L tfs rawSets c = c ∨
        ∃ rawSet ∈ rawSets, ∃ tf ∈ tfs, verdictOfTokens L tf.Tokens rawSet = some true ∧
          rowsColor L tfs rawSets c = tf.Color) ∧
      colorPrecedence c ≤ colorPrecedence (rowsColor L tfs rawSets c) ∧
      ∀ rawSet ∈ rawSets, ∀ tf ∈ tfs, verdictOfTokens L tf.Tokens rawSet = some true →
        colorPrecedence tf.Color ≤ colorPrecedence (rowsColor L tfs rawSets c) := by
  induction rawSets with
  | nil => intro c; simp [rowsColor]
  | cons rawSet rest ih =>
    intro c
    rw [rowsColor]
    obtain ⟨f1, f2, f3⟩ := colorFold_spec L rawSet tfs c
    obtain ⟨h1, h2, h3⟩ := ih (colorFold L rawSet tfs c)
    refine ⟨?_, by omega, ?_⟩
    · rcases h1 with h | ⟨r, hr, g, hg, hv, he⟩
      · rcases f1 with f | ⟨g, hg, hv, he⟩
        · left; rw [h, f]
        · right; exact ⟨rawSet, by simp, g, hg, hv, by rw [h, he]⟩
      · right; exact ⟨r, by simp [hr], g, hg, hv, he⟩
    · intro r hr g hg hv
      rcases List.mem_cons.1 hr with rfl | hr
      · have := f3 g hg hv
        omega
      · exact h3 r hr g hg hv

theorem colorPrecedence_pos (c : Color) (h : 1 ≤ colorPrecedence c) :
    c = GreyColor ∨ c = GreenColor ∨ c = YellowColor ∨ c = RedColor := by
  unfold colorPrecedence at h
  split at h
  · omega
  split at h
  · left; assumption
  split at h
  · right; left; assumption
  split at h
  · right; right; left; assumption
  split at h
  · right; right; right; assumption
  · omega

theorem tokenizedOf_eq (L : FloatLib) (paramTypes : String → Option ValueType) (f : Formula)
    (tf : tokenizedFormula) (h : tokenizedOf L paramTypes f = some tf) :
    tokenize L f.Expression paramTypes = some (.ok tf.Tokens) ∧ tf.Name = f.Name ∧
      tf.Version = f.Version ∧ tf.Color = f.Color ∧
      ∀ rawSet, verdict L paramTypes f rawSet = verdictOfTokens L tf.Tokens rawSet := by
  unfold tokenizedOf at h
  split at h
  next toks heq =>
    injection h with h
    subst h
    exact ⟨heq, rfl, rfl, rfl, fun r => by simp [verdict, heq]⟩
  · cases h

theorem verdict_none_of_tokenizedOf (L : FloatLib) (paramTypes : String → Option ValueType)
    (f : Formula) (rawSet : RawMessageSet) (h : tokenizedOf L paramTypes f = none) :
    verdict L paramTypes f rawSet = none := by
  unfold tokenizedOf at h
  unfold verdict
  split at h
  · cases h
  · rfl

theorem effectiveRows_ne_nil (rawSets : List RawMessageSet) : effectiveRows rawSets ≠ [] := by
  unfold effectiveRows
  split
  · simp
  next h => intro h2; rw [h2] at h; simp at h

/-- What `Calculate` returns: an error with `Black` and the nil slice, when an
enabled formula has no verdict for some row; otherwise the folded color and the
collected results. -/
theorem Calculate_spec (L : FloatLib) (formulas : List Formula) (rawSets : List RawMessageSet)
    (paramTypes : String → Option ValueType) :
    (∃ err, Calculate L formulas rawSets paramTypes = some ⟨BlackColor, none, some err⟩ ∧
      ∃ f ∈ formulas, f.IsEnable = true ∧ ∃ rawSet ∈ effectiveRows rawSets,
        verdict L paramTypes f rawSet = none) ∨
    (Calculate L formulas rawSets paramTypes =
        some ⟨rowsColor L ((formulas.filter (fun f => f.IsEnable)).filterMap
                (tokenizedOf L paramTypes)) (effectiveRows rawSets) GreyColor,
              some (rowsResults L ((formulas.filter (fun f => f.IsEnable)).filterMap
                (tokenizedOf L paramTypes)) (effectiveRows rawSets) []), none⟩ ∧
      (∀ f ∈ formulas, f.IsEnable = true → ∃ tf, tokenizedOf L paramTypes f = some tf) ∧
      ∀ f ∈ formulas, f.IsEnable = true → ∀ rawSet ∈ effectiveRows rawSets,
        ∃ b, verdict L paramTypes f rawSet = some b) := by
  rw [Calculate, getTokenizedFormulas]
  rcases getTokenizedFormulasLoop_spec L paramTypes formulas [] with
    ⟨e, he, f, hf, hen, hn⟩ | ⟨he, hall⟩
  · rw [he]
    left
    obtain ⟨r, hr⟩ := List.exists_mem_of_ne_nil _ (effectiveRows_ne_nil rawSets)
    exact ⟨e, rfl, f, hf, hen, r, hr, verdict_none_of_tokenizedOf L paramTypes f r hn⟩
  · rw [he]
    simp only [List.nil_append]
    have hrows : (if rawSets.length = 0 then [nilRawSet] else rawSets) = effectiveRows rawSets :=
      rfl
    rw [hrows]
    rcases rowsLoop_spec L _ (effectiveRows rawSets) GreyColor [] with
      ⟨e, he2, r, hr, tf, htf, hn⟩ | ⟨he2, hall2⟩
    · rw [he2]
      left
      obtain ⟨f, hf, hto⟩ := List.mem_filterMap.1 htf
      have hf' := List.mem_filter.1 hf
      refine ⟨e, rfl, f, hf'.1, by simpa using hf'.2, r, hr, ?_⟩
      rw [(tokenizedOf_eq L paramTypes f tf hto).2.2.2.2 r]
      exact hn
    · rw [he2]
      right
      refine ⟨rfl, hall, ?_⟩
      intro f hf hen r hr
      obtain ⟨tf, hto⟩ := hall f hf hen
      rw [(tokenizedOf_eq L paramTypes f tf hto).2.2.2.2 r]
      exact hall2 r hr tf (List.mem_filterMap.2 ⟨f, List.mem_filter.2 ⟨hf, by simpa using hen⟩, hto⟩)

/-! ## The batch driver -/

/-- C1: for every formula list, row list and type table `Calculate` returns;
its color is Black exactly when its error is non-nil, an error comes with the
nil result slice, and on success the color is Grey, Green, Yellow or Red. -/
theorem C1_black_iff_error (L : FloatLib) (formulas : List Formula)
    (rawSets : List RawMessageSet) (paramTypes : String → Option ValueType) :
    ∃ o, Calculate L formulas rawSets paramTypes = some o ∧
      (o.color = BlackColor ↔ o.err ≠ none) ∧
      (o.err ≠ none → o.results = none) ∧
      (o.err = none → o.color = GreyColor ∨ o.color = GreenColor ∨ o.color = YellowColor ∨
        o.color = RedColor) := by
  rcases Calculate_spec L formulas rawSets paramTypes with ⟨e, he, _⟩ | ⟨he, _, _⟩
  · exact ⟨_, he, by simp, by simp, by simp⟩
  · refine ⟨_, he, ?_⟩
    have hge := (rowsColor_spec L ((formulas.filter (fun f => f.IsEnable)).filterMap
      (tokenizedOf L paramTypes)) (effectiveRows rawSets) GreyColor).2.1
    have h1 : (1 : Int) ≤ colorPrecedence GreyColor := by decide
    have hpos := colorPrecedence_pos _ (Int.le_trans h1 hge)
    refine ⟨?_, by simp, fun _ => hpos⟩
    simp only [ne_eq, not_true_eq_false, iff_false]
    intro hb
    rw [hb] at hge
    have : colorPrecedence BlackColor = 0 := by decide
    omega

/-- C2: when `Calculate` succeeds its color is Grey or the color of an enabled
formula with a true verdict for some row, and no such color (nor Grey) ranks
higher; so it is Grey when no verdict is true, and Red as soon as a Red
formula is true for one row. -/
theorem C2_aggregate_is_highest (L : FloatLib) (formulas : List Formula)
    (rawSets : List RawMessageSet) (paramTypes : String → Option ValueType) (o : Outcome)
    (h : Calculate L formulas rawSets paramTypes = some o) (hs : o.err = none) :
    (o.color = GreyColor ∨ ∃ f ∈ formulas, f.IsEnable = true ∧ o.color = f.Color ∧
        ∃ rawSet ∈ effectiveRows rawSets, verdict L paramTypes f rawSet = some true) ∧
    colorPrecedence GreyColor ≤ colorPrecedence o.color ∧
    (∀ f ∈ formulas, f.IsEnable = true →
      (∃ rawSet ∈ effectiveRows rawSets, verdict L paramTypes f rawSet = some true) →
      colorPrecedence f.Color ≤ colorPrecedence o.color) ∧
    ((∀ f ∈ formulas, f.IsEnable = true → ∀ rawSet ∈ effectiveRows rawSets,
        verdict L paramTypes f rawSet ≠ some true) → o.color = GreyColor) ∧
    ((∃ f ∈ formulas, f.IsEnable = true ∧ f.Color = RedColor ∧
        ∃ rawSet ∈ effectiveRows rawSets, verdict L paramTypes f rawSet = some true) →
      o.color = RedColor) := by
  rcases Calculate_spec L formulas rawSets paramTypes with ⟨e, he, _⟩ | ⟨he, hall, _⟩
  · rw [he] at h
    injection h with h
    subst h
    cases hs
  rw [he] at h
  injection h with h
  subst h
  simp only []
  obtain ⟨h1, h2, h3⟩ := rowsColor_spec L ((formulas.filter (fun f => f.IsEnable)).filterMap
      (tokenizedOf L paramTypes)) (effectiveRows rawSets) GreyColor
  have hmem : True → (rowsColor L ((formulas.filter (fun f => f.IsEnable)).filterMap
      (tokenizedOf L paramTypes)) (effectiveRows rawSets) GreyColor = GreyColor ∨
      ∃ f ∈ formulas, f.IsEnable = true ∧ rowsColor L ((formulas.filter
        (fun f => f.IsEnable)).filterMap (tokenizedOf L paramTypes)) (effectiveRows rawSets)
        GreyColor = f.Color ∧
        ∃ rawSet ∈ effectiveRows rawSets, verdict L paramTypes f rawSet = some true) := by
    intro _
    rcases h1 with h | ⟨r, hr, tf, htf, hv, hc⟩
    · exact Or.inl h
    · right
      obtain ⟨f, hf, hto⟩ := List.mem_filterMap.1 htf
      have hf' := List.mem_filter.1 hf
      obtain ⟨_, _, _, hcol, hver⟩ := tokenizedOf_eq L paramTypes f tf hto
      exact ⟨f, hf'.1, by simpa using hf'.2, by rw [hc, hcol], r, hr, by rw [hver r]; exact hv⟩
  have hmax : ∀ f ∈ formulas, f.IsEnable = true →
      (∃ rawSet ∈ effectiveRows rawSets, verdict L paramTypes f rawSet = some true) →
      colorPrecedence f.Color ≤ colorPrecedence (rowsColor L ((formulas.filter
        (fun f => f.IsEnable)).filterMap (tokenizedOf L paramTypes)) (effectiveRows rawSets)
        GreyColor) := by
    intro f hf hen ⟨r, hr, hv⟩
    obtain ⟨tf, hto⟩ := hall f hf hen
    obtain ⟨_, _, _, hcol, hver⟩ := tokenizedOf_eq L paramTypes f tf hto
    rw [← hcol]
    refine h3 r hr tf (List.mem_filterMap.2 ⟨f, List.mem_filter.2 ⟨hf, by simpa using hen⟩, hto⟩) ?_
    rw [← hver r]; exact hv
  refine ⟨hmem trivial, h2, hmax, ?_, ?_⟩
  · intro hno
    rcases hmem trivial with h | ⟨f, hf, hen, _, r, hr, hv⟩
    · exact h
    · exact absurd hv (hno f hf hen r hr)
  · rintro ⟨f, hf, hen, hred, hex⟩
    have hle := hmax f hf hen hex
    rw [hred] at hle
    have h4 : colorPrecedence RedColor = 4 := by decide
    have hpos := colorPrecedence_pos _ (by
      have : (1 : Int) ≤ colorPrecedence GreyColor := by decide
      exact Int.le_trans this h2)
    rcases hpos with h | h | h | h
    · rw [h] at hle; exact absurd hle (by decide)
    · rw [h] at hle; exact absurd hle (by decide)
    · rw [h] at hle; exact absurd hle (by decide)
    · exact h

theorem C2_aggregate_is_highest_witness :
    Calculate decimalLib testFormulas testRows testTypes = some testOutcome ∧
    colorPrecedence GreyColor ≤ colorPrecedence testOutcome.color :=
  ⟨by decide!, (C2_aggregate_is_highest decimalLib testFormulas testRows testTypes testOutcome
    (by decide!) rfl).2.1⟩

theorem getTokenizedFormulasLoop_filter (L : FloatLib) (paramTypes : String → Option ValueType)
    (formulas : List Formula) :
    ∀ res, getTokenizedFormulasLoop L paramTypes (formulas.filter (fun f => f.IsEnable)) res =
      getTokenizedFormulasLoop L paramTypes formulas res := by
  induction formulas with
  | nil => intro res; rfl
  | cons f rest ih =>
    intro res
    by_cases hen : f.IsEnable = true
    · rw [List.filter_cons_of_pos (by simpa using hen)]
      rw [getTokenizedFormulasLoop, getTokenizedFormulasLoop]
      simp only [hen, Bool.not_true, Bool.false_eq_true, if_false]
      cases tokenize L f.Expression paramTypes with
      | none => rfl
      | some r =>
        cases r with
        | error e => rfl
        | ok toks => exact ih _
    · rw [List.filter_cons_of_neg (by simpa using hen)]
      have hen' : f.IsEnable = false := by simpa using hen
      conv_rhs => rw [getTokenizedFormulasLoop]
      simp only [hen', Bool.not_false, if_true]
      exact ih res

/-- C4: `Calculate` returns the same color, results and error on a formula list
as on the list without its disabled formulas; in particular removing one
disabled formula, whatever its expression, changes nothing. -/
theorem C4_disabled_formulas_ignored (L : FloatLib) (formulas : List Formula)
    (rawSets : List RawMessageSet) (paramTypes : String → Option ValueType) :
    Calculate L formulas rawSets paramTypes =
        Calculate L (formulas.filter (fun f => f.IsEnable)) rawSets paramTypes ∧
    ∀ (pre post : List Formula) (f : Formula), f.IsEnable = false →
      formulas = pre ++ f :: post →
      Calculate L formulas rawSets paramTypes = Calculate L (pre ++ post) rawSets paramTypes := by
  have key : ∀ fs : List Formula, Calculate L fs rawSets paramTypes =
      Calculate L (fs.filter (fun f => f.IsEnable)) rawSets paramTypes := by
    intro fs
    simp only [Calculate, getTokenizedFormulas, getTokenizedFormulasLoop_filter]
  refine ⟨key formulas, ?_⟩
  intro pre post f hf hfs
  rw [key formulas, key (pre ++ post), hfs]
  simp [List.filter_append, List.filter_cons, hf]

/-- C4 at a concrete input: a disabled formula whose expression cannot even be
tokenized, in front of the enabled formula `1 = 1`. -/
theorem C4_disabled_formulas_ignored_witness :
    Calculate decimalLib
        [⟨"off", "@ ( exists", RedColor, 1, false⟩, ⟨"on", "1 = 1", GreenColor, 2, true⟩]
        [] (fun _ => none) =
      Calculate decimalLib [⟨"on", "1 = 1", GreenColor, 2, true⟩] [] (fun _ => none) ∧
    Calculate decimalLib [⟨"on", "1 = 1", GreenColor, 2, true⟩] [] (fun _ => none) =
      some ⟨GreenColor, some [[("on", ⟨2, GreenColor, true⟩)]], none⟩ ∧
    tokenize decimalLib "@ ( exists" (fun _ => none) = some (.error (.InvalidTokenError 0)) :=
  ⟨(C4_disabled_formulas_ignored decimalLib
      [⟨"off", "@ ( exists", RedColor, 1, false⟩, ⟨"on", "1 = 1", GreenColor, 2, true⟩]
      [] (fun _ => none)).2 [] [⟨"on", "1 = 1", GreenColor, 2, true⟩]
      ⟨"off", "@ ( exists", RedColor, 1, false⟩ rfl rfl,
    by decide!, by decide!⟩

theorem start_eq (L : FloatLib) (tokens : List Token) (rawSet : RawMessageSet) :
    (newParser tokens rawSet).start L =
      match calcTokensOf tokens rawSet with
      | some c => some (parser.calculation L c rawSet)
      | none => some (.error (.ParseError errSyntax)) := by
  have hwf := newParser_wf tokens rawSet
  have hrest := newParser_rest tokens rawSet
  rw [parser.start, calcTokensOf]
  rcases parser.checkNext_cases _ hwf (parser.LogicExp (newParser tokens rawSet).fuel)
    with ⟨_, hc⟩ | ⟨_, hc⟩
  · rw [hc]
  rw [hc]
  obtain ⟨b, n, c, he, hn, hd⟩ := (logic_spec (newParser tokens rawSet).fuel).2.1 _ hwf (by
    rw [hrest]; simp [parser.fuel, newParser])
  rw [he]
  cases b with
  | false => rfl
  | true =>
    simp only []
    split
    · rfl
    · simp [parser.move, newParser]

theorem calcTokensOf_derives (tokens : List Token) (rawSet : RawMessageSet) (c : List Token)
    (h : calcTokensOf tokens rawSet = some c) : Derives rawSet NT.LogicExp tokens c := by
  have hwf := newParser_wf tokens rawSet
  have hrest := newParser_rest tokens rawSet
  rw [calcTokensOf] at h
  rcases parser.checkNext_cases _ hwf (parser.LogicExp (newParser tokens rawSet).fuel)
    with ⟨_, hc⟩ | ⟨_, hc⟩
  · rw [hc] at h; cases h
  rw [hc] at h
  obtain ⟨b, n, c', he, hn, hd⟩ := (logic_spec (newParser tokens rawSet).fuel).2.1 _ hwf (by
    rw [hrest]; simp [parser.fuel, newParser])
  rw [he] at h
  cases b with
  | false => cases h
  | true =>
    simp only [] at h
    split at h
    · cases h
    next hend =>
      rw [hrest] at hn hd
      have hnl : n = tokens.length := by
        simp only [parser.move, newParser, ne_eq, not_not] at hend
        omega
      obtain ⟨c0, hd0, hcl⟩ := hd rfl
      rw [hnl, List.take_length] at hd0
      rw [hnl, List.drop_length] at hcl
      have hcc : c' = c0 := by
        rcases hcl with h | ⟨_, _, h, _⟩
        · exact h
        · cases h
      subst hcc
      have : c = c' := by
        simp only [parser.move, newParser, List.nil_append, Option.some.injEq] at h
        exact h.symm
      subst this
      exact hd0

theorem Calculate_fails_of_verdict_none (L : FloatLib) (formulas : List Formula)
    (rawSets : List RawMessageSet) (paramTypes : String → Option ValueType)
    (f : Formula) (hf : f ∈ formulas) (hen : f.IsEnable = true)
    (rawSet : RawMessageSet) (hr : rawSet ∈ effectiveRows rawSets)
    (hv : verdict L paramTypes f rawSet = none) :
    ∃ err, Calculate L formulas rawSets paramTypes = some ⟨BlackColor, none, some err⟩ := by
  rcases Calculate_spec L formulas rawSets paramTypes with ⟨e, he, _⟩ | ⟨_, _, hall⟩
  · exact ⟨e, he⟩
  · obtain ⟨b, hb⟩ := hall f hf hen rawSet hr
    rw [hv] at hb
    cases hb

theorem verdict_none_of_rejected (L : FloatLib) (paramTypes : String → Option ValueType)
    (f : Formula) (toks : List Token) (rawSet : RawMessageSet)
    (ht : tokenize L f.Expression paramTypes = some (.ok toks))
    (hs : (newParser toks rawSet).start L = some (.error (.ParseError errSyntax))) :
    verdict L paramTypes f rawSet = none := by
  simp [verdict, ht, verdictOfTokens, hs]

theorem bracketDepth_lbr (t : Token) (rest : List Token) (d : Nat) (h : t.Type_ = LBR) :
    bracketDepth (t :: rest) d = bracketDepth rest (d + 1) := by
  rw [bracketDepth.eq_def]; simp [h]

theorem bracketDepth_rbr (t : Token) (rest : List Token) (d : Nat) (h : t.Type_ = RBR) :
    bracketDepth (t :: rest) (d + 1) = bracketDepth rest d := by
  rw [bracketDepth.eq_def]; simp [h]

theorem bracketDepth_other (t : Token) (rest : List Token) (d : Nat) (h1 : t.Type_ ≠ LBR)
    (h2 : t.Type_ ≠ RBR) : bracketDepth (t :: rest) d = bracketDepth rest d := by
  rw [bracketDepth.eq_def]; simp [h1, h2]

theorem Derives_bracketDepth (rawSet : RawMessageSet) (X : NT) (seg c : List Token)
    (h : Derives rawSet X seg c) :
    ∀ (rest : List Token) (d : Nat), bracketDepth (seg ++ rest) d = bracketDepth rest d := by
  induction h with
  | num t ht =>
    intro rest d
    exact bracketDepth_other t rest d (by rw [ht]; decide) (by rw [ht]; decide)
  | ident t ht =>
    intro rest d
    exact bracketDepth_other t rest d (by rw [ht]; decide) (by rw [ht]; decide)
  | arithBr l r e c hl _ hr ih =>
    intro rest d
    simp only [List.cons_append, List.append_assoc]
    rw [bracketDepth_lbr _ _ _ hl, ih, List.nil_append, bracketDepth_rbr _ _ _ hr]
  | arithNil => intro rest d; rfl
  | arithMore o t ct e ce ho _ _ ih1 ih2 =>
    intro rest d
    simp only [List.cons_append, List.append_assoc]
    rw [bracketDepth_other _ _ _ (by rw [ho]; decide) (by rw [ho]; decide), ih1, ih2]
  | arithExp t ct e ce _ _ ih1 ih2 =>
    intro rest d
    rw [List.append_assoc, ih1, ih2]
  | bool t ht =>
    intro rest d
    exact bracketDepth_other t rest d (by rw [ht]; decide) (by rw [ht]; decide)
  | existsCall k l x r hk hl hx hr =>
    intro rest d
    show bracketDepth (k :: l :: x :: r :: rest) d = _
    rw [bracketDepth_other _ _ _ (by rw [hk]; decide) (by rw [hk]; decide),
      bracketDepth_lbr _ _ _ hl,
      bracketDepth_other _ _ _ (by rw [hx]; decide) (by rw [hx]; decide),
      bracketDepth_rbr _ _ _ hr]
  | arith e c _ ih => exact ih
  | logicBr l r e c hl _ hr ih =>
    intro rest d
    simp only [List.cons_append, List.append_assoc]
    rw [bracketDepth_lbr _ _ _ hl, ih, List.nil_append, bracketDepth_rbr _ _ _ hr]
  | logicNil => intro rest d; rfl
  | logicMore o t ct e ce ho _ _ ih1 ih2 =>
    intro rest d
    have h1 : o.Type_ ≠ LBR := by rcases ho with h | h <;> rw [h] <;> decide
    have h2 : o.Type_ ≠ RBR := by rcases ho with h | h <;> rw [h] <;> decide
    simp only [List.cons_append, List.append_assoc]
    rw [bracketDepth_other _ _ _ h1 h2, ih1, ih2]
  | logicExp t ct e ce _ _ ih1 ih2 =>
    intro rest d
    rw [List.append_assoc, ih1, ih2]

theorem bracketDepth_count (tokens : List Token) :
    ∀ d d' : Nat, bracketDepth tokens d = some d' →
      d + tokens.countP (fun t => t.Type_ = LBR) = d' + tokens.countP (fun t => t.Type_ = RBR) := by
  induction tokens with
  | nil => intro d d' h; simp [bracketDepth] at h; simp [h]
  | cons t rest ih =>
    intro d d' h
    by_cases hl : t.Type_ = LBR
    · rw [bracketDepth_lbr _ _ _ hl] at h
      have := ih _ _ h
      have hr : ¬ t.Type_ = RBR := by rw [hl]; decide
      simp only [List.countP_cons, hl, hr, decide_True, decide_False, if_true]
      simp
      omega
    · by_cases hr : t.Type_ = RBR
      · cases d with
        | zero => rw [bracketDepth.eq_def] at h; simp [hl, hr] at h
        | succ d =>
          rw [bracketDepth_rbr _ _ _ hr] at h
          have := ih _ _ h
          simp only [List.countP_cons, hl, hr, decide_True, decide_False, if_true]
          simp
          omega
      · rw [bracketDepth_other _ _ _ hl hr] at h
        have := ih _ _ h
        simp only [List.countP_cons, hl, hr, decide_False]
        simp
        omega

theorem Derives_balanced (rawSet : RawMessageSet) (X : NT) (seg c : List Token)
    (h : Derives rawSet X seg c) :
    balanced seg = true ∧
      seg.countP (fun t => t.Type_ = LBR) = seg.countP (fun t => t.Type_ = RBR) := by
  have h1 := Derives_bracketDepth rawSet X seg c h [] 0
  simp only [List.append_nil, bracketDepth] at h1
  refine ⟨by simp [balanced, h1], ?_⟩
  have := bracketDepth_count seg 0 0 h1
  omega

theorem existsCallsOK_cons_of_ne (t : Token) (rest : List Token) (h : t.Type_ ≠ EXISTS_FUNC) :
    existsCallsOK (t :: rest) = existsCallsOK rest := by
  simp [existsCallsOK, h]

theorem Derives_existsCallsOK (rawSet : RawMessageSet) (X : NT) (seg c : List Token)
    (h : Derives rawSet X seg c) :
    ∀ rest : List Token, existsCallsOK rest = true → existsCallsOK (seg ++ rest) = true := by
  induction h with
  | num t ht =>
    intro rest hr
    rw [List.singleton_append, existsCallsOK_cons_of_ne _ _ (by rw [ht]; decide)]; exact hr
  | ident t ht =>
    intro rest hr
    rw [List.singleton_append, existsCallsOK_cons_of_ne _ _ (by rw [ht]; decide)]; exact hr
  | arithBr l r e c hl _ hr ih =>
    intro rest hrest
    simp only [List.cons_append, List.append_assoc]
    rw [existsCallsOK_cons_of_ne _ _ (by rw [hl]; decide)]
    apply ih
    rw [List.nil_append, existsCallsOK_cons_of_ne _ _ (by rw [hr]; decide)]; exact hrest
  | arithNil => intro rest hr; exact hr
  | arithMore o t ct e ce ho _ _ ih1 ih2 =>
    intro rest hr
    simp only [List.cons_append, List.append_assoc]
    rw [existsCallsOK_cons_of_ne _ _ (by rw [ho]; decide)]
    exact ih1 _ (ih2 _ hr)
  | arithExp t ct e ce _ _ ih1 ih2 =>
    intro rest hr
    rw [List.append_assoc]
    exact ih1 _ (ih2 _ hr)
  | bool t ht =>
    intro rest hr
    rw [List.singleton_append, existsCallsOK_cons_of_ne _ _ (by rw [ht]; decide)]; exact hr
  | existsCall k l x r hk hl hx hr =>
    intro rest hrest
    simp [existsCallsOK, hk, hl, hx, hr, hrest]
  | arith e c _ ih => exact ih
  | logicBr l r e c hl _ hr ih =>
    intro rest hrest
    simp only [List.cons_append, List.append_assoc]
    rw [existsCallsOK_cons_of_ne _ _ (by rw [hl]; decide)]
    apply ih
    rw [List.nil_append, existsCallsOK_cons_of_ne _ _ (by rw [hr]; decide)]; exact hrest
  | logicNil => intro rest hr; exact hr
  | logicMore o t ct e ce ho _ _ ih1 ih2 =>
    intro rest hr
    simp only [List.cons_append, List.append_assoc]
    rw [existsCallsOK_cons_of_ne _ _ (by rcases ho with h | h <;> rw [h] <;> decide)]
    exact ih1 _ (ih2 _ hr)
  | logicExp t ct e ce _ _ ih1 ih2 =>
    intro rest hr
    rw [List.append_assoc]
    exact ih1 _ (ih2 _ hr)

theorem start_syntax_error_of_not_derives (L : FloatLib) (tokens : List Token)
    (rawSet : RawMessageSet) (h : ∀ c, ¬ Derives rawSet NT.LogicExp tokens c) :
    (newParser tokens rawSet).start L = some (.error (.ParseError errSyntax)) := by
  rcases start_spec L tokens rawSet with hs | ⟨c, hd, _⟩
  · exact hs
  · exact absurd hd (h c)

theorem existsCallsOK_followers (tokens : List Token) (h : existsCallsOK tokens = true) :
    ∀ (pre : List Token) (k : Token) (post : List Token), tokens = pre ++ k :: post →
      k.Type_ = EXISTS_FUNC →
      ∃ l x r tl, post = l :: x :: r :: tl ∧ l.Type_ = LBR ∧ x.Type_ = IDENT ∧ r.Type_ = RBR := by
  induction tokens with
  | nil => intro pre k post h2; cases pre <;> cases h2
  | cons t rest ih =>
    intro pre k post h2 hk
    cases pre with
    | nil =>
      simp only [List.nil_append, List.cons.injEq] at h2
      obtain ⟨rfl, rfl⟩ := h2
      rcases rest with _ | ⟨l, _ | ⟨x, _ | ⟨r, tl⟩⟩⟩
      · simp [existsCallsOK, hk] at h
      · simp [existsCallsOK, hk] at h
      · simp [existsCallsOK, hk] at h
      · simp only [existsCallsOK, hk, ne_eq, not_true_eq_false, decide_False, Bool.false_or,
          Bool.and_eq_true, decide_eq_true_eq] at h
        exact ⟨l, x, r, tl, rfl, h.1.1.1, h.1.1.2, h.1.2⟩
    | cons p pre =>
      simp only [List.cons_append, List.cons.injEq] at h2
      have h' : existsCallsOK rest = true := by
        unfold existsCallsOK at h
        rw [Bool.and_eq_true] at h
        exact h.2
      exact ih h' pre k post h2.2 hk

/-- C8: a token sequence with an `exists` keyword token that is not
immediately followed by `(`, one identifier token and `)` is rejected by the
grammar parser with the syntax error, for every row; and `Calculate` on a
formula list with an enabled formula that tokenizes to such a sequence returns
an error, Black and the nil slice. -/
theorem C8_exists_misuse_rejected (L : FloatLib) (tokens : List Token)
    (h : ∃ pre k post, tokens = pre ++ k :: post ∧ k.Type_ = EXISTS_FUNC ∧
      ¬ ∃ l x r tl, post = l :: x :: r :: tl ∧ l.Type_ = LBR ∧ x.Type_ = IDENT ∧ r.Type_ = RBR) :
    (∀ rawSet, (newParser tokens rawSet).start L = some (.error (.ParseError errSyntax))) ∧
    ∀ (formulas : List Formula) (rawSets : List RawMessageSet)
      (paramTypes : String → Option ValueType) (f : Formula), f ∈ formulas → f.IsEnable = true →
      tokenize L f.Expression paramTypes = some (.ok tokens) →
      ∃ err, Calculate L formulas rawSets paramTypes = some ⟨BlackColor, none, some err⟩ := by
  obtain ⟨pre, k, post, hdec, hk, hno⟩ := h
  have hsyn : ∀ rawSet, (newParser tokens rawSet).start L =
      some (.error (.ParseError errSyntax)) := by
    intro rawSet
    apply start_syntax_error_of_not_derives
    intro c hd
    have hok := Derives_existsCallsOK rawSet _ _ _ hd [] rfl
    rw [List.append_nil] at hok
    exact hno (existsCallsOK_followers tokens hok pre k post hdec hk)
  refine ⟨hsyn, ?_⟩
  intro formulas rawSets paramTypes f hf hen ht
  obtain ⟨r, hr⟩ := List.exists_mem_of_ne_nil _ (effectiveRows_ne_nil rawSets)
  exact Calculate_fails_of_verdict_none L formulas rawSets paramTypes f hf hen r hr
    (verdict_none_of_rejected L paramTypes f tokens r ht (hsyn r))

theorem C8_exists_misuse_rejected_witness :
    (newParser [⟨EXISTS_FUNC, "exists", ""⟩, ⟨LBR, "(", ""⟩, ⟨NUMBER, "5", NUMBER_TYPE⟩,
        ⟨RBR, ")", ""⟩] nilRawSet).start decimalLib = some (.error (.ParseError errSyntax)) ∧
    (∃ err, Calculate decimalLib [⟨"formula_1", "exists(5)", RedColor, 0, true⟩] testRows
      testTypes = some ⟨BlackColor, none, some err⟩) ∧
    (∃ err, Calculate decimalLib [⟨"formula_1", "exists(true)", RedColor, 0, true⟩] testRows
      testTypes = some ⟨BlackColor, none, some err⟩) ∧
    (∃ err, Calculate decimalLib [⟨"formula_1", "exists x", RedColor, 0, true⟩] testRows
      testTypes = some ⟨BlackColor, none, some err⟩) ∧
    (∃ err, Calculate decimalLib [⟨"formula_1", "exists(a+b)", RedColor, 0, true⟩] testRows
      testTypes = some ⟨BlackColor, none, some err⟩) :=
  ⟨(C8_exists_misuse_rejected decimalLib
      [⟨EXISTS_FUNC, "exists", ""⟩, ⟨LBR, "(", ""⟩, ⟨NUMBER, "5", NUMBER_TYPE⟩, ⟨RBR, ")", ""⟩]
      ⟨[], ⟨EXISTS_FUNC, "exists", ""⟩, [⟨LBR, "(", ""⟩, ⟨NUMBER, "5", NUMBER_TYPE⟩,
        ⟨RBR, ")", ""⟩], rfl, rfl, by simp⟩).1 nilRawSet,
    (C8_exists_misuse_rejected decimalLib
      [⟨EXISTS_FUNC, "exists", ""⟩, ⟨LBR, "(", ""⟩, ⟨NUMBER, "5", NUMBER_TYPE⟩, ⟨RBR, ")", ""⟩]
      ⟨[], ⟨EXISTS_FUNC, "exists", ""⟩, [⟨LBR, "(", ""⟩, ⟨NUMBER, "5", NUMBER_TYPE⟩,
        ⟨RBR, ")", ""⟩], rfl, rfl, by simp⟩).2 _ testRows testTypes
        ⟨"formula_1", "exists(5)", RedColor, 0, true⟩ (by simp) rfl (by decide!),
    (C8_exists_misuse_rejected decimalLib
      [⟨EXISTS_FUNC, "exists", ""⟩, ⟨LBR, "(", ""⟩, ⟨BOOL, "true", BOOL_TYPE⟩, ⟨RBR, ")", ""⟩]
      ⟨[], ⟨EXISTS_FUNC, "exists", ""⟩, [⟨LBR, "(", ""⟩, ⟨BOOL, "true", BOOL_TYPE⟩,
        ⟨RBR, ")", ""⟩], rfl, rfl, by simp⟩).2 _ testRows testTypes
        ⟨"formula_1", "exists(true)", RedColor, 0, true⟩ (by simp) rfl (by decide!),
    (C8_exists_misuse_rejected decimalLib
      [⟨EXISTS_FUNC, "exists", ""⟩, ⟨IDENT, "x", UNKNOWN_TYPE⟩]
      ⟨[], ⟨EXISTS_FUNC, "exists", ""⟩, [⟨IDENT, "x", UNKNOWN_TYPE⟩], rfl, rfl,
        by simp⟩).2 _ testRows testTypes
        ⟨"formula_1", "exists x", RedColor, 0, true⟩ (by simp) rfl (by decide!),
    (C8_exists_misuse_rejected decimalLib
      [⟨EXISTS_FUNC, "exists", ""⟩, ⟨LBR, "(", ""⟩, ⟨IDENT, "a", UNKNOWN_TYPE⟩,
        ⟨ARITH_OP, "+", ""⟩, ⟨IDENT, "b", UNKNOWN_TYPE⟩, ⟨RBR, ")", ""⟩]
      ⟨[], ⟨EXISTS_FUNC, "exists", ""⟩, [⟨LBR, "(", ""⟩, ⟨IDENT, "a", UNKNOWN_TYPE⟩,
        ⟨ARITH_OP, "+", ""⟩, ⟨IDENT, "b", UNKNOWN_TYPE⟩, ⟨RBR, ")", ""⟩], rfl, rfl,
        by simp⟩).2 _ testRows testTypes
        ⟨"formula_1", "exists(a+b)", RedColor, 0, true⟩ (by simp) rfl (by decide!)⟩

/-- C9: a token sequence whose brackets are not balanced and properly nested,
in particular one with different numbers of `(` and `)` tokens, is rejected by
the grammar parser with the syntax error, for every row; and `Calculate` on a
formula list with an enabled formula that tokenizes to such a sequence returns
an error, Black and the nil slice. -/
theorem C9_unbalanced_brackets_rejected (L : FloatLib) (tokens : List Token)
    (h : balanced tokens = false ∨
      tokens.countP (fun t => t.Type_ = LBR) ≠ tokens.countP (fun t => t.Type_ = RBR)) :
    (∀ rawSet, (newParser tokens rawSet).start L = some (.error (.ParseError errSyntax))) ∧
    ∀ (formulas : List Formula) (rawSets : List RawMessageSet)
      (paramTypes : String → Option ValueType) (f : Formula), f ∈ formulas → f.IsEnable = true →
      tokenize L f.Expression paramTypes = some (.ok tokens) →
      ∃ err, Calculate L formulas rawSets paramTypes = some ⟨BlackColor, none, some err⟩ := by
  have hsyn : ∀ rawSet, (newParser tokens rawSet).start L =
      some (.error (.ParseError errSyntax)) := by
    intro rawSet
    apply start_syntax_error_of_not_derives
    intro c hd
    obtain ⟨hb, hc⟩ := Derives_balanced rawSet _ _ _ hd
    rcases h with h | h
    · rw [hb] at h; cases h
    · exact h hc
  refine ⟨hsyn, ?_⟩
  intro formulas rawSets paramTypes f hf hen ht
  obtain ⟨r, hr⟩ := List.exists_mem_of_ne_nil _ (effectiveRows_ne_nil rawSets)
  exact Calculate_fails_of_verdict_none L formulas rawSets paramTypes f hf hen r hr
    (verdict_none_of_rejected L paramTypes f tokens r ht (hsyn r))

theorem C9_unbalanced_brackets_rejected_witness :
    tokenize decimalLib "exists(s2001 = false" testTypes =
      some (.ok [⟨EXISTS_FUNC, "exists", ""⟩, ⟨LBR, "(", ""⟩, ⟨IDENT, "s2001", NUMBER_TYPE⟩,
        ⟨COMP_OP, "=", ""⟩, ⟨BOOL, "false", BOOL_TYPE⟩]) ∧
    ∃ err, Calculate decimalLib [⟨"formula_1", "exists(s2001 = false", RedColor, 0, true⟩]
      testRows testTypes = some ⟨BlackColor, none, some err⟩ :=
  ⟨by decide!,
    (C9_unbalanced_brackets_rejected decimalLib
      [⟨EXISTS_FUNC, "exists", ""⟩, ⟨LBR, "(", ""⟩, ⟨IDENT, "s2001", NUMBER_TYPE⟩,
        ⟨COMP_OP, "=", ""⟩, ⟨BOOL, "false", BOOL_TYPE⟩] (Or.inl (by decide))).2 _ testRows
      testTypes ⟨"formula_1", "exists(s2001 = false", RedColor, 0, true⟩ (by simp) rfl
      (by decide!)⟩

theorem evalLoop_append (L : FloatLib) (knownParams : RawMessageSet) (pre rest : List Token) :
    ∀ st : TokenStack, evalLoop L knownParams (pre ++ rest) st =
      match evalLoop L knownParams pre st with
      | .error err => .error err
      | .ok st' => evalLoop L knownParams rest st' := by
  induction pre with
  | nil => intro st; rfl
  | cons t pre ih =>
    intro st
    rw [List.cons_append, evalLoop, evalLoop]
    cases t.Type_ with
    | LOG_OP | COMP_OP | ARITH_OP =>
      simp only []
      cases operatorFuncs L t.Value with
      | none => rfl
      | some opFunc =>
        simp only []
        cases opFunc (TokenStack.Pop (TokenStack.Pop st).2.2).1 (TokenStack.Pop st).1 with
        | error e => rfl
        | ok res => exact ih _
    | NUMBER | BOOL => exact ih _
    | IDENT =>
      simp only []
      cases knownParams t.Value with
      | none => rfl
      | some v => exact ih _
    | LBR | RBR | EXISTS_FUNC | zero => rfl

theorem operator_mismatch (L : FloatLib) (key : String) (hk : key ∈ operatorKeys) :
    ∃ opFunc, operatorFuncs L key = some opFunc ∧ ∀ x y : Token, x.ValueType ≠ y.ValueType →
      opFunc x y = .error (.CalculationError errDifferentType (quote2 x.Value y.Value)) := by
  simp only [operatorKeys, List.mem_cons, List.mem_singleton, List.not_mem_nil, or_false] at hk
  rcases hk with h | h | h | h | h | h | h | h | h | h | h | h <;> subst h
  · exact ⟨addOperator L, by simp [operatorFuncs], fun x y hxy => by rw [addOperator, if_pos hxy]⟩
  · exact ⟨subOperator L, by simp [operatorFuncs], fun x y hxy => by rw [subOperator, if_pos hxy]⟩
  · exact ⟨mulOperator L, by simp [operatorFuncs], fun x y hxy => by rw [mulOperator, if_pos hxy]⟩
  · exact ⟨divOperator L, by simp [operatorFuncs], fun x y hxy => by rw [divOperator, if_pos hxy]⟩
  · exact ⟨moreOperator L, by simp [operatorFuncs], fun x y hxy => by rw [moreOperator, if_pos hxy]⟩
  · exact ⟨lessOperator L, by simp [operatorFuncs], fun x y hxy => by rw [lessOperator, if_pos hxy]⟩
  · exact ⟨moreEqualOperator L, by simp [operatorFuncs], fun x y hxy => by rw [moreEqualOperator, if_pos hxy]⟩
  · exact ⟨lessEqualOperator L, by simp [operatorFuncs], fun x y hxy => by rw [lessEqualOperator, if_pos hxy]⟩
  · exact ⟨equalOperator L, by simp [operatorFuncs], fun x y hxy => by rw [equalOperator, if_pos hxy]⟩
  · exact ⟨notEqualOperator L, by simp [operatorFuncs], fun x y hxy => by rw [notEqualOperator, if_pos hxy]⟩
  · exact ⟨andOperator, by simp [operatorFuncs], fun x y hxy => by rw [andOperator, if_pos hxy]⟩
  · exact ⟨orOperator, by simp [operatorFuncs], fun x y hxy => by rw [orOperator, if_pos hxy]⟩

theorem evalLoop_mismatch (L : FloatLib) (rawSet : RawMessageSet) (pre post : List Token)
    (op x y : Token) (st : TokenStack)
    (hop : op.Type_ = LOG_OP ∨ op.Type_ = COMP_OP ∨ op.Type_ = ARITH_OP)
    (hkey : op.Value ∈ operatorKeys)
    (hpre : evalLoop L rawSet pre [] = .ok (y :: x :: st))
    (hxy : x.ValueType ≠ y.ValueType) :
    evalLoop L rawSet (pre ++ op :: post) [] =
      .error (.CalculationError errDifferentType (quote2 x.Value y.Value)) := by
  obtain ⟨opFunc, hf, herr⟩ := operator_mismatch L op.Value hkey
  rw [evalLoop_append, hpre]
  simp only []
  rw [evalLoop]
  rcases hop with h | h | h <;> rw [h] <;>
    simp only [hf, TokenStack.Pop, herr x y hxy]

theorem calculation_mismatch (L : FloatLib) (rawSet : RawMessageSet) (c pre post : List Token)
    (op x y : Token) (st : TokenStack)
    (hpost : ToPostfixExp c = .ok (pre ++ op :: post))
    (hop : op.Type_ = LOG_OP ∨ op.Type_ = COMP_OP ∨ op.Type_ = ARITH_OP)
    (hkey : op.Value ∈ operatorKeys)
    (hpre : evalLoop L rawSet pre [] = .ok (y :: x :: st))
    (hxy : x.ValueType ≠ y.ValueType) :
    parser.calculation L c rawSet =
      .error (.ParseError (errCalc ++ ": " ++
        (CoreError.CalculationError errDifferentType (quote2 x.Value y.Value)).Error)) := by
  rw [parser.calculation, core.Calculate, hpost]
  simp only [Evaluate, evalLoop_mismatch L rawSet pre post op x y st hop hkey hpre hxy]

/-- C10: each of the twelve operators, applied to operands whose value types
differ, fails with the reason "operands must be of the same type", whatever
the operand texts and types are; and a formula whose evaluation for some row
applies an operator to two such operands makes `Calculate` return an error,
Black and the nil slice. -/
theorem C10_type_mismatch_fails (L : FloatLib) :
    (∀ key ∈ operatorKeys, ∃ opFunc, operatorFuncs L key = some opFunc ∧
      ∀ x y : Token, x.ValueType ≠ y.ValueType →
        opFunc x y = .error (.CalculationError errDifferentType (quote2 x.Value y.Value))) ∧
    ∀ (formulas : List Formula) (rawSets : List RawMessageSet)
      (paramTypes : String → Option ValueType) (f : Formula) (rawSet : RawMessageSet)
      (tokens c pre post : List Token) (op x y : Token) (st : TokenStack),
      f ∈ formulas → f.IsEnable = true → rawSet ∈ effectiveRows rawSets →
      tokenize L f.Expression paramTypes = some (.ok tokens) →
      calcTokensOf tokens rawSet = some c →
      ToPostfixExp c = .ok (pre ++ op :: post) →
      (op.Type_ = LOG_OP ∨ op.Type_ = COMP_OP ∨ op.Type_ = ARITH_OP) →
      op.Value ∈ operatorKeys →
      evalLoop L rawSet pre [] = .ok (y :: x :: st) →
      x.ValueType ≠ y.ValueType →
      ∃ err, Calculate L formulas rawSets paramTypes = some ⟨BlackColor, none, some err⟩ := by
  refine ⟨operator_mismatch L, ?_⟩
  intro formulas rawSets paramTypes f rawSet tokens c pre post op x y st hf hen hr ht hc hpost
    hop hkey hpre hxy
  apply Calculate_fails_of_verdict_none L formulas rawSets paramTypes f hf hen rawSet hr
  have hs := start_eq L tokens rawSet
  rw [hc] at hs
  simp only [] at hs
  rw [calculation_mismatch L rawSet c pre post op x y st hpost hop hkey hpre hxy] at hs
  simp [verdict, ht, verdictOfTokens, hs]

theorem C10_type_mismatch_fails_witness :
    subOperator decimalLib ⟨IDENT, "false", BOOL_TYPE⟩ ⟨NUMBER, "1", NUMBER_TYPE⟩ =
      .error (.CalculationError "operands must be of the same type" "'false' '1'") ∧
    ∃ err, Calculate decimalLib [⟨"formula_1", "bool_param - 1 > 0", RedColor, 0, true⟩]
      testRows testTypes = some ⟨BlackColor, none, some err⟩ :=
  ⟨by decide!,
    (C10_type_mismatch_fails decimalLib).2
      [⟨"formula_1", "bool_param - 1 > 0", RedColor, 0, true⟩] testRows testTypes
      ⟨"formula_1", "bool_param - 1 > 0", RedColor, 0, true⟩
      (fun name => if name = "stated_capital" then some "50"
        else if name = "bool_param" then some "false"
        else if name = "s2001" then some "10" else none)
      [⟨IDENT, "bool_param", BOOL_TYPE⟩, ⟨ARITH_OP, "-", ""⟩, ⟨NUMBER, "1", NUMBER_TYPE⟩,
        ⟨COMP_OP, ">", ""⟩, ⟨NUMBER, "0", NUMBER_TYPE⟩]
      [⟨IDENT, "bool_param", BOOL_TYPE⟩, ⟨ARITH_OP, "-", ""⟩, ⟨NUMBER, "1", NUMBER_TYPE⟩,
        ⟨COMP_OP, ">", ""⟩, ⟨NUMBER, "0", NUMBER_TYPE⟩]
      [⟨IDENT, "bool_param", BOOL_TYPE⟩, ⟨NUMBER, "1", NUMBER_TYPE⟩]
      [⟨NUMBER, "0", NUMBER_TYPE⟩, ⟨COMP_OP, ">", ""⟩]
      ⟨ARITH_OP, "-", ""⟩ ⟨IDENT, "false", BOOL_TYPE⟩ ⟨NUMBER, "1", NUMBER_TYPE⟩ []
      (by simp) rfl (by simp [effectiveRows, testRows]) (by decide!) (by decide!) (by decide!)
      (by decide) (by decide) (by decide!) (by decide)⟩

theorem char_le_iff (a b : Char) : a ≤ b ↔ a.toNat ≤ b.toNat := by
  rfl

theorem isAlpha_iff (c : Char) : isAlpha c = true ↔
    (97 ≤ c.toNat ∧ c.toNat ≤ 122) ∨ (65 ≤ c.toNat ∧ c.toNat ≤ 90) := by
  simp only [isAlpha, Bool.or_eq_true, Bool.and_eq_true, decide_eq_true_eq, ge_iff_le, char_le_iff]
  rfl

theorem isDigit_iff (c : Char) : isDigit c = true ↔ 48 ≤ c.toNat ∧ c.toNat ≤ 57 := by
  simp only [isDigit, Bool.and_eq_true, decide_eq_true_eq, ge_iff_le, char_le_iff]
  rfl

theorem char_eq_iff (a b : Char) : a = b ↔ a.toNat = b.toNat := by
  constructor
  · intro h; rw [h]
  · intro h
    apply Char.ext
    apply UInt32.ext
    exact h

theorem IsSpace_iff (c : Char) : unicode.IsSpace c = true ↔
    (9 ≤ c.toNat ∧ c.toNat ≤ 13) ∨ c.toNat = 32 ∨ c.toNat = 133 ∨ c.toNat = 160 ∨
    c.toNat = 5760 ∨ (8192 ≤ c.toNat ∧ c.toNat ≤ 8202) ∨ c.toNat = 8232 ∨ c.toNat = 8233 ∨
    c.toNat = 8239 ∨ c.toNat = 8287 ∨ c.toNat = 12288 := by
  simp only [unicode.IsSpace, Bool.or_eq_true, Bool.and_eq_true, decide_eq_true_eq, beq_iff_eq]
  tauto

theorem isArithmeticOp_iff (c : Char) : isArithmeticOp c = true ↔
    c.toNat = 43 ∨ c.toNat = 45 ∨ c.toNat = 42 ∨ c.toNat = 47 := by
  have h : ∀ d : Char, (String.singleton c = String.singleton d) ↔ c.toNat = d.toNat := by
    intro d
    rw [← char_eq_iff]
    constructor
    · intro h
      have := congrArg String.data h
      simpa [String.singleton] using this
    · intro h; rw [h]
  have e1 : ("+" : String) = String.singleton '+' := rfl
  have e2 : ("-" : String) = String.singleton '-' := rfl
  have e3 : ("*" : String) = String.singleton '*' := rfl
  have e4 : ("/" : String) = String.singleton '/' := rfl
  simp only [isArithmeticOp, Bool.or_eq_true, decide_eq_true_eq, e1, e2, e3, e4, h]
  tauto

theorem slice_eq (chars : List Char) (i k : Nat) :
    slice chars i (i + k) = (chars.drop i).take k := by
  rw [slice, List.take_drop]

theorem drop_facts (chars : List Char) (i : Nat) (c : Char) (rest : List Char)
    (h : chars.drop i = c :: rest) :
    i < chars.length ∧ chars[i]? = some c ∧ chars.drop (i + 1) = rest := by
  have hlt : i < chars.length := by
    by_contra hc
    rw [List.drop_of_length_le (by omega)] at h
    cases h
  refine ⟨hlt, ?_, ?_⟩
  · have : (chars.drop i)[0]? = some c := by rw [h]; simp
    simpa using this
  · have : (chars.drop i).drop 1 = rest := by rw [h]; rfl
    rw [List.drop_drop] at this
    exact this

theorem drop_append_facts (chars : List Char) (i : Nat) (w rest : List Char)
    (h : chars.drop i = w ++ rest) :
    chars.drop (i + w.length) = rest ∧ (chars.drop i).take w.length = w := by
  refine ⟨?_, by rw [h]; simp⟩
  have : (chars.drop i).drop w.length = rest := by rw [h]; simp
  rw [List.drop_drop] at this
  exact this

theorem tokenizeLoop_end (L : FloatLib) (paramTypes : String → Option ValueType)
    (chars : List Char) (fuel i : Nat) (tokens : List Token) (h : chars.length ≤ i) :
    tokenizeLoop L paramTypes chars chars.length fuel i tokens = some (.ok tokens) := by
  cases fuel with
  | zero => rw [tokenizeLoop, if_neg (by omega)]
  | succ fuel => rw [tokenizeLoop, if_neg (by omega)]

theorem tokenizeLoop_space (L : FloatLib) (paramTypes : String → Option ValueType)
    (chars : List Char) (fuel i : Nat) (tokens : List Token) (c : Char) (rest : List Char)
    (h : chars.drop i = c :: rest) (hc : unicode.IsSpace c = true) :
    tokenizeLoop L paramTypes chars chars.length (fuel + 1) i tokens =
      tokenizeLoop L paramTypes chars chars.length fuel (i + 1) tokens := by
  obtain ⟨hlt, hget, _⟩ := drop_facts chars i c rest h
  rw [tokenizeLoop, if_pos hlt, hget]
  simp only [hc, if_true]

theorem identLoop_append (cs rest : List Char) (i : Nat)
    (hcs : ∀ x ∈ cs, isIdentChar x = true)
    (hrest : ∀ x, rest.head? = some x → isIdentChar x = false) :
    identLoop (cs ++ rest) i = i + cs.length := by
  induction cs generalizing i with
  | nil =>
    cases rest with
    | nil => rfl
    | cons x rest =>
      have := hrest x rfl
      simp only [isIdentChar] at this
      simp only [List.nil_append, identLoop, List.length_nil, Nat.add_zero]
      rw [if_neg (by rw [this]; decide)]
  | cons x cs ih =>
    have hx := hcs x (by simp)
    simp only [isIdentChar] at hx
    rw [List.cons_append, identLoop, if_pos hx, ih (i + 1) (fun y hy => hcs y (by simp [hy]))]
    simp only [List.length_cons]
    omega

theorem alpha_not_space (c : Char) (h : isAlpha c = true) : unicode.IsSpace c = false := by
  rw [isAlpha_iff] at h
  have : ¬ unicode.IsSpace c = true := by
    rw [IsSpace_iff]; omega
  simpa using this

theorem tokenizeLoop_word (L : FloatLib) (paramTypes : String → Option ValueType)
    (chars : List Char) (fuel i : Nat) (tokens : List Token) (c : Char) (cs rest : List Char)
    (h : chars.drop i = (c :: cs) ++ rest) (hc : isAlpha c = true)
    (hcs : ∀ x ∈ cs, isIdentChar x = true)
    (hrest : ∀ x, rest.head? = some x → isIdentChar x = false) :
    tokenizeLoop L paramTypes chars chars.length (fuel + 1) i tokens =
      tokenizeLoop L paramTypes chars chars.length fuel (i + (c :: cs).length)
        (tokens ++ [classify paramTypes (c :: cs)]) := by
  obtain ⟨hlt, hget, hd1⟩ := drop_facts chars i c (cs ++ rest) h
  obtain ⟨_, htake⟩ := drop_append_facts chars i (c :: cs) rest h
  rw [tokenizeLoop, if_pos hlt, hget]
  simp only [alpha_not_space c hc, hc, if_true, Bool.false_eq_true, if_false]
  rw [hd1, identLoop_append cs rest (i + 1) hcs hrest]
  have e : i + 1 + cs.length = i + (c :: cs).length := by simp; omega
  rw [e, slice_eq, htake]

theorem tokenizeLoop_lbr (L : FloatLib) (paramTypes : String → Option ValueType)
    (chars : List Char) (fuel i : Nat) (tokens : List Token) (rest : List Char)
    (h : chars.drop i = '(' :: rest) :
    tokenizeLoop L paramTypes chars chars.length (fuel + 1) i tokens =
      tokenizeLoop L paramTypes chars chars.length fuel (i + 1) (tokens ++ [⟨LBR, "(", ""⟩]) := by
  obtain ⟨hlt, hget, _⟩ := drop_facts chars i _ rest h
  rw [tokenizeLoop, if_pos hlt, hget]
  have h1 : unicode.IsSpace '(' = false := by decide
  have h2 : isAlpha '(' = false := by decide
  have h3 : isArithmeticOp '(' = false := by decide
  have h4 : isLeftBracket '(' = true := by decide
  simp only [h1, h2, h3, h4, if_true, Bool.false_eq_true, if_false]
  rfl

theorem tokenizeLoop_rbr (L : FloatLib) (paramTypes : String → Option ValueType)
    (chars : List Char) (fuel i : Nat) (tokens : List Token) (rest : List Char)
    (h : chars.drop i = ')' :: rest) :
    tokenizeLoop L paramTypes chars chars.length (fuel + 1) i tokens =
      tokenizeLoop L paramTypes chars chars.length fuel (i + 1) (tokens ++ [⟨RBR, ")", ""⟩]) := by
  obtain ⟨hlt, hget, _⟩ := drop_facts chars i _ rest h
  rw [tokenizeLoop, if_pos hlt, hget]
  have h1 : unicode.IsSpace ')' = false := by decide
  have h2 : isAlpha ')' = false := by decide
  have h3 : isArithmeticOp ')' = false := by decide
  have h4 : isLeftBracket ')' = false := by decide
  have h5 : isRightBracket ')' = true := by decide
  simp only [h1, h2, h3, h4, h5, if_true, Bool.false_eq_true, if_false]
  rfl

theorem tokenizeLoop_eq (L : FloatLib) (paramTypes : String → Option ValueType)
    (chars : List Char) (fuel i : Nat) (tokens : List Token) (rest : List Char)
    (h : chars.drop i = '=' :: rest) :
    tokenizeLoop L paramTypes chars chars.length (fuel + 1) i tokens =
      tokenizeLoop L paramTypes chars chars.length fuel (i + 1) (tokens ++ [⟨COMP_OP, "=", ""⟩]) := by
  obtain ⟨hlt, hget, _⟩ := drop_facts chars i _ rest h
  rw [tokenizeLoop, if_pos hlt, hget]
  have h1 : unicode.IsSpace '=' = false := by decide
  have h2 : isAlpha '=' = false := by decide
  have h3 : isArithmeticOp '=' = false := by decide
  have h4 : isLeftBracket '=' = false := by decide
  have h5 : isRightBracket '=' = false := by decide
  have h6 : isLogicOp chars i chars.length = (true, i) := by
    rw [isLogicOp, if_pos hlt, hget]
    simp
  have h7 : slice chars i (i + 1) = ['='] := by
    rw [slice_eq, h]; rfl
  simp only [h1, h2, h3, h4, h5, h6, h7, if_true, Bool.false_eq_true, if_false]

theorem isNumberLoop_run (L : FloatLib) (chars : List Char) (i0 : Nat) (w rest : List Char)
    (h : chars.drop i0 = w ++ rest)
    (hstop : ∀ x, rest.head? = some x → L.ParseFloat (String.mk (w ++ [x])) = none) :
    ∀ (n c : Nat), c + n = w.length →
      (∀ k, c < k → k ≤ w.length → (L.ParseFloat (String.mk (w.take k))).isSome = true) →
      isNumberLoop L chars (chars.drop (i0 + c)) (i0 + c) c = (i0 + w.length, w.length) := by
  intro n
  induction n with
  | zero =>
    intro c hc _
    have hcw : c = w.length := by omega
    subst hcw
    rw [(drop_append_facts chars i0 w rest h).1]
    cases rest with
    | nil => rfl
    | cons x r =>
      rw [isNumberLoop]
      have hs : slice chars (i0 + w.length - w.length) (i0 + w.length + 1) = w ++ [x] := by
        rw [Nat.add_sub_cancel, Nat.add_assoc, slice_eq, h, List.take_append_eq_append_take]
        simp
      rw [hs, hstop x rfl]
  | succ n ih =>
    intro c hc hpre
    have hlt : c < w.length := by omega
    have hd : chars.drop (i0 + c) = (w.drop c) ++ rest := by
      rw [← List.drop_drop, h, List.drop_append_of_le_length (by omega)]
    obtain ⟨x, r, hx⟩ : ∃ x r, w.drop c = x :: r := by
      cases hw : w.drop c with
      | nil =>
        have := congrArg List.length hw
        simp only [List.length_drop, List.length_nil] at this
        omega
      | cons x r => exact ⟨x, r, rfl⟩
    rw [hd, hx, List.cons_append, isNumberLoop]
    have hs : slice chars (i0 + c - c) (i0 + c + 1) = w.take (c + 1) := by
      rw [Nat.add_sub_cancel, Nat.add_assoc, slice_eq, h, List.take_append_of_le_length (by omega)]
    rw [hs]
    have hp := hpre (c + 1) (by omega) (by omega)
    cases hpf : L.ParseFloat (String.mk (w.take (c + 1))) with
    | none => rw [hpf] at hp; cases hp
    | some v =>
      simp only []
      have hd2 : chars.drop (i0 + (c + 1)) = r ++ rest := by
        have := (drop_facts chars (i0 + c) x (r ++ rest) (by rw [hd, hx]; rfl)).2.2
        rw [← this]; rfl
      have := ih (c + 1) (by omega) (fun k hk1 hk2 => hpre k (by omega) hk2)
      rw [hd2] at this
      exact this

theorem digit_facts (d : Char) (h : isDigit d = true) :
    unicode.IsSpace d = false ∧ isAlpha d = false ∧ isArithmeticOp d = false ∧
    isLeftBracket d = false ∧ isRightBracket d = false ∧
    d ≠ '>' ∧ d ≠ '<' ∧ d ≠ '=' ∧ d ≠ '!' := by
  rw [isDigit_iff] at h
  have e1 : ('>' : Char).toNat = 62 := rfl
  have e2 : ('<' : Char).toNat = 60 := rfl
  have e3 : ('=' : Char).toNat = 61 := rfl
  have e4 : ('!' : Char).toNat = 33 := rfl
  have e5 : ('(' : Char).toNat = 40 := rfl
  have e6 : (')' : Char).toNat = 41 := rfl
  refine ⟨?_, ?_, ?_, ?_, ?_, ?_, ?_, ?_, ?_⟩
  · have : ¬ unicode.IsSpace d = true := by rw [IsSpace_iff]; omega
    simpa using this
  · have : ¬ isAlpha d = true := by rw [isAlpha_iff]; omega
    simpa using this
  · have : ¬ isArithmeticOp d = true := by rw [isArithmeticOp_iff]; omega
    simpa using this
  · simp only [isLeftBracket, decide_eq_false_iff_not, char_eq_iff, e5]; omega
  · simp only [isRightBracket, decide_eq_false_iff_not, char_eq_iff, e6]; omega
  · simp only [ne_eq, char_eq_iff, e1]; omega
  · simp only [ne_eq, char_eq_iff, e2]; omega
  · simp only [ne_eq, char_eq_iff, e3]; omega
  · simp only [ne_eq, char_eq_iff, e4]; omega

theorem tokenizeLoop_number (L : FloatLib) (paramTypes : String → Option ValueType)
    (chars : List Char) (fuel i : Nat) (tokens : List Token) (d : Char) (ds rest : List Char)
    (h : chars.drop i = (d :: ds) ++ rest) (hd : isDigit d = true)
    (hpre : ∀ k, 0 < k → k ≤ (d :: ds).length →
      (L.ParseFloat (String.mk ((d :: ds).take k))).isSome = true)
    (hstop : ∀ x, rest.head? = some x → L.ParseFloat (String.mk ((d :: ds) ++ [x])) = none) :
    tokenizeLoop L paramTypes chars chars.length (fuel + 1) i tokens =
      tokenizeLoop L paramTypes chars chars.length fuel (i + (d :: ds).length)
        (tokens ++ [⟨NUMBER, String.mk (d :: ds), NUMBER_TYPE⟩]) := by
  obtain ⟨hlt, hget, _⟩ := drop_facts chars i d (ds ++ rest) h
  obtain ⟨_, htake⟩ := drop_append_facts chars i (d :: ds) rest h
  obtain ⟨h1, h2, h3, h4, h5, n1, n2, n3, n4⟩ := digit_facts d hd
  rw [tokenizeLoop, if_pos hlt, hget]
  have h6 : isLogicOp chars i chars.length = (false, i) := by
    rw [isLogicOp, if_pos hlt, hget]
    simp [n1, n2, n3, n4]
  have h7 : isNumber L chars i = (true, i + (d :: ds).length) := by
    have := isNumberLoop_run L chars i (d :: ds) rest h hstop (d :: ds).length 0 (by simp)
      (fun k hk1 hk2 => hpre k hk1 hk2)
    rw [Nat.add_zero] at this
    simp [isNumber, this]
  simp only [h1, h2, h3, h4, h5, h6, h7, if_true, Bool.false_eq_true, if_false]
  rw [slice_eq, htake]

theorem tokenizeLoop_mono (L : FloatLib) (paramTypes : String → Option ValueType)
    (chars : List Char) (k : Nat) (fuel : Nat) :
    ∀ (i : Nat) (tokens : List Token) (r : Except Error (List Token)),
      tokenizeLoop L paramTypes chars chars.length fuel i tokens = some r →
      tokenizeLoop L paramTypes chars chars.length (fuel + k) i tokens = some r := by
  induction fuel with
  | zero =>
    intro i tokens r h
    rw [tokenizeLoop] at h
    split at h
    · cases h
    next hlt =>
      rw [tokenizeLoop_end L paramTypes chars _ i tokens (by omega)]
      exact h
  | succ fuel ih =>
    intro i tokens r h
    rw [Nat.succ_add, tokenizeLoop]
    rw [tokenizeLoop] at h
    split
    next hlt =>
      rw [if_pos hlt] at h
      have hget : chars[i]? = some chars[i] := List.getElem?_eq_getElem hlt
      rw [hget] at h ⊢
      simp only [] at h ⊢
      split
      next h1 => rw [if_pos h1] at h; exact ih _ _ _ h
      next h1 =>
        rw [if_neg h1] at h
        split
        next h2 => rw [if_pos h2] at h; exact ih _ _ _ h
        next h2 =>
          rw [if_neg h2] at h
          split
          next h3 => rw [if_pos h3] at h; exact ih _ _ _ h
          next h3 =>
            rw [if_neg h3] at h
            split
            next h4 => rw [if_pos h4] at h; exact ih _ _ _ h
            next h4 =>
              rw [if_neg h4] at h
              split
              next h5 => rw [if_pos h5] at h; exact ih _ _ _ h
              next h5 =>
                rw [if_neg h5] at h
                split
                next h6 => rw [if_pos h6] at h; exact ih _ _ _ h
                next h6 =>
                  rw [if_neg h6] at h
                  split
                  next h7 => rw [if_pos h7] at h; exact ih _ _ _ h
                  next h7 => rw [if_neg h7] at h; exact h
    next hlt =>
      rw [if_neg hlt] at h
      exact h

theorem tokenize_of_loop (L : FloatLib) (paramTypes : String → Option ValueType)
    (input : String) (fuel : Nat) (r : Except Error (List Token))
    (h : tokenizeLoop L paramTypes input.data input.data.length fuel 0 [] = some r) :
    tokenize L input paramTypes = some r := by
  obtain ⟨r', hr'⟩ := tokenize_total L input paramTypes
  have h1 := tokenizeLoop_mono L paramTypes input.data input.data.length fuel 0 [] r h
  have h2 : tokenizeLoop L paramTypes input.data input.data.length (input.data.length + fuel)
      0 [] = some r' :=
    tokenizeLoop_mono L paramTypes input.data fuel input.data.length 0 [] r' hr'
  rw [Nat.add_comm] at h1
  rw [h1] at h2
  rw [hr', ← h2]

theorem verdict_unfold (L : FloatLib) (paramTypes : String → Option ValueType) (f : Formula)
    (rawSet : RawMessageSet) (b : Bool) (h : verdict L paramTypes f rawSet = some b) :
    ∃ toks resToken, tokenize L f.Expression paramTypes = some (.ok toks) ∧
      (newParser toks rawSet).start L = some (.ok resToken) ∧
      strconv.ParseBool resToken.Value = some b := by
  unfold verdict at h
  split at h
  next toks ht =>
    unfold verdictOfTokens at h
    split at h
    next resToken hs => exact ⟨toks, resToken, ht, hs, h⟩
    · cases h
  · cases h

/-- `Calculate` on one enabled formula and at most one row: the color is the
color of the formula when its verdict is true and the color outranks Grey, and
the single result map holds the verdict. -/
theorem Calculate_single (L : FloatLib) (paramTypes : String → Option ValueType) (f : Formula)
    (rawSets : List RawMessageSet) (rawSet : RawMessageSet) (b : Bool)
    (hen : f.IsEnable = true) (hrows : effectiveRows rawSets = [rawSet])
    (h : verdict L paramTypes f rawSet = some b) :
    Calculate L [f] rawSets paramTypes =
      some ⟨if b = true ∧ colorPrecedence f.Color > colorPrecedence GreyColor then f.Color
              else GreyColor,
            some [[(f.Name, ⟨f.Version, f.Color, b⟩)]], none⟩ := by
  obtain ⟨toks, resToken, ht, hs, hb⟩ := verdict_unfold L paramTypes f rawSet b h
  have hrows' : (if rawSets.length = 0 then [nilRawSet] else rawSets) = [rawSet] := hrows
  simp only [Calculate, getTokenizedFormulas, getTokenizedFormulasLoop, hen, Bool.not_true,
    Bool.false_eq_true, if_false, ht, List.nil_append, hrows', rowsLoop, formulasLoop, hs, hb,
    FormulaResult.set, List.length_singleton, Nat.lt_one_iff, gt_iff_lt, Nat.zero_lt_one,
    if_true]

theorem ParseBool_Sprintf_t (b : Bool) : strconv.ParseBool (Sprintf_t b) = some b := by
  cases b <;> decide

theorem calcTokensOf_exists (rawSet : RawMessageSet) (x : String) (vt v1 v2 v3 : ValueType)
    (s1 s2 s3 : String) :
    calcTokensOf [⟨EXISTS_FUNC, s1, v1⟩, ⟨LBR, s2, v2⟩, ⟨IDENT, x, vt⟩, ⟨RBR, s3, v3⟩] rawSet =
      some [⟨BOOL, Sprintf_t (rawSet x).isSome, BOOL_TYPE⟩] := by
  simp [calcTokensOf, newParser, parser.fuel, parser.checkNext, parser.LogicExp, parser.LogicTerm,
    parser.LogicExpLoop, parser.Bool_, parser.terminal, parser.cur, parser.ExistsFunc,
    parser.IdentExists, parser.Ident, parser.LBracket, parser.RBracket,
    parser.LogicOrCompOperator, parser.LogicOperator, parser.CompOperator]

set_option maxHeartbeats 1600000 in

theorem calcTokensOf_C5 (rawSet : RawMessageSet) (ta tb tc td te tf : Token)
    (hab : (ta.Type_ = NUMBER ∧ tb.Type_ = NUMBER) ∨ (ta.Type_ = BOOL ∧ tb.Type_ = BOOL))
    (hcd : (tc.Type_ = NUMBER ∧ td.Type_ = NUMBER) ∨ (tc.Type_ = BOOL ∧ td.Type_ = BOOL))
    (hef : (te.Type_ = NUMBER ∧ tf.Type_ = NUMBER) ∨ (te.Type_ = BOOL ∧ tf.Type_ = BOOL)) :
    calcTokensOf [ta, ⟨COMP_OP, "=", ""⟩, tb, ⟨LOG_OP, "AND", ""⟩, tc, ⟨COMP_OP, "=", ""⟩, td,
        ⟨LOG_OP, "OR", ""⟩, te, ⟨COMP_OP, "=", ""⟩, tf] rawSet =
      some [ta, ⟨COMP_OP, "=", ""⟩, tb, ⟨LOG_OP, "AND", ""⟩, tc, ⟨COMP_OP, "=", ""⟩, td,
        ⟨LOG_OP, "OR", ""⟩, te, ⟨COMP_OP, "=", ""⟩, tf] := by
  rcases hab with ⟨ha, hb⟩ | ⟨ha, hb⟩ <;> rcases hcd with ⟨hc, hd⟩ | ⟨hc, hd⟩ <;>
  rcases hef with ⟨he, hf⟩ | ⟨he, hf⟩ <;>
  simp [calcTokensOf, newParser, parser.fuel, parser.checkNext, parser.LogicExp, parser.LogicTerm,
    parser.LogicExpLoop, parser.Bool_, parser.terminal, parser.cur, parser.ExistsFunc,
    parser.IdentExists, parser.Ident, parser.LBracket, parser.RBracket,
    parser.LogicOrCompOperator, parser.LogicOperator, parser.CompOperator,
    parser.ArithmeticExp, parser.ArithmeticTerm, parser.ArithmeticExpLoop, parser.Num,
    parser.ArithmeticOp, parser.span, ha, hb, hc, hd, he, hf]

set_option maxHeartbeats 1600000 in

theorem calcTokensOf_C6 (rawSet : RawMessageSet) (ta tb tc td te tf : Token)
    (hab : (ta.Type_ = NUMBER ∧ tb.Type_ = NUMBER) ∨ (ta.Type_ = BOOL ∧ tb.Type_ = BOOL))
    (hcd : (tc.Type_ = NUMBER ∧ td.Type_ = NUMBER) ∨ (tc.Type_ = BOOL ∧ td.Type_ = BOOL))
    (hef : (te.Type_ = NUMBER ∧ tf.Type_ = NUMBER) ∨ (te.Type_ = BOOL ∧ tf.Type_ = BOOL)) :
    calcTokensOf [ta, ⟨COMP_OP, "=", ""⟩, tb, ⟨LOG_OP, "AND", ""⟩, ⟨LBR, "(", ""⟩, tc,
        ⟨COMP_OP, "=", ""⟩, td, ⟨LOG_OP, "OR", ""⟩, te, ⟨COMP_OP, "=", ""⟩, tf,
        ⟨RBR, ")", ""⟩] rawSet =
      some [ta, ⟨COMP_OP, "=", ""⟩, tb, ⟨LOG_OP, "AND", ""⟩, ⟨LBR, "(", ""⟩, tc,
        ⟨COMP_OP, "=", ""⟩, td, ⟨LOG_OP, "OR", ""⟩, te, ⟨COMP_OP, "=", ""⟩, tf,
        ⟨RBR, ")", ""⟩] := by
  rcases hab with ⟨ha, hb⟩ | ⟨ha, hb⟩ <;> rcases hcd with ⟨hc, hd⟩ | ⟨hc, hd⟩ <;>
  rcases hef with ⟨he, hf⟩ | ⟨he, hf⟩ <;>
  simp [calcTokensOf, newParser, parser.fuel, parser.checkNext, parser.LogicExp, parser.LogicTerm,
    parser.LogicExpLoop, parser.Bool_, parser.terminal, parser.cur, parser.ExistsFunc,
    parser.IdentExists, parser.Ident, parser.LBracket, parser.RBracket,
    parser.LogicOrCompOperator, parser.LogicOperator, parser.CompOperator,
    parser.ArithmeticExp, parser.ArithmeticTerm, parser.ArithmeticExpLoop, parser.Num,
    parser.ArithmeticOp, parser.span, ha, hb, hc, hd, he, hf]

theorem delim_facts (x : Char) (h : isDelim x = true) :
    isIdentChar x = false ∧ isFloatChar x = false := by
  simp only [isDelim, Bool.or_eq_true, decide_eq_true_eq] at h
  rcases h with (h | h) | h <;> subst h <;> exact ⟨by decide, by decide⟩

theorem String_mk_data (s : String) : String.mk s.data = s := rfl

theorem isNumLit_facts (L : FloatLib) (s : String) (h : isNumLit L s = true) :
    (∃ d ds, s.data = d :: ds ∧ isDigit d = true) ∧
    (∀ k, 0 < k → k ≤ s.data.length → (L.ParseFloat (String.mk (s.data.take k))).isSome = true) ∧
    isBoolLit s = false ∧ (L.ParseFloat s).isSome = true := by
  simp only [isNumLit, Bool.and_eq_true, Bool.not_eq_true', List.all_eq_true, List.mem_range] at h
  obtain ⟨⟨h1, h2⟩, h3⟩ := h
  have hpre : ∀ k, 0 < k → k ≤ s.data.length →
      (L.ParseFloat (String.mk (s.data.take k))).isSome = true := by
    intro k hk1 hk2
    have := h3 (k - 1) (by omega)
    rwa [Nat.sub_add_cancel hk1] at this
  cases hs : s.data with
  | nil => rw [hs] at h1; cases h1
  | cons d ds =>
    have hd : isDigit d = true := h2 d (by rw [hs]; simp)
    refine ⟨⟨d, ds, rfl, hd⟩, by rw [← hs]; exact hpre, ?_, ?_⟩
    · have hne : ∀ t : String, (∃ c cs, t.data = c :: cs ∧ isDigit c = false) → s ≠ t := by
        rintro t ⟨c, cs, ht, hc⟩ hst
        rw [hst, ht] at hs
        injection hs with hs1 _
        rw [hs1] at hc
        rw [hc] at hd
        cases hd
      have n1 := hne "true" ⟨'t', _, rfl, by decide⟩
      have n2 := hne "false" ⟨'f', _, rfl, by decide⟩
      simp [isBoolLit, n1, n2]
    · have := hpre s.data.length (by rw [hs]; simp) (Nat.le_refl _)
      rwa [List.take_length, String_mk_data] at this

theorem tokenizeLoop_lit (L : FloatLib) (hL : floatAlphabet L)
    (paramTypes : String → Option ValueType)
    (chars : List Char) (fuel i : Nat) (tokens : List Token) (s : String) (rest : List Char)
    (h : chars.drop i = s.data ++ rest)
    (hs : isBoolLit s = true ∨ isNumLit L s = true)
    (hrest : ∀ x, rest.head? = some x → isDelim x = true) :
    tokenizeLoop L paramTypes chars chars.length (fuel + 1) i tokens =
      tokenizeLoop L paramTypes chars chars.length fuel (i + s.data.length)
        (tokens ++ [litToken s]) := by
  rcases hs with hs | hs
  · have hrest' : ∀ x, rest.head? = some x → isIdentChar x = false :=
      fun x hx => (delim_facts x (hrest x hx)).1
    simp only [isBoolLit, Bool.or_eq_true, decide_eq_true_eq] at hs
    rcases hs with hs | hs <;> subst hs
    · exact tokenizeLoop_word L paramTypes chars fuel i tokens 't' ['r', 'u', 'e'] rest h
        (by decide) (by decide) hrest'
    · exact tokenizeLoop_word L paramTypes chars fuel i tokens 'f' ['a', 'l', 's', 'e'] rest h
        (by decide) (by decide) hrest'
  · obtain ⟨⟨d, ds, hd, hdig⟩, hpre, hnb, _⟩ := isNumLit_facts L s hs
    rw [hd] at h hpre
    have hstop : ∀ x, rest.head? = some x → L.ParseFloat (String.mk ((d :: ds) ++ [x])) = none :=
      fun x hx => hL _ x (by simp) (delim_facts x (hrest x hx)).2
    have := tokenizeLoop_number L paramTypes chars fuel i tokens d ds rest h hdig hpre hstop
    rw [this, hd]
    have e : litToken s = ⟨NUMBER, String.mk (d :: ds), NUMBER_TYPE⟩ := by
      rw [litToken, hnb, ← hd]; rfl
    rw [e]

theorem tokenizeLoop_pair (L : FloatLib) (hL : floatAlphabet L)
    (paramTypes : String → Option ValueType)
    (chars : List Char) (fuel i : Nat) (tokens : List Token) (a b : String) (rest : List Char)
    (h : chars.drop i = a.data ++ '=' :: (b.data ++ rest))
    (hab : isLitPair L a b = true)
    (hrest : ∀ x, rest.head? = some x → isDelim x = true) :
    tokenizeLoop L paramTypes chars chars.length (fuel + 3) i tokens =
      tokenizeLoop L paramTypes chars chars.length fuel (i + a.data.length + 1 + b.data.length)
        (tokens ++ [litToken a, ⟨COMP_OP, "=", ""⟩, litToken b]) ∧
    chars.drop (i + a.data.length + 1 + b.data.length) = rest := by
  have ha : isBoolLit a = true ∨ isNumLit L a = true := by
    simp only [isLitPair, Bool.or_eq_true, Bool.and_eq_true] at hab
    rcases hab with h | h
    · exact Or.inl h.1
    · exact Or.inr h.1
  have hb : isBoolLit b = true ∨ isNumLit L b = true := by
    simp only [isLitPair, Bool.or_eq_true, Bool.and_eq_true] at hab
    rcases hab with h | h
    · exact Or.inl h.2
    · exact Or.inr h.2
  have h1 := tokenizeLoop_lit L hL paramTypes chars (fuel + 2) i tokens a _ h ha
    (fun x hx => by simp only [List.head?_cons, Option.some.injEq] at hx; subst hx; decide)
  have hd1 := (drop_append_facts chars i a.data _ h).1
  have h2 := tokenizeLoop_eq L paramTypes chars (fuel + 1) (i + a.data.length)
    (tokens ++ [litToken a]) _ hd1
  have hd2 := (drop_facts chars (i + a.data.length) _ _ hd1).2.2
  have h3 := tokenizeLoop_lit L hL paramTypes chars fuel (i + a.data.length + 1)
    (tokens ++ [litToken a] ++ [⟨COMP_OP, "=", ""⟩]) b rest hd2 hb hrest
  have hd3 := (drop_append_facts chars (i + a.data.length + 1) b.data rest hd2).1
  refine ⟨?_, hd3⟩
  rw [h1, h2, h3]
  simp

theorem tokenizeLoop_AND (L : FloatLib) (paramTypes : String → Option ValueType)
    (chars : List Char) (fuel i : Nat) (tokens : List Token) (rest : List Char)
    (h : chars.drop i = ' ' :: 'A' :: 'N' :: 'D' :: ' ' :: rest) :
    tokenizeLoop L paramTypes chars chars.length (fuel + 3) i tokens =
      tokenizeLoop L paramTypes chars chars.length fuel (i + 1 + 3 + 1)
        (tokens ++ [⟨LOG_OP, "AND", ""⟩]) ∧
    chars.drop (i + 1 + 3 + 1) = rest := by
  have h1 := tokenizeLoop_space L paramTypes chars (fuel + 2) i tokens _ _ h (by decide)
  have hd1 := (drop_facts chars i _ _ h).2.2
  have h2 := tokenizeLoop_word L paramTypes chars (fuel + 1) (i + 1) tokens 'A' ['N', 'D']
    (' ' :: rest) hd1 (by decide) (by decide)
    (fun x hx => by simp only [List.head?_cons, Option.some.injEq] at hx; subst hx; decide)
  have hd2 := (drop_append_facts chars (i + 1) ['A', 'N', 'D'] (' ' :: rest) hd1).1
  have h3 := tokenizeLoop_space L paramTypes chars fuel (i + 1 + 3)
    (tokens ++ [classify paramTypes ['A', 'N', 'D']]) _ _ hd2 (by decide)
  have hd3 := (drop_facts chars (i + 1 + 3) _ _ hd2).2.2
  refine ⟨h1.trans (h2.trans (h3.trans ?_)), hd3⟩
  rfl

theorem tokenizeLoop_OR (L : FloatLib) (paramTypes : String → Option ValueType)
    (chars : List Char) (fuel i : Nat) (tokens : List Token) (rest : List Char)
    (h : chars.drop i = ' ' :: 'O' :: 'R' :: ' ' :: rest) :
    tokenizeLoop L paramTypes chars chars.length (fuel + 3) i tokens =
      tokenizeLoop L paramTypes chars chars.length fuel (i + 1 + 2 + 1)
        (tokens ++ [⟨LOG_OP, "OR", ""⟩]) ∧
    chars.drop (i + 1 + 2 + 1) = rest := by
  have h1 := tokenizeLoop_space L paramTypes chars (fuel + 2) i tokens _ _ h (by decide)
  have hd1 := (drop_facts chars i _ _ h).2.2
  have h2 := tokenizeLoop_word L paramTypes chars (fuel + 1) (i + 1) tokens 'O' ['R']
    (' ' :: rest) hd1 (by decide) (by decide)
    (fun x hx => by simp only [List.head?_cons, Option.some.injEq] at hx; subst hx; decide)
  have hd2 := (drop_append_facts chars (i + 1) ['O', 'R'] (' ' :: rest) hd1).1
  have h3 := tokenizeLoop_space L paramTypes chars fuel (i + 1 + 2)
    (tokens ++ [classify paramTypes ['O', 'R']]) _ _ hd2 (by decide)
  have hd3 := (drop_facts chars (i + 1 + 2) _ _ hd2).2.2
  refine ⟨h1.trans (h2.trans (h3.trans ?_)), hd3⟩
  rfl

/-- The tokens of the formula `a=b AND c=d OR e=f`. -/
theorem tokenize_C5 (L : FloatLib) (hL : floatAlphabet L)
    (paramTypes : String → Option ValueType) (a b c d e f : String)
    (hab : isLitPair L a b = true) (hcd : isLitPair L c d = true)
    (hef : isLitPair L e f = true) :
    tokenize L (a ++ "=" ++ b ++ " AND " ++ c ++ "=" ++ d ++ " OR " ++ e ++ "=" ++ f) paramTypes =
      some (.ok [litToken a, ⟨COMP_OP, "=", ""⟩, litToken b, ⟨LOG_OP, "AND", ""⟩,
        litToken c, ⟨COMP_OP, "=", ""⟩, litToken d, ⟨LOG_OP, "OR", ""⟩,
        litToken e, ⟨COMP_OP, "=", ""⟩, litToken f]) := by
  apply tokenize_of_loop L paramTypes _ 15
  have hdata : (a ++ "=" ++ b ++ " AND " ++ c ++ "=" ++ d ++ " OR " ++ e ++ "=" ++ f).data =
      a.data ++ '=' :: (b.data ++ (' ' :: 'A' :: 'N' :: 'D' :: ' ' ::
        (c.data ++ '=' :: (d.data ++ (' ' :: 'O' :: 'R' :: ' ' ::
          (e.data ++ '=' :: (f.data ++ []))))))) := by
    simp [String.data_append]
  generalize (a ++ "=" ++ b ++ " AND " ++ c ++ "=" ++ d ++ " OR " ++ e ++ "=" ++ f).data = chars
    at hdata ⊢
  have hsp : ∀ (x : Char) (r : List Char), (' ' :: r).head? = some x → isDelim x = true := by
    intro x r hx
    simp only [List.head?_cons, Option.some.injEq] at hx
    subst hx; decide
  obtain ⟨e1, d1⟩ := tokenizeLoop_pair L hL paramTypes chars 12 0 [] a b _
    (by rw [List.drop_zero]; exact hdata) hab (hsp · _)
  obtain ⟨e2, d2⟩ := tokenizeLoop_AND L paramTypes chars 9 _ ([] ++ [litToken a, ⟨COMP_OP, "=", ""⟩, litToken b]) _ d1
  obtain ⟨e3, d3⟩ := tokenizeLoop_pair L hL paramTypes chars 6 _
    ([] ++ [litToken a, ⟨COMP_OP, "=", ""⟩, litToken b] ++ [⟨LOG_OP, "AND", ""⟩]) c d _ d2 hcd (hsp · _)
  obtain ⟨e4, d4⟩ := tokenizeLoop_OR L paramTypes chars 3 _ _ _ d3
  obtain ⟨e5, d5⟩ := tokenizeLoop_pair L hL paramTypes chars 0 _ _ e f _ d4 hef
    (fun x hx => by cases hx)
  rw [e1, e2, e3, e4, e5]
  rw [tokenizeLoop_end L paramTypes chars 0 _ _ (List.drop_eq_nil_iff.1 d5)]
  simp

theorem litToken_type (s : String) :
    (litToken s).Type_ = NUMBER ∨ (litToken s).Type_ = BOOL := by
  unfold litToken
  split
  · right; rfl
  · left; rfl

theorem equalOperator_lit (L : FloatLib) (a b : String) (hab : isLitPair L a b = true) :
    equalOperator L (litToken a) (litToken b) = .ok (resultToken (litEq L a b)) := by
  simp only [isLitPair, Bool.or_eq_true, Bool.and_eq_true] at hab
  rcases hab with ⟨ha, hb⟩ | ⟨ha, hb⟩
  · have ha' := ha
    have hb' := hb
    simp only [isBoolLit, Bool.or_eq_true, decide_eq_true_eq] at ha' hb'
    rcases ha' with h1 | h1 <;> rcases hb' with h2 | h2 <;> subst h1 <;> subst h2 <;> rfl
  · obtain ⟨_, _, hna, hpa⟩ := isNumLit_facts L a ha
    obtain ⟨_, _, hnb, hpb⟩ := isNumLit_facts L b hb
    obtain ⟨u, hu⟩ := Option.isSome_iff_exists.1 hpa
    obtain ⟨v, hv⟩ := Option.isSome_iff_exists.1 hpb
    have hne : ¬ (NUMBER_TYPE = BOOL_TYPE) := by decide
    simp [equalOperator, litToken, hna, hnb, parseFloatOperands, hu, hv, litEq, resultToken, hne]

theorem andOperator_result (r1 r2 : Bool) :
    andOperator (resultToken r1) (resultToken r2) = .ok (resultToken (r1 && r2)) := by
  cases r1 <;> cases r2 <;> rfl

theorem orOperator_result (r1 r2 : Bool) :
    orOperator (resultToken r1) (resultToken r2) = .ok (resultToken (r1 || r2)) := by
  cases r1 <;> cases r2 <;> rfl

theorem toPostfixLoop_operand (t : Token) (rest : List Token) (st : TokenStack)
    (out : List Token) (h : t.Type_ = NUMBER ∨ t.Type_ = BOOL) :
    toPostfixLoop (t :: rest) st out = toPostfixLoop rest st (out ++ [t]) := by
  rw [toPostfixLoop]
  rcases h with h | h <;> rw [h]

theorem evalLoop_operand (L : FloatLib) (rawSet : RawMessageSet) (t : Token) (rest : List Token)
    (st : TokenStack) (h : t.Type_ = NUMBER ∨ t.Type_ = BOOL) :
    evalLoop L rawSet (t :: rest) st = evalLoop L rawSet rest (t :: st) := by
  rw [evalLoop]
  rcases h with h | h <;> rw [h] <;> rfl

theorem toPostfix_C5 (ta tb tc td te tf : Token)
    (ha : ta.Type_ = NUMBER ∨ ta.Type_ = BOOL) (hb : tb.Type_ = NUMBER ∨ tb.Type_ = BOOL)
    (hc : tc.Type_ = NUMBER ∨ tc.Type_ = BOOL) (hd : td.Type_ = NUMBER ∨ td.Type_ = BOOL)
    (he : te.Type_ = NUMBER ∨ te.Type_ = BOOL) (hf : tf.Type_ = NUMBER ∨ tf.Type_ = BOOL) :
    ToPostfixExp [ta, ⟨COMP_OP, "=", ""⟩, tb, ⟨LOG_OP, "AND", ""⟩, tc, ⟨COMP_OP, "=", ""⟩, td,
        ⟨LOG_OP, "OR", ""⟩, te, ⟨COMP_OP, "=", ""⟩, tf] =
      .ok [ta, tb, ⟨COMP_OP, "=", ""⟩, tc, td, ⟨COMP_OP, "=", ""⟩, ⟨LOG_OP, "AND", ""⟩,
        te, tf, ⟨COMP_OP, "=", ""⟩, ⟨LOG_OP, "OR", ""⟩] := by
  rw [ToPostfixExp, toPostfixLoop_operand _ _ _ _ ha]
  rw [toPostfixLoop]
  simp only [operatorPrecedence, popGreater, TokenStack.Push]
  simp only [String.reduceEq, if_false, if_true]
  rw [toPostfixLoop_operand _ _ _ _ hb]
  rw [toPostfixLoop]
  simp only [operatorPrecedence, operatorPrecedenceD, popGreater, TokenStack.Push]
  simp only [String.reduceEq, if_false, if_true, Option.getD_some]
  simp only [Int.reduceLT, gt_iff_lt, if_true, if_false]
  rw [toPostfixLoop_operand _ _ _ _ hc]
  rw [toPostfixLoop]
  simp only [operatorPrecedence, operatorPrecedenceD, popGreater, TokenStack.Push]
  simp only [String.reduceEq, if_false, if_true, Option.getD_some]
  simp only [Int.reduceLT, gt_iff_lt, if_true, if_false]
  rw [toPostfixLoop_operand _ _ _ _ hd]
  rw [toPostfixLoop]
  simp only [operatorPrecedence, operatorPrecedenceD, popGreater, TokenStack.Push]
  simp only [String.reduceEq, if_false, if_true, Option.getD_some]
  simp only [Int.reduceLT, gt_iff_lt, if_true, if_false]
  rw [toPostfixLoop_operand _ _ _ _ he]
  rw [toPostfixLoop]
  simp only [operatorPrecedence, operatorPrecedenceD, popGreater, TokenStack.Push]
  simp only [String.reduceEq, if_false, if_true, Option.getD_some]
  simp only [Int.reduceLT, gt_iff_lt, if_true, if_false]
  rw [toPostfixLoop_operand _ _ _ _ hf]
  simp [toPostfixLoop]

theorem litToken_pair_type (L : FloatLib) (a b : String) (hab : isLitPair L a b = true) :
    ((litToken a).Type_ = NUMBER ∧ (litToken b).Type_ = NUMBER) ∨
      ((litToken a).Type_ = BOOL ∧ (litToken b).Type_ = BOOL) := by
  simp only [isLitPair, Bool.or_eq_true, Bool.and_eq_true] at hab
  rcases hab with ⟨ha, hb⟩ | ⟨ha, hb⟩
  · right
    simp [litToken, ha, hb]
  · left
    have hna := (isNumLit_facts L a ha).2.2.1
    have hnb := (isNumLit_facts L b hb).2.2.1
    simp [litToken, hna, hnb]

theorem evalLoop_op (L : FloatLib) (rawSet : RawMessageSet) (op x y res : Token)
    (rest : List Token) (st : TokenStack)
    (opFunc : Token → Token → Except CoreError Token)
    (hop : op.Type_ = LOG_OP ∨ op.Type_ = COMP_OP ∨ op.Type_ = ARITH_OP)
    (hf : operatorFuncs L op.Value = some opFunc) (hres : opFunc x y = .ok res) :
    evalLoop L rawSet (op :: rest) (y :: x :: st) = evalLoop L rawSet rest (res :: st) := by
  rw [evalLoop]
  rcases hop with h | h | h <;> rw [h] <;>
    simp only [hf, TokenStack.Pop, hres, TokenStack.Push]

theorem Evaluate_C5 (L : FloatLib) (rawSet : RawMessageSet) (a b c d e f : String)
    (hab : isLitPair L a b = true) (hcd : isLitPair L c d = true)
    (hef : isLitPair L e f = true) :
    Evaluate L [litToken a, litToken b, ⟨COMP_OP, "=", ""⟩, litToken c, litToken d,
        ⟨COMP_OP, "=", ""⟩, ⟨LOG_OP, "AND", ""⟩, litToken e, litToken f, ⟨COMP_OP, "=", ""⟩,
        ⟨LOG_OP, "OR", ""⟩] rawSet =
      .ok (resultToken ((litEq L a b && litEq L c d) || litEq L e f)) := by
  have heq : operatorFuncs L "=" = some (equalOperator L) := by simp [operatorFuncs]
  have hand : operatorFuncs L "AND" = some andOperator := by simp [operatorFuncs]
  have hor : operatorFuncs L "OR" = some orOperator := by simp [operatorFuncs]
  rw [Evaluate, evalLoop_operand _ _ _ _ _ (litToken_type a),
    evalLoop_operand _ _ _ _ _ (litToken_type b),
    evalLoop_op L rawSet ⟨COMP_OP, "=", ""⟩ _ _ _ _ _ _ (Or.inr (Or.inl rfl)) heq
      (equalOperator_lit L a b hab),
    evalLoop_operand _ _ _ _ _ (litToken_type c),
    evalLoop_operand _ _ _ _ _ (litToken_type d),
    evalLoop_op L rawSet ⟨COMP_OP, "=", ""⟩ _ _ _ _ _ _ (Or.inr (Or.inl rfl)) heq
      (equalOperator_lit L c d hcd),
    evalLoop_op L rawSet ⟨LOG_OP, "AND", ""⟩ _ _ _ _ _ _ (Or.inl rfl) hand
      (andOperator_result _ _),
    evalLoop_operand _ _ _ _ _ (litToken_type e),
    evalLoop_operand _ _ _ _ _ (litToken_type f),
    evalLoop_op L rawSet ⟨COMP_OP, "=", ""⟩ _ _ _ _ _ _ (Or.inr (Or.inl rfl)) heq
      (equalOperator_lit L e f hef),
    evalLoop_op L rawSet ⟨LOG_OP, "OR", ""⟩ _ _ _ _ _ _ (Or.inl rfl) hor
      (orOperator_result _ _)]
  rfl

theorem verdictOfTokens_of_calc (L : FloatLib) (tokens c exp : List Token)
    (rawSet : RawMessageSet) (v : Bool)
    (hc : calcTokensOf tokens rawSet = some c) (hp : ToPostfixExp c = .ok exp)
    (he : Evaluate L exp rawSet = .ok (resultToken v)) :
    verdictOfTokens L tokens rawSet = some v := by
  rw [verdictOfTokens, start_eq, hc]
  simp only [parser.calculation, core.Calculate, hp, he]
  exact ParseBool_Sprintf_t v

/-- C5: with no rows and no declared types, the enabled formula
`a=b AND c=d OR e=f`, where each of the pairs (a,b), (c,d), (e,f) is two boolean
literals or two integer number literals, gets the verdict
((a=b) and (c=d)) or (e=f); `Calculate` returns the formula's color when the
verdict is true (and that color outranks Grey), and Grey otherwise. -/
theorem C5_precedence (L : FloatLib) (hL : floatAlphabet L) (a b c d e f : String)
    (hab : isLitPair L a b = true) (hcd : isLitPair L c d = true)
    (hef : isLitPair L e f = true) (name : String) (color : Color) (version : Int) :
    verdict L (fun _ => none)
        ⟨name, a ++ "=" ++ b ++ " AND " ++ c ++ "=" ++ d ++ " OR " ++ e ++ "=" ++ f, color,
          version, true⟩ nilRawSet =
      some ((litEq L a b && litEq L c d) || litEq L e f) ∧
    Calculate L
        [⟨name, a ++ "=" ++ b ++ " AND " ++ c ++ "=" ++ d ++ " OR " ++ e ++ "=" ++ f, color,
          version, true⟩] [] (fun _ => none) =
      some ⟨if ((litEq L a b && litEq L c d) || litEq L e f) = true ∧
                colorPrecedence color > colorPrecedence GreyColor then color else GreyColor,
            some [[(name, ⟨version, color, (litEq L a b && litEq L c d) || litEq L e f⟩)]],
            none⟩ := by
  have hv : verdict L (fun _ => none)
      ⟨name, a ++ "=" ++ b ++ " AND " ++ c ++ "=" ++ d ++ " OR " ++ e ++ "=" ++ f, color,
        version, true⟩ nilRawSet = some ((litEq L a b && litEq L c d) || litEq L e f) := by
    rw [verdict]
    simp only [tokenize_C5 L hL (fun _ => none) a b c d e f hab hcd hef]
    exact verdictOfTokens_of_calc L _ _ _ nilRawSet _
      (calcTokensOf_C5 nilRawSet _ _ _ _ _ _ (litToken_pair_type L a b hab)
        (litToken_pair_type L c d hcd) (litToken_pair_type L e f hef))
      (toPostfix_C5 _ _ _ _ _ _ (litToken_type a) (litToken_type b)
        (litToken_type c) (litToken_type d) (litToken_type e) (litToken_type f))
      (Evaluate_C5 L nilRawSet a b c d e f hab hcd hef)
  exact ⟨hv, Calculate_single L (fun _ => none) _ [] nilRawSet _ rfl rfl hv⟩

theorem digit_isFloatChar (x : Char) (h : isDigit x = true) : isFloatChar x = true := by
  simp [isFloatChar, h]

/-- The digits and the fraction condition of `decimal.parse`, on the text
without its sign. -/
theorem decimal_parse_cond (s : String) (h : decimal.parse s ≠ none) :
    ∃ cs : List Char,
      cs = (if s.data.head? = some '-' ∨ s.data.head? = some '+' then s.data.tail else s.data) ∧
      ((cs.dropWhile isDigit = [] ∧ cs.takeWhile isDigit ≠ []) ∨
        ((cs.dropWhile isDigit).head? = some '.' ∧
          (cs.dropWhile isDigit).tail.all isDigit = true ∧
          (cs.takeWhile isDigit ≠ [] ∨ (cs.dropWhile isDigit).tail ≠ []))) := by
  refine ⟨_, rfl, ?_⟩
  by_contra hn
  exact h (if_neg hn)

theorem decimal_parse_chars (s : String) (h : decimal.parse s ≠ none) :
    ∀ x ∈ s.data, isFloatChar x = true := by
  obtain ⟨cs0, hcs0, hcond⟩ := decimal_parse_cond s h
  have key : ∀ cs : List Char,
      ((cs.dropWhile isDigit = [] ∧ cs.takeWhile isDigit ≠ []) ∨
        ((cs.dropWhile isDigit).head? = some '.' ∧
          (cs.dropWhile isDigit).tail.all isDigit = true ∧
          (cs.takeWhile isDigit ≠ [] ∨ (cs.dropWhile isDigit).tail ≠ []))) →
      ∀ x ∈ cs, isFloatChar x = true := by
    intro cs hc x hx
    rw [← List.takeWhile_append_dropWhile isDigit cs, List.mem_append] at hx
    rcases hx with hx | hx
    · exact digit_isFloatChar x (List.mem_takeWhile_imp hx)
    · rcases hc with ⟨h1, _⟩ | ⟨h1, h2, _⟩
      · rw [h1] at hx; cases hx
      · cases hd : cs.dropWhile isDigit with
        | nil => rw [hd] at hx; cases hx
        | cons y ys =>
          rw [hd] at hx h1 h2
          simp only [List.head?_cons, Option.some.injEq] at h1
          simp only [List.tail_cons, List.all_eq_true] at h2
          rcases List.mem_cons.1 hx with rfl | hx
          · rw [h1]; decide
          · exact digit_isFloatChar x (h2 x hx)
  intro x hx
  by_cases hsign : s.data.head? = some '-' ∨ s.data.head? = some '+'
  · rw [if_pos hsign] at hcs0
    subst hcs0
    cases hs : s.data with
    | nil => rw [hs] at hx; cases hx
    | cons y ys =>
      rw [hs] at hx hcond hsign
      simp only [List.head?_cons, Option.some.injEq] at hsign
      simp only [List.tail_cons] at hcond
      rcases List.mem_cons.1 hx with rfl | hx
      · rcases hsign with h | h <;> rw [h] <;> decide
      · exact key ys hcond x hx
  · rw [if_neg hsign] at hcs0
    subst hcs0
    exact key s.data hcond x hx

theorem decimalLib_floatAlphabet : floatAlphabet decimalLib := by
  intro s x hx hf
  by_contra hne
  have := decimal_parse_chars s hne x hx
  rw [hf] at this
  cases this

theorem C5_precedence_witness :
    Calculate decimalLib [⟨"formula_1", "1=2 AND 1=1 OR 1=1", GreenColor, 0, true⟩] []
        (fun _ => none) =
      some ⟨GreenColor, some [[("formula_1", ⟨0, GreenColor, true⟩)]], none⟩ :=
  (C5_precedence decimalLib decimalLib_floatAlphabet "1" "2" "1" "1" "1" "1"
    (by decide!) (by decide!) (by decide!) "formula_1" GreenColor 0).2.trans (by decide!)

/-- The tokens of the formula `a=b AND (c=d OR e=f)`. -/
theorem tokenize_C6 (L : FloatLib) (hL : floatAlphabet L)
    (paramTypes : String → Option ValueType) (a b c d e f : String)
    (hab : isLitPair L a b = true) (hcd : isLitPair L c d = true)
    (hef : isLitPair L e f = true) :
    tokenize L (a ++ "=" ++ b ++ " AND (" ++ c ++ "=" ++ d ++ " OR " ++ e ++ "=" ++ f ++ ")")
        paramTypes =
      some (.ok [litToken a, ⟨COMP_OP, "=", ""⟩, litToken b, ⟨LOG_OP, "AND", ""⟩,
        ⟨LBR, "(", ""⟩, litToken c, ⟨COMP_OP, "=", ""⟩, litToken d, ⟨LOG_OP, "OR", ""⟩,
        litToken e, ⟨COMP_OP, "=", ""⟩, litToken f, ⟨RBR, ")", ""⟩]) := by
  apply tokenize_of_loop L paramTypes _ 17
  have hdata : (a ++ "=" ++ b ++ " AND (" ++ c ++ "=" ++ d ++ " OR " ++ e ++ "=" ++ f
        ++ ")").data =
      a.data ++ '=' :: (b.data ++ (' ' :: 'A' :: 'N' :: 'D' :: ' ' :: ('(' ::
        (c.data ++ '=' :: (d.data ++ (' ' :: 'O' :: 'R' :: ' ' ::
          (e.data ++ '=' :: (f.data ++ [')'])))))))) := by
    simp [String.data_append]
  generalize (a ++ "=" ++ b ++ " AND (" ++ c ++ "=" ++ d ++ " OR " ++ e ++ "=" ++ f
    ++ ")").data = chars at hdata ⊢
  have hsp : ∀ (x : Char) (r : List Char), (' ' :: r).head? = some x → isDelim x = true := by
    intro x r hx
    simp only [List.head?_cons, Option.some.injEq] at hx
    subst hx; decide
  obtain ⟨e1, d1⟩ := tokenizeLoop_pair L hL paramTypes chars 14 0 [] a b _
    (by rw [List.drop_zero]; exact hdata) hab (hsp · _)
  obtain ⟨e2, d2⟩ := tokenizeLoop_AND L paramTypes chars 11 _
    ([] ++ [litToken a, ⟨COMP_OP, "=", ""⟩, litToken b]) _ d1
  have e3 := tokenizeLoop_lbr L paramTypes chars 10 _
    ([] ++ [litToken a, ⟨COMP_OP, "=", ""⟩, litToken b] ++ [⟨LOG_OP, "AND", ""⟩]) _ d2
  have d3 := (drop_facts chars _ _ _ d2).2.2
  obtain ⟨e4, d4⟩ := tokenizeLoop_pair L hL paramTypes chars 7 _
    ([] ++ [litToken a, ⟨COMP_OP, "=", ""⟩, litToken b] ++ [⟨LOG_OP, "AND", ""⟩] ++
      [⟨LBR, "(", ""⟩]) c d _ d3 hcd (hsp · _)
  obtain ⟨e5, d5⟩ := tokenizeLoop_OR L paramTypes chars 4 _ _ _ d4
  obtain ⟨e6, d6⟩ := tokenizeLoop_pair L hL paramTypes chars 1 _ _ e f _ d5 hef
    (fun x hx => by
      simp only [List.head?_cons, Option.some.injEq] at hx
      subst hx; decide)
  have e7 := tokenizeLoop_rbr L paramTypes chars 0 _
    ([] ++ [litToken a, ⟨COMP_OP, "=", ""⟩, litToken b] ++ [⟨LOG_OP, "AND", ""⟩] ++
      [⟨LBR, "(", ""⟩] ++ [litToken c, ⟨COMP_OP, "=", ""⟩, litToken d] ++
      [⟨LOG_OP, "OR", ""⟩] ++ [litToken e, ⟨COMP_OP, "=", ""⟩, litToken f]) _ d6
  have d7 := (drop_facts chars _ _ _ d6).2.2
  rw [e1, e2, e3, e4, e5, e6, e7]
  rw [tokenizeLoop_end L paramTypes chars 0 _ _ (List.drop_eq_nil_iff.1 d7)]
  simp

theorem toPostfix_C6 (ta tb tc td te tf : Token)
    (ha : ta.Type_ = NUMBER ∨ ta.Type_ = BOOL) (hb : tb.Type_ = NUMBER ∨ tb.Type_ = BOOL)
    (hc : tc.Type_ = NUMBER ∨ tc.Type_ = BOOL) (hd : td.Type_ = NUMBER ∨ td.Type_ = BOOL)
    (he : te.Type_ = NUMBER ∨ te.Type_ = BOOL) (hf : tf.Type_ = NUMBER ∨ tf.Type_ = BOOL) :
    ToPostfixExp [ta, ⟨COMP_OP, "=", ""⟩, tb, ⟨LOG_OP, "AND", ""⟩, ⟨LBR, "(", ""⟩, tc,
        ⟨COMP_OP, "=", ""⟩, td, ⟨LOG_OP, "OR", ""⟩, te, ⟨COMP_OP, "=", ""⟩, tf,
        ⟨RBR, ")", ""⟩] =
      .ok [ta, tb, ⟨COMP_OP, "=", ""⟩, tc, td, ⟨COMP_OP, "=", ""⟩, te, tf,
        ⟨COMP_OP, "=", ""⟩, ⟨LOG_OP, "OR", ""⟩, ⟨LOG_OP, "AND", ""⟩] := by
  have step : ∀ (op : Token) (rest st out : List Token) (w : Int),
      (op.Type_ = LOG_OP ∨ op.Type_ = COMP_OP) → operatorPrecedence op.Value = some w →
      toPostfixLoop (op :: rest) st out =
        toPostfixLoop rest ((popGreater w st out).1.Push op) (popGreater w st out).2 := by
    intro op rest st out w hop hw
    rw [toPostfixLoop]
    rcases hop with h | h <;> rw [h] <;> simp only [hw]
  have pAND : operatorPrecedence "AND" = some 30 := by decide
  have pOR : operatorPrecedence "OR" = some 20 := by decide
  have pEQ : operatorPrecedence "=" = some 40 := by decide
  rw [ToPostfixExp, toPostfixLoop_operand _ _ _ _ ha,
    step ⟨COMP_OP, "=", ""⟩ _ _ _ 40 (Or.inr rfl) pEQ,
    toPostfixLoop_operand _ _ _ _ hb,
    step ⟨LOG_OP, "AND", ""⟩ _ _ _ 30 (Or.inl rfl) pAND,
    toPostfixLoop]
  simp only [TokenStack.Push, popGreater, operatorPrecedenceD, pEQ, Option.getD_some]
  rw [toPostfixLoop_operand _ _ _ _ hc,
    step ⟨COMP_OP, "=", ""⟩ _ _ _ 40 (Or.inr rfl) pEQ,
    toPostfixLoop_operand _ _ _ _ hd,
    step ⟨LOG_OP, "OR", ""⟩ _ _ _ 20 (Or.inl rfl) pOR,
    toPostfixLoop_operand _ _ _ _ he,
    step ⟨COMP_OP, "=", ""⟩ _ _ _ 40 (Or.inr rfl) pEQ,
    toPostfixLoop_operand _ _ _ _ hf,
    toPostfixLoop]
  simp [TokenStack.Push, popGreater, operatorPrecedenceD, operatorPrecedence, popToLeftBracket,
    toPostfixLoop]

theorem Evaluate_C6 (L : FloatLib) (rawSet : RawMessageSet) (a b c d e f : String)
    (hab : isLitPair L a b = true) (hcd : isLitPair L c d = true)
    (hef : isLitPair L e f = true) :
    Evaluate L [litToken a, litToken b, ⟨COMP_OP, "=", ""⟩, litToken c, litToken d,
        ⟨COMP_OP, "=", ""⟩, litToken e, litToken f, ⟨COMP_OP, "=", ""⟩,
        ⟨LOG_OP, "OR", ""⟩, ⟨LOG_OP, "AND", ""⟩] rawSet =
      .ok (resultToken (litEq L a b && (litEq L c d || litEq L e f))) := by
  have heq : operatorFuncs L "=" = some (equalOperator L) := by simp [operatorFuncs]
  have hand : operatorFuncs L "AND" = some andOperator := by simp [operatorFuncs]
  have hor : operatorFuncs L "OR" = some orOperator := by simp [operatorFuncs]
  rw [Evaluate, evalLoop_operand _ _ _ _ _ (litToken_type a),
    evalLoop_operand _ _ _ _ _ (litToken_type b),
    evalLoop_op L rawSet ⟨COMP_OP, "=", ""⟩ _ _ _ _ _ _ (Or.inr (Or.inl rfl)) heq
      (equalOperator_lit L a b hab),
    evalLoop_operand _ _ _ _ _ (litToken_type c),
    evalLoop_operand _ _ _ _ _ (litToken_type d),
    evalLoop_op L rawSet ⟨COMP_OP, "=", ""⟩ _ _ _ _ _ _ (Or.inr (Or.inl rfl)) heq
      (equalOperator_lit L c d hcd),
    evalLoop_operand _ _ _ _ _ (litToken_type e),
    evalLoop_operand _ _ _ _ _ (litToken_type f),
    evalLoop_op L rawSet ⟨COMP_OP, "=", ""⟩ _ _ _ _ _ _ (Or.inr (Or.inl rfl)) heq
      (equalOperator_lit L e f hef),
    evalLoop_op L rawSet ⟨LOG_OP, "OR", ""⟩ _ _ _ _ _ _ (Or.inl rfl) hor
      (orOperator_result _ _),
    evalLoop_op L rawSet ⟨LOG_OP, "AND", ""⟩ _ _ _ _ _ _ (Or.inl rfl) hand
      (andOperator_result _ _)]
  rfl

/-- C6: with no rows, the enabled formula `a=b AND (c=d OR e=f)`, where each of
the pairs (a,b), (c,d), (e,f) is two boolean literals or two integer number
literals, gets the verdict (a=b) and ((c=d) or (e=f)): the brackets override
the precedence of AND over OR. -/
theorem C6_brackets_override (L : FloatLib) (hL : floatAlphabet L) (a b c d e f : String)
    (hab : isLitPair L a b = true) (hcd : isLitPair L c d = true)
    (hef : isLitPair L e f = true) (name : String) (color : Color) (version : Int) :
    verdict L (fun _ => none)
        ⟨name, a ++ "=" ++ b ++ " AND (" ++ c ++ "=" ++ d ++ " OR " ++ e ++ "=" ++ f ++ ")",
          color, version, true⟩ nilRawSet =
      some (litEq L a b && (litEq L c d || litEq L e f)) ∧
    Calculate L
        [⟨name, a ++ "=" ++ b ++ " AND (" ++ c ++ "=" ++ d ++ " OR " ++ e ++ "=" ++ f ++ ")",
          color, version, true⟩] [] (fun _ => none) =
      some ⟨if (litEq L a b && (litEq L c d || litEq L e f)) = true ∧
                colorPrecedence color > colorPrecedence GreyColor then color else GreyColor,
            some [[(name, ⟨version, color, litEq L a b && (litEq L c d || litEq L e f)⟩)]],
            none⟩ := by
  have hv : verdict L (fun _ => none)
      ⟨name, a ++ "=" ++ b ++ " AND (" ++ c ++ "=" ++ d ++ " OR " ++ e ++ "=" ++ f ++ ")",
        color, version, true⟩ nilRawSet =
      some (litEq L a b && (litEq L c d || litEq L e f)) := by
    rw [verdict]
    simp only [tokenize_C6 L hL (fun _ => none) a b c d e f hab hcd hef]
    exact verdictOfTokens_of_calc L _ _ _ nilRawSet _
      (calcTokensOf_C6 nilRawSet _ _ _ _ _ _ (litToken_pair_type L a b hab)
        (litToken_pair_type L c d hcd) (litToken_pair_type L e f hef))
      (toPostfix_C6 _ _ _ _ _ _ (litToken_type a) (litToken_type b)
        (litToken_type c) (litToken_type d) (litToken_type e) (litToken_type f))
      (Evaluate_C6 L nilRawSet a b c d e f hab hcd hef)
  exact ⟨hv, Calculate_single L (fun _ => none) _ [] nilRawSet _ rfl rfl hv⟩

theorem C6_brackets_override_witness :
    Calculate decimalLib [⟨"formula_1", "1=2 AND (1=1 OR 1=1)", GreenColor, 0, true⟩] []
        (fun _ => none) =
      some ⟨GreyColor, some [[("formula_1", ⟨0, GreenColor, false⟩)]], none⟩ :=
  (C6_brackets_override decimalLib decimalLib_floatAlphabet "1" "2" "1" "1" "1" "1"
    (by decide!) (by decide!) (by decide!) "formula_1" GreenColor 0).2.trans (by decide!)

theorem isIdentName_facts (x : String) (h : isIdentName x = true) :
    ∃ c cs, x.data = c :: cs ∧ isAlpha c = true ∧ (∀ y ∈ cs, isIdentChar y = true) ∧
      isBool x.data = false ∧ isOrAnd x.data = false ∧ isExistsFunc x.data = false := by
  unfold isIdentName at h
  split at h
  · cases h
  next c cs hx =>
    simp only [Bool.and_eq_true, List.all_eq_true, Bool.not_eq_true'] at h
    obtain ⟨⟨⟨⟨h1, h2⟩, h3⟩, h4⟩, h5⟩ := h
    exact ⟨c, cs, hx, h1, h2, h3, h4, h5⟩

theorem classify_ident (paramTypes : String → Option ValueType) (x : String)
    (h1 : isBool x.data = false) (h2 : isOrAnd x.data = false)
    (h3 : isExistsFunc x.data = false) :
    classify paramTypes x.data = ⟨IDENT, x, (paramTypes x).getD UNKNOWN_TYPE⟩ := by
  simp only [classify, h1, h2, h3, Bool.false_eq_true, if_false, String_mk_data]
  cases paramTypes x <;> rfl

/-- The tokens of the formula `exists(x)`. -/
theorem tokenize_exists (L : FloatLib) (paramTypes : String → Option ValueType) (x : String)
    (hx : isIdentName x = true) :
    tokenize L ("exists(" ++ x ++ ")") paramTypes =
      some (.ok [⟨EXISTS_FUNC, "exists", ""⟩, ⟨LBR, "(", ""⟩,
        ⟨IDENT, x, (paramTypes x).getD UNKNOWN_TYPE⟩, ⟨RBR, ")", ""⟩]) := by
  obtain ⟨c, cs, hd, hc, hcs, h1, h2, h3⟩ := isIdentName_facts x hx
  apply tokenize_of_loop L paramTypes _ 4
  have hdata : ("exists(" ++ x ++ ")").data =
      ('e' :: ['x', 'i', 's', 't', 's']) ++ ('(' :: ((c :: cs) ++ [')'])) := by
    simp [String.data_append, hd]
  generalize ("exists(" ++ x ++ ")").data = chars at hdata ⊢
  have e1 := tokenizeLoop_word L paramTypes chars 3 0 [] 'e' ['x', 'i', 's', 't', 's'] _
    (by rw [List.drop_zero]; exact hdata) (by decide) (by decide)
    (fun y hy => by
      simp only [List.head?_cons, Option.some.injEq] at hy
      subst hy; decide)
  have d1 := (drop_append_facts chars 0 _ _ (by rw [List.drop_zero]; exact hdata)).1
  have e2 := tokenizeLoop_lbr L paramTypes chars 2 _
    ([] ++ [classify paramTypes ('e' :: ['x', 'i', 's', 't', 's'])]) _ d1
  have d2 := (drop_facts chars _ _ _ d1).2.2
  have e3 := tokenizeLoop_word L paramTypes chars 1 _
    ([] ++ [classify paramTypes ('e' :: ['x', 'i', 's', 't', 's'])] ++ [⟨LBR, "(", ""⟩])
    c cs [')'] d2 hc hcs
    (fun y hy => by
      simp only [List.head?_cons, Option.some.injEq] at hy
      subst hy; decide)
  have d3 := (drop_append_facts chars _ _ _ d2).1
  have e4 := tokenizeLoop_rbr L paramTypes chars 0 _
    ([] ++ [classify paramTypes ('e' :: ['x', 'i', 's', 't', 's'])] ++ [⟨LBR, "(", ""⟩] ++
      [classify paramTypes (c :: cs)]) _ d3
  have d4 := (drop_facts chars _ _ _ d3).2.2
  rw [e1, e2, e3, e4, tokenizeLoop_end L paramTypes chars 0 _ _ (List.drop_eq_nil_iff.1 d4)]
  rw [← hd, classify_ident paramTypes x h1 h2 h3]
  rfl

/-- C7: for every row, every identifier name `x` and every table of declared
types, the formula `exists(x)` tokenizes to the four tokens of an exists call
and its verdict for the row is `true` exactly when `x` is present in the row;
`Calculate` on it returns accordingly. -/
theorem C7_exists_verdict (L : FloatLib) (paramTypes : String → Option ValueType)
    (rawSet : RawMessageSet) (x : String) (hx : isIdentName x = true)
    (name : String) (color : Color) (version : Int) :
    tokenize L ("exists(" ++ x ++ ")") paramTypes =
      some (.ok [⟨EXISTS_FUNC, "exists", ""⟩, ⟨LBR, "(", ""⟩,
        ⟨IDENT, x, (paramTypes x).getD UNKNOWN_TYPE⟩, ⟨RBR, ")", ""⟩]) ∧
    verdict L paramTypes ⟨name, "exists(" ++ x ++ ")", color, version, true⟩ rawSet =
      some (rawSet x).isSome ∧
    Calculate L [⟨name, "exists(" ++ x ++ ")", color, version, true⟩] [rawSet] paramTypes =
      some ⟨if (rawSet x).isSome = true ∧ colorPrecedence color > colorPrecedence GreyColor
              then color else GreyColor,
            some [[(name, ⟨version, color, (rawSet x).isSome⟩)]], none⟩ := by
  have ht := tokenize_exists L paramTypes x hx
  have hv : verdict L paramTypes ⟨name, "exists(" ++ x ++ ")", color, version, true⟩ rawSet =
      some (rawSet x).isSome := by
    rw [verdict]
    simp only [ht]
    exact verdictOfTokens_of_calc L _ _ [resultToken (rawSet x).isSome] rawSet _
      (calcTokensOf_exists rawSet x _ _ _ _ _ _ _) rfl rfl
  exact ⟨ht, hv, Calculate_single L paramTypes _ [rawSet] rawSet _ rfl rfl hv⟩

theorem C7_exists_verdict_witness :
    Calculate decimalLib [⟨"formula_1", "exists(s6004)", YellowColor, 3, true⟩]
        [fun name => if name = "s2001" then some "10" else none] testTypes =
      some ⟨GreyColor, some [[("formula_1", ⟨3, YellowColor, false⟩)]], none⟩ ∧
    Calculate decimalLib [⟨"formula_1", "exists(s2001)", YellowColor, 3, true⟩]
        [fun name => if name = "s2001" then some "10" else none] testTypes =
      some ⟨YellowColor, some [[("formula_1", ⟨3, YellowColor, true⟩)]], none⟩ :=
  ⟨(C7_exists_verdict decimalLib testTypes (fun name => if name = "s2001" then some "10" else none)
      "s6004" (by decide) "formula_1" YellowColor 3).2.2.trans (by decide!),
   (C7_exists_verdict decimalLib testTypes (fun name => if name = "s2001" then some "10" else none)
      "s2001" (by decide) "formula_1" YellowColor 3).2.2.trans (by decide!)⟩

theorem Calculate_succeeds_of_verdicts (L : FloatLib) (formulas : List Formula)
    (rawSets : List RawMessageSet) (paramTypes : String → Option ValueType)
    (h : ∀ f ∈ formulas, f.IsEnable = true → ∀ rawSet ∈ effectiveRows rawSets,
      (verdict L paramTypes f rawSet).isSome = true) :
    ∃ o, Calculate L formulas rawSets paramTypes = some o ∧ o.err = none := by
  rcases Calculate_spec L formulas rawSets paramTypes with ⟨e, _, f, hf, hen, r, hr, hn⟩ | ⟨he, _⟩
  · have := h f hf hen r hr
    rw [hn] at this
    cases this
  · exact ⟨_, he, rfl⟩

theorem start_unknown_parameter (L : FloatLib) (tokens c pre post : List Token) (x : Token)
    (st : TokenStack) (rawSet : RawMessageSet)
    (hc : calcTokensOf tokens rawSet = some c)
    (hp : ToPostfixExp c = .ok (pre ++ x :: post))
    (hx : x.Type_ = IDENT) (hab : rawSet x.Value = none)
    (hpre : evalLoop L rawSet pre [] = .ok st) :
    (newParser tokens rawSet).start L = some (.ok ⟨BOOL, "false", BOOL_TYPE⟩) := by
  rw [start_eq, hc]
  simp only [parser.calculation, core.Calculate, hp, Evaluate, evalLoop_append, hpre]
  rw [evalLoop, hx]
  simp only [hab]

/-- C3 as amended: when the postfix form of an accepted formula reaches an
identifier that is absent from the row, every token before it having been
evaluated without a failure, `start` returns the token `false`, the verdict of
the formula for that row is `false`, and `Calculate` succeeds if every other
enabled formula and row has a verdict. -/
theorem C3_unknown_identifier_amended (L : FloatLib) (paramTypes : String → Option ValueType)
    (f : Formula) (rawSet : RawMessageSet) (tokens c pre post : List Token) (x : Token)
    (st : TokenStack)
    (ht : tokenize L f.Expression paramTypes = some (.ok tokens))
    (hc : calcTokensOf tokens rawSet = some c)
    (hp : ToPostfixExp c = .ok (pre ++ x :: post))
    (hx : x.Type_ = IDENT) (hab : rawSet x.Value = none)
    (hpre : evalLoop L rawSet pre [] = .ok st) :
    (newParser tokens rawSet).start L = some (.ok ⟨BOOL, "false", BOOL_TYPE⟩) ∧
    verdict L paramTypes f rawSet = some false ∧
    ∀ (formulas : List Formula) (rawSets : List RawMessageSet),
      (∀ g ∈ formulas, g.IsEnable = true → ∀ r ∈ effectiveRows rawSets,
        (g = f ∧ r = rawSet) ∨ (verdict L paramTypes g r).isSome = true) →
      ∃ o, Calculate L formulas rawSets paramTypes = some o ∧ o.err = none := by
  have hs := start_unknown_parameter L tokens c pre post x st rawSet hc hp hx hab hpre
  have hv : verdict L paramTypes f rawSet = some false := by
    rw [verdict]
    simp only [ht, verdictOfTokens, hs]
    rfl
  refine ⟨hs, hv, ?_⟩
  intro formulas rawSets hall
  apply Calculate_succeeds_of_verdicts
  intro g hg hen r hr
  rcases hall g hg hen r hr with ⟨rfl, rfl⟩ | h
  · rw [hv]; rfl
  · exact h

theorem C3_unknown_identifier_amended_witness :
    tokenize decimalLib
        "exists(founder_url)=false AND s2001 > (s2001-s6004)* unknown_param + 0.5" testTypes =
      some (.ok unknownParamTokens) ∧
    verdict decimalLib testTypes
        ⟨"formula_1", "exists(founder_url)=false AND s2001 > (s2001-s6004)* unknown_param + 0.5",
          GreenColor, 0, true⟩ testRowOne = some false :=
  ⟨by decide!,
    (C3_unknown_identifier_amended decimalLib testTypes
      ⟨"formula_1", "exists(founder_url)=false AND s2001 > (s2001-s6004)* unknown_param + 0.5",
        GreenColor, 0, true⟩ testRowOne unknownParamTokens
      [⟨BOOL, "false", BOOL_TYPE⟩, ⟨COMP_OP, "=", ""⟩, ⟨BOOL, "false", BOOL_TYPE⟩,
        ⟨LOG_OP, "AND", ""⟩, ⟨IDENT, "s2001", NUMBER_TYPE⟩, ⟨COMP_OP, ">", ""⟩, ⟨LBR, "(", ""⟩,
        ⟨IDENT, "s2001", NUMBER_TYPE⟩, ⟨ARITH_OP, "-", ""⟩, ⟨IDENT, "s6004", NUMBER_TYPE⟩,
        ⟨RBR, ")", ""⟩, ⟨ARITH_OP, "*", ""⟩, ⟨IDENT, "unknown_param", UNKNOWN_TYPE⟩,
        ⟨ARITH_OP, "+", ""⟩, ⟨NUMBER, "0.5", NUMBER_TYPE⟩]
      [⟨BOOL, "false", BOOL_TYPE⟩, ⟨BOOL, "false", BOOL_TYPE⟩, ⟨COMP_OP, "=", ""⟩,
        ⟨IDENT, "s2001", NUMBER_TYPE⟩, ⟨IDENT, "s2001", NUMBER_TYPE⟩,
        ⟨IDENT, "s6004", NUMBER_TYPE⟩, ⟨ARITH_OP, "-", ""⟩]
      [⟨ARITH_OP, "*", ""⟩, ⟨NUMBER, "0.5", NUMBER_TYPE⟩, ⟨ARITH_OP, "+", ""⟩,
        ⟨COMP_OP, ">", ""⟩, ⟨LOG_OP, "AND", ""⟩]
      ⟨IDENT, "unknown_param", UNKNOWN_TYPE⟩
      [⟨NUMBER, "1999990.000000", NUMBER_TYPE⟩, ⟨IDENT, "2000000", NUMBER_TYPE⟩,
        ⟨BOOL, "true", BOOL_TYPE⟩]
      (by decide!) (by decide!) (by decide!) rfl (by decide!) (by decide!)).2.1⟩

/-- C3 fails as stated: the formula `true > false OR x = true` tokenizes and
passes the grammar check, and its identifier `x` (not inside an exists call) is
absent from the row; yet it has no verdict, because `>` fails on the two
booleans before `x` is reached, and `Calculate` returns the error with Black. -/
theorem C3_counterexample :
    tokenize decimalLib "true > false OR x = true" (fun _ => none) =
      some (.ok [⟨BOOL, "true", BOOL_TYPE⟩, ⟨COMP_OP, ">", ""⟩, ⟨BOOL, "false", BOOL_TYPE⟩,
        ⟨LOG_OP, "OR", ""⟩, ⟨IDENT, "x", UNKNOWN_TYPE⟩, ⟨COMP_OP, "=", ""⟩,
        ⟨BOOL, "true", BOOL_TYPE⟩]) ∧
    calcTokensOf [⟨BOOL, "true", BOOL_TYPE⟩, ⟨COMP_OP, ">", ""⟩, ⟨BOOL, "false", BOOL_TYPE⟩,
        ⟨LOG_OP, "OR", ""⟩, ⟨IDENT, "x", UNKNOWN_TYPE⟩, ⟨COMP_OP, "=", ""⟩,
        ⟨BOOL, "true", BOOL_TYPE⟩] nilRawSet =
      some [⟨BOOL, "true", BOOL_TYPE⟩, ⟨COMP_OP, ">", ""⟩, ⟨BOOL, "false", BOOL_TYPE⟩,
        ⟨LOG_OP, "OR", ""⟩, ⟨IDENT, "x", UNKNOWN_TYPE⟩, ⟨COMP_OP, "=", ""⟩,
        ⟨BOOL, "true", BOOL_TYPE⟩] ∧
    nilRawSet "x" = none ∧
    verdict decimalLib (fun _ => none)
      ⟨"formula_1", "true > false OR x = true", GreenColor, 0, true⟩ nilRawSet = none ∧
    Calculate decimalLib [⟨"formula_1", "true > false OR x = true", GreenColor, 0, true⟩] []
        (fun _ => none) =
      some ⟨BlackColor, none, some (.ParseError
        "calculation failed: operator not defined for types: 'bool'")⟩ :=
  ⟨by decide!, by decide!, rfl, by decide!, by decide!⟩

/-! ## The operator table -/

theorem numeric_operator_types (L : FloatLib) (key : String) (hk : key ∈ numericKeys) :
    ∃ f, operatorFuncs L key = some f ∧ ∀ x y : Token, x.ValueType = y.ValueType →
      (x.ValueType ≠ NUMBER_TYPE →
        f x y = .error (.CalculationError errInvalidOperatorForType (quote1 x.ValueType))) ∧
      (∀ res, f x y = .ok res → x.ValueType = NUMBER_TYPE) := by
  simp only [numericKeys, List.mem_cons, List.mem_singleton, List.not_mem_nil, or_false] at hk
  rcases hk with h | h | h | h | h | h | h | h <;> subst h
  · refine ⟨addOperator L, by simp [operatorFuncs], fun x y hxy => ?_⟩
    rw [addOperator, if_neg (not_not.2 hxy)]
    by_cases hn : x.ValueType = NUMBER_TYPE
    · rw [if_pos hn]; exact ⟨fun h => absurd hn h, fun _ _ => hn⟩
    · rw [if_neg hn]; exact ⟨fun _ => rfl, fun res h => by cases h⟩
  · refine ⟨subOperator L, by simp [operatorFuncs], fun x y hxy => ?_⟩
    rw [subOperator, if_neg (not_not.2 hxy)]
    by_cases hn : x.ValueType = NUMBER_TYPE
    · rw [if_pos hn]; exact ⟨fun h => absurd hn h, fun _ _ => hn⟩
    · rw [if_neg hn]; exact ⟨fun _ => rfl, fun res h => by cases h⟩
  · refine ⟨mulOperator L, by simp [operatorFuncs], fun x y hxy => ?_⟩
    rw [mulOperator, if_neg (not_not.2 hxy)]
    by_cases hn : x.ValueType = NUMBER_TYPE
    · rw [if_pos hn]; exact ⟨fun h => absurd hn h, fun _ _ => hn⟩
    · rw [if_neg hn]; exact ⟨fun _ => rfl, fun res h => by cases h⟩
  · refine ⟨divOperator L, by simp [operatorFuncs], fun x y hxy => ?_⟩
    rw [divOperator, if_neg (not_not.2 hxy)]
    by_cases hn : x.ValueType = NUMBER_TYPE
    · rw [if_pos hn]; exact ⟨fun h => absurd hn h, fun _ _ => hn⟩
    · rw [if_neg hn]; exact ⟨fun _ => rfl, fun res h => by cases h⟩
  · refine ⟨moreOperator L, by simp [operatorFuncs], fun x y hxy => ?_⟩
    rw [moreOperator, if_neg (not_not.2 hxy)]
    by_cases hn : x.ValueType = NUMBER_TYPE
    · rw [if_pos hn]; exact ⟨fun h => absurd hn h, fun _ _ => hn⟩
    · rw [if_neg hn]; exact ⟨fun _ => rfl, fun res h => by cases h⟩
  · refine ⟨lessOperator L, by simp [operatorFuncs], fun x y hxy => ?_⟩
    rw [lessOperator, if_neg (not_not.2 hxy)]
    by_cases hn : x.ValueType = NUMBER_TYPE
    · rw [if_pos hn]; exact ⟨fun h => absurd hn h, fun _ _ => hn⟩
    · rw [if_neg hn]; exact ⟨fun _ => rfl, fun res h => by cases h⟩
  · refine ⟨moreEqualOperator L, by simp [operatorFuncs], fun x y hxy => ?_⟩
    rw [moreEqualOperator, if_neg (not_not.2 hxy)]
    by_cases hn : x.ValueType = NUMBER_TYPE
    · rw [if_pos hn]; exact ⟨fun h => absurd hn h, fun _ _ => hn⟩
    · rw [if_neg hn]; exact ⟨fun _ => rfl, fun res h => by cases h⟩
  · refine ⟨lessEqualOperator L, by simp [operatorFuncs], fun x y hxy => ?_⟩
    rw [lessEqualOperator, if_neg (not_not.2 hxy)]
    by_cases hn : x.ValueType = NUMBER_TYPE
    · rw [if_pos hn]; exact ⟨fun h => absurd hn h, fun _ _ => hn⟩
    · rw [if_neg hn]; exact ⟨fun _ => rfl, fun res h => by cases h⟩

theorem logic_operator_types (L : FloatLib) (key : String) (hk : key ∈ ["AND", "OR"]) :
    ∃ f, operatorFuncs L key = some f ∧ ∀ x y : Token, x.ValueType = y.ValueType →
      (x.ValueType ≠ BOOL_TYPE →
        f x y = .error (.CalculationError errInvalidOperatorForType (quote1 x.ValueType))) ∧
      (∀ res, f x y = .ok res → x.ValueType = BOOL_TYPE) := by
  simp only [List.mem_cons, List.mem_singleton, List.not_mem_nil, or_false] at hk
  rcases hk with h | h <;> subst h
  · refine ⟨andOperator, by simp [operatorFuncs], fun x y hxy => ?_⟩
    rw [andOperator, if_neg (not_not.2 hxy)]
    by_cases hn : x.ValueType = BOOL_TYPE
    · rw [if_pos hn]; exact ⟨fun h => absurd hn h, fun _ _ => hn⟩
    · rw [if_neg hn]; exact ⟨fun _ => rfl, fun res h => by cases h⟩
  · refine ⟨orOperator, by simp [operatorFuncs], fun x y hxy => ?_⟩
    rw [orOperator, if_neg (not_not.2 hxy)]
    by_cases hn : x.ValueType = BOOL_TYPE
    · rw [if_pos hn]; exact ⟨fun h => absurd hn h, fun _ _ => hn⟩
    · rw [if_neg hn]; exact ⟨fun _ => rfl, fun res h => by cases h⟩

theorem equality_operator_types (L : FloatLib) (key : String) (hk : key ∈ ["=", "!="]) :
    ∃ f, operatorFuncs L key = some f ∧ ∀ x y : Token, x.ValueType = y.ValueType →
      (x.ValueType ≠ BOOL_TYPE → x.ValueType ≠ NUMBER_TYPE →
        f x y = .error (.CalculationError errInvalidOperatorForType (quote1 x.ValueType))) ∧
      (∀ res, f x y = .ok res → x.ValueType = BOOL_TYPE ∨ x.ValueType = NUMBER_TYPE) ∧
      (x.ValueType = BOOL_TYPE ∨ x.ValueType = NUMBER_TYPE →
        ∀ v, f x y ≠ .error (.CalculationError errInvalidOperatorForType v)) := by
  simp only [List.mem_cons, List.mem_singleton, List.not_mem_nil, or_false] at hk
  have hne : errTypeCast ≠ errInvalidOperatorForType := by decide
  rcases hk with h | h <;> subst h
  · refine ⟨equalOperator L, by simp [operatorFuncs], fun x y hxy => ?_⟩
    rw [equalOperator, if_neg (not_not.2 hxy)]
    by_cases hb : x.ValueType = BOOL_TYPE
    · rw [if_pos hb]
      refine ⟨fun h => absurd hb h, fun _ _ => Or.inl hb, fun _ v => ?_⟩
      unfold parseBoolOperands
      cases strconv.ParseBool x.Value with
      | none => simp [hne]
      | some a =>
        cases strconv.ParseBool y.Value with
        | none => simp [hne]
        | some b => simp
    · rw [if_neg hb]
      by_cases hn : x.ValueType = NUMBER_TYPE
      · rw [if_pos hn]
        refine ⟨fun _ h => absurd hn h, fun _ _ => Or.inr hn, fun _ v => ?_⟩
        unfold parseFloatOperands
        cases L.ParseFloat x.Value with
        | none => simp [hne]
        | some a =>
          cases L.ParseFloat y.Value with
          | none => simp [hne]
          | some b => simp
      · rw [if_neg hn]
        refine ⟨fun _ _ => rfl, fun res h => (by cases h), fun h => ?_⟩
        rcases h with h | h <;> contradiction
  · refine ⟨notEqualOperator L, by simp [operatorFuncs], fun x y hxy => ?_⟩
    rw [notEqualOperator, if_neg (not_not.2 hxy)]
    by_cases hb : x.ValueType = BOOL_TYPE
    · rw [if_pos hb]
      refine ⟨fun h => absurd hb h, fun _ _ => Or.inl hb, fun _ v => ?_⟩
      unfold parseBoolOperands
      cases strconv.ParseBool x.Value with
      | none => simp [hne]
      | some a =>
        cases strconv.ParseBool y.Value with
        | none => simp [hne]
        | some b => simp
    · rw [if_neg hb]
      by_cases hn : x.ValueType = NUMBER_TYPE
      · rw [if_pos hn]
        refine ⟨fun _ h => absurd hn h, fun _ _ => Or.inr hn, fun _ v => ?_⟩
        unfold parseFloatOperands
        cases L.ParseFloat x.Value with
        | none => simp [hne]
        | some a =>
          cases L.ParseFloat y.Value with
          | none => simp [hne]
          | some b => simp
      · rw [if_neg hn]
        refine ⟨fun _ _ => rfl, fun res h => (by cases h), fun h => ?_⟩
        rcases h with h | h <;> contradiction

theorem Sprintf_t_cases (b : Bool) : Sprintf_t b = "true" ∨ Sprintf_t b = "false" := by
  cases b
  · exact Or.inr rfl
  · exact Or.inl rfl

theorem boolean_result_format (L : FloatLib) (key : String) (hk : key ∈ booleanResultKeys) :
    ∃ f, operatorFuncs L key = some f ∧ ∀ x y res, f x y = .ok res →
      res.Type_ = BOOL ∧ res.ValueType = BOOL_TYPE ∧ (res.Value = "true" ∨ res.Value = "false") := by
  simp only [booleanResultKeys, List.mem_cons, List.mem_singleton, List.not_mem_nil, or_false] at hk
  rcases hk with h | h | h | h | h | h | h | h <;> subst h
  · refine ⟨moreOperator L, by simp [operatorFuncs], fun x y res h => ?_⟩
    unfold moreOperator at h
    (repeat' split at h) <;> first
      | (cases h; done)
      | (injection h with h; subst h; exact ⟨rfl, rfl, Sprintf_t_cases _⟩)
  · refine ⟨lessOperator L, by simp [operatorFuncs], fun x y res h => ?_⟩
    unfold lessOperator at h
    (repeat' split at h) <;> first
      | (cases h; done)
      | (injection h with h; subst h; exact ⟨rfl, rfl, Sprintf_t_cases _⟩)
  · refine ⟨moreEqualOperator L, by simp [operatorFuncs], fun x y res h => ?_⟩
    unfold moreEqualOperator at h
    (repeat' split at h) <;> first
      | (cases h; done)
      | (injection h with h; subst h; exact ⟨rfl, rfl, Sprintf_t_cases _⟩)
  · refine ⟨lessEqualOperator L, by simp [operatorFuncs], fun x y res h => ?_⟩
    unfold lessEqualOperator at h
    (repeat' split at h) <;> first
      | (cases h; done)
      | (injection h with h; subst h; exact ⟨rfl, rfl, Sprintf_t_cases _⟩)
  · refine ⟨equalOperator L, by simp [operatorFuncs], fun x y res h => ?_⟩
    unfold equalOperator at h
    (repeat' split at h) <;> first
      | (cases h; done)
      | (injection h with h; subst h; exact ⟨rfl, rfl, Sprintf_t_cases _⟩)
  · refine ⟨notEqualOperator L, by simp [operatorFuncs], fun x y res h => ?_⟩
    unfold notEqualOperator at h
    (repeat' split at h) <;> first
      | (cases h; done)
      | (injection h with h; subst h; exact ⟨rfl, rfl, Sprintf_t_cases _⟩)
  · refine ⟨andOperator, by simp [operatorFuncs], fun x y res h => ?_⟩
    unfold andOperator at h
    (repeat' split at h) <;> first
      | (cases h; done)
      | (injection h with h; subst h; exact ⟨rfl, rfl, Sprintf_t_cases _⟩)
  · refine ⟨orOperator, by simp [operatorFuncs], fun x y res h => ?_⟩
    unfold orOperator at h
    (repeat' split at h) <;> first
      | (cases h; done)
      | (injection h with h; subst h; exact ⟨rfl, rfl, Sprintf_t_cases _⟩)

theorem arithmetic_result_format (L : FloatLib) (key : String) (hk : key ∈ arithmeticKeys) :
    ∃ f, operatorFuncs L key = some f ∧ ∀ x y res, f x y = .ok res →
      res.Type_ = NUMBER ∧ res.ValueType = NUMBER_TYPE ∧ ∃ v, res.Value = L.Sprintf_f v := by
  simp only [arithmeticKeys, List.mem_cons, List.mem_singleton, List.not_mem_nil, or_false] at hk
  rcases hk with h | h | h | h <;> subst h
  · refine ⟨addOperator L, by simp [operatorFuncs], fun x y res h => ?_⟩
    unfold addOperator at h
    (repeat' split at h) <;> first
      | (cases h; done)
      | (injection h with h; subst h; exact ⟨rfl, rfl, _, rfl⟩)
  · refine ⟨subOperator L, by simp [operatorFuncs], fun x y res h => ?_⟩
    unfold subOperator at h
    (repeat' split at h) <;> first
      | (cases h; done)
      | (injection h with h; subst h; exact ⟨rfl, rfl, _, rfl⟩)
  · refine ⟨mulOperator L, by simp [operatorFuncs], fun x y res h => ?_⟩
    unfold mulOperator at h
    (repeat' split at h) <;> first
      | (cases h; done)
      | (injection h with h; subst h; exact ⟨rfl, rfl, _, rfl⟩)
  · refine ⟨divOperator L, by simp [operatorFuncs], fun x y res h => ?_⟩
    unfold divOperator at h
    (repeat' split at h) <;> first
      | (cases h; done)
      | (injection h with h; subst h; exact ⟨rfl, rfl, _, rfl⟩)

theorem number_operands_defined (L : FloatLib) (key : String)
    (hk : key ∈ ["+", "-", "*", ">", "<", ">=", "<=", "=", "!="]) :
    ∃ f, operatorFuncs L key = some f ∧ ∀ (x y : Token) (a b : L.F64),
      x.ValueType = NUMBER_TYPE → y.ValueType = NUMBER_TYPE →
      L.ParseFloat x.Value = some a → L.ParseFloat y.Value = some b →
      ∃ res, f x y = .ok res := by
  simp only [List.mem_cons, List.mem_singleton, List.not_mem_nil, or_false] at hk
  have hnb : ¬ (NUMBER_TYPE = BOOL_TYPE) := by decide
  rcases hk with h | h | h | h | h | h | h | h | h <;> subst h
  · refine ⟨addOperator L, by simp [operatorFuncs], fun x y a b hx hy ha hb => ?_⟩
    simp [addOperator, hx, hy, hnb, parseFloatOperands, ha, hb]
  · refine ⟨subOperator L, by simp [operatorFuncs], fun x y a b hx hy ha hb => ?_⟩
    simp [subOperator, hx, hy, hnb, parseFloatOperands, ha, hb]
  · refine ⟨mulOperator L, by simp [operatorFuncs], fun x y a b hx hy ha hb => ?_⟩
    simp [mulOperator, hx, hy, hnb, parseFloatOperands, ha, hb]
  · refine ⟨moreOperator L, by simp [operatorFuncs], fun x y a b hx hy ha hb => ?_⟩
    simp [moreOperator, hx, hy, hnb, parseFloatOperands, ha, hb]
  · refine ⟨lessOperator L, by simp [operatorFuncs], fun x y a b hx hy ha hb => ?_⟩
    simp [lessOperator, hx, hy, hnb, parseFloatOperands, ha, hb]
  · refine ⟨moreEqualOperator L, by simp [operatorFuncs], fun x y a b hx hy ha hb => ?_⟩
    simp [moreEqualOperator, hx, hy, hnb, parseFloatOperands, ha, hb]
  · refine ⟨lessEqualOperator L, by simp [operatorFuncs], fun x y a b hx hy ha hb => ?_⟩
    simp [lessEqualOperator, hx, hy, hnb, parseFloatOperands, ha, hb]
  · refine ⟨equalOperator L, by simp [operatorFuncs], fun x y a b hx hy ha hb => ?_⟩
    simp [equalOperator, hx, hy, hnb, parseFloatOperands, ha, hb]
  · refine ⟨notEqualOperator L, by simp [operatorFuncs], fun x y a b hx hy ha hb => ?_⟩
    simp [notEqualOperator, hx, hy, hnb, parseFloatOperands, ha, hb]

theorem bool_operands_defined (L : FloatLib) (key : String)
    (hk : key ∈ ["AND", "OR", "=", "!="]) :
    ∃ f, operatorFuncs L key = some f ∧ ∀ (x y : Token) (a b : Bool),
      x.ValueType = BOOL_TYPE → y.ValueType = BOOL_TYPE →
      strconv.ParseBool x.Value = some a → strconv.ParseBool y.Value = some b →
      ∃ res, f x y = .ok res := by
  simp only [List.mem_cons, List.mem_singleton, List.not_mem_nil, or_false] at hk
  rcases hk with h | h | h | h <;> subst h
  · refine ⟨andOperator, by simp [operatorFuncs], fun x y a b hx hy ha hb => ?_⟩
    simp [andOperator, hx, hy, parseBoolOperands, ha, hb]
  · refine ⟨orOperator, by simp [operatorFuncs], fun x y a b hx hy ha hb => ?_⟩
    simp [orOperator, hx, hy, parseBoolOperands, ha, hb]
  · refine ⟨equalOperator L, by simp [operatorFuncs], fun x y a b hx hy ha hb => ?_⟩
    simp [equalOperator, hx, hy, parseBoolOperands, ha, hb]
  · refine ⟨notEqualOperator L, by simp [operatorFuncs], fun x y a b hx hy ha hb => ?_⟩
    simp [notEqualOperator, hx, hy, parseBoolOperands, ha, hb]

theorem divOperator_cases (L : FloatLib) (x y : Token) (a b : L.F64)
    (hx : x.ValueType = NUMBER_TYPE) (hy : y.ValueType = NUMBER_TYPE)
    (ha : L.ParseFloat x.Value = some a) (hb : L.ParseFloat y.Value = some b) :
    divOperator L x y =
      if L.eq b L.zero = true then .error (.CalculationError errDivisionByZero "")
      else .ok ⟨NUMBER, L.Sprintf_f (L.div a b), NUMBER_TYPE⟩ := by
  simp [divOperator, hx, hy, parseFloatOperands, ha, hb]

theorem evalLoop_operator_error (L : FloatLib) (rawSet : RawMessageSet) (pre post : List Token)
    (op x y : Token) (st : TokenStack) (f : Token → Token → Except CoreError Token)
    (e : CoreError)
    (hop : op.Type_ = LOG_OP ∨ op.Type_ = COMP_OP ∨ op.Type_ = ARITH_OP)
    (hf : operatorFuncs L op.Value = some f)
    (hpre : evalLoop L rawSet pre [] = .ok (y :: x :: st))
    (herr : f x y = .error e) :
    evalLoop L rawSet (pre ++ op :: post) [] = .error e := by
  rw [evalLoop_append, hpre]
  simp only []
  rw [evalLoop]
  rcases hop with h | h | h <;> rw [h] <;> simp only [hf, TokenStack.Pop, herr]

theorem calculation_operator_error (L : FloatLib) (rawSet : RawMessageSet)
    (c pre post : List Token) (op x y : Token) (st : TokenStack)
    (f : Token → Token → Except CoreError Token) (reason value : String)
    (hpost : ToPostfixExp c = .ok (pre ++ op :: post))
    (hop : op.Type_ = LOG_OP ∨ op.Type_ = COMP_OP ∨ op.Type_ = ARITH_OP)
    (hf : operatorFuncs L op.Value = some f)
    (hpre : evalLoop L rawSet pre [] = .ok (y :: x :: st))
    (herr : f x y = .error (.CalculationError reason value)) :
    parser.calculation L c rawSet =
      .error (.ParseError (errCalc ++ ": " ++ (reason ++ ": " ++ value))) := by
  rw [parser.calculation, core.Calculate, hpost]
  simp only [Evaluate, evalLoop_operator_error L rawSet pre post op x y st f _ hop hf hpre herr]
  rfl

theorem Calculate_fails_of_calculation_error (L : FloatLib) (formulas : List Formula)
    (rawSets : List RawMessageSet) (paramTypes : String → Option ValueType) (f : Formula)
    (rawSet : RawMessageSet) (tokens c : List Token) (reason : String)
    (hf : f ∈ formulas) (hen : f.IsEnable = true) (hr : rawSet ∈ effectiveRows rawSets)
    (ht : tokenize L f.Expression paramTypes = some (.ok tokens))
    (hc : calcTokensOf tokens rawSet = some c)
    (he : parser.calculation L c rawSet = .error (.ParseError reason)) :
    ∃ err, Calculate L formulas rawSets paramTypes = some ⟨BlackColor, none, some err⟩ := by
  apply Calculate_fails_of_verdict_none L formulas rawSets paramTypes f hf hen rawSet hr
  have hs := start_eq L tokens rawSet
  rw [hc] at hs
  simp only [] at hs
  rw [he] at hs
  simp [verdict, ht, verdictOfTokens, hs]

/-- C17: for operands of the same value type, the arithmetic and ordering
operators give a result only for Number and fail with "operator not defined
for types" for every other type (Bool and Unknown among them); AND and OR do so
with Bool in the place of Number; `=` and `!=` give a result only for Bool and
Number, fail with that reason for every other type (Unknown among them) and
never fail with it for Bool and Number.  When the operand texts parse, the
operators defined for the type do give a result.  A result of a comparison or
logic operator is a BOOL token of value type Bool with text `true` or `false`;
a result of an arithmetic operator is a NUMBER token of value type Number. -/
theorem C17_operator_type_table (L : FloatLib) (x y : Token)
    (hxy : x.ValueType = y.ValueType) :
    (∀ key ∈ numericKeys, ∃ f, operatorFuncs L key = some f ∧
      (x.ValueType ≠ NUMBER_TYPE →
        f x y = .error (.CalculationError errInvalidOperatorForType (quote1 x.ValueType))) ∧
      (∀ res, f x y = .ok res → x.ValueType = NUMBER_TYPE)) ∧
    (∀ key ∈ ["AND", "OR"], ∃ f, operatorFuncs L key = some f ∧
      (x.ValueType ≠ BOOL_TYPE →
        f x y = .error (.CalculationError errInvalidOperatorForType (quote1 x.ValueType))) ∧
      (∀ res, f x y = .ok res → x.ValueType = BOOL_TYPE)) ∧
    (∀ key ∈ ["=", "!="], ∃ f, operatorFuncs L key = some f ∧
      (x.ValueType ≠ BOOL_TYPE → x.ValueType ≠ NUMBER_TYPE →
        f x y = .error (.CalculationError errInvalidOperatorForType (quote1 x.ValueType))) ∧
      (∀ res, f x y = .ok res → x.ValueType = BOOL_TYPE ∨ x.ValueType = NUMBER_TYPE) ∧
      (x.ValueType = BOOL_TYPE ∨ x.ValueType = NUMBER_TYPE →
        ∀ v, f x y ≠ .error (.CalculationError errInvalidOperatorForType v))) ∧
    (x.ValueType = NUMBER_TYPE → ∀ a b : L.F64, L.ParseFloat x.Value = some a →
      L.ParseFloat y.Value = some b →
      ∀ key ∈ ["+", "-", "*", ">", "<", ">=", "<=", "=", "!="],
        ∃ f res, operatorFuncs L key = some f ∧ f x y = .ok res) ∧
    (x.ValueType = BOOL_TYPE → ∀ a b : Bool, strconv.ParseBool x.Value = some a →
      strconv.ParseBool y.Value = some b →
      ∀ key ∈ ["AND", "OR", "=", "!="],
        ∃ f res, operatorFuncs L key = some f ∧ f x y = .ok res) ∧
    (∀ key ∈ booleanResultKeys, ∃ f, operatorFuncs L key = some f ∧ ∀ res, f x y = .ok res →
      res.Type_ = BOOL ∧ res.ValueType = BOOL_TYPE ∧
        (res.Value = "true" ∨ res.Value = "false")) ∧
    (∀ key ∈ arithmeticKeys, ∃ f, operatorFuncs L key = some f ∧ ∀ res, f x y = .ok res →
      res.Type_ = NUMBER ∧ res.ValueType = NUMBER_TYPE) := by
  refine ⟨fun key hk => ?_, fun key hk => ?_, fun key hk => ?_, fun hx a b ha hb key hk => ?_,
    fun hx a b ha hb key hk => ?_, fun key hk => ?_, fun key hk => ?_⟩
  · obtain ⟨f, hf, h⟩ := numeric_operator_types L key hk
    exact ⟨f, hf, h x y hxy⟩
  · obtain ⟨f, hf, h⟩ := logic_operator_types L key hk
    exact ⟨f, hf, h x y hxy⟩
  · obtain ⟨f, hf, h⟩ := equality_operator_types L key hk
    exact ⟨f, hf, h x y hxy⟩
  · obtain ⟨f, hf, h⟩ := number_operands_defined L key hk
    obtain ⟨res, hres⟩ := h x y a b hx (hxy ▸ hx) ha hb
    exact ⟨f, res, hf, hres⟩
  · obtain ⟨f, hf, h⟩ := bool_operands_defined L key hk
    obtain ⟨res, hres⟩ := h x y a b hx (hxy ▸ hx) ha hb
    exact ⟨f, res, hf, hres⟩
  · obtain ⟨f, hf, h⟩ := boolean_result_format L key hk
    exact ⟨f, hf, h x y⟩
  · obtain ⟨f, hf, h⟩ := arithmetic_result_format L key hk
    exact ⟨f, hf, fun res hr => ⟨(h x y res hr).1, (h x y res hr).2.1⟩⟩

theorem C17_operator_type_table_witness :
    (∃ f, operatorFuncs decimalLib "+" = some f ∧
      ((⟨IDENT, "x", UNKNOWN_TYPE⟩ : Token).ValueType ≠ NUMBER_TYPE →
        f ⟨IDENT, "x", UNKNOWN_TYPE⟩ ⟨IDENT, "y", UNKNOWN_TYPE⟩ =
          .error (.CalculationError errInvalidOperatorForType
            (quote1 (⟨IDENT, "x", UNKNOWN_TYPE⟩ : Token).ValueType))) ∧
      (∀ res, f ⟨IDENT, "x", UNKNOWN_TYPE⟩ ⟨IDENT, "y", UNKNOWN_TYPE⟩ = .ok res →
        (⟨IDENT, "x", UNKNOWN_TYPE⟩ : Token).ValueType = NUMBER_TYPE)) ∧
    addOperator decimalLib ⟨BOOL, "true", BOOL_TYPE⟩ ⟨BOOL, "false", BOOL_TYPE⟩ =
      .error (.CalculationError "operator not defined for types" "'bool'") ∧
    andOperator ⟨NUMBER, "1", NUMBER_TYPE⟩ ⟨NUMBER, "0", NUMBER_TYPE⟩ =
      .error (.CalculationError "operator not defined for types" "'number'") ∧
    equalOperator decimalLib ⟨IDENT, "1", UNKNOWN_TYPE⟩ ⟨IDENT, "1", UNKNOWN_TYPE⟩ =
      .error (.CalculationError "operator not defined for types" "'unknown'") ∧
    equalOperator decimalLib ⟨BOOL, "true", BOOL_TYPE⟩ ⟨BOOL, "false", BOOL_TYPE⟩ =
      .ok ⟨BOOL, "false", BOOL_TYPE⟩ ∧
    lessOperator decimalLib ⟨NUMBER, "1", NUMBER_TYPE⟩ ⟨NUMBER, "2.5", NUMBER_TYPE⟩ =
      .ok ⟨BOOL, "true", BOOL_TYPE⟩ ∧
    mulOperator decimalLib ⟨NUMBER, "3", NUMBER_TYPE⟩ ⟨NUMBER, "2.5", NUMBER_TYPE⟩ =
      .ok ⟨NUMBER, "7.500000", NUMBER_TYPE⟩ :=
  ⟨(C17_operator_type_table decimalLib ⟨IDENT, "x", UNKNOWN_TYPE⟩ ⟨IDENT, "y", UNKNOWN_TYPE⟩
      rfl).1 "+" (by decide),
    by decide!, by decide!, by decide!, by decide!, by decide!, by decide!⟩

/-- C18: on Number-typed operands whose texts both parse, with a divisor equal
to zero, `/` returns the error "division by zero" and no result token; and a
formula whose evaluation for some row reaches such a division makes `Calculate`
return an error, Black and the nil slice. -/
theorem C18_division_by_zero (L : FloatLib) (x y : Token) (a b : L.F64)
    (hx : x.ValueType = NUMBER_TYPE) (hy : y.ValueType = NUMBER_TYPE)
    (ha : L.ParseFloat x.Value = some a) (hb : L.ParseFloat y.Value = some b)
    (hz : L.eq b L.zero = true) :
    operatorFuncs L "/" = some (divOperator L) ∧
    divOperator L x y = .error (.CalculationError errDivisionByZero "") ∧
    (∀ res, divOperator L x y ≠ .ok res) ∧
    ∀ (formulas : List Formula) (rawSets : List RawMessageSet)
      (paramTypes : String → Option ValueType) (f : Formula) (rawSet : RawMessageSet)
      (tokens c pre post : List Token) (op : Token) (st : TokenStack),
      f ∈ formulas → f.IsEnable = true → rawSet ∈ effectiveRows rawSets →
      tokenize L f.Expression paramTypes = some (.ok tokens) →
      calcTokensOf tokens rawSet = some c →
      ToPostfixExp c = .ok (pre ++ op :: post) →
      op.Type_ = ARITH_OP → op.Value = "/" →
      evalLoop L rawSet pre [] = .ok (y :: x :: st) →
      ∃ err, Calculate L formulas rawSets paramTypes = some ⟨BlackColor, none, some err⟩ := by
  have hd : divOperator L x y = .error (.CalculationError errDivisionByZero "") := by
    rw [divOperator_cases L x y a b hx hy ha hb, if_pos hz]
  refine ⟨by simp [operatorFuncs], hd, fun res h => (by rw [hd] at h; cases h), ?_⟩
  intro formulas rawSets paramTypes f rawSet tokens c pre post op st hf hen hr ht hc hpost
    hop hkey hpre
  have hfun : operatorFuncs L op.Value = some (divOperator L) := by
    rw [hkey]; simp [operatorFuncs]
  exact Calculate_fails_of_calculation_error L formulas rawSets paramTypes f rawSet tokens c _
    hf hen hr ht hc
    (calculation_operator_error L rawSet c pre post op x y st _ _ _ hpost
      (Or.inr (Or.inr hop)) hfun hpre hd)

theorem C18_division_by_zero_witness :
    (decimalLib.ParseFloat "0").map (fun v => decimalLib.eq v decimalLib.zero) = some true ∧
    (decimalLib.ParseFloat "0.0").map (fun v => decimalLib.eq v decimalLib.zero) = some true ∧
    (decimalLib.ParseFloat "0.000000").map (fun v => decimalLib.eq v decimalLib.zero) =
      some true ∧
    divOperator decimalLib ⟨NUMBER, "1", NUMBER_TYPE⟩ ⟨NUMBER, "0.0", NUMBER_TYPE⟩ =
      .error (.CalculationError "division by zero" "") ∧
    Calculate decimalLib [⟨"formula_1", "1/0 > 0", GreenColor, 0, true⟩] [] (fun _ => none) =
      some ⟨BlackColor, none, some (.ParseError "calculation failed: division by zero: ")⟩ ∧
    ∃ err, Calculate decimalLib [⟨"formula_1", "1/0 > 0", GreenColor, 0, true⟩] []
      (fun _ => none) = some ⟨BlackColor, none, some err⟩ :=
  ⟨by decide!, by decide!, by decide!, by decide!, by decide!,
    (C18_division_by_zero decimalLib ⟨NUMBER, "1", NUMBER_TYPE⟩ ⟨NUMBER, "0", NUMBER_TYPE⟩
      ⟨1, 1⟩ ⟨0, 1⟩ rfl rfl
      (by show decimal.parse "1" = some ⟨1, 1⟩; decide!)
      (by show decimal.parse "0" = some ⟨0, 1⟩; decide!) (by decide!)).2.2.2
      [⟨"formula_1", "1/0 > 0", GreenColor, 0, true⟩] [] (fun _ => none)
      ⟨"formula_1", "1/0 > 0", GreenColor, 0, true⟩ nilRawSet
      [⟨NUMBER, "1", NUMBER_TYPE⟩, ⟨ARITH_OP, "/", ""⟩, ⟨NUMBER, "0", NUMBER_TYPE⟩,
        ⟨COMP_OP, ">", ""⟩, ⟨NUMBER, "0", NUMBER_TYPE⟩]
      [⟨NUMBER, "1", NUMBER_TYPE⟩, ⟨ARITH_OP, "/", ""⟩, ⟨NUMBER, "0", NUMBER_TYPE⟩,
        ⟨COMP_OP, ">", ""⟩, ⟨NUMBER, "0", NUMBER_TYPE⟩]
      [⟨NUMBER, "1", NUMBER_TYPE⟩, ⟨NUMBER, "0", NUMBER_TYPE⟩]
      [⟨NUMBER, "0", NUMBER_TYPE⟩, ⟨COMP_OP, ">", ""⟩]
      ⟨ARITH_OP, "/", ""⟩ []
      (by simp) rfl (by simp [effectiveRows]) (by decide!) (by decide!) (by decide!)
      rfl rfl (by decide!)⟩

theorem unknown_operand_error (L : FloatLib) (key : String) (hk : key ∈ operatorKeys) :
    ∃ f, operatorFuncs L key = some f ∧ ∀ x y : Token,
      (x.ValueType = UNKNOWN_TYPE ∨ y.ValueType = UNKNOWN_TYPE) →
      f x y = .error (.CalculationError errDifferentType (quote2 x.Value y.Value)) ∨
        f x y = .error (.CalculationError errInvalidOperatorForType (quote1 UNKNOWN_TYPE)) := by
  simp only [operatorKeys, List.mem_cons, List.mem_singleton, List.not_mem_nil, or_false] at hk
  have hun : ¬ (UNKNOWN_TYPE = NUMBER_TYPE) := by decide
  have hub : ¬ (UNKNOWN_TYPE = BOOL_TYPE) := by decide
  rcases hk with h | h | h | h | h | h | h | h | h | h | h | h <;> subst h
  · refine ⟨addOperator L, by simp [operatorFuncs], fun x y hu => ?_⟩
    by_cases hxy : x.ValueType = y.ValueType
    · have hx : x.ValueType = UNKNOWN_TYPE := by
        rcases hu with h | h
        · exact h
        · rw [hxy]; exact h
      right
      rw [addOperator, if_neg (not_not.2 hxy)]
      simp only [hx, hun, hub, if_false]
    · left
      rw [addOperator, if_pos hxy]
  · refine ⟨subOperator L, by simp [operatorFuncs], fun x y hu => ?_⟩
    by_cases hxy : x.ValueType = y.ValueType
    · have hx : x.ValueType = UNKNOWN_TYPE := by
        rcases hu with h | h
        · exact h
        · rw [hxy]; exact h
      right
      rw [subOperator, if_neg (not_not.2 hxy)]
      simp only [hx, hun, hub, if_false]
    · left
      rw [subOperator, if_pos hxy]
  · refine ⟨mulOperator L, by simp [operatorFuncs], fun x y hu => ?_⟩
    by_cases hxy : x.ValueType = y.ValueType
    · have hx : x.ValueType = UNKNOWN_TYPE := by
        rcases hu with h | h
        · exact h
        · rw [hxy]; exact h
      right
      rw [mulOperator, if_neg (not_not.2 hxy)]
      simp only [hx, hun, hub, if_false]
    · left
      rw [mulOperator, if_pos hxy]
  · refine ⟨divOperator L, by simp [operatorFuncs], fun x y hu => ?_⟩
    by_cases hxy : x.ValueType = y.ValueType
    · have hx : x.ValueType = UNKNOWN_TYPE := by
        rcases hu with h | h
        · exact h
        · rw [hxy]; exact h
      right
      rw [divOperator, if_neg (not_not.2 hxy)]
      simp only [hx, hun, hub, if_false]
    · left
      rw [divOperator, if_pos hxy]
  · refine ⟨moreOperator L, by simp [operatorFuncs], fun x y hu => ?_⟩
    by_cases hxy : x.ValueType = y.ValueType
    · have hx : x.ValueType = UNKNOWN_TYPE := by
        rcases hu with h | h
        · exact h
        · rw [hxy]; exact h
      right
      rw [moreOperator, if_neg (not_not.2 hxy)]
      simp only [hx, hun, hub, if_false]
    · left
      rw [moreOperator, if_pos hxy]
  · refine ⟨lessOperator L, by simp [operatorFuncs], fun x y hu => ?_⟩
    by_cases hxy : x.ValueType = y.ValueType
    · have hx : x.ValueType = UNKNOWN_TYPE := by
        rcases hu with h | h
        · exact h
        · rw [hxy]; exact h
      right
      rw [lessOperator, if_neg (not_not.2 hxy)]
      simp only [hx, hun, hub, if_false]
    · left
      rw [lessOperator, if_pos hxy]
  · refine ⟨moreEqualOperator L, by simp [operatorFuncs], fun x y hu => ?_⟩
    by_cases hxy : x.ValueType = y.ValueType
    · have hx : x.ValueType = UNKNOWN_TYPE := by
        rcases hu with h | h
        · exact h
        · rw [hxy]; exact h
      right
      rw [moreEqualOperator, if_neg (not_not.2 hxy)]
      simp only [hx, hun, hub, if_false]
    · left
      rw [moreEqualOperator, if_pos hxy]
  · refine ⟨lessEqualOperator L, by simp [operatorFuncs], fun x y hu => ?_⟩
    by_cases hxy : x.ValueType = y.ValueType
    · have hx : x.ValueType = UNKNOWN_TYPE := by
        rcases hu with h | h
        · exact h
        · rw [hxy]; exact h
      right
      rw [lessEqualOperator, if_neg (not_not.2 hxy)]
      simp only [hx, hun, hub, if_false]
    · left
      rw [lessEqualOperator, if_pos hxy]
  · refine ⟨equalOperator L, by simp [operatorFuncs], fun x y hu => ?_⟩
    by_cases hxy : x.ValueType = y.ValueType
    · have hx : x.ValueType = UNKNOWN_TYPE := by
        rcases hu with h | h
        · exact h
        · rw [hxy]; exact h
      right
      rw [equalOperator, if_neg (not_not.2 hxy)]
      simp only [hx, hun, hub, if_false]
    · left
      rw [equalOperator, if_pos hxy]
  · refine ⟨notEqualOperator L, by simp [operatorFuncs], fun x y hu => ?_⟩
    by_cases hxy : x.ValueType = y.ValueType
    · have hx : x.ValueType = UNKNOWN_TYPE := by
        rcases hu with h | h
        · exact h
        · rw [hxy]; exact h
      right
      rw [notEqualOperator, if_neg (not_not.2 hxy)]
      simp only [hx, hun, hub, if_false]
    · left
      rw [notEqualOperator, if_pos hxy]
  · refine ⟨andOperator, by simp [operatorFuncs], fun x y hu => ?_⟩
    by_cases hxy : x.ValueType = y.ValueType
    · have hx : x.ValueType = UNKNOWN_TYPE := by
        rcases hu with h | h
        · exact h
        · rw [hxy]; exact h
      right
      rw [andOperator, if_neg (not_not.2 hxy)]
      simp only [hx, hun, hub, if_false]
    · left
      rw [andOperator, if_pos hxy]
  · refine ⟨orOperator, by simp [operatorFuncs], fun x y hu => ?_⟩
    by_cases hxy : x.ValueType = y.ValueType
    · have hx : x.ValueType = UNKNOWN_TYPE := by
        rcases hu with h | h
        · exact h
        · rw [hxy]; exact h
      right
      rw [orOperator, if_neg (not_not.2 hxy)]
      simp only [hx, hun, hub, if_false]
    · left
      rw [orOperator, if_pos hxy]

theorem number_cast_error (L : FloatLib) (key : String)
    (hk : key ∈ ["+", "-", "*", "/", ">", "<", ">=", "<=", "=", "!="]) :
    ∃ f, operatorFuncs L key = some f ∧ ∀ x y : Token,
      x.ValueType = NUMBER_TYPE → y.ValueType = NUMBER_TYPE →
      (L.ParseFloat x.Value = none ∨ L.ParseFloat y.Value = none) →
      ∃ v, f x y = .error (.CalculationError errTypeCast v) := by
  simp only [List.mem_cons, List.mem_singleton, List.not_mem_nil, or_false] at hk
  have hnb : ¬ (NUMBER_TYPE = BOOL_TYPE) := by decide
  have key : ∀ x y : Token, (L.ParseFloat x.Value = none ∨ L.ParseFloat y.Value = none) →
      ∃ v, parseFloatOperands L x.Value y.Value = .error (.CalculationError errTypeCast v) := by
    intro x y h
    unfold parseFloatOperands
    cases hx : L.ParseFloat x.Value with
    | none => exact ⟨_, rfl⟩
    | some a =>
      cases hy : L.ParseFloat y.Value with
      | none => exact ⟨_, rfl⟩
      | some b => rw [hx, hy] at h; simp at h
  rcases hk with h | h | h | h | h | h | h | h | h | h <;> subst h
  · refine ⟨addOperator L, by simp [operatorFuncs], fun x y hx hy hp => ?_⟩
    obtain ⟨v, hv⟩ := key x y hp
    exact ⟨v, by simp [addOperator, hx, hy, hnb, hv]⟩
  · refine ⟨subOperator L, by simp [operatorFuncs], fun x y hx hy hp => ?_⟩
    obtain ⟨v, hv⟩ := key x y hp
    exact ⟨v, by simp [subOperator, hx, hy, hnb, hv]⟩
  · refine ⟨mulOperator L, by simp [operatorFuncs], fun x y hx hy hp => ?_⟩
    obtain ⟨v, hv⟩ := key x y hp
    exact ⟨v, by simp [mulOperator, hx, hy, hnb, hv]⟩
  · refine ⟨divOperator L, by simp [operatorFuncs], fun x y hx hy hp => ?_⟩
    obtain ⟨v, hv⟩ := key x y hp
    exact ⟨v, by simp [divOperator, hx, hy, hnb, hv]⟩
  · refine ⟨moreOperator L, by simp [operatorFuncs], fun x y hx hy hp => ?_⟩
    obtain ⟨v, hv⟩ := key x y hp
    exact ⟨v, by simp [moreOperator, hx, hy, hnb, hv]⟩
  · refine ⟨lessOperator L, by simp [operatorFuncs], fun x y hx hy hp => ?_⟩
    obtain ⟨v, hv⟩ := key x y hp
    exact ⟨v, by simp [lessOperator, hx, hy, hnb, hv]⟩
  · refine ⟨moreEqualOperator L, by simp [operatorFuncs], fun x y hx hy hp => ?_⟩
    obtain ⟨v, hv⟩ := key x y hp
    exact ⟨v, by simp [moreEqualOperator, hx, hy, hnb, hv]⟩
  · refine ⟨lessEqualOperator L, by simp [operatorFuncs], fun x y hx hy hp => ?_⟩
    obtain ⟨v, hv⟩ := key x y hp
    exact ⟨v, by simp [lessEqualOperator, hx, hy, hnb, hv]⟩
  · refine ⟨equalOperator L, by simp [operatorFuncs], fun x y hx hy hp => ?_⟩
    obtain ⟨v, hv⟩ := key x y hp
    exact ⟨v, by simp [equalOperator, hx, hy, hnb, hv]⟩
  · refine ⟨notEqualOperator L, by simp [operatorFuncs], fun x y hx hy hp => ?_⟩
    obtain ⟨v, hv⟩ := key x y hp
    exact ⟨v, by simp [notEqualOperator, hx, hy, hnb, hv]⟩

theorem bool_cast_error (L : FloatLib) (key : String) (hk : key ∈ ["AND", "OR", "=", "!="]) :
    ∃ f, operatorFuncs L key = some f ∧ ∀ x y : Token,
      x.ValueType = BOOL_TYPE → y.ValueType = BOOL_TYPE →
      (strconv.ParseBool x.Value = none ∨ strconv.ParseBool y.Value = none) →
      ∃ v, f x y = .error (.CalculationError errTypeCast v) := by
  simp only [List.mem_cons, List.mem_singleton, List.not_mem_nil, or_false] at hk
  have key : ∀ x y : Token,
      (strconv.ParseBool x.Value = none ∨ strconv.ParseBool y.Value = none) →
      ∃ v, parseBoolOperands x.Value y.Value = .error (.CalculationError errTypeCast v) := by
    intro x y h
    unfold parseBoolOperands
    cases hx : strconv.ParseBool x.Value with
    | none => exact ⟨_, rfl⟩
    | some a =>
      cases hy : strconv.ParseBool y.Value with
      | none => exact ⟨_, rfl⟩
      | some b => rw [hx, hy] at h; simp at h
  rcases hk with h | h | h | h <;> subst h
  · refine ⟨andOperator, by simp [operatorFuncs], fun x y hx hy hp => ?_⟩
    obtain ⟨v, hv⟩ := key x y hp
    exact ⟨v, by simp [andOperator, hx, hy, hv]⟩
  · refine ⟨orOperator, by simp [operatorFuncs], fun x y hx hy hp => ?_⟩
    obtain ⟨v, hv⟩ := key x y hp
    exact ⟨v, by simp [orOperator, hx, hy, hv]⟩
  · refine ⟨equalOperator L, by simp [operatorFuncs], fun x y hx hy hp => ?_⟩
    obtain ⟨v, hv⟩ := key x y hp
    exact ⟨v, by simp [equalOperator, hx, hy, hv]⟩
  · refine ⟨notEqualOperator L, by simp [operatorFuncs], fun x y hx hy hp => ?_⟩
    obtain ⟨v, hv⟩ := key x y hp
    exact ⟨v, by simp [notEqualOperator, hx, hy, hv]⟩

theorem evalLoop_ident (L : FloatLib) (rawSet : RawMessageSet) (t : Token) (rest : List Token)
    (st : TokenStack) (raw : String) (ht : t.Type_ = IDENT) (hraw : rawSet t.Value = some raw) :
    evalLoop L rawSet (t :: rest) st =
      evalLoop L rawSet rest (⟨IDENT, raw, t.ValueType⟩ :: st) := by
  rw [evalLoop, ht]
  simp only [hraw, TokenStack.Push]

/-- C19 as amended: a cast is attempted, and its failure reported as "typecast
error", only for operands whose value type is Number or Bool: an operator
defined for Number (for Bool) applied to two Number-typed (Bool-typed) operands
one of whose texts is not a valid float (boolean) fails with the reason
"typecast error".  An identifier keeps its declared value type when its raw
text is pushed, and an operand typed Unknown is never cast: every operator
fails on it with "operands must be of the same type" or "operator not defined
for types". -/
theorem C19_typecast_error_amended (L : FloatLib) :
    (∀ key ∈ ["+", "-", "*", "/", ">", "<", ">=", "<=", "=", "!="],
      ∃ f, operatorFuncs L key = some f ∧ ∀ x y : Token,
        x.ValueType = NUMBER_TYPE → y.ValueType = NUMBER_TYPE →
        (L.ParseFloat x.Value = none ∨ L.ParseFloat y.Value = none) →
        ∃ v, f x y = .error (.CalculationError errTypeCast v)) ∧
    (∀ key ∈ ["AND", "OR", "=", "!="],
      ∃ f, operatorFuncs L key = some f ∧ ∀ x y : Token,
        x.ValueType = BOOL_TYPE → y.ValueType = BOOL_TYPE →
        (strconv.ParseBool x.Value = none ∨ strconv.ParseBool y.Value = none) →
        ∃ v, f x y = .error (.CalculationError errTypeCast v)) ∧
    (∀ key ∈ operatorKeys, ∃ f, operatorFuncs L key = some f ∧ ∀ x y : Token,
      (x.ValueType = UNKNOWN_TYPE ∨ y.ValueType = UNKNOWN_TYPE) →
      f x y = .error (.CalculationError errDifferentType (quote2 x.Value y.Value)) ∨
        f x y = .error (.CalculationError errInvalidOperatorForType (quote1 UNKNOWN_TYPE))) ∧
    (∀ (rawSet : RawMessageSet) (t : Token) (rest : List Token) (st : TokenStack)
      (raw : String), t.Type_ = IDENT → rawSet t.Value = some raw →
      evalLoop L rawSet (t :: rest) st =
        evalLoop L rawSet rest (⟨IDENT, raw, t.ValueType⟩ :: st)) :=
  ⟨number_cast_error L, bool_cast_error L, unknown_operand_error L, evalLoop_ident L⟩

theorem C19_typecast_error_amended_witness :
    (∃ f, operatorFuncs decimalLib "+" = some f ∧ ∀ x y : Token,
        x.ValueType = NUMBER_TYPE → y.ValueType = NUMBER_TYPE →
        (decimalLib.ParseFloat x.Value = none ∨ decimalLib.ParseFloat y.Value = none) →
        ∃ v, f x y = .error (.CalculationError errTypeCast v)) ∧
    addOperator decimalLib ⟨IDENT, "abc", NUMBER_TYPE⟩ ⟨NUMBER, "1", NUMBER_TYPE⟩ =
      .error (.CalculationError "typecast error" "'abc' failed cast to 'number'") ∧
    Calculate decimalLib [⟨"formula_1", "x + 1 > 0", GreenColor, 0, true⟩] [rowAbc]
        (fun name => if name = "x" then some NUMBER_TYPE else none) =
      some ⟨BlackColor, none, some (.ParseError
        "calculation failed: typecast error: 'abc' failed cast to 'number'")⟩ :=
  ⟨(C19_typecast_error_amended decimalLib).1 "+" (by decide), by decide!, by decide!⟩

/-- C19 fails as stated: with `x` undeclared (typed Unknown) and present with
the raw text `abc`, which is neither a float nor a boolean, the operator that
consumes `x` in `x + 1 > 0` fails with "operands must be of the same type", and
in `x = x` with "operator not defined for types"; neither is a typecast
error. -/
theorem C19_counterexample :
    tokenize decimalLib "x + 1 > 0" (fun _ => none) =
      some (.ok [⟨IDENT, "x", UNKNOWN_TYPE⟩, ⟨ARITH_OP, "+", ""⟩, ⟨NUMBER, "1", NUMBER_TYPE⟩,
        ⟨COMP_OP, ">", ""⟩, ⟨NUMBER, "0", NUMBER_TYPE⟩]) ∧
    rowAbc "x" = some "abc" ∧
    decimal.parse "abc" = none ∧ strconv.ParseBool "abc" = none ∧
    addOperator decimalLib ⟨IDENT, "abc", UNKNOWN_TYPE⟩ ⟨NUMBER, "1", NUMBER_TYPE⟩ =
      .error (.CalculationError "operands must be of the same type" "'abc' '1'") ∧
    Calculate decimalLib [⟨"formula_1", "x + 1 > 0", GreenColor, 0, true⟩] [rowAbc]
        (fun _ => none) =
      some ⟨BlackColor, none, some (.ParseError
        "calculation failed: operands must be of the same type: 'abc' '1'")⟩ ∧
    equalOperator decimalLib ⟨IDENT, "abc", UNKNOWN_TYPE⟩ ⟨IDENT, "abc", UNKNOWN_TYPE⟩ =
      .error (.CalculationError "operator not defined for types" "'unknown'") ∧
    Calculate decimalLib [⟨"formula_1", "x = x", GreenColor, 0, true⟩] [rowAbc]
        (fun _ => none) =
      some ⟨BlackColor, none, some (.ParseError
        "calculation failed: operator not defined for types: 'unknown'")⟩ :=
  ⟨by decide!, by decide!, by decide!, by decide!, by decide!, by decide!, by decide!,
    by decide!⟩

/-- C20 as amended: `Evaluate` returns a result exactly when no token fails
and the stack left by the loop is not empty with a top token of value type
Bool or Number; the result carries the text of that top token, and the tokens
below it are ignored.  An empty stack gives the error "unknown token". -/
theorem C20_final_stack_amended (L : FloatLib) (tokens : List Token) (rawSet : RawMessageSet) :
    (∀ res, Evaluate L tokens rawSet = .ok res ↔
      ∃ top st, evalLoop L rawSet tokens [] = .ok (top :: st) ∧
        ((top.ValueType = BOOL_TYPE ∧ res = ⟨BOOL, top.Value, BOOL_TYPE⟩) ∨
          (top.ValueType = NUMBER_TYPE ∧ res = ⟨NUMBER, top.Value, NUMBER_TYPE⟩))) ∧
    (evalLoop L rawSet tokens [] = .ok [] →
      Evaluate L tokens rawSet = .error (.CalculationError errUnknownToken "")) ∧
    (∀ err, evalLoop L rawSet tokens [] = .error err → Evaluate L tokens rawSet = .error err) := by
  have hnb : ¬ (NUMBER_TYPE = BOOL_TYPE) := by decide
  refine ⟨fun res => ?_, fun h => ?_, fun err h => ?_⟩
  · unfold Evaluate
    cases hl : evalLoop L rawSet tokens [] with
    | error e => simp
    | ok st =>
      cases st with
      | nil =>
        simp only [TokenStack.Pop, Token.zero]
        have h1 : ¬ (("" : String) = BOOL_TYPE) := by decide
        have h2 : ¬ (("" : String) = NUMBER_TYPE) := by decide
        simp [h1, h2]
      | cons top st =>
        simp only [TokenStack.Pop]
        by_cases hb : top.ValueType = BOOL_TYPE
        · simp only [hb, if_true]
          constructor
          · intro h
            injection h with h
            exact ⟨top, st, rfl, Or.inl ⟨hb, h.symm⟩⟩
          · rintro ⟨top2, st2, heq, h⟩
            injection heq with heq
            injection heq with h1 h2
            subst h1
            rcases h with ⟨_, h⟩ | ⟨hn, _⟩
            · rw [h]
            · rw [hb] at hn; exact absurd hn.symm hnb
        · simp only [hb, if_false]
          by_cases hn : top.ValueType = NUMBER_TYPE
          · simp only [hn, if_true]
            constructor
            · intro h
              injection h with h
              exact ⟨top, st, rfl, Or.inr ⟨hn, h.symm⟩⟩
            · rintro ⟨top2, st2, heq, h⟩
              injection heq with heq
              injection heq with h1 h2
              subst h1
              rcases h with ⟨hb2, _⟩ | ⟨_, h⟩
              · exact absurd hb2 hb
              · rw [h]
          · simp only [hn, if_false]
            constructor
            · intro h; cases h
            · rintro ⟨top2, st2, heq, h⟩
              injection heq with heq
              injection heq with h1 h2
              subst h1
              rcases h with ⟨hb2, _⟩ | ⟨hn2, _⟩
              · exact absurd hb2 hb
              · exact absurd hn2 hn
  · unfold Evaluate
    rw [h]
    rfl
  · unfold Evaluate
    rw [h]

/-- C20 fails as stated: the postfix sequence of the number literal `1`
followed by the boolean literal `true` leaves two tokens on the stack, and
`Evaluate` returns the upper one as its result instead of an error. -/
theorem C20_counterexample :
    evalLoop decimalLib nilRawSet
        [⟨NUMBER, "1", NUMBER_TYPE⟩, ⟨BOOL, "true", BOOL_TYPE⟩] [] =
      .ok [⟨BOOL, "true", BOOL_TYPE⟩, ⟨NUMBER, "1", NUMBER_TYPE⟩] ∧
    Evaluate decimalLib [⟨NUMBER, "1", NUMBER_TYPE⟩, ⟨BOOL, "true", BOOL_TYPE⟩] nilRawSet =
      .ok ⟨BOOL, "true", BOOL_TYPE⟩ :=
  ⟨by decide!, by decide!⟩

theorem toPostfixLoop_operandToken (t : Token) (rest : List Token) (st : TokenStack)
    (out : List Token) (h : isOperandToken t) :
    toPostfixLoop (t :: rest) st out = toPostfixLoop rest st (out ++ [t]) := by
  rw [toPostfixLoop]
  rcases h with h | h | h <;> rw [h]

theorem toPostfixLoop_operatorToken (t : Token) (rest : List Token) (st : TokenStack)
    (out : List Token) (w : Int)
    (h : t.Type_ = LOG_OP ∨ t.Type_ = COMP_OP ∨ t.Type_ = ARITH_OP)
    (hw : operatorPrecedence t.Value = some w) :
    toPostfixLoop (t :: rest) st out =
      toPostfixLoop rest (t :: (popGreater w st out).1) (popGreater w st out).2 := by
  rw [toPostfixLoop]
  rcases h with h | h | h <;> rw [h] <;> simp only [hw, TokenStack.Push]

theorem operatorKeys_precedence (key : String) (hk : key ∈ operatorKeys) :
    ∃ w, operatorPrecedence key = some w ∧ operatorPrecedenceD key = w ∧ 10 < w := by
  simp only [operatorKeys, List.mem_cons, List.mem_singleton, List.not_mem_nil, or_false] at hk
  rcases hk with h | h | h | h | h | h | h | h | h | h | h | h <;> subst h <;>
    exact ⟨_, rfl, rfl, by decide⟩

/-- C16: the precedence table; for operand tokens `a`, `b`, `c` and operator
tokens `op1`, `op2`, `ToPostfixExp [a, op1, b, op2, c]` is `[a, b, op1, c, op2]`
when `op1` has strictly greater precedence than `op2`, and `[a, b, c, op2, op1]`
otherwise, in particular for equal precedences; and the evaluation of the
latter on literals applies `op2` to `b` and `c` first and then `op1` to `a` and
that result, so that `a - b - c` is `a - (b - c)`. -/
theorem C16_equal_precedence_groups_right (a b c op1 op2 : Token)
    (ha : isOperandToken a) (hb : isOperandToken b) (hc : isOperandToken c)
    (h1 : isOperatorToken op1) (h2 : isOperatorToken op2) :
    (operatorPrecedence "OR" = some 20 ∧ operatorPrecedence "AND" = some 30 ∧
      operatorPrecedence "=" = some 40 ∧ operatorPrecedence "!=" = some 40 ∧
      operatorPrecedence ">" = some 50 ∧ operatorPrecedence "<" = some 50 ∧
      operatorPrecedence ">=" = some 50 ∧ operatorPrecedence "<=" = some 50 ∧
      operatorPrecedence "+" = some 120 ∧ operatorPrecedence "-" = some 120 ∧
      operatorPrecedence "*" = some 130 ∧ operatorPrecedence "/" = some 130) ∧
    (∃ w1 w2, operatorPrecedence op1.Value = some w1 ∧ operatorPrecedence op2.Value = some w2 ∧
      ToPostfixExp [a, op1, b, op2, c] =
        .ok (if w1 > w2 then [a, b, op1, c, op2] else [a, b, c, op2, op1])) ∧
    ∀ (L : FloatLib) (rawSet : RawMessageSet) (f1 f2 : Token → Token → Except CoreError Token),
      operatorFuncs L op1.Value = some f1 → operatorFuncs L op2.Value = some f2 →
      (a.Type_ = NUMBER ∨ a.Type_ = BOOL) → (b.Type_ = NUMBER ∨ b.Type_ = BOOL) →
      (c.Type_ = NUMBER ∨ c.Type_ = BOOL) →
      evalLoop L rawSet [a, b, c, op2, op1] [] =
        match f2 b c with
        | .error e => .error e
        | .ok r =>
          match f1 a r with
          | .error e => .error e
          | .ok r2 => .ok [r2] := by
  refine ⟨by decide, ?_, ?_⟩
  · obtain ⟨w1, hw1, hd1, _⟩ := operatorKeys_precedence op1.Value h1.2
    obtain ⟨w2, hw2, _, _⟩ := operatorKeys_precedence op2.Value h2.2
    refine ⟨w1, w2, hw1, hw2, ?_⟩
    rw [ToPostfixExp, toPostfixLoop_operandToken a _ _ _ ha,
      toPostfixLoop_operatorToken op1 _ _ _ w1 h1.1 hw1]
    simp only [popGreater]
    rw [toPostfixLoop_operandToken b _ _ _ hb, toPostfixLoop_operatorToken op2 _ _ _ w2 h2.1 hw2]
    simp only [popGreater, hd1]
    by_cases hgt : w1 > w2
    · simp only [hgt, if_true]
      rw [toPostfixLoop_operandToken c _ _ _ hc]
      simp [toPostfixLoop]
    · simp only [hgt, if_false]
      rw [toPostfixLoop_operandToken c _ _ _ hc]
      simp [toPostfixLoop]
  · intro L rawSet f1 f2 hf1 hf2 hta htb htc
    rw [evalLoop_operand L rawSet a _ _ hta, evalLoop_operand L rawSet b _ _ htb,
      evalLoop_operand L rawSet c _ _ htc]
    cases hr : f2 b c with
    | error e =>
      rw [evalLoop]
      rcases h2.1 with h | h | h <;> rw [h] <;> simp only [hf2, TokenStack.Pop, hr]
    | ok r =>
      rw [evalLoop_op L rawSet op2 b c r _ _ f2 h2.1 hf2 hr]
      simp only []
      cases hr2 : f1 a r with
      | error e =>
        rw [evalLoop]
        rcases h1.1 with h | h | h <;> rw [h] <;> simp only [hf1, TokenStack.Pop, hr2]
      | ok r2 =>
        rw [evalLoop_op L rawSet op1 a r r2 _ _ f1 h1.1 hf1 hr2]
        rfl

theorem C16_equal_precedence_groups_right_witness :
    (∃ w1 w2, operatorPrecedence "-" = some w1 ∧ operatorPrecedence "-" = some w2 ∧
      ToPostfixExp [⟨NUMBER, "7", NUMBER_TYPE⟩, ⟨ARITH_OP, "-", ""⟩, ⟨NUMBER, "2", NUMBER_TYPE⟩,
          ⟨ARITH_OP, "-", ""⟩, ⟨NUMBER, "1", NUMBER_TYPE⟩] =
        .ok (if w1 > w2 then
          [⟨NUMBER, "7", NUMBER_TYPE⟩, ⟨NUMBER, "2", NUMBER_TYPE⟩, ⟨ARITH_OP, "-", ""⟩,
            ⟨NUMBER, "1", NUMBER_TYPE⟩, ⟨ARITH_OP, "-", ""⟩]
          else
          [⟨NUMBER, "7", NUMBER_TYPE⟩, ⟨NUMBER, "2", NUMBER_TYPE⟩, ⟨NUMBER, "1", NUMBER_TYPE⟩,
            ⟨ARITH_OP, "-", ""⟩, ⟨ARITH_OP, "-", ""⟩])) ∧
    ToPostfixExp [⟨NUMBER, "7", NUMBER_TYPE⟩, ⟨ARITH_OP, "-", ""⟩, ⟨NUMBER, "2", NUMBER_TYPE⟩,
        ⟨ARITH_OP, "-", ""⟩, ⟨NUMBER, "1", NUMBER_TYPE⟩] =
      .ok [⟨NUMBER, "7", NUMBER_TYPE⟩, ⟨NUMBER, "2", NUMBER_TYPE⟩, ⟨NUMBER, "1", NUMBER_TYPE⟩,
        ⟨ARITH_OP, "-", ""⟩, ⟨ARITH_OP, "-", ""⟩] ∧
    ToPostfixExp [⟨NUMBER, "7", NUMBER_TYPE⟩, ⟨ARITH_OP, "*", ""⟩, ⟨NUMBER, "2", NUMBER_TYPE⟩,
        ⟨ARITH_OP, "-", ""⟩, ⟨NUMBER, "1", NUMBER_TYPE⟩] =
      .ok [⟨NUMBER, "7", NUMBER_TYPE⟩, ⟨NUMBER, "2", NUMBER_TYPE⟩, ⟨ARITH_OP, "*", ""⟩,
        ⟨NUMBER, "1", NUMBER_TYPE⟩, ⟨ARITH_OP, "-", ""⟩] ∧
    Evaluate decimalLib [⟨NUMBER, "7", NUMBER_TYPE⟩, ⟨NUMBER, "2", NUMBER_TYPE⟩,
        ⟨NUMBER, "1", NUMBER_TYPE⟩, ⟨ARITH_OP, "-", ""⟩, ⟨ARITH_OP, "-", ""⟩] nilRawSet =
      .ok ⟨NUMBER, "6.000000", NUMBER_TYPE⟩ ∧
    Calculate decimalLib [⟨"formula_1", "7 - 2 - 1 = 6", GreenColor, 0, true⟩] []
        (fun _ => none) =
      some ⟨GreenColor, some [[("formula_1", ⟨0, GreenColor, true⟩)]], none⟩ ∧
    Calculate decimalLib [⟨"formula_1", "7 - 2 - 1 = 4", GreenColor, 0, true⟩] []
        (fun _ => none) =
      some ⟨GreyColor, some [[("formula_1", ⟨0, GreenColor, false⟩)]], none⟩ :=
  ⟨(C16_equal_precedence_groups_right ⟨NUMBER, "7", NUMBER_TYPE⟩ ⟨NUMBER, "2", NUMBER_TYPE⟩
      ⟨NUMBER, "1", NUMBER_TYPE⟩ ⟨ARITH_OP, "-", ""⟩ ⟨ARITH_OP, "-", ""⟩
      (Or.inl rfl) (Or.inl rfl) (Or.inl rfl)
      ⟨Or.inr (Or.inr rfl), by decide⟩ ⟨Or.inr (Or.inr rfl), by decide⟩).2.1,
    by decide!, by decide!, by decide!, by decide!, by decide!⟩

/-! ## Completeness of the grammar functions -/

theorem parser.check_true (p : parser) (hwf : p.wf) (t : TokenType)
    (f : parser → Option (Bool × parser)) (hf : ∀ q, f q = q.terminal t)
    (tok : Token) (r : List Token) (hr : p.rest = tok :: r) (ht : tok.Type_ = t) :
    p.checkNext f = some (true, p.move 1 []) := by
  rw [parser.checkNext_terminal p hwf t f hf, hr]
  simp [ht]

theorem parser.check_false (p : parser) (hwf : p.wf) (t : TokenType)
    (f : parser → Option (Bool × parser)) (hf : ∀ q, f q = q.terminal t)
    (tok : Token) (r : List Token) (hr : p.rest = tok :: r) (ht : tok.Type_ ≠ t) :
    p.checkNext f = some (false, p.move 1 []) := by
  rw [parser.checkNext_terminal p hwf t f hf, hr]
  simp [ht]

theorem accepts_num (t : Token) (ht : t.Type_ = NUMBER) : Accepts NT.ArithTerm [t] := by
  intro fuel p tail hwf hr hf _
  obtain ⟨fuel, rfl⟩ : ∃ k, fuel = k + 1 := ⟨fuel - 1, by simp only [NT.fuel] at hf; omega⟩
  refine ⟨[], ?_⟩
  show p.ArithmeticTerm (fuel + 1) = _
  rw [parser.ArithmeticTerm]
  simp only []
  rw [parser.check_true p hwf NUMBER parser.Num (fun _ => rfl) t tail hr ht]
  rfl

theorem accepts_ident (t : Token) (ht : t.Type_ = IDENT) : Accepts NT.ArithTerm [t] := by
  intro fuel p tail hwf hr hf _
  obtain ⟨fuel, rfl⟩ : ∃ k, fuel = k + 1 := ⟨fuel - 1, by simp only [NT.fuel] at hf; omega⟩
  refine ⟨[], ?_⟩
  show p.ArithmeticTerm (fuel + 1) = _
  rw [parser.ArithmeticTerm]
  simp only []
  rw [parser.check_false p hwf NUMBER parser.Num (fun _ => rfl) t tail hr (by rw [ht]; decide)]
  simp only [parser.restore_move, parser.move_zero]
  rw [parser.check_true p hwf IDENT parser.Ident (fun _ => rfl) t tail hr ht]
  rfl

theorem accepts_arithBr (l r : Token) (e : List Token) (hl : l.Type_ = LBR)
    (ih : Accepts NT.ArithExp e) (hrb : r.Type_ = RBR) :
    Accepts NT.ArithTerm (l :: e ++ [r]) := by
  intro fuel p tail hwf hr hf _
  obtain ⟨fuel, rfl⟩ : ∃ k, fuel = k + 1 := ⟨fuel - 1, by simp only [NT.fuel] at hf; omega⟩
  simp only [NT.fuel] at hf
  have hr' : p.rest = l :: (e ++ (r :: tail)) := by rw [hr]; simp
  have hlen : p.rest.length = e.length + tail.length + 2 := by rw [hr']; simp; omega
  show ∃ c, p.ArithmeticTerm (fuel + 1) = _
  rw [parser.ArithmeticTerm]
  simp only []
  rw [parser.check_false p hwf NUMBER parser.Num (fun _ => rfl) l _ hr' (by rw [hl]; decide)]
  simp only [parser.restore_move, parser.move_zero]
  rw [parser.check_false p hwf IDENT parser.Ident (fun _ => rfl) l _ hr' (by rw [hl]; decide)]
  simp only [parser.restore_move, parser.move_zero]
  rw [parser.check_true p hwf LBR parser.LBracket (fun _ => rfl) l _ hr' hl]
  simp only []
  -- the expression between the brackets
  have hwf1 : (p.move 1 []).wf := parser.wf_move p hwf 1 [] (by rw [hlen]; omega)
  have hr1 : (p.move 1 []).rest = e ++ (r :: tail) := by
    rw [parser.rest_move p hwf, hr']; rfl
  obtain ⟨c, hc⟩ := ih fuel (p.move 1 []) (r :: tail) hwf1 hr1
    (by rw [hr1]; simp only [NT.fuel, List.length_append, List.length_cons]; omega)
    (by intro tok h; simp only [List.head?_cons, Option.some.injEq] at h; rw [← h, hrb]; decide)
  have hne : (p.move 1 []).rest = (e ++ (r :: tail)).head (by simp) ::
      (e ++ (r :: tail)).tail := by
    rw [hr1]; simp
  rw [parser.checkNext_cons _ hwf1 _ _ _ hne]
  change (p.move 1 []).ArithmeticExp fuel = _ at hc
  rw [hc, parser.move_move]
  simp only []
  have hwf2 : (p.move (1 + e.length) ([] ++ c)).wf :=
    parser.wf_move p hwf _ _ (by rw [hlen]; omega)
  have hr2 : (p.move (1 + e.length) ([] ++ c)).rest = r :: tail := by
    rw [parser.rest_move p hwf, hr', Nat.add_comm]
    simp
  rw [parser.check_true _ hwf2 RBR parser.RBracket (fun _ => rfl) r tail hr2 hrb,
    parser.move_move]
  refine ⟨[] ++ c ++ [], ?_⟩
  rw [show (l :: e ++ [r]).length = 1 + e.length + 1 by simp; omega]

theorem parser.checkNext_of_ne (p : parser) (hwf : p.wf) (f : parser → Option (Bool × parser))
    (h : p.rest ≠ []) : p.checkNext f = f p := by
  rcases parser.checkNext_cases p hwf f with ⟨h1, _⟩ | ⟨_, h2⟩
  · exact absurd h1 h
  · exact h2

theorem parser.check_not (p : parser) (hwf : p.wf) (t : TokenType)
    (f : parser → Option (Bool × parser)) (hf : ∀ q, f q = q.terminal t)
    (h : nextIsNot t p.rest) :
    ∃ n, p.checkNext f = some (false, p.move n []) := by
  rw [parser.checkNext_terminal p hwf t f hf]
  rcases hr : p.rest with _ | ⟨tok, r⟩
  · exact ⟨0, by simp [parser.move_zero]⟩
  · have := h tok (by rw [hr]; rfl)
    exact ⟨1, by simp [this]⟩

theorem accepts_arithNil : Accepts NT.ArithRest [] := by
  intro fuel p tail hwf hr hf hfol
  obtain ⟨fuel, rfl⟩ : ∃ k, fuel = k + 1 := ⟨fuel - 1, by simp only [NT.fuel] at hf; omega⟩
  refine ⟨[], ?_⟩
  show p.ArithmeticExpLoop (fuel + 1) = _
  rw [parser.ArithmeticExpLoop]
  obtain ⟨n, hn⟩ := parser.check_not p hwf ARITH_OP parser.ArithmeticOp (fun _ => rfl)
    (by rw [hr]; exact hfol)
  rw [hn]
  simp only [parser.restore_move, List.length_nil]

theorem accepts_arithMore (o : Token) (t e : List Token) (ho : o.Type_ = ARITH_OP)
    (hne : t ≠ []) (iht : Accepts NT.ArithTerm t) (ihe : Accepts NT.ArithRest e) :
    Accepts NT.ArithRest (o :: t ++ e) := by
  intro fuel p tail hwf hr hf hfol
  obtain ⟨fuel, rfl⟩ : ∃ k, fuel = k + 1 := ⟨fuel - 1, by simp only [NT.fuel] at hf; omega⟩
  simp only [NT.fuel] at hf
  have hr' : p.rest = o :: (t ++ (e ++ tail)) := by rw [hr]; simp
  have hlen : p.rest.length = t.length + e.length + tail.length + 1 := by rw [hr']; simp; omega
  show ∃ c, p.ArithmeticExpLoop (fuel + 1) = _
  rw [parser.ArithmeticExpLoop]
  rw [parser.check_true p hwf ARITH_OP parser.ArithmeticOp (fun _ => rfl) o _ hr' ho]
  simp only []
  have hwf1 : (p.move 1 []).wf := parser.wf_move p hwf 1 [] (by rw [hlen]; omega)
  have hr1 : (p.move 1 []).rest = t ++ (e ++ tail) := by
    rw [parser.rest_move p hwf, hr']; rfl
  obtain ⟨c1, hc1⟩ := iht fuel (p.move 1 []) (e ++ tail) hwf1 hr1
    (by rw [hr1]; simp only [NT.fuel, List.length_append]; omega) trivial
  rw [parser.checkNext_of_ne _ hwf1 _ (by rw [hr1]; simp [hne])]
  change (p.move 1 []).ArithmeticTerm fuel = _ at hc1
  rw [hc1, parser.move_move]
  simp only []
  have hwf2 : (p.move (1 + t.length) ([] ++ c1)).wf :=
    parser.wf_move p hwf _ _ (by rw [hlen]; omega)
  have hr2 : (p.move (1 + t.length) ([] ++ c1)).rest = e ++ tail := by
    rw [parser.rest_move p hwf, hr', Nat.add_comm]
    simp
  obtain ⟨c2, hc2⟩ := ihe fuel _ tail hwf2 hr2
    (by rw [hr2]; simp only [NT.fuel, List.length_append]; omega) hfol
  change (p.move (1 + t.length) ([] ++ c1)).ArithmeticExpLoop fuel = _ at hc2
  rw [hc2, parser.move_move]
  refine ⟨[] ++ c1 ++ c2, ?_⟩
  rw [show (o :: t ++ e).length = 1 + t.length + e.length by simp; omega]

theorem accepts_arithExp (t e : List Token) (hne : t ≠ [])
    (iht : Accepts NT.ArithTerm t) (ihe : Accepts NT.ArithRest e) :
    Accepts NT.ArithExp (t ++ e) := by
  intro fuel p tail hwf hr hf hfol
  obtain ⟨fuel, rfl⟩ : ∃ k, fuel = k + 1 := ⟨fuel - 1, by simp only [NT.fuel] at hf; omega⟩
  simp only [NT.fuel] at hf
  have hr' : p.rest = t ++ (e ++ tail) := by rw [hr]; simp
  have hlen : p.rest.length = t.length + e.length + tail.length := by rw [hr']; simp; omega
  show ∃ c, p.ArithmeticExp (fuel + 1) = _
  rw [parser.ArithmeticExp]
  obtain ⟨c1, hc1⟩ := iht fuel p (e ++ tail) hwf hr'
    (by simp only [NT.fuel]; omega) trivial
  rw [parser.checkNext_of_ne _ hwf _ (by rw [hr']; simp [hne])]
  change p.ArithmeticTerm fuel = _ at hc1
  rw [hc1]
  simp only []
  have hwf2 : (p.move t.length c1).wf :=
    parser.wf_move p hwf _ _ (by rw [hlen]; omega)
  have hr2 : (p.move t.length c1).rest = e ++ tail := by
    rw [parser.rest_move p hwf, hr']
    simp
  obtain ⟨c2, hc2⟩ := ihe fuel _ tail hwf2 hr2
    (by rw [hr2]; simp only [NT.fuel, List.length_append]; omega) hfol
  change (p.move t.length c1).ArithmeticExpLoop fuel = _ at hc2
  rw [hc2, parser.move_move]
  refine ⟨c1 ++ c2, ?_⟩
  rw [List.length_append]

theorem Derives_arithExp_inv (rawSet : RawMessageSet) (s c : List Token)
    (h : Derives rawSet NT.ArithExp s c) :
    ∃ t ct e ce, s = t ++ e ∧ c = ct ++ ce ∧ Derives rawSet NT.ArithTerm t ct ∧
      Derives rawSet NT.ArithRest e ce := by
  cases h with
  | arithExp t ct e ce h1 h2 => exact ⟨t, ct, e, ce, rfl, rfl, h1, h2⟩

theorem Derives_arithTerm_inv (rawSet : RawMessageSet) (s c : List Token)
    (h : Derives rawSet NT.ArithTerm s c) :
    (∃ tk, s = [tk] ∧ c = [tk] ∧ (tk.Type_ = NUMBER ∨ tk.Type_ = IDENT)) ∨
    ∃ l e ce r, s = l :: e ++ [r] ∧ c = l :: ce ++ [r] ∧ l.Type_ = LBR ∧
      Derives rawSet NT.ArithExp e ce ∧ r.Type_ = RBR := by
  cases h with
  | num t ht => exact Or.inl ⟨t, rfl, rfl, Or.inl ht⟩
  | ident t ht => exact Or.inl ⟨t, rfl, rfl, Or.inr ht⟩
  | arithBr l r e ce hl he hr => exact Or.inr ⟨l, e, ce, r, rfl, rfl, hl, he, hr⟩

theorem Derives_arithRest_inv (rawSet : RawMessageSet) (s c : List Token)
    (h : Derives rawSet NT.ArithRest s c) :
    (s = [] ∧ c = []) ∨
    ∃ o t ct e ce, s = o :: t ++ e ∧ c = o :: ct ++ ce ∧ o.Type_ = ARITH_OP ∧
      Derives rawSet NT.ArithTerm t ct ∧ Derives rawSet NT.ArithRest e ce := by
  cases h with
  | arithNil => exact Or.inl ⟨rfl, rfl⟩
  | arithMore o t ct e ce ho h1 h2 => exact Or.inr ⟨o, t, ct, e, ce, rfl, rfl, ho, h1, h2⟩

theorem Derives_logicRest_inv (rawSet : RawMessageSet) (s c : List Token)
    (h : Derives rawSet NT.LogicRest s c) :
    (s = [] ∧ c = []) ∨
    ∃ o t ct e ce, s = o :: t ++ e ∧ c = o :: ct ++ ce ∧
      (o.Type_ = LOG_OP ∨ o.Type_ = COMP_OP) ∧
      Derives rawSet NT.LogicTerm t ct ∧ Derives rawSet NT.LogicRest e ce := by
  cases h with
  | logicNil => exact Or.inl ⟨rfl, rfl⟩
  | logicMore o t ct e ce ho h1 h2 => exact Or.inr ⟨o, t, ct, e, ce, rfl, rfl, ho, h1, h2⟩

theorem Derives_logicExp_inv (rawSet : RawMessageSet) (s c : List Token)
    (h : Derives rawSet NT.LogicExp s c) :
    ∃ t ct e ce, s = t ++ e ∧ c = ct ++ ce ∧ Derives rawSet NT.LogicTerm t ct ∧
      Derives rawSet NT.LogicRest e ce := by
  cases h with
  | logicExp t ct e ce h1 h2 => exact ⟨t, ct, e, ce, rfl, rfl, h1, h2⟩

theorem Derives_logicTerm_inv (rawSet : RawMessageSet) (s c : List Token)
    (h : Derives rawSet NT.LogicTerm s c) :
    (∃ tk, s = [tk] ∧ c = [tk] ∧ tk.Type_ = BOOL) ∨
    (∃ k l x r, s = [k, l, x, r] ∧
      c = [⟨BOOL, Sprintf_t (rawSet x.Value).isSome, BOOL_TYPE⟩] ∧ k.Type_ = EXISTS_FUNC ∧
      l.Type_ = LBR ∧ x.Type_ = IDENT ∧ r.Type_ = RBR) ∨
    Derives rawSet NT.ArithExp s c ∨
    ∃ l e ce r, s = l :: e ++ [r] ∧ c = l :: ce ++ [r] ∧ l.Type_ = LBR ∧
      Derives rawSet NT.LogicExp e ce ∧ r.Type_ = RBR := by
  cases h with
  | bool t ht => exact Or.inl ⟨t, rfl, rfl, ht⟩
  | existsCall k l x r hk hl hx hr =>
    exact Or.inr (Or.inl ⟨k, l, x, r, rfl, rfl, hk, hl, hx, hr⟩)
  | arith e c h => exact Or.inr (Or.inr (Or.inl h))
  | logicBr l r e ce hl he hr => exact Or.inr (Or.inr (Or.inr ⟨l, e, ce, r, rfl, rfl, hl, he, hr⟩))

/-- The first token of a phrase of a term or an expression, and its kind. -/
theorem Derives_head (rawSet : RawMessageSet) (X : NT) (s c : List Token)
    (h : Derives rawSet X s c) :
    ((X = NT.ArithTerm ∨ X = NT.ArithExp) → ∃ t r, s = t :: r ∧
      (t.Type_ = NUMBER ∨ t.Type_ = IDENT ∨ t.Type_ = LBR)) ∧
    ((X = NT.LogicTerm ∨ X = NT.LogicExp) → ∃ t r, s = t :: r ∧
      (t.Type_ = NUMBER ∨ t.Type_ = IDENT ∨ t.Type_ = LBR ∨ t.Type_ = BOOL ∨
        t.Type_ = EXISTS_FUNC)) ∧
    (X = NT.ArithRest → s = [] ∨ ∃ t r, s = t :: r ∧ t.Type_ = ARITH_OP) ∧
    (X = NT.LogicRest → s = [] ∨ ∃ t r, s = t :: r ∧ (t.Type_ = LOG_OP ∨ t.Type_ = COMP_OP)) := by
  induction h with
  | num t ht => exact ⟨fun _ => ⟨t, [], rfl, Or.inl ht⟩, by simp, by simp, by simp⟩
  | ident t ht => exact ⟨fun _ => ⟨t, [], rfl, Or.inr (Or.inl ht)⟩, by simp, by simp, by simp⟩
  | arithBr l r e c hl _ _ _ =>
    exact ⟨fun _ => ⟨l, e ++ [r], rfl, Or.inr (Or.inr hl)⟩, by simp, by simp, by simp⟩
  | arithNil => exact ⟨by simp, by simp, fun _ => Or.inl rfl, by simp⟩
  | arithMore o t ct e ce ho _ _ _ _ =>
    exact ⟨by simp, by simp, fun _ => Or.inr ⟨o, t ++ e, rfl, ho⟩, by simp⟩
  | arithExp t ct e ce _ _ ih1 _ =>
    refine ⟨fun _ => ?_, by simp, by simp, by simp⟩
    obtain ⟨t0, r0, h0, ht0⟩ := ih1.1 (Or.inl rfl)
    exact ⟨t0, r0 ++ e, by rw [h0]; rfl, ht0⟩
  | bool t ht =>
    exact ⟨by simp, fun _ => ⟨t, [], rfl, Or.inr (Or.inr (Or.inr (Or.inl ht)))⟩, by simp,
      by simp⟩
  | existsCall k l x r hk _ _ _ =>
    exact ⟨by simp, fun _ => ⟨k, [l, x, r], rfl, Or.inr (Or.inr (Or.inr (Or.inr hk)))⟩,
      by simp, by simp⟩
  | arith e c _ ih =>
    refine ⟨by simp, fun _ => ?_, by simp, by simp⟩
    obtain ⟨t0, r0, h0, ht0⟩ := ih.1 (Or.inr rfl)
    refine ⟨t0, r0, h0, ?_⟩
    rcases ht0 with h | h | h
    · exact Or.inl h
    · exact Or.inr (Or.inl h)
    · exact Or.inr (Or.inr (Or.inl h))
  | logicBr l r e c hl _ _ _ =>
    exact ⟨by simp, fun _ => ⟨l, e ++ [r], rfl, Or.inr (Or.inr (Or.inl hl))⟩, by simp, by simp⟩
  | logicNil => exact ⟨by simp, by simp, by simp, fun _ => Or.inl rfl⟩
  | logicMore o t ct e ce ho _ _ _ _ =>
    exact ⟨by simp, by simp, by simp, fun _ => Or.inr ⟨o, t ++ e, rfl, ho⟩⟩
  | logicExp t ct e ce _ _ ih1 _ =>
    refine ⟨by simp, fun _ => ?_, by simp, by simp⟩
    obtain ⟨t0, r0, h0, ht0⟩ := ih1.2.1 (Or.inl rfl)
    exact ⟨t0, r0 ++ e, by rw [h0]; rfl, ht0⟩

/-- Two bracket-neutral sequences that are each followed by a closing bracket
in the same token sequence are the same sequence. -/
theorem neutral_prefix_unique (a b x y : List Token) (ra rb : Token)
    (ha : ∀ (rest : List Token) (d : Nat), bracketDepth (a ++ rest) d = bracketDepth rest d)
    (hb : ∀ (rest : List Token) (d : Nat), bracketDepth (b ++ rest) d = bracketDepth rest d)
    (hra : ra.Type_ = RBR) (hrb : rb.Type_ = RBR)
    (h : a ++ ra :: x = b ++ rb :: y) : a = b ∧ x = y := by
  have hnone : ∀ (r : Token) (z : List Token), r.Type_ = RBR → bracketDepth (r :: z) 0 = none := by
    intro r z hr
    rw [bracketDepth.eq_def]
    simp [hr]
  rcases List.append_eq_append_iff.1 h with ⟨a', h1, h2⟩ | ⟨c', h1, h2⟩
  · cases a' with
    | nil =>
      simp only [List.append_nil, List.nil_append] at h1 h2
      injection h2 with _ h2
      exact ⟨h1.symm, h2⟩
    | cons t a'' =>
      exfalso
      simp only [List.cons_append] at h2
      injection h2 with h2 _
      subst h2
      have e1 := hb [] 0
      rw [h1, List.append_assoc, ha] at e1
      rw [List.cons_append, hnone ra _ hra] at e1
      simp [bracketDepth] at e1
  · cases c' with
    | nil =>
      simp only [List.append_nil, List.nil_append] at h1 h2
      injection h2 with _ h2
      exact ⟨h1, h2.symm⟩
    | cons t c'' =>
      exfalso
      simp only [List.cons_append] at h2
      injection h2 with h2 _
      subst h2
      have e1 := ha [] 0
      rw [h1, List.append_assoc, hb] at e1
      rw [List.cons_append, hnone rb _ hrb] at e1
      simp [bracketDepth] at e1

/-- When a bracketed phrase `( e )` with bracket-neutral `e` is not followed by
an arithmetic operator, an arithmetic expression that is a prefix of the same
tokens is exactly that phrase. -/
theorem arith_prefix_of_bracket (rawSet : RawMessageSet) (l r : Token) (e tail : List Token)
    (n : Nat) (c : List Token) (hl : l.Type_ = LBR) (hr : r.Type_ = RBR)
    (hne : ∀ (rest : List Token) (d : Nat), bracketDepth (e ++ rest) d = bracketDepth rest d)
    (hfol : nextIsNot ARITH_OP tail)
    (hd : Derives rawSet NT.ArithExp ((l :: (e ++ (r :: tail))).take n) c) :
    (l :: (e ++ (r :: tail))).take n = l :: e ++ [r] := by
  obtain ⟨t, ct, e2, ce2, hs, _, ht, he2⟩ := Derives_arithExp_inv rawSet _ _ hd
  have hsplit : l :: (e ++ (r :: tail)) = t ++ (e2 ++ (l :: (e ++ (r :: tail))).drop n) := by
    rw [← List.append_assoc, ← hs, List.take_append_drop]
  rcases Derives_arithTerm_inv rawSet _ _ ht with ⟨tk, h1, _, htk⟩ | ⟨l', e', ce', r', h1, _, hl', he', hr'⟩
  · exfalso
    rw [h1] at hsplit
    simp only [List.singleton_append] at hsplit
    injection hsplit with h2 _
    subst h2
    rcases htk with h | h <;> rw [hl] at h <;> cases h
  · rw [h1] at hsplit
    simp only [List.cons_append, List.append_assoc, List.singleton_append] at hsplit
    injection hsplit with h2 h3
    subst h2
    have hne' := Derives_bracketDepth rawSet _ _ _ he'
    obtain ⟨hee, htl⟩ := neutral_prefix_unique e e' tail _ r r' hne hne' hr hr' h3
    subst hee
    have hrr : r = r' := by
      have := List.append_cancel_left h3
      injection this
    subst hrr
    rcases Derives_arithRest_inv rawSet _ _ he2 with ⟨h4, _⟩ | ⟨o, t2, ct2, e3, ce3, h4, _, ho, _, _⟩
    · rw [hs, h1, h4, List.append_nil]
    · exfalso
      rw [h4] at htl
      exact hfol o (by rw [htl]; rfl) ho

theorem accepts_bool (t : Token) (ht : t.Type_ = BOOL) : Accepts NT.LogicTerm [t] := by
  intro fuel p tail hwf hr hf _
  obtain ⟨fuel, rfl⟩ : ∃ k, fuel = k + 1 := ⟨fuel - 1, by simp only [NT.fuel] at hf; omega⟩
  show ∃ c, p.LogicTerm (fuel + 1) = _
  rw [parser.LogicTerm]
  simp only []
  rw [parser.check_true p hwf BOOL parser.Bool_ (fun _ => rfl) t tail hr ht]
  simp only []
  have hcur : (p.move 1 []).cur = some t := by
    have := parser.cur_move p hwf 0 []
    rw [hr] at this
    simpa using this
  rw [hcur]
  simp only [parser.move_calc]
  exact ⟨_, rfl⟩

theorem accepts_existsCall (k l x r : Token) (hk : k.Type_ = EXISTS_FUNC) (hl : l.Type_ = LBR)
    (hx : x.Type_ = IDENT) (hrb : r.Type_ = RBR) : Accepts NT.LogicTerm [k, l, x, r] := by
  intro fuel p tail hwf hr hf _
  obtain ⟨fuel, rfl⟩ : ∃ k, fuel = k + 1 := ⟨fuel - 1, by simp only [NT.fuel] at hf; omega⟩
  have hr' : p.rest = k :: l :: x :: r :: tail := by rw [hr]; rfl
  show ∃ c, p.LogicTerm (fuel + 1) = _
  rw [parser.LogicTerm]
  simp only []
  rw [parser.check_false p hwf BOOL parser.Bool_ (fun _ => rfl) k _ hr' (by rw [hk]; decide)]
  simp only [parser.restore_move, parser.move_zero]
  rw [parser.checkNext_of_ne p hwf _ (by rw [hr']; simp)]
  rcases ExistsFunc_spec p hwf with ⟨_, _, _, _, _, _, _, _, _, _, he⟩ | ⟨_, hno⟩
  · rw [he]
    exact ⟨_, rfl⟩
  · exact absurd ⟨k, l, x, r, tail, hr', hk, hl, hx, hrb⟩ hno

theorem ExistsFunc_fails (p : parser) (hwf : p.wf) (t : Token) (r : List Token)
    (hr : p.rest = t :: r) (ht : t.Type_ ≠ EXISTS_FUNC) :
    ∃ n, p.ExistsFunc = some (false, p.move n []) := by
  rcases ExistsFunc_spec p hwf with ⟨k, _, _, _, _, h, hk, _⟩ | ⟨⟨n, hn, _⟩, _⟩
  · exfalso
    rw [hr] at h
    injection h with h _
    subst h
    exact ht hk
  · exact ⟨n, hn⟩

theorem accepts_arith (rawSet : RawMessageSet) (e c : List Token)
    (hd : Derives rawSet NT.ArithExp e c) (ih : Accepts NT.ArithExp e) :
    Accepts NT.LogicTerm e := by
  intro fuel p tail hwf hr hf hfol
  obtain ⟨fuel, rfl⟩ : ∃ k, fuel = k + 1 := ⟨fuel - 1, by simp only [NT.fuel] at hf; omega⟩
  simp only [NT.fuel] at hf
  obtain ⟨t0, r0, he, ht0⟩ := (Derives_head rawSet _ _ _ hd).1 (Or.inr rfl)
  have hr' : p.rest = t0 :: (r0 ++ tail) := by rw [hr, he]; rfl
  have hlen : e.length ≤ p.rest.length := by rw [hr]; simp
  show ∃ c, p.LogicTerm (fuel + 1) = _
  rw [parser.LogicTerm]
  simp only []
  rw [parser.check_false p hwf BOOL parser.Bool_ (fun _ => rfl) t0 _ hr'
    (by rcases ht0 with h | h | h <;> rw [h] <;> decide)]
  simp only [parser.restore_move, parser.move_zero]
  rw [parser.checkNext_of_ne p hwf _ (by rw [hr']; simp)]
  obtain ⟨n, hn⟩ := ExistsFunc_fails p hwf t0 _ hr'
    (by rcases ht0 with h | h | h <;> rw [h] <;> decide)
  rw [hn]
  simp only [parser.restore_move, parser.move_zero]
  rw [parser.checkNext_of_ne p hwf _ (by rw [hr']; simp)]
  obtain ⟨c1, hc1⟩ := ih fuel p tail hwf hr (by simp only [NT.fuel]; omega) hfol
  change p.ArithmeticExp fuel = _ at hc1
  rw [hc1]
  simp only []
  rw [parser.span_move p hwf e.length c1 hlen]
  simp only [parser.move_calc]
  exact ⟨_, rfl⟩

theorem accepts_logicBr (rawSet : RawMessageSet) (l r : Token) (e ce : List Token)
    (hl : l.Type_ = LBR) (hd : Derives rawSet NT.LogicExp e ce)
    (ih : Accepts NT.LogicExp e) (hrb : r.Type_ = RBR) :
    Accepts NT.LogicTerm (l :: e ++ [r]) := by
  intro fuel p tail hwf hr hf hfol
  obtain ⟨fuel, rfl⟩ : ∃ k, fuel = k + 1 := ⟨fuel - 1, by simp only [NT.fuel] at hf; omega⟩
  simp only [NT.fuel] at hf
  have hr' : p.rest = l :: (e ++ (r :: tail)) := by rw [hr]; simp
  have hlen : p.rest.length = e.length + tail.length + 2 := by rw [hr']; simp; omega
  have hseg : (l :: e ++ [r]).length = 1 + e.length + 1 := by simp; omega
  show ∃ c, p.LogicTerm (fuel + 1) = _
  rw [parser.LogicTerm]
  simp only []
  rw [parser.check_false p hwf BOOL parser.Bool_ (fun _ => rfl) l _ hr' (by rw [hl]; decide)]
  simp only [parser.restore_move, parser.move_zero]
  rw [parser.checkNext_of_ne p hwf _ (by rw [hr']; simp)]
  obtain ⟨n, hn⟩ := ExistsFunc_fails p hwf l _ hr' (by rw [hl]; decide)
  rw [hn]
  simp only [parser.restore_move, parser.move_zero]
  rw [parser.checkNext_of_ne p hwf _ (by rw [hr']; simp)]
  obtain ⟨b, m, hea, hma, hda⟩ := (arith_spec fuel).2.1 p hwf (by omega)
  rw [hea]
  cases b with
  | true =>
    -- the arithmetic attempt has matched: it has matched the bracketed phrase
    simp only []
    rw [parser.span_move p hwf m [] hma]
    simp only [parser.move_calc]
    have htake := hda rfl
    rw [hr'] at htake
    have heq := arith_prefix_of_bracket p.rawSet l r e tail m _ hl hrb
      (Derives_bracketDepth rawSet _ _ _ hd) hfol htake
    have hm : m = (l :: e ++ [r]).length := by
      have h1 := congrArg List.length heq
      rw [← hr', List.length_take, Nat.min_eq_left hma] at h1
      exact h1
    rw [hm]
    exact ⟨_, rfl⟩
  | false =>
    simp only [parser.restore_move, parser.move_zero]
    rw [parser.check_true p hwf LBR parser.LBracket (fun _ => rfl) l _ hr' hl]
    simp only []
    have hcur : (p.move 1 []).cur = some l := by
      have := parser.cur_move p hwf 0 []
      rw [hr'] at this
      simpa using this
    rw [hcur]
    simp only [parser.move_calc]
    have hwf1 : (p.move 1 ([] ++ [l])).wf := parser.wf_move p hwf 1 _ (by rw [hlen]; omega)
    have hr1 : (p.move 1 ([] ++ [l])).rest = e ++ (r :: tail) := by
      rw [parser.rest_move p hwf, hr']; rfl
    obtain ⟨t0, r0, he0, _⟩ := (Derives_head rawSet _ _ _ hd).2.1 (Or.inr rfl)
    rw [parser.checkNext_of_ne _ hwf1 _ (by rw [hr1, he0]; simp)]
    obtain ⟨c, hc⟩ := ih fuel _ (r :: tail) hwf1 hr1
      (by rw [hr1]; simp only [NT.fuel, List.length_append, List.length_cons]; omega)
      (by
        refine ⟨?_, ?_, ?_⟩ <;> intro tok h <;>
          simp only [List.head?_cons, Option.some.injEq] at h <;> rw [← h, hrb] <;> decide)
    change (p.move 1 ([] ++ [l])).LogicExp fuel = _ at hc
    rw [hc, parser.move_move]
    simp only []
    have hwf2 : (p.move (1 + e.length) ([] ++ [l] ++ c)).wf :=
      parser.wf_move p hwf _ _ (by rw [hlen]; omega)
    have hr2 : (p.move (1 + e.length) ([] ++ [l] ++ c)).rest = r :: tail := by
      rw [parser.rest_move p hwf, hr', Nat.add_comm]
      simp
    rw [parser.check_true _ hwf2 RBR parser.RBracket (fun _ => rfl) r tail hr2 hrb,
      parser.move_move]
    simp only []
    have hcur2 : (p.move (1 + e.length + 1) ([] ++ [l] ++ c ++ [])).cur = some r := by
      have := parser.cur_move p hwf (1 + e.length) ([] ++ [l] ++ c ++ [])
      rw [this, hr', Nat.add_comm 1 e.length, List.getElem?_cons_succ,
        List.getElem?_append_right (Nat.le_refl _)]
      simp
    rw [hcur2]
    simp only [parser.move_calc]
    rw [hseg]
    exact ⟨_, rfl⟩

theorem accepts_logicNil : Accepts NT.LogicRest [] := by
  intro fuel p tail hwf hr hf hfol
  obtain ⟨fuel, rfl⟩ : ∃ k, fuel = k + 1 := ⟨fuel - 1, by simp only [NT.fuel] at hf; omega⟩
  refine ⟨[], ?_⟩
  show p.LogicExpLoop (fuel + 1) = _
  rw [parser.LogicExpLoop, LogicOrCompOperator_spec p hwf]
  simp only [List.nil_append] at hr
  rcases htl : tail with _ | ⟨tok, r⟩
  · rw [hr, htl]
    simp [parser.move_zero]
  · rw [hr, htl]
    have h1 := hfol.2.1 tok (by rw [htl]; rfl)
    have h2 := hfol.2.2 tok (by rw [htl]; rfl)
    simp [h1, h2, parser.restore_move]

theorem accepts_logicMore (o : Token) (t e : List Token)
    (ho : o.Type_ = LOG_OP ∨ o.Type_ = COMP_OP) (hne : t ≠ [])
    (hhead : e = [] ∨ ∃ t1 r1, e = t1 :: r1 ∧ (t1.Type_ = LOG_OP ∨ t1.Type_ = COMP_OP))
    (iht : Accepts NT.LogicTerm t) (ihe : Accepts NT.LogicRest e) :
    Accepts NT.LogicRest (o :: t ++ e) := by
  intro fuel p tail hwf hr hf hfol
  obtain ⟨fuel, rfl⟩ : ∃ k, fuel = k + 1 := ⟨fuel - 1, by simp only [NT.fuel] at hf; omega⟩
  simp only [NT.fuel] at hf
  have hr' : p.rest = o :: (t ++ (e ++ tail)) := by rw [hr]; simp
  have hlen : p.rest.length = t.length + e.length + tail.length + 1 := by rw [hr']; simp; omega
  show ∃ c, p.LogicExpLoop (fuel + 1) = _
  rw [parser.LogicExpLoop, LogicOrCompOperator_spec p hwf, hr']
  simp only [ho, decide_True]
  have hcur : (p.move 1 []).cur = some o := by
    have := parser.cur_move p hwf 0 []
    rw [hr'] at this
    simpa using this
  rw [hcur]
  simp only [parser.move_calc]
  have hwf1 : (p.move 1 ([] ++ [o])).wf := parser.wf_move p hwf 1 _ (by rw [hlen]; omega)
  have hr1 : (p.move 1 ([] ++ [o])).rest = t ++ (e ++ tail) := by
    rw [parser.rest_move p hwf, hr']; rfl
  have hfol1 : nextIsNot ARITH_OP (e ++ tail) := by
    rcases hhead with h | ⟨t1, r1, h, ht1⟩
    · rw [h]; exact hfol.1
    · intro tok htok
      rw [h] at htok
      simp only [List.cons_append, List.head?_cons, Option.some.injEq] at htok
      rw [← htok]
      rcases ht1 with h | h <;> rw [h] <;> decide
  obtain ⟨c1, hc1⟩ := iht fuel _ (e ++ tail) hwf1 hr1
    (by rw [hr1]; simp only [NT.fuel, List.length_append]; omega) hfol1
  rw [parser.checkNext_of_ne _ hwf1 _ (by rw [hr1]; simp [hne])]
  change (p.move 1 ([] ++ [o])).LogicTerm fuel = _ at hc1
  rw [hc1, parser.move_move]
  simp only []
  have hwf2 : (p.move (1 + t.length) ([] ++ [o] ++ c1)).wf :=
    parser.wf_move p hwf _ _ (by rw [hlen]; omega)
  have hr2 : (p.move (1 + t.length) ([] ++ [o] ++ c1)).rest = e ++ tail := by
    rw [parser.rest_move p hwf, hr', Nat.add_comm]
    simp
  obtain ⟨c2, hc2⟩ := ihe fuel _ tail hwf2 hr2
    (by rw [hr2]; simp only [NT.fuel, List.length_append]; omega) hfol
  change (p.move (1 + t.length) ([] ++ [o] ++ c1)).LogicExpLoop fuel = _ at hc2
  rw [hc2, parser.move_move]
  refine ⟨[] ++ [o] ++ c1 ++ c2, ?_⟩
  rw [show (o :: t ++ e).length = 1 + t.length + e.length by simp; omega]

theorem accepts_logicExp (t e : List Token) (hne : t ≠ [])
    (hhead : e = [] ∨ ∃ t1 r1, e = t1 :: r1 ∧ (t1.Type_ = LOG_OP ∨ t1.Type_ = COMP_OP))
    (iht : Accepts NT.LogicTerm t) (ihe : Accepts NT.LogicRest e) :
    Accepts NT.LogicExp (t ++ e) := by
  intro fuel p tail hwf hr hf hfol
  obtain ⟨fuel, rfl⟩ : ∃ k, fuel = k + 1 := ⟨fuel - 1, by simp only [NT.fuel] at hf; omega⟩
  simp only [NT.fuel] at hf
  have hr' : p.rest = t ++ (e ++ tail) := by rw [hr]; simp
  have hlen : p.rest.length = t.length + e.length + tail.length := by rw [hr']; simp; omega
  show ∃ c, p.LogicExp (fuel + 1) = _
  rw [parser.LogicExp]
  have hfol1 : nextIsNot ARITH_OP (e ++ tail) := by
    rcases hhead with h | ⟨t1, r1, h, ht1⟩
    · rw [h]; exact hfol.1
    · intro tok htok
      rw [h] at htok
      simp only [List.cons_append, List.head?_cons, Option.some.injEq] at htok
      rw [← htok]
      rcases ht1 with h | h <;> rw [h] <;> decide
  obtain ⟨c1, hc1⟩ := iht fuel p (e ++ tail) hwf hr'
    (by simp only [NT.fuel]; omega) hfol1
  rw [parser.checkNext_of_ne _ hwf _ (by rw [hr']; simp [hne])]
  change p.LogicTerm fuel = _ at hc1
  rw [hc1]
  simp only []
  have hwf2 : (p.move t.length c1).wf :=
    parser.wf_move p hwf _ _ (by rw [hlen]; omega)
  have hr2 : (p.move t.length c1).rest = e ++ tail := by
    rw [parser.rest_move p hwf, hr']
    simp
  obtain ⟨c2, hc2⟩ := ihe fuel _ tail hwf2 hr2
    (by rw [hr2]; simp only [NT.fuel, List.length_append]; omega) hfol
  change (p.move t.length c1).LogicExpLoop fuel = _ at hc2
  rw [hc2, parser.move_move]
  refine ⟨c1 ++ c2, ?_⟩
  rw [List.length_append]

theorem Derives_ne_nil (rawSet : RawMessageSet) (X : NT) (s c : List Token)
    (h : Derives rawSet X s c)
    (hX : X = NT.ArithTerm ∨ X = NT.ArithExp ∨ X = NT.LogicTerm ∨ X = NT.LogicExp) : s ≠ [] := by
  have hh := Derives_head rawSet X s c h
  rcases hX with hX | hX | hX | hX
  · obtain ⟨t, r, h1, _⟩ := hh.1 (Or.inl hX); rw [h1]; simp
  · obtain ⟨t, r, h1, _⟩ := hh.1 (Or.inr hX); rw [h1]; simp
  · obtain ⟨t, r, h1, _⟩ := hh.2.1 (Or.inl hX); rw [h1]; simp
  · obtain ⟨t, r, h1, _⟩ := hh.2.1 (Or.inr hX); rw [h1]; simp

/-- Completeness of the grammar functions: a phrase derived from a nonterminal
is accepted by its function, which consumes exactly the phrase. -/
theorem Derives_accepts (rawSet : RawMessageSet) (X : NT) (seg c : List Token)
    (h : Derives rawSet X seg c) : Accepts X seg := by
  induction h with
  | num t ht => exact accepts_num t ht
  | ident t ht => exact accepts_ident t ht
  | arithBr l r e c hl _ hr ih => exact accepts_arithBr l r e hl ih hr
  | arithNil => exact accepts_arithNil
  | arithMore o t ct e ce ho ht _ iht ihe =>
    exact accepts_arithMore o t e ho (Derives_ne_nil rawSet _ _ _ ht (Or.inl rfl)) iht ihe
  | arithExp t ct e ce ht _ iht ihe =>
    exact accepts_arithExp t e (Derives_ne_nil rawSet _ _ _ ht (Or.inl rfl)) iht ihe
  | bool t ht => exact accepts_bool t ht
  | existsCall k l x r hk hl hx hr => exact accepts_existsCall k l x r hk hl hx hr
  | arith e c he ih => exact accepts_arith rawSet e c he ih
  | logicBr l r e c hl he hr ih => exact accepts_logicBr rawSet l r e c hl he ih hr
  | logicNil => exact accepts_logicNil
  | logicMore o t ct e ce ho ht he iht ihe =>
    exact accepts_logicMore o t e ho (Derives_ne_nil rawSet _ _ _ ht (Or.inr (Or.inr (Or.inl rfl))))
      ((Derives_head rawSet _ _ _ he).2.2.2 rfl) iht ihe
  | logicExp t ct e ce ht he iht ihe =>
    exact accepts_logicExp t e (Derives_ne_nil rawSet _ _ _ ht (Or.inr (Or.inr (Or.inl rfl))))
      ((Derives_head rawSet _ _ _ he).2.2.2 rfl) iht ihe

theorem calcTokensOf_of_derives (rawSet rawSet2 : RawMessageSet) (tokens c : List Token)
    (h : Derives rawSet NT.LogicExp tokens c) :
    ∃ c2, calcTokensOf tokens rawSet2 = some c2 := by
  have hwf := newParser_wf tokens rawSet2
  have hrest := newParser_rest tokens rawSet2
  have hne := Derives_ne_nil rawSet _ _ _ h (Or.inr (Or.inr (Or.inr rfl)))
  obtain ⟨c2, hc2⟩ := Derives_accepts rawSet _ _ _ h (newParser tokens rawSet2).fuel
    (newParser tokens rawSet2) [] hwf (by rw [hrest]; simp)
    (by rw [hrest]; simp [parser.fuel, newParser, NT.fuel])
    ⟨fun _ h => (by cases h), fun _ h => (by cases h), fun _ h => (by cases h)⟩
  change (newParser tokens rawSet2).LogicExp _ = _ at hc2
  rw [calcTokensOf, parser.checkNext_of_ne _ hwf _ (by rw [hrest]; exact hne), hc2]
  simp only []
  rw [if_neg (by simp [parser.move, newParser])]
  exact ⟨_, rfl⟩

theorem calculation_ne_syntax_error (L : FloatLib) (c : List Token) (rawSet : RawMessageSet) :
    parser.calculation L c rawSet ≠ .error (.ParseError errSyntax) := by
  have hs : ∀ m : String, errCalc ++ ": " ++ m ≠ errSyntax := by
    intro m h
    have := congrArg String.data h
    simp [errCalc, errSyntax] at this
  unfold parser.calculation
  cases core.Calculate L c rawSet with
  | ok res => simp
  | error err =>
    cases err with
    | UnknownParameterError p => simp
    | UnknownTokenTypeError t =>
      simp only [ne_eq, Except.error.injEq, Error.ParseError.injEq]
      exact hs _
    | CalculationError r v =>
      simp only [ne_eq, Except.error.injEq, Error.ParseError.injEq]
      exact hs _

/-- C12: the grammar check of `start` accepts a token sequence (hands
calculation tokens on, and does not report the syntax error) if and only if
the whole sequence is derived from `LOG_EXP` in the grammar of parser.go; a
match of `LogicExp` that leaves tokens unread is a syntax error. -/
theorem C12_accepts_iff_derivable (L : FloatLib) (tokens : List Token)
    (rawSet : RawMessageSet) :
    ((calcTokensOf tokens rawSet).isSome = true ↔ ∃ c, Derives rawSet NT.LogicExp tokens c) ∧
    ((newParser tokens rawSet).start L ≠ some (.error (.ParseError errSyntax)) ↔
      ∃ c, Derives rawSet NT.LogicExp tokens c) ∧
    (∀ p : parser,
      (newParser tokens rawSet).checkNext (parser.LogicExp (newParser tokens rawSet).fuel) =
        some (true, p) →
      p.it + 1 ≠ tokens.length →
      (newParser tokens rawSet).start L = some (.error (.ParseError errSyntax))) := by
  have h1 : (calcTokensOf tokens rawSet).isSome = true ↔
      ∃ c, Derives rawSet NT.LogicExp tokens c := by
    constructor
    · intro h
      obtain ⟨c, hc⟩ := Option.isSome_iff_exists.1 h
      exact ⟨c, calcTokensOf_derives tokens rawSet c hc⟩
    · rintro ⟨c, hc⟩
      obtain ⟨c2, hc2⟩ := calcTokensOf_of_derives rawSet rawSet tokens c hc
      rw [hc2]; rfl
  refine ⟨h1, ?_, ?_⟩
  · rw [← h1, start_eq L tokens rawSet]
    cases hc : calcTokensOf tokens rawSet with
    | none => simp
    | some c =>
      simp only [Option.isSome_some, iff_true, ne_eq, Option.some.injEq]
      exact calculation_ne_syntax_error L c rawSet
  · intro p hp hit
    have hwf := newParser_wf tokens rawSet
    have hrest := newParser_rest tokens rawSet
    have hsize : p.tokensSize = tokens.length := by
      rcases parser.checkNext_cases _ hwf (parser.LogicExp (newParser tokens rawSet).fuel)
        with ⟨_, hc⟩ | ⟨_, hc⟩
      · rw [hc] at hp
        injection hp with hp
        injection hp with hp _
        cases hp
      · obtain ⟨b, n, c, he, _, _⟩ := (logic_spec (newParser tokens rawSet).fuel).2.1 _ hwf (by
          rw [hrest]; simp [parser.fuel, newParser])
        rw [hc, he] at hp
        injection hp with hp
        injection hp with _ hp
        rw [← hp]
        rfl
    rw [parser.start, hp]
    simp only []
    rw [if_pos (by rw [hsize]; exact hit)]

theorem C12_accepts_iff_derivable_witness :
    (∃ c, Derives nilRawSet NT.LogicExp
      [⟨LBR, "(", ""⟩, ⟨LBR, "(", ""⟩, ⟨NUMBER, "1", NUMBER_TYPE⟩, ⟨RBR, ")", ""⟩,
        ⟨ARITH_OP, "+", ""⟩, ⟨IDENT, "x", UNKNOWN_TYPE⟩, ⟨COMP_OP, ">", ""⟩,
        ⟨NUMBER, "2", NUMBER_TYPE⟩, ⟨RBR, ")", ""⟩, ⟨LOG_OP, "AND", ""⟩,
        ⟨EXISTS_FUNC, "exists", ""⟩, ⟨LBR, "(", ""⟩, ⟨IDENT, "x", UNKNOWN_TYPE⟩,
        ⟨RBR, ")", ""⟩] c) ∧
    ¬ ∃ c, Derives nilRawSet NT.LogicExp
      [⟨NUMBER, "1", NUMBER_TYPE⟩, ⟨ARITH_OP, "+", ""⟩, ⟨COMP_OP, ">", ""⟩,
        ⟨NUMBER, "2", NUMBER_TYPE⟩] c :=
  ⟨(C12_accepts_iff_derivable decimalLib _ nilRawSet).1.1 (by decide!),
    fun h => absurd ((C12_accepts_iff_derivable decimalLib _ nilRawSet).1.2 h) (by decide!)⟩

/-! ## Calculation tokens and the dependence on the row -/

theorem existsCallAt_of_ne (k : Token) (rest : List Token) (hk : k.Type_ ≠ EXISTS_FUNC) :
    existsCallAt k rest = none := by
  unfold existsCallAt
  split
  · simp [hk]
  · rfl

theorem existsReplaced_cons_of_ne (rawSet : RawMessageSet) (k : Token) (rest : List Token)
    (hk : k.Type_ ≠ EXISTS_FUNC) :
    existsReplaced rawSet (k :: rest) = k :: existsReplaced rawSet rest := by
  simp only [existsReplaced, existsReplacedFrom, existsCallAt_of_ne k rest hk]

theorem existsReplaced_call (rawSet : RawMessageSet) (k l x r : Token) (rest : List Token)
    (hk : k.Type_ = EXISTS_FUNC) (hl : l.Type_ = LBR) (hx : x.Type_ = IDENT)
    (hr : r.Type_ = RBR) :
    existsReplaced rawSet (k :: l :: x :: r :: rest) =
      ⟨BOOL, Sprintf_t (rawSet x.Value).isSome, BOOL_TYPE⟩ :: existsReplaced rawSet rest := by
  simp [existsReplaced, existsReplacedFrom, existsCallAt, hk, hl, hx, hr]

/-- The calculation tokens of a derivation are the documented ones. -/
theorem Derives_existsReplaced (rawSet : RawMessageSet) (X : NT) (seg c : List Token)
    (h : Derives rawSet X seg c) :
    ∀ rest : List Token, existsReplaced rawSet (seg ++ rest) = c ++ existsReplaced rawSet rest := by
  induction h with
  | num t ht =>
    intro rest
    exact existsReplaced_cons_of_ne rawSet t rest (by rw [ht]; decide)
  | ident t ht =>
    intro rest
    exact existsReplaced_cons_of_ne rawSet t rest (by rw [ht]; decide)
  | arithBr l r e c hl _ hr ih =>
    intro rest
    simp only [List.cons_append, List.append_assoc]
    rw [existsReplaced_cons_of_ne rawSet l _ (by rw [hl]; decide), ih]
    rw [existsReplaced_cons_of_ne rawSet r _ (by rw [hr]; decide)]
    rfl
  | arithNil => intro rest; rfl
  | arithMore o t ct e ce ho _ _ ih1 ih2 =>
    intro rest
    simp only [List.cons_append, List.append_assoc]
    rw [existsReplaced_cons_of_ne rawSet o _ (by rw [ho]; decide), ih1, ih2]
  | arithExp t ct e ce _ _ ih1 ih2 =>
    intro rest
    simp only [List.append_assoc]
    rw [ih1, ih2]
  | bool t ht =>
    intro rest
    exact existsReplaced_cons_of_ne rawSet t rest (by rw [ht]; decide)
  | existsCall k l x r hk hl hx hr =>
    intro rest
    exact existsReplaced_call rawSet k l x r rest hk hl hx hr
  | arith e c _ ih => exact ih
  | logicBr l r e c hl _ hr ih =>
    intro rest
    simp only [List.cons_append, List.append_assoc]
    rw [existsReplaced_cons_of_ne rawSet l _ (by rw [hl]; decide), ih]
    rw [existsReplaced_cons_of_ne rawSet r _ (by rw [hr]; decide)]
    rfl
  | logicNil => intro rest; rfl
  | logicMore o t ct e ce ho _ _ ih1 ih2 =>
    intro rest
    simp only [List.cons_append, List.append_assoc]
    rw [existsReplaced_cons_of_ne rawSet o _ (by rcases ho with h | h <;> rw [h] <;> decide),
      ih1, ih2]
  | logicExp t ct e ce _ _ ih1 ih2 =>
    intro rest
    simp only [List.append_assoc]
    rw [ih1, ih2]

/-- Whether a token sequence is derived does not depend on the row. -/
theorem Derives_row (r1 r2 : RawMessageSet) (X : NT) (seg c : List Token)
    (h : Derives r1 X seg c) : ∃ c2, Derives r2 X seg c2 := by
  induction h with
  | num t ht => exact ⟨_, Derives.num t ht⟩
  | ident t ht => exact ⟨_, Derives.ident t ht⟩
  | arithBr l r e c hl _ hr ih =>
    obtain ⟨c2, h2⟩ := ih
    exact ⟨_, Derives.arithBr l r e c2 hl h2 hr⟩
  | arithNil => exact ⟨_, Derives.arithNil⟩
  | arithMore o t ct e ce ho _ _ ih1 ih2 =>
    obtain ⟨c1, h1⟩ := ih1
    obtain ⟨c2, h2⟩ := ih2
    exact ⟨_, Derives.arithMore o t c1 e c2 ho h1 h2⟩
  | arithExp t ct e ce _ _ ih1 ih2 =>
    obtain ⟨c1, h1⟩ := ih1
    obtain ⟨c2, h2⟩ := ih2
    exact ⟨_, Derives.arithExp t c1 e c2 h1 h2⟩
  | bool t ht => exact ⟨_, Derives.bool t ht⟩
  | existsCall k l x r hk hl hx hr => exact ⟨_, Derives.existsCall k l x r hk hl hx hr⟩
  | arith e c _ ih =>
    obtain ⟨c2, h2⟩ := ih
    exact ⟨_, Derives.arith e c2 h2⟩
  | logicBr l r e c hl _ hr ih =>
    obtain ⟨c2, h2⟩ := ih
    exact ⟨_, Derives.logicBr l r e c2 hl h2 hr⟩
  | logicNil => exact ⟨_, Derives.logicNil⟩
  | logicMore o t ct e ce ho _ _ ih1 ih2 =>
    obtain ⟨c1, h1⟩ := ih1
    obtain ⟨c2, h2⟩ := ih2
    exact ⟨_, Derives.logicMore o t c1 e c2 ho h1 h2⟩
  | logicExp t ct e ce _ _ ih1 ih2 =>
    obtain ⟨c1, h1⟩ := ih1
    obtain ⟨c2, h2⟩ := ih2
    exact ⟨_, Derives.logicExp t c1 e c2 h1 h2⟩

theorem existsCallAt_mem (k x : Token) (rest : List Token) (h : existsCallAt k rest = some x) :
    x ∈ rest ∧ x.Type_ = IDENT := by
  unfold existsCallAt at h
  split at h
  · split at h
    next hc =>
      injection h with h
      subst h
      exact ⟨by simp, hc.2.2.1⟩
    · cases h
  · cases h

theorem existsReplacedFrom_agree (r1 r2 : RawMessageSet) (tokens : List Token) :
    ∀ skip : Nat, rowsAgree r1 r2 tokens →
      existsReplacedFrom r1 skip tokens = existsReplacedFrom r2 skip tokens := by
  induction tokens with
  | nil => intro skip _; cases skip <;> rfl
  | cons k rest ih =>
    intro skip h
    have hrest : rowsAgree r1 r2 rest := fun t ht => h t (List.mem_cons_of_mem _ ht)
    cases skip with
    | succ skip => simp only [existsReplacedFrom]; exact ih skip hrest
    | zero =>
      simp only [existsReplacedFrom]
      cases hc : existsCallAt k rest with
      | none => simp only []; rw [ih 0 hrest]
      | some x =>
        simp only []
        obtain ⟨hx, hxi⟩ := existsCallAt_mem k x rest hc
        rw [ih 3 hrest, h x (List.mem_cons_of_mem _ hx) hxi]

theorem existsReplaced_agree (r1 r2 : RawMessageSet) (tokens : List Token)
    (h : rowsAgree r1 r2 tokens) : existsReplaced r1 tokens = existsReplaced r2 tokens :=
  existsReplacedFrom_agree r1 r2 tokens 0 h

theorem calcTokensOf_eq_existsReplaced (tokens c : List Token) (rawSet : RawMessageSet)
    (h : calcTokensOf tokens rawSet = some c) : c = existsReplaced rawSet tokens := by
  have hd := calcTokensOf_derives tokens rawSet c h
  have := Derives_existsReplaced rawSet _ _ _ hd []
  simp only [List.append_nil] at this
  rw [this]
  simp [existsReplaced, existsReplacedFrom]

theorem calcTokensOf_row (tokens c : List Token) (r1 r2 : RawMessageSet)
    (h : calcTokensOf tokens r1 = some c) :
    calcTokensOf tokens r2 = some (existsReplaced r2 tokens) := by
  have hd := calcTokensOf_derives tokens r1 c h
  obtain ⟨c2, h2⟩ := calcTokensOf_of_derives r1 r2 tokens c hd
  rw [h2, calcTokensOf_eq_existsReplaced tokens c2 r2 h2]

theorem calcTokensOf_none_row (tokens : List Token) (r1 r2 : RawMessageSet)
    (h : calcTokensOf tokens r1 = none) : calcTokensOf tokens r2 = none := by
  cases h2 : calcTokensOf tokens r2 with
  | none => rfl
  | some c =>
    rw [calcTokensOf_row tokens c r2 r1 h2] at h
    cases h

theorem existsReplacedFrom_mem (rawSet : RawMessageSet) (tokens : List Token) :
    ∀ (skip : Nat) (t : Token), t ∈ existsReplacedFrom rawSet skip tokens →
      t ∈ tokens ∨ t.Type_ = BOOL := by
  induction tokens with
  | nil => intro skip t h; cases skip <;> simp [existsReplacedFrom] at h
  | cons k rest ih =>
    intro skip t h
    cases skip with
    | succ skip =>
      simp only [existsReplacedFrom] at h
      rcases ih skip t h with h1 | h1
      · exact Or.inl (List.mem_cons_of_mem _ h1)
      · exact Or.inr h1
    | zero =>
      simp only [existsReplacedFrom] at h
      cases hc : existsCallAt k rest with
      | none =>
        rw [hc] at h
        simp only [List.mem_cons] at h
        rcases h with h | h
        · exact Or.inl (by rw [h]; simp)
        · rcases ih 0 t h with h1 | h1
          · exact Or.inl (List.mem_cons_of_mem _ h1)
          · exact Or.inr h1
      | some x =>
        rw [hc] at h
        simp only [List.mem_cons] at h
        rcases h with h | h
        · exact Or.inr (by rw [h])
        · rcases ih 3 t h with h1 | h1
          · exact Or.inl (List.mem_cons_of_mem _ h1)
          · exact Or.inr h1

theorem popToLeftBracket_mem (st : TokenStack) :
    ∀ (out : List Token) (t : Token),
      t ∈ (popToLeftBracket st out).1 ∨ t ∈ (popToLeftBracket st out).2 → t ∈ st ∨ t ∈ out := by
  induction st with
  | nil => intro out t h; simpa [popToLeftBracket] using h
  | cons o s ih =>
    intro out t h
    rw [popToLeftBracket] at h
    split at h
    · rcases h with h | h
      · exact Or.inl (List.mem_cons_of_mem _ h)
      · exact Or.inr h
    · rcases ih _ t h with h1 | h1
      · exact Or.inl (List.mem_cons_of_mem _ h1)
      · simp only [List.mem_append, List.mem_singleton] at h1
        rcases h1 with h1 | h1
        · exact Or.inr h1
        · exact Or.inl (by rw [h1]; simp)

theorem popGreater_mem (w : Int) (st : TokenStack) :
    ∀ (out : List Token) (t : Token),
      t ∈ (popGreater w st out).1 ∨ t ∈ (popGreater w st out).2 → t ∈ st ∨ t ∈ out := by
  induction st with
  | nil => intro out t h; simpa [popGreater] using h
  | cons o s ih =>
    intro out t h
    rw [popGreater] at h
    split at h
    · rcases ih _ t h with h1 | h1
      · exact Or.inl (List.mem_cons_of_mem _ h1)
      · simp only [List.mem_append, List.mem_singleton] at h1
        rcases h1 with h1 | h1
        · exact Or.inr h1
        · exact Or.inl (by rw [h1]; simp)
    · exact h

theorem toPostfixLoop_mem (tokens : List Token) :
    ∀ (st : TokenStack) (out : List Token) (st2 : TokenStack) (out2 : List Token),
      toPostfixLoop tokens st out = .ok (st2, out2) →
      ∀ t, t ∈ st2 ∨ t ∈ out2 → t ∈ tokens ∨ t ∈ st ∨ t ∈ out := by
  induction tokens with
  | nil =>
    intro st out st2 out2 h t ht
    simp only [toPostfixLoop, Except.ok.injEq, Prod.mk.injEq] at h
    rw [← h.1, ← h.2] at ht
    exact Or.inr ht
  | cons tok rest ih =>
    intro st out st2 out2 h t ht
    rw [toPostfixLoop] at h
    revert h
    cases tok.Type_ with
    | NUMBER | BOOL | IDENT =>
      intro h
      rcases ih _ _ _ _ h t ht with h1 | h1 | h1
      · exact Or.inl (List.mem_cons_of_mem _ h1)
      · exact Or.inr (Or.inl h1)
      · simp only [List.mem_append, List.mem_singleton] at h1
        rcases h1 with h1 | h1
        · exact Or.inr (Or.inr h1)
        · exact Or.inl (by rw [h1]; simp)
    | LBR =>
      intro h
      rcases ih _ _ _ _ h t ht with h1 | h1 | h1
      · exact Or.inl (List.mem_cons_of_mem _ h1)
      · simp only [TokenStack.Push, List.mem_cons] at h1
        rcases h1 with h1 | h1
        · exact Or.inl (by rw [h1]; simp)
        · exact Or.inr (Or.inl h1)
      · exact Or.inr (Or.inr h1)
    | RBR =>
      intro h
      rcases ih _ _ _ _ h t ht with h1 | h1 | h1
      · exact Or.inl (List.mem_cons_of_mem _ h1)
      · exact Or.inr (popToLeftBracket_mem _ _ t (Or.inl h1))
      · exact Or.inr (popToLeftBracket_mem _ _ t (Or.inr h1))
    | LOG_OP | COMP_OP | ARITH_OP =>
      simp only []
      cases operatorPrecedence tok.Value with
      | some w =>
        intro h
        rcases ih _ _ _ _ h t ht with h1 | h1 | h1
        · exact Or.inl (List.mem_cons_of_mem _ h1)
        · simp only [TokenStack.Push, List.mem_cons] at h1
          rcases h1 with h1 | h1
          · exact Or.inl (by rw [h1]; simp)
          · exact Or.inr (popGreater_mem _ _ _ t (Or.inl h1))
        · exact Or.inr (popGreater_mem _ _ _ t (Or.inr h1))
      | none =>
        intro h
        rcases ih _ _ _ _ h t ht with h1 | h1 | h1
        · exact Or.inl (List.mem_cons_of_mem _ h1)
        · exact Or.inr (Or.inl h1)
        · exact Or.inr (Or.inr h1)
    | EXISTS_FUNC | zero => intro h; cases h

/-- Every token of the postfix sequence is a token of the infix sequence. -/
theorem ToPostfixExp_mem (tokens exp : List Token) (h : ToPostfixExp tokens = .ok exp) :
    ∀ t ∈ exp, t ∈ tokens := by
  intro t ht
  unfold ToPostfixExp at h
  split at h
  · cases h
  next st out heq =>
    injection h with h
    rw [← h] at ht
    simp only [List.mem_append] at ht
    rcases toPostfixLoop_mem tokens [] [] st out heq t (ht.symm) with h1 | h1 | h1
    · exact h1
    · cases h1
    · cases h1

theorem evalLoop_agree (L : FloatLib) (r1 r2 : RawMessageSet) (tokens : List Token) :
    ∀ st : TokenStack, rowsAgree r1 r2 tokens →
      evalLoop L r1 tokens st = evalLoop L r2 tokens st := by
  induction tokens with
  | nil => intro st _; rfl
  | cons t rest ih =>
    intro st h
    have hrest : rowsAgree r1 r2 rest := fun t ht => h t (List.mem_cons_of_mem _ ht)
    rw [evalLoop, evalLoop]
    cases ht : t.Type_ with
    | LOG_OP | COMP_OP | ARITH_OP =>
      simp only []
      cases operatorFuncs L t.Value with
      | none => rfl
      | some opFunc =>
        simp only []
        cases opFunc (TokenStack.Pop (TokenStack.Pop st).2.2).1 (TokenStack.Pop st).1 with
        | error e => rfl
        | ok res => exact ih _ hrest
    | NUMBER | BOOL => exact ih _ hrest
    | IDENT =>
      simp only []
      rw [h t (by simp) ht]
      cases r2 t.Value with
      | none => rfl
      | some v => exact ih _ hrest
    | LBR | RBR | EXISTS_FUNC | zero => rfl

theorem calculation_agree (L : FloatLib) (c : List Token) (r1 r2 : RawMessageSet)
    (h : rowsAgree r1 r2 c) : parser.calculation L c r1 = parser.calculation L c r2 := by
  unfold parser.calculation core.Calculate
  cases hp : ToPostfixExp c with
  | error e => rfl
  | ok exp =>
    have hexp : rowsAgree r1 r2 exp := fun t ht => h t (ToPostfixExp_mem c exp hp t ht)
    simp only [Evaluate, evalLoop_agree L r1 r2 exp [] hexp]

/-- The result of `start` depends on the row only through the identifiers of
the token sequence. -/
theorem start_agree (L : FloatLib) (tokens : List Token) (r1 r2 : RawMessageSet)
    (h : rowsAgree r1 r2 tokens) :
    (newParser tokens r1).start L = (newParser tokens r2).start L := by
  rw [start_eq L tokens r1, start_eq L tokens r2]
  cases h1 : calcTokensOf tokens r1 with
  | none => rw [calcTokensOf_none_row tokens r1 r2 h1]
  | some c =>
    rw [calcTokensOf_row tokens c r1 r2 h1, calcTokensOf_eq_existsReplaced tokens c r1 h1,
      existsReplaced_agree r1 r2 tokens h]
    simp only []
    rw [calculation_agree L _ r1 r2]
    intro t ht hid
    rcases existsReplacedFrom_mem r2 tokens 0 t ht with h2 | h2
    · exact h t h2 hid
    · rw [hid] at h2; cases h2

theorem verdictOfTokens_agree (L : FloatLib) (tokens : List Token) (r1 r2 : RawMessageSet)
    (h : rowsAgree r1 r2 tokens) :
    verdictOfTokens L tokens r1 = verdictOfTokens L tokens r2 := by
  rw [verdictOfTokens, verdictOfTokens, start_agree L tokens r1 r2 h]

theorem exists_verdict (L : FloatLib) (paramTypes : String → Option ValueType)
    (rawSet : RawMessageSet) (x : String) (hx : isIdentName x = true)
    (name : String) (color : Color) (version : Int) :
    verdict L paramTypes ⟨name, "exists(" ++ x ++ ")", color, version, true⟩ rawSet =
      some (rawSet x).isSome := by
  rw [verdict]
  simp only [tokenize_exists L paramTypes x hx]
  exact verdictOfTokens_of_calc L _ _ [resultToken (rawSet x).isSome] rawSet _
    (calcTokensOf_exists rawSet x _ _ _ _ _ _ _) rfl rfl

/-- C13: `Calculate` on an empty row list returns exactly what it returns on
the single row in which no identifier is present: every enabled formula is
evaluated once (at most one result map), `exists(x)` has the verdict false
there, and the verdict of a formula is the same for every row in which none of
its identifiers is present, in particular for every row when it has no
identifier. -/
theorem C13_empty_rows_as_nil_row (L : FloatLib) (formulas : List Formula)
    (paramTypes : String → Option ValueType) :
    Calculate L formulas [] paramTypes = Calculate L formulas [fun _ => none] paramTypes ∧
    (∀ (o : Outcome) (res : List FormulaResult),
      Calculate L formulas [] paramTypes = some o → o.results = some res → res.length ≤ 1) ∧
    (∀ (x : String), isIdentName x = true → ∀ (name : String) (color : Color) (version : Int),
      verdict L paramTypes ⟨name, "exists(" ++ x ++ ")", color, version, true⟩ (fun _ => none) =
        some false) ∧
    (∀ (f : Formula) (tokens : List Token) (rawSet : RawMessageSet),
      tokenize L f.Expression paramTypes = some (.ok tokens) →
      (∀ t ∈ tokens, t.Type_ = IDENT → rawSet t.Value = none) →
      verdict L paramTypes f rawSet = verdict L paramTypes f (fun _ => none)) := by
  refine ⟨rfl, ?_, ?_, ?_⟩
  · intro o res ho hres
    rcases Calculate_spec L formulas [] paramTypes with ⟨e, he, _⟩ | ⟨he, _, _⟩
    · rw [he] at ho
      injection ho with ho
      rw [← ho] at hres
      cases hres
    · rw [he] at ho
      injection ho with ho
      rw [← ho] at hres
      simp only [Option.some.injEq] at hres
      rw [← hres]
      simp only [effectiveRows, List.length_nil, if_true, rowsResults]
      split <;> simp
  · intro x hx name color version
    exact exists_verdict L paramTypes (fun _ => none) x hx name color version
  · intro f tokens rawSet ht hab
    rw [verdict, verdict]
    simp only [ht]
    exact verdictOfTokens_agree L tokens rawSet (fun _ => none) hab

theorem C13_empty_rows_as_nil_row_witness :
    Calculate decimalLib
        [⟨"formula_1", "exists(s2001)", RedColor, 1, true⟩,
          ⟨"formula_2", "1=2 AND 1=1 OR 1=1", GreenColor, 0, true⟩] [] testTypes =
      some ⟨GreenColor, some [[("formula_1", ⟨1, RedColor, false⟩),
        ("formula_2", ⟨0, GreenColor, true⟩)]], none⟩ ∧
    verdict decimalLib testTypes ⟨"formula_1", "exists(s2001)", RedColor, 1, true⟩
        (fun _ => none) = some false ∧
    verdict decimalLib testTypes ⟨"formula_2", "1=2 AND 1=1 OR 1=1", GreenColor, 0, true⟩
        testRowOne =
      verdict decimalLib testTypes ⟨"formula_2", "1=2 AND 1=1 OR 1=1", GreenColor, 0, true⟩
        (fun _ => none) :=
  ⟨by decide!,
    (C13_empty_rows_as_nil_row decimalLib [] testTypes).2.2.1 "s2001" (by decide)
      "formula_1" RedColor 1,
    (C13_empty_rows_as_nil_row decimalLib [] testTypes).2.2.2
      ⟨"formula_2", "1=2 AND 1=1 OR 1=1", GreenColor, 0, true⟩
      [⟨NUMBER, "1", NUMBER_TYPE⟩, ⟨COMP_OP, "=", ""⟩, ⟨NUMBER, "2", NUMBER_TYPE⟩,
        ⟨LOG_OP, "AND", ""⟩, ⟨NUMBER, "1", NUMBER_TYPE⟩, ⟨COMP_OP, "=", ""⟩,
        ⟨NUMBER, "1", NUMBER_TYPE⟩, ⟨LOG_OP, "OR", ""⟩, ⟨NUMBER, "1", NUMBER_TYPE⟩,
        ⟨COMP_OP, "=", ""⟩, ⟨NUMBER, "1", NUMBER_TYPE⟩]
      testRowOne (by decide!) (by decide)⟩

/-! ## Result maps and row lists -/

theorem FormulaResult.mem_set (m : FormulaResult) (key : String) (value : Value)
    (k : String) (v : Value) (h : (k, v) ∈ FormulaResult.set m key value) :
    (k = key ∧ v = value) ∨ (k, v) ∈ m := by
  induction m with
  | nil =>
    simp only [FormulaResult.set, List.mem_singleton, Prod.mk.injEq] at h
    exact Or.inl h
  | cons e rest ih =>
    obtain ⟨k0, v0⟩ := e
    rw [FormulaResult.set] at h
    split at h
    · simp only [List.mem_cons, Prod.mk.injEq] at h
      rcases h with h | h
      · exact Or.inl h
      · exact Or.inr (List.mem_cons_of_mem _ h)
    · simp only [List.mem_cons, Prod.mk.injEq] at h
      rcases h with h | h
      · exact Or.inr (by simp [h.1, h.2])
      · rcases ih h with h1 | h1
        · exact Or.inl h1
        · exact Or.inr (List.mem_cons_of_mem _ h1)

theorem FormulaResult.keys_set (m : FormulaResult) (key : String) (value : Value) (k : String) :
    k ∈ (FormulaResult.set m key value).map Prod.fst ↔ k = key ∨ k ∈ m.map Prod.fst := by
  induction m with
  | nil => simp [FormulaResult.set]
  | cons e rest ih =>
    obtain ⟨k0, v0⟩ := e
    rw [FormulaResult.set]
    by_cases h : k0 = key
    · rw [if_pos h]
      simp only [List.map_cons, List.mem_cons]
      constructor
      · rintro (h1 | h1)
        · exact Or.inl h1
        · exact Or.inr (Or.inr h1)
      · rintro (h1 | h1 | h1)
        · exact Or.inl h1
        · exact Or.inl (h1.trans h)
        · exact Or.inr h1
    · rw [if_neg h]
      simp only [List.map_cons, List.mem_cons, ih]
      constructor
      · rintro (h1 | h1 | h1)
        · exact Or.inr (Or.inl h1)
        · exact Or.inl h1
        · exact Or.inr (Or.inr h1)
      · rintro (h1 | h1 | h1)
        · exact Or.inr (Or.inl h1)
        · exact Or.inl h1
        · exact Or.inr (Or.inr h1)

theorem FormulaResult.nodup_set (m : FormulaResult) (key : String) (value : Value)
    (h : (m.map Prod.fst).Nodup) : ((FormulaResult.set m key value).map Prod.fst).Nodup := by
  induction m with
  | nil => simp [FormulaResult.set]
  | cons e rest ih =>
    obtain ⟨k0, v0⟩ := e
    simp only [List.map_cons, List.nodup_cons] at h
    rw [FormulaResult.set]
    by_cases hk : k0 = key
    · rw [if_pos hk]
      simp only [List.map_cons, List.nodup_cons]
      exact ⟨hk ▸ h.1, h.2⟩
    · rw [if_neg hk]
      simp only [List.map_cons, List.nodup_cons]
      refine ⟨?_, ih h.2⟩
      rw [FormulaResult.keys_set]
      rintro (h1 | h1)
      · exact hk h1
      · exact h.1 h1

theorem FormulaResult.set_ne_nil (m : FormulaResult) (key : String) (value : Value) :
    FormulaResult.set m key value ≠ [] := by
  cases m with
  | nil => simp [FormulaResult.set]
  | cons e rest =>
    obtain ⟨k0, v0⟩ := e
    rw [FormulaResult.set]
    split <;> simp

/-- The entry that the inner loop of `Calculate` writes for a tokenized formula
and a row. -/
theorem resultFold_spec (L : FloatLib) (rawSet : RawMessageSet) (tfs : List tokenizedFormula) :
    ∀ m : FormulaResult,
      ((m.map Prod.fst).Nodup → ((resultFold L rawSet tfs m).map Prod.fst).Nodup) ∧
      (∀ k, k ∈ (resultFold L rawSet tfs m).map Prod.fst ↔
        k ∈ m.map Prod.fst ∨ ∃ tf ∈ tfs, tf.Name = k) ∧
      (∀ k v, (k, v) ∈ resultFold L rawSet tfs m → (k, v) ∈ m ∨
        ∃ tf ∈ tfs, tf.Name = k ∧
          v = ⟨tf.Version, tf.Color, (verdictOfTokens L tf.Tokens rawSet).getD false⟩) ∧
      (m ≠ [] ∨ tfs ≠ [] → resultFold L rawSet tfs m ≠ []) := by
  induction tfs with
  | nil =>
    intro m
    simp only [resultFold]
    refine ⟨fun h => h, fun k => by simp, fun k v h => Or.inl h, fun h => ?_⟩
    rcases h with h | h
    · exact h
    · exact absurd rfl h
  | cons tf rest ih =>
    intro m
    rw [resultFold]
    obtain ⟨i1, i2, i3, i4⟩ := ih (FormulaResult.set m tf.Name
      ⟨tf.Version, tf.Color, (verdictOfTokens L tf.Tokens rawSet).getD false⟩)
    refine ⟨fun h => i1 (FormulaResult.nodup_set m _ _ h), fun k => ?_, fun k v h => ?_,
      fun _ => i4 (Or.inl (FormulaResult.set_ne_nil m _ _))⟩
    · rw [i2, FormulaResult.keys_set]
      simp only [List.mem_cons, exists_eq_or_imp]
      constructor
      · rintro ((h | h) | h)
        · exact Or.inr (Or.inl h.symm)
        · exact Or.inl h
        · exact Or.inr (Or.inr h)
      · rintro (h | h | h)
        · exact Or.inl (Or.inr h)
        · exact Or.inl (Or.inl h.symm)
        · exact Or.inr h
    · rcases i3 k v h with h1 | ⟨tf2, h2, h3, h4⟩
      · rcases FormulaResult.mem_set m _ _ k v h1 with ⟨h5, h6⟩ | h5
        · exact Or.inr ⟨tf, by simp, h5.symm, h6⟩
        · exact Or.inl h5
      · exact Or.inr ⟨tf2, List.mem_cons_of_mem _ h2, h3, h4⟩

theorem rowsResults_eq (L : FloatLib) (tfs : List tokenizedFormula)
    (rawSets : List RawMessageSet) :
    ∀ acc : List FormulaResult,
      rowsResults L tfs rawSets acc =
        acc ++ if tfs.isEmpty = true then [] else
          rawSets.map (fun r => resultFold L r tfs []) := by
  induction rawSets with
  | nil => intro acc; simp [rowsResults]
  | cons r rest ih =>
    intro acc
    rw [rowsResults, ih]
    cases tfs with
    | nil => simp [resultFold]
    | cons tf tfs =>
      have hne := (resultFold_spec L r (tf :: tfs) []).2.2.2 (Or.inr (by simp))
      have hpos : (resultFold L r (tf :: tfs) []).length > 0 := List.length_pos.2 hne
      simp only [hpos, if_true, List.isEmpty_cons, Bool.false_eq_true, if_false, List.map_cons,
        List.append_assoc, List.singleton_append]

theorem rowsColor_append (L : FloatLib) (tfs : List tokenizedFormula)
    (r1 r2 : List RawMessageSet) :
    ∀ c : Color, rowsColor L tfs (r1 ++ r2) c = rowsColor L tfs r2 (rowsColor L tfs r1 c) := by
  induction r1 with
  | nil => intro c; rfl
  | cons r rest ih => intro c; rw [List.cons_append, rowsColor, rowsColor, ih]

theorem colorPrecedence_inj (a b : Color) (ha : 1 ≤ colorPrecedence a)
    (h : colorPrecedence a = colorPrecedence b) : a = b := by
  have hb : 1 ≤ colorPrecedence b := h ▸ ha
  rcases colorPrecedence_pos a ha with h1 | h1 | h1 | h1 <;>
    rcases colorPrecedence_pos b hb with h2 | h2 | h2 | h2 <;>
    subst h1 <;> subst h2 <;> first | rfl | (exact absurd h (by decide))

/-- The aggregate color after more rows is the higher-ranked of the color so
far and the aggregate color of those rows alone. -/
theorem rowsColor_max (L : FloatLib) (tfs : List tokenizedFormula)
    (rawSets : List RawMessageSet) (c : Color) (hc : 1 ≤ colorPrecedence c) :
    rowsColor L tfs rawSets c =
      if colorPrecedence (rowsColor L tfs rawSets GreyColor) > colorPrecedence c then
        rowsColor L tfs rawSets GreyColor
      else c := by
  obtain ⟨a1, a2, a3⟩ := rowsColor_spec L tfs rawSets c
  obtain ⟨b1, b2, b3⟩ := rowsColor_spec L tfs rawSets GreyColor
  have hg : colorPrecedence GreyColor = 1 := by decide
  have hA : 1 ≤ colorPrecedence (rowsColor L tfs rawSets c) := Int.le_trans hc a2
  by_cases hgt : colorPrecedence (rowsColor L tfs rawSets GreyColor) > colorPrecedence c
  · rw [if_pos hgt]
    apply colorPrecedence_inj _ _ hA
    rcases b1 with h | ⟨r, hr, tf, htf, hv, h⟩
    · rw [h, hg] at hgt
      omega
    · have h1 := a3 r hr tf htf hv
      rw [← h] at h1
      rcases a1 with h2 | ⟨r2, hr2, tf2, htf2, hv2, h2⟩
      · rw [h2] at h1; omega
      · have h3 := b3 r2 hr2 tf2 htf2 hv2
        rw [← h2] at h3
        omega
  · rw [if_neg hgt]
    rcases a1 with h2 | ⟨r2, hr2, tf2, htf2, hv2, h2⟩
    · exact h2
    · have h3 := b3 r2 hr2 tf2 htf2 hv2
      rw [← h2] at h3
      exact (colorPrecedence_inj _ _ hc (by omega)).symm

theorem rowEntry_resultFold (L : FloatLib) (paramTypes : String → Option ValueType)
    (formulas : List Formula) (rawSet : RawMessageSet)
    (htok : ∀ f ∈ formulas, f.IsEnable = true → ∃ tf, tokenizedOf L paramTypes f = some tf)
    (hv : ∀ f ∈ formulas, f.IsEnable = true → ∃ b, verdict L paramTypes f rawSet = some b) :
    rowEntry L paramTypes formulas rawSet
      (resultFold L rawSet ((formulas.filter (fun f => f.IsEnable)).filterMap
        (tokenizedOf L paramTypes)) []) := by
  obtain ⟨i1, i2, i3, _⟩ := resultFold_spec L rawSet
    ((formulas.filter (fun f => f.IsEnable)).filterMap (tokenizedOf L paramTypes)) []
  have hmem : ∀ tf, tf ∈ (formulas.filter (fun f => f.IsEnable)).filterMap
      (tokenizedOf L paramTypes) ↔
      ∃ f ∈ formulas, f.IsEnable = true ∧ tokenizedOf L paramTypes f = some tf := by
    intro tf
    simp only [List.mem_filterMap, List.mem_filter]
    constructor
    · rintro ⟨f, ⟨h1, h2⟩, h3⟩; exact ⟨f, h1, h2, h3⟩
    · rintro ⟨f, h1, h2, h3⟩; exact ⟨f, ⟨h1, h2⟩, h3⟩
  have hkeys : ∀ k, k ∈ (resultFold L rawSet ((formulas.filter (fun f => f.IsEnable)).filterMap
      (tokenizedOf L paramTypes)) []).map Prod.fst ↔
      ∃ f ∈ formulas, f.IsEnable = true ∧ f.Name = k := by
    intro k
    rw [i2]
    simp only [List.map_nil, List.not_mem_nil, false_or]
    constructor
    · rintro ⟨tf, htf, hk⟩
      obtain ⟨f, hf, hen, hto⟩ := (hmem tf).1 htf
      exact ⟨f, hf, hen, by rw [← (tokenizedOf_eq L paramTypes f tf hto).2.1, hk]⟩
    · rintro ⟨f, hf, hen, hk⟩
      obtain ⟨tf, hto⟩ := htok f hf hen
      exact ⟨tf, (hmem tf).2 ⟨f, hf, hen, hto⟩,
        by rw [(tokenizedOf_eq L paramTypes f tf hto).2.1, hk]⟩
  have hvals : ∀ k v, (k, v) ∈ resultFold L rawSet
      ((formulas.filter (fun f => f.IsEnable)).filterMap (tokenizedOf L paramTypes)) [] →
      ∃ f ∈ formulas, f.IsEnable = true ∧ f.Name = k ∧ v.Version = f.Version ∧
        v.Color = f.Color ∧ verdict L paramTypes f rawSet = some v.Result := by
    intro k v h
    rcases i3 k v h with h1 | ⟨tf, htf, hk, hval⟩
    · cases h1
    · obtain ⟨f, hf, hen, hto⟩ := (hmem tf).1 htf
      obtain ⟨_, e1, e2, e3, e4⟩ := tokenizedOf_eq L paramTypes f tf hto
      obtain ⟨b, hb⟩ := hv f hf hen
      refine ⟨f, hf, hen, by rw [← e1, hk], by rw [hval, e2], by rw [hval, e3], ?_⟩
      rw [hval, ← e4 rawSet, hb]
      rfl
  refine ⟨i1 (by simp), hkeys, hvals, ?_⟩
  intro f hf hen huniq
  obtain ⟨b, hb⟩ := hv f hf hen
  refine ⟨b, hb, ?_⟩
  have hk : f.Name ∈ (resultFold L rawSet ((formulas.filter (fun f => f.IsEnable)).filterMap
      (tokenizedOf L paramTypes)) []).map Prod.fst := (hkeys f.Name).2 ⟨f, hf, hen, rfl⟩
  obtain ⟨⟨k, v⟩, hmemkv, hkk⟩ := List.mem_map.1 hk
  simp only at hkk
  subst hkk
  obtain ⟨g, hg, hgen, hgn, hgv, hgc, hgverdict⟩ := hvals _ v hmemkv
  obtain ⟨u1, u2, u3⟩ := huniq g hg hgen hgn
  have hvb : v.Result = b := by
    have : verdict L paramTypes g rawSet = verdict L paramTypes f rawSet := by
      simp only [verdict, u3]
    rw [this, hb] at hgverdict
    injection hgverdict with h
    exact h.symm
  have hveq : v = ⟨f.Version, f.Color, b⟩ := by
    cases v
    simp only [Value.mk.injEq]
    exact ⟨hgv.trans u1, hgc.trans u2, hvb⟩
  rw [← hveq]
  exact hmemkv

/-- C14: when `Calculate` succeeds and a formula is enabled, the result slice
has one map per row, in row order (one map for the empty row list), and each
map holds exactly the names of the enabled formulas, each entry with the
version, the color and the verdict of an enabled formula of that name; when no
formula is enabled the result slice is empty and the color is Grey. -/
theorem C14_result_shape (L : FloatLib) (formulas : List Formula)
    (rawSets : List RawMessageSet) (paramTypes : String → Option ValueType) (o : Outcome)
    (h : Calculate L formulas rawSets paramTypes = some o) (hs : o.err = none) :
    ∃ results, o.results = some results ∧
      ((∃ f ∈ formulas, f.IsEnable = true) →
        results.length = (if rawSets.length = 0 then 1 else rawSets.length) ∧
        List.Forall₂ (fun rawSet entry => rowEntry L paramTypes formulas rawSet entry)
          (effectiveRows rawSets) results) ∧
      ((∀ f ∈ formulas, f.IsEnable = false) → results = [] ∧ o.color = GreyColor) := by
  rcases Calculate_spec L formulas rawSets paramTypes with ⟨e, he, _⟩ | ⟨he, htok, hv⟩
  · rw [he] at h
    injection h with h
    subst h
    cases hs
  rw [he] at h
  injection h with h
  subst h
  refine ⟨_, rfl, ?_, ?_⟩
  · rintro ⟨f, hf, hen⟩
    obtain ⟨tf, hto⟩ := htok f hf hen
    have hne : ((formulas.filter (fun f => f.IsEnable)).filterMap
        (tokenizedOf L paramTypes)).isEmpty = false := by
      have : tf ∈ (formulas.filter (fun f => f.IsEnable)).filterMap
          (tokenizedOf L paramTypes) :=
        List.mem_filterMap.2 ⟨f, List.mem_filter.2 ⟨hf, by simpa using hen⟩, hto⟩
      cases hl : (formulas.filter (fun f => f.IsEnable)).filterMap (tokenizedOf L paramTypes) with
      | nil => rw [hl] at this; cases this
      | cons _ _ => rfl
    rw [rowsResults_eq, hne]
    simp only [Bool.false_eq_true, if_false, List.nil_append, List.length_map]
    refine ⟨?_, ?_⟩
    · unfold effectiveRows
      split <;> rfl
    · rw [List.forall₂_map_right_iff, List.forall₂_same]
      intro r hr
      exact rowEntry_resultFold L paramTypes formulas r htok (fun f hf hen => hv f hf hen r hr)
  · intro hnone
    have hnil : (formulas.filter (fun f => f.IsEnable)).filterMap (tokenizedOf L paramTypes) =
        [] := by
      rw [List.filter_eq_nil_iff.2 (fun f hf => by simp [hnone f hf])]
      rfl
    rw [hnil, rowsResults_eq]
    simp only [List.isEmpty_nil, if_true, List.append_nil, true_and]
    generalize effectiveRows rawSets = rows
    induction rows with
    | nil => rfl
    | cons r rest ih => simpa [rowsColor, colorFold] using ih

theorem C14_result_shape_witness :
    ∃ results, testOutcome.results = some results ∧
      ((∃ f ∈ testFormulas, f.IsEnable = true) →
        results.length = (if testRows.length = 0 then 1 else testRows.length) ∧
        List.Forall₂ (fun rawSet entry => rowEntry decimalLib testTypes testFormulas rawSet entry)
          (effectiveRows testRows) results) ∧
      ((∀ f ∈ testFormulas, f.IsEnable = false) → results = [] ∧
        testOutcome.color = GreyColor) :=
  C14_result_shape decimalLib testFormulas testRows testTypes testOutcome (by decide!) rfl

theorem effectiveRows_of_ne_nil (rawSets : List RawMessageSet) (h : rawSets ≠ []) :
    effectiveRows rawSets = rawSets := by
  unfold effectiveRows
  rw [if_neg]
  intro h0
  exact h (List.length_eq_zero.1 h0)

/-- C15: for non-empty row lists R1 and R2, `Calculate` on R1 followed by R2
succeeds exactly when it succeeds on R1 and on R2; its result slice is then the
two result slices one after the other, and its color is the higher-ranked of
the two colors, so that the aggregate does not regress when rows are added. -/
theorem C15_rows_independent (L : FloatLib) (formulas : List Formula)
    (paramTypes : String → Option ValueType) (R1 R2 : List RawMessageSet)
    (h1 : R1 ≠ []) (h2 : R2 ≠ []) :
    ∃ o1 o2 o, Calculate L formulas R1 paramTypes = some o1 ∧
      Calculate L formulas R2 paramTypes = some o2 ∧
      Calculate L formulas (R1 ++ R2) paramTypes = some o ∧
      (o.err = none ↔ o1.err = none ∧ o2.err = none) ∧
      (o.err = none → ∃ res1 res2, o1.results = some res1 ∧ o2.results = some res2 ∧
        o.results = some (res1 ++ res2) ∧
        o.color = (if colorPrecedence o2.color > colorPrecedence o1.color then o2.color
          else o1.color) ∧
        colorPrecedence o1.color ≤ colorPrecedence o.color ∧
        colorPrecedence o2.color ≤ colorPrecedence o.color) := by
  have h12 : R1 ++ R2 ≠ [] := by simp [h1]
  have e1 := effectiveRows_of_ne_nil R1 h1
  have e2 := effectiveRows_of_ne_nil R2 h2
  have e12 := effectiveRows_of_ne_nil (R1 ++ R2) h12
  rcases Calculate_spec L formulas R1 paramTypes with ⟨er1, he1, f1, hf1, hen1, r1, hr1, hn1⟩ |
    ⟨he1, htok1, hv1⟩
  · -- R1 fails: so does R1 ++ R2
    rcases Calculate_spec L formulas (R1 ++ R2) paramTypes with ⟨er, he, _⟩ | ⟨_, _, hv⟩
    · obtain ⟨o2, ho2⟩ : ∃ o2, Calculate L formulas R2 paramTypes = some o2 := by
        rcases Calculate_spec L formulas R2 paramTypes with ⟨_, h, _⟩ | ⟨h, _⟩
        · exact ⟨_, h⟩
        · exact ⟨_, h⟩
      exact ⟨_, o2, _, he1, ho2, he, by simp, by simp⟩
    · exfalso
      rw [e1] at hr1
      obtain ⟨b, hb⟩ := hv f1 hf1 hen1 r1 (by rw [e12]; simp [hr1])
      rw [hb] at hn1
      cases hn1
  rcases Calculate_spec L formulas R2 paramTypes with ⟨er2, he2, f2, hf2, hen2, r2, hr2, hn2⟩ |
    ⟨he2, htok2, hv2⟩
  · rcases Calculate_spec L formulas (R1 ++ R2) paramTypes with ⟨er, he, _⟩ | ⟨_, _, hv⟩
    · exact ⟨_, _, _, he1, he2, he, by simp, by simp⟩
    · exfalso
      rw [e2] at hr2
      obtain ⟨b, hb⟩ := hv f2 hf2 hen2 r2 (by rw [e12]; simp [hr2])
      rw [hb] at hn2
      cases hn2
  -- both succeed
  rcases Calculate_spec L formulas (R1 ++ R2) paramTypes with
    ⟨er, he, f, hf, hen, r, hr, hn⟩ | ⟨he, _, _⟩
  · exfalso
    rw [e12] at hr
    rcases List.mem_append.1 hr with hr | hr
    · obtain ⟨b, hb⟩ := hv1 f hf hen r (by rw [e1]; exact hr)
      rw [hb] at hn
      cases hn
    · obtain ⟨b, hb⟩ := hv2 f hf hen r (by rw [e2]; exact hr)
      rw [hb] at hn
      cases hn
  refine ⟨_, _, _, he1, he2, he, by simp, fun _ => ⟨_, _, rfl, rfl, ?_, ?_⟩⟩
  · simp only [e1, e2, e12, rowsResults_eq, List.nil_append, Option.some.injEq]
    split
    · rfl
    · rw [List.map_append]
  · simp only [e1, e2, e12]
    have hg : (1 : Int) ≤ colorPrecedence GreyColor := by decide
    have hc1 := (rowsColor_spec L ((formulas.filter (fun f => f.IsEnable)).filterMap
      (tokenizedOf L paramTypes)) R1 GreyColor).2.1
    have hmax := rowsColor_max L ((formulas.filter (fun f => f.IsEnable)).filterMap
      (tokenizedOf L paramTypes)) R2 _ (Int.le_trans hg hc1)
    rw [rowsColor_append, hmax]
    refine ⟨rfl, ?_, ?_⟩
    · split <;> omega
    · split <;> omega

theorem C15_rows_independent_witness :
    (Calculate decimalLib testFormulas (testRows.take 1) testTypes).map Outcome.color =
      some GreenColor ∧
    (Calculate decimalLib testFormulas (testRows.drop 1) testTypes).map Outcome.color =
      some RedColor ∧
    Calculate decimalLib testFormulas (testRows.take 1 ++ testRows.drop 1) testTypes =
      some testOutcome ∧
    ∃ o1 o2 o, Calculate decimalLib testFormulas (testRows.take 1) testTypes = some o1 ∧
      Calculate decimalLib testFormulas (testRows.drop 1) testTypes = some o2 ∧
      Calculate decimalLib testFormulas (testRows.take 1 ++ testRows.drop 1) testTypes =
        some o ∧
      (o.err = none ↔ o1.err = none ∧ o2.err = none) ∧
      (o.err = none → ∃ res1 res2, o1.results = some res1 ∧ o2.results = some res2 ∧
        o.results = some (res1 ++ res2) ∧
        o.color = (if colorPrecedence o2.color > colorPrecedence o1.color then o2.color
          else o1.color) ∧
        colorPrecedence o1.color ≤ colorPrecedence o.color ∧
        colorPrecedence o2.color ≤ colorPrecedence o.color) :=
  ⟨by decide!, by decide!, by decide!,
    C15_rows_independent decimalLib testFormulas testTypes (testRows.take 1) (testRows.drop 1)
      (by simp [testRows]) (by simp [testRows])⟩

/-! ## Postfix form and evaluation of arithmetic expressions -/

theorem arithmeticKeys_precedence (key : String) (hk : key ∈ arithmeticKeys) :
    ∃ w, operatorPrecedence key = some w ∧ operatorPrecedenceD key = w ∧ 10 < w ∧ key ≠ "(" := by
  simp only [arithmeticKeys, List.mem_cons, List.mem_singleton, List.not_mem_nil, or_false] at hk
  rcases hk with h | h | h | h <;> subst h <;> exact ⟨_, rfl, rfl, by decide, by decide⟩

theorem popGreater_barrier (w : Int) (hw : 10 < w) (B : TokenStack) (hB : barrier B)
    (out : List Token) : popGreater w B out = (B, out) := by
  rcases hB with h | ⟨l, rest, h, hl⟩
  · subst h; rfl
  · subst h
    rw [popGreater, if_neg]
    rw [operatorPrecedenceD, hl]
    have : operatorPrecedence "(" = some 10 := rfl
    rw [this]
    simp only [Option.getD_some]
    omega

theorem popGreater_ops (w : Int) (hw : 10 < w) (B : TokenStack) (hB : barrier B)
    (ops : List Token) :
    ∀ out : List Token, ∃ popped ops2, ops = popped ++ ops2 ∧
      popGreater w (ops ++ B) out = (ops2 ++ B, out ++ popped) := by
  induction ops with
  | nil =>
    intro out
    exact ⟨[], [], rfl, by simp [popGreater_barrier w hw B hB out]⟩
  | cons o ops ih =>
    intro out
    rw [List.cons_append, popGreater]
    by_cases hgt : operatorPrecedenceD o.Value > w
    · rw [if_pos hgt]
      obtain ⟨popped, ops2, h1, h2⟩ := ih (out ++ [o])
      exact ⟨o :: popped, ops2, by rw [h1]; rfl, by rw [h2]; simp⟩
    · rw [if_neg hgt]
      exact ⟨[], o :: ops, rfl, by simp⟩

theorem popToLeftBracket_ops (ops : List Token) (hops : arithOps ops) (l : Token)
    (hl : l.Value = "(") (B : TokenStack) :
    ∀ out : List Token, popToLeftBracket (ops ++ l :: B) out = (B, out ++ ops) := by
  induction ops with
  | nil =>
    intro out
    simp [popToLeftBracket, hl]
  | cons o ops ih =>
    intro out
    have ho := hops o (by simp)
    obtain ⟨_, _, _, _, hne⟩ := arithmeticKeys_precedence o.Value ho.2
    rw [List.cons_append, popToLeftBracket, if_neg hne,
      ih (fun x hx => hops x (List.mem_cons_of_mem _ hx))]
    simp

theorem toPostfixLoop_arithOp (o : Token) (rest : List Token) (ops : List Token)
    (B : TokenStack) (hB : barrier B) (out : List Token) (ho : o.Type_ = ARITH_OP)
    (hv : o.Value ∈ arithmeticKeys) :
    ∃ popped ops2, ops = popped ++ ops2 ∧
      toPostfixLoop (o :: rest) (ops ++ B) out =
        toPostfixLoop rest ((o :: ops2) ++ B) (out ++ popped) := by
  obtain ⟨w, hw, _, hw10, _⟩ := arithmeticKeys_precedence o.Value hv
  obtain ⟨popped, ops2, h1, h2⟩ := popGreater_ops w hw10 B hB ops out
  refine ⟨popped, ops2, h1, ?_⟩
  rw [toPostfixLoop, ho]
  simp only [hw, h2, TokenStack.Push, List.cons_append]

theorem toPostfixLoop_lbr (l : Token) (rest : List Token) (st : TokenStack) (out : List Token)
    (hl : l.Type_ = LBR) :
    toPostfixLoop (l :: rest) st out = toPostfixLoop rest (l :: st) out := by
  rw [toPostfixLoop, hl]
  rfl

theorem toPostfixLoop_rbr (r : Token) (rest : List Token) (st : TokenStack) (out : List Token)
    (hr : r.Type_ = RBR) :
    toPostfixLoop (r :: rest) st out =
      toPostfixLoop rest (popToLeftBracket st out).1 (popToLeftBracket st out).2 := by
  rw [toPostfixLoop, hr]

theorem toPostfixLoop_numIdent (t : Token) (rest : List Token) (st : TokenStack)
    (out : List Token) (h : t.Type_ = NUMBER ∨ t.Type_ = IDENT) :
    toPostfixLoop (t :: rest) st out = toPostfixLoop rest st (out ++ [t]) := by
  rw [toPostfixLoop]
  rcases h with h | h <;> rw [h]

theorem shunts_operand (t : Token) (h : t.Type_ = NUMBER ∨ t.Type_ = IDENT) :
    Shunts NT.ArithTerm [t] := by
  intro ops B out rest _ _ _
  refine ⟨[t], toPostfixLoop_numIdent t rest _ out h, ?_, fun _ => ⟨t, by simp, h, rfl⟩⟩
  rintro ⟨x, hx, hxo⟩
  simp only [List.mem_singleton] at hx
  subst hx
  rcases h with h | h <;> rw [h] at hxo <;> cases hxo

theorem arithWellFormed_sub (a b : List Token) (h : arithWellFormed b)
    (hs : ∀ t ∈ a, t ∈ b) : arithWellFormed a :=
  fun t ht => h t (hs t ht)

theorem shunts_arithBr (l r : Token) (e : List Token) (hl : l.Type_ = LBR)
    (hr : r.Type_ = RBR) (ih : Shunts NT.ArithExp e) :
    Shunts NT.ArithTerm (l :: e ++ [r]) := by
  intro ops B out rest hops hB hwf
  have hlv : l.Value = "(" := (hwf l (by simp)).2.1 hl
  have hwfe : arithWellFormed e := arithWellFormed_sub e _ hwf (fun t ht => by simp [ht])
  obtain ⟨ops2, post, h1, hops2, h2, h3⟩ := ih (l :: (ops ++ B)) out (r :: rest)
    (Or.inr ⟨l, _, rfl, hlv⟩) hwfe
  have hop_iff : hasArithOp (l :: e ++ [r]) ↔ hasArithOp e := by
    constructor
    · rintro ⟨x, hx, hxo⟩
      simp only [List.cons_append, List.mem_cons, List.mem_append, List.mem_singleton,
        List.not_mem_nil, or_false] at hx
      rcases hx with hx | hx | hx
      · subst hx; rw [hl] at hxo; cases hxo
      · exact ⟨x, hx, hxo⟩
      · subst hx; rw [hr] at hxo; cases hxo
    · rintro ⟨x, hx, hxo⟩
      exact ⟨x, by simp [hx], hxo⟩
  refine ⟨post ++ ops2, ?_, ?_, ?_⟩
  · have hseg : l :: e ++ [r] ++ rest = l :: (e ++ r :: rest) := by simp
    rw [hseg, toPostfixLoop_lbr l _ _ _ hl, h1, toPostfixLoop_rbr r _ _ _ hr,
      popToLeftBracket_ops ops2 hops2 l hlv]
    simp only [List.append_assoc]
  · intro hop
    rcases h2 (hop_iff.1 hop) with h | h
    · obtain ⟨o, hlast⟩ : ∃ o, ops2.getLast? = some o := by
        cases hg : ops2.getLast? with
        | none => exact absurd (List.getLast?_eq_none_iff.1 hg) h
        | some o => exact ⟨o, rfl⟩
      obtain ⟨pre, hpre⟩ : ∃ pre, ops2 = pre ++ [o] := by
        have := List.getLast?_eq_some_iff.1 hlast
        exact this
      have ho := hops2 o (by rw [hpre]; simp)
      exact ⟨post ++ pre, o, by rw [hpre]; simp, ho.1, ho.2⟩
    · cases hops2e : ops2 with
      | nil => rw [List.append_nil]; exact h
      | cons o2 r2 =>
        obtain ⟨o, hlast⟩ : ∃ o, ops2.getLast? = some o := by
          cases hg : ops2.getLast? with
          | none => rw [List.getLast?_eq_none_iff.1 hg] at hops2e; cases hops2e
          | some o => exact ⟨o, rfl⟩
        obtain ⟨pre, hpre⟩ : ∃ pre, ops2 = pre ++ [o] := List.getLast?_eq_some_iff.1 hlast
        have ho := hops2 o (by rw [hpre]; simp)
        rw [← hops2e]
        exact ⟨post ++ pre, o, by rw [hpre]; simp, ho.1, ho.2⟩
  · intro hno
    obtain ⟨hnil, x, hx, hxt, hpost⟩ := h3 (fun h => hno (hop_iff.2 h))
    exact ⟨x, by simp [hx], hxt, by rw [hnil, hpost]; rfl⟩

theorem shunts_arithNil : Shunts NT.ArithRest [] := by
  intro ops B out rest hops _ _
  exact ⟨ops, [], by simp, hops, fun h => absurd rfl h, fun _ => ⟨rfl, rfl⟩⟩

theorem shunts_arithMore (o : Token) (t e : List Token) (ho : o.Type_ = ARITH_OP)
    (iht : Shunts NT.ArithTerm t) (ihe : Shunts NT.ArithRest e) :
    Shunts NT.ArithRest (o :: t ++ e) := by
  intro ops B out rest hops hB hwf
  have hov : o.Value ∈ arithmeticKeys := (hwf o (by simp)).1 ho
  have hwft : arithWellFormed t := arithWellFormed_sub t _ hwf (fun x hx => by simp [hx])
  have hwfe : arithWellFormed e := arithWellFormed_sub e _ hwf (fun x hx => by simp [hx])
  obtain ⟨popped, ops2, hsplit, h1⟩ := toPostfixLoop_arithOp o (t ++ (e ++ rest)) ops B hB out ho hov
  have hops2 : arithOps (o :: ops2) := by
    intro x hx
    simp only [List.mem_cons] at hx
    rcases hx with hx | hx
    · subst hx; exact ⟨ho, hov⟩
    · exact hops x (by rw [hsplit]; simp [hx])
  obtain ⟨postT, h2, _, _⟩ := iht (o :: ops2) B (out ++ popped) (e ++ rest) hops2 hB hwft
  obtain ⟨ops3, postR, h3, hops3, h4, h5⟩ := ihe (o :: ops2) B (out ++ popped ++ postT) rest
    hops2 hB hwfe
  refine ⟨ops3, popped ++ postT ++ postR, ?_, hops3, fun _ => ?_, fun h => by simp at h⟩
  · have hseg : o :: t ++ e ++ rest = o :: (t ++ (e ++ rest)) := by simp
    rw [hseg, h1, h2, h3]
    simp only [List.append_assoc]
  · by_cases he : e = []
    · rw [(h5 he).1]; simp
    · exact h4 he

theorem shunts_arithExp (rawSet : RawMessageSet) (t e ce : List Token)
    (hde : Derives rawSet NT.ArithRest e ce)
    (iht : Shunts NT.ArithTerm t) (ihe : Shunts NT.ArithRest e) :
    Shunts NT.ArithExp (t ++ e) := by
  intro B out rest hB hwf
  have hwft : arithWellFormed t := arithWellFormed_sub t _ hwf (fun x hx => by simp [hx])
  have hwfe : arithWellFormed e := arithWellFormed_sub e _ hwf (fun x hx => by simp [hx])
  have hnil : arithOps [] := fun _ h => by cases h
  obtain ⟨postT, h2, h2a, h2b⟩ := iht [] B out (e ++ rest) hnil hB hwft
  obtain ⟨ops3, postR, h3, hops3, h4, h5⟩ := ihe [] B (out ++ postT) rest hnil hB hwfe
  have hehead := (Derives_head rawSet _ _ _ hde).2.2.1 rfl
  refine ⟨ops3, postT ++ postR, ?_, hops3, ?_, ?_⟩
  · simp only [List.nil_append] at h2 h3
    rw [List.append_assoc, h2, h3]
    simp only [List.append_assoc]
  · intro hop
    by_cases he : e = []
    · right
      obtain ⟨_, hp⟩ := h5 he
      rw [hp, List.append_nil]
      apply h2a
      obtain ⟨x, hx, hxo⟩ := hop
      rw [he, List.append_nil] at hx
      exact ⟨x, hx, hxo⟩
    · exact Or.inl (h4 he)
  · intro hno
    have he : e = [] := by
      rcases hehead with h | ⟨o, r, h, ho⟩
      · exact h
      · exact absurd ⟨o, by rw [h]; simp, ho⟩ hno
    obtain ⟨h6, hp⟩ := h5 he
    obtain ⟨x, hx, hxt, hpost⟩ := h2b (fun h => hno (by
      obtain ⟨y, hy, hyo⟩ := h
      exact ⟨y, by simp [hy], hyo⟩))
    exact ⟨h6, x, by simp [hx], hxt, by rw [hp, hpost]; rfl⟩

/-- The shunting-yard loop on the phrases of the arithmetic nonterminals. -/
theorem Derives_shunts (rawSet : RawMessageSet) (X : NT) (seg c : List Token)
    (h : Derives rawSet X seg c) : Shunts X seg := by
  induction h with
  | num t ht => exact shunts_operand t (Or.inl ht)
  | ident t ht => exact shunts_operand t (Or.inr ht)
  | arithBr l r e c hl _ hr ih => exact shunts_arithBr l r e hl hr ih
  | arithNil => exact shunts_arithNil
  | arithMore o t ct e ce ho _ _ iht ihe => exact shunts_arithMore o t e ho iht ihe
  | arithExp t ct e ce _ he iht ihe => exact shunts_arithExp rawSet t e ce he iht ihe
  | bool t ht => trivial
  | existsCall k l x r hk hl hx hr => trivial
  | arith e c _ ih => trivial
  | logicBr l r e c hl he hr ih => trivial
  | logicNil => trivial
  | logicMore o t ct e ce ho ht he iht ihe => trivial
  | logicExp t ct e ce ht he iht ihe => trivial

/-- A property that holds for every token the tokenizer can write holds for all
the tokens it returns. -/
theorem tokenizeLoop_all (L : FloatLib) (paramTypes : String → Option ValueType)
    (chars : List Char) (inputLen : Nat) (P : Token → Prop)
    (hword : ∀ w, P (classify paramTypes w))
    (harith : ∀ c, isArithmeticOp c = true → P ⟨ARITH_OP, String.singleton c, ""⟩)
    (hlbr : ∀ c, isLeftBracket c = true → P ⟨LBR, String.singleton c, ""⟩)
    (hrbr : ∀ c, isRightBracket c = true → P ⟨RBR, String.singleton c, ""⟩)
    (hcomp : ∀ s, P ⟨COMP_OP, s, ""⟩)
    (hnum : ∀ s, P ⟨NUMBER, s, NUMBER_TYPE⟩) (fuel : Nat) :
    ∀ (i : Nat) (tokens res : List Token), (∀ t ∈ tokens, P t) →
      tokenizeLoop L paramTypes chars inputLen fuel i tokens = some (.ok res) →
      ∀ t ∈ res, P t := by
  have happ : ∀ (tokens : List Token) (x : Token), (∀ t ∈ tokens, P t) → P x →
      ∀ t ∈ tokens ++ [x], P t := by
    intro tokens x h hx t ht
    simp only [List.mem_append, List.mem_singleton] at ht
    rcases ht with ht | ht
    · exact h t ht
    · rw [ht]; exact hx
  induction fuel with
  | zero =>
    intro i tokens res hall h
    rw [tokenizeLoop] at h
    split at h
    · cases h
    · injection h with h
      injection h with h
      rw [← h]
      exact hall
  | succ fuel ih =>
    intro i tokens res hall h
    rw [tokenizeLoop] at h
    split at h
    · split at h
      · cases h
      next char _ =>
        simp only [] at h
        split at h
        · exact ih _ _ _ hall h
        split at h
        · exact ih _ _ _ (happ _ _ hall (hword _)) h
        split at h
        next hc => exact ih _ _ _ (happ _ _ hall (harith _ hc)) h
        split at h
        next hc => exact ih _ _ _ (happ _ _ hall (hlbr _ hc)) h
        split at h
        next hc => exact ih _ _ _ (happ _ _ hall (hrbr _ hc)) h
        split at h
        · exact ih _ _ _ (happ _ _ hall (hcomp _)) h
        split at h
        · exact ih _ _ _ (happ _ _ hall (hnum _)) h
        · cases h
    · injection h with h
      injection h with h
      rw [← h]
      exact hall

theorem classify_type (paramTypes : String → Option ValueType) (w : List Char) :
    (classify paramTypes w).Type_ = BOOL ∨ (classify paramTypes w).Type_ = LOG_OP ∨
    (classify paramTypes w).Type_ = EXISTS_FUNC ∨ (classify paramTypes w).Type_ = IDENT := by
  unfold classify
  split
  · exact Or.inl rfl
  split
  · exact Or.inr (Or.inl rfl)
  split
  · exact Or.inr (Or.inr (Or.inl rfl))
  split
  · exact Or.inr (Or.inr (Or.inr rfl))
  · exact Or.inr (Or.inr (Or.inr rfl))

/-- The tokens that `tokenize` returns have the operator and bracket texts
that the shunting-yard converter looks up. -/
theorem tokenize_arithWellFormed (L : FloatLib) (input : String)
    (paramTypes : String → Option ValueType) (tokens : List Token)
    (h : tokenize L input paramTypes = some (.ok tokens)) : arithWellFormed tokens := by
  unfold tokenize at h
  refine tokenizeLoop_all L paramTypes input.data input.data.length
    (fun t => (t.Type_ = ARITH_OP → t.Value ∈ arithmeticKeys) ∧
      (t.Type_ = LBR → t.Value = "(") ∧ (t.Type_ = NUMBER → t.ValueType = NUMBER_TYPE))
    ?_ ?_ ?_ ?_ ?_ ?_ input.data.length 0 [] tokens (fun _ h => by cases h) h
  · intro w
    rcases classify_type paramTypes w with h | h | h | h <;>
      exact ⟨fun h2 => (by rw [h] at h2; cases h2), fun h2 => (by rw [h] at h2; cases h2),
        fun h2 => (by rw [h] at h2; cases h2)⟩
  · intro c hc
    refine ⟨fun _ => ?_, fun h2 => (by cases h2), fun h2 => (by cases h2)⟩
    simp only [isArithmeticOp, Bool.or_eq_true, decide_eq_true_eq] at hc
    simp only [arithmeticKeys, List.mem_cons, List.mem_singleton, List.not_mem_nil, or_false]
    rcases hc with ((h | h) | h) | h
    · exact Or.inl h
    · exact Or.inr (Or.inl h)
    · exact Or.inr (Or.inr (Or.inl h))
    · exact Or.inr (Or.inr (Or.inr h))
  · intro c hc
    refine ⟨fun h2 => (by cases h2), fun _ => ?_, fun h2 => (by cases h2)⟩
    simp only [isLeftBracket, decide_eq_true_eq] at hc
    rw [hc]
    rfl
  · intro c _
    exact ⟨fun h2 => (by cases h2), fun h2 => (by cases h2), fun h2 => (by cases h2)⟩
  · intro s
    exact ⟨fun h2 => (by cases h2), fun h2 => (by cases h2), fun h2 => (by cases h2)⟩
  · intro s
    exact ⟨fun h2 => (by cases h2), fun h2 => (by cases h2), fun _ => rfl⟩

/-- A derivation of a sequence of arithmetic tokens copies its tokens and, from
a logic term or expression, is a derivation of an arithmetic expression. -/
theorem Derives_pure (rawSet : RawMessageSet) (X : NT) (seg c : List Token)
    (h : Derives rawSet X seg c) :
    (∀ t ∈ seg, isArithToken t) →
    c = seg ∧ ((X = NT.LogicTerm ∨ X = NT.LogicExp) → Derives rawSet NT.ArithExp seg seg) ∧
      (X = NT.LogicRest → seg = []) := by
  induction h with
  | num t ht => intro _; exact ⟨rfl, by simp, by simp⟩
  | ident t ht => intro _; exact ⟨rfl, by simp, by simp⟩
  | arithBr l r e c hl _ hr ih =>
    intro hp
    obtain ⟨h1, _⟩ := ih (fun t ht => hp t (by simp [ht]))
    exact ⟨by rw [h1], by simp, by simp⟩
  | arithNil => intro _; exact ⟨rfl, by simp, by simp⟩
  | arithMore o t ct e ce ho _ _ ih1 ih2 =>
    intro hp
    obtain ⟨h1, _⟩ := ih1 (fun t ht => hp t (by simp [ht]))
    obtain ⟨h2, _⟩ := ih2 (fun t ht => hp t (by simp [ht]))
    exact ⟨by rw [h1, h2], by simp, by simp⟩
  | arithExp t ct e ce _ _ ih1 ih2 =>
    intro hp
    obtain ⟨h1, _⟩ := ih1 (fun t ht => hp t (by simp [ht]))
    obtain ⟨h2, _⟩ := ih2 (fun t ht => hp t (by simp [ht]))
    exact ⟨by rw [h1, h2], by simp, by simp⟩
  | bool t ht =>
    intro hp
    exfalso
    rcases hp t (by simp) with h | h | h | h | h <;> rw [ht] at h <;> cases h
  | existsCall k l x r hk hl hx hr =>
    intro hp
    exfalso
    rcases hp k (by simp) with h | h | h | h | h <;> rw [hk] at h <;> cases h
  | arith e c he ih =>
    intro hp
    obtain ⟨h1, _⟩ := ih hp
    subst h1
    exact ⟨rfl, fun _ => he, by simp⟩
  | logicBr l r e c hl _ hr ih =>
    intro hp
    obtain ⟨h1, h2, _⟩ := ih (fun t ht => hp t (by simp [ht]))
    subst h1
    refine ⟨rfl, fun _ => ?_, by simp⟩
    have := Derives.arithExp _ _ [] [] (Derives.arithBr l r _ _ hl (h2 (Or.inr rfl)) hr)
      (@Derives.arithNil rawSet)
    simpa using this
  | logicNil => intro _; exact ⟨rfl, by simp, fun _ => rfl⟩
  | logicMore o t ct e ce ho _ _ ih1 ih2 =>
    intro hp
    exfalso
    rcases hp o (by simp) with h | h | h | h | h <;> rcases ho with h2 | h2 <;>
      rw [h2] at h <;> cases h
  | logicExp t ct e ce _ _ ih1 ih2 =>
    intro hp
    obtain ⟨h1, h2, _⟩ := ih1 (fun t ht => hp t (by simp [ht]))
    obtain ⟨h3, _, h4⟩ := ih2 (fun t ht => hp t (by simp [ht]))
    have he := h4 rfl
    subst he
    subst h1
    subst h3
    refine ⟨rfl, fun _ => ?_, by simp⟩
    simpa using h2 (Or.inl rfl)

theorem parseFloatOperands_error (L : FloatLib) (a b : String) (e : CoreError)
    (h : parseFloatOperands L a b = .error e) : ∃ r v, e = .CalculationError r v := by
  unfold parseFloatOperands at h
  (repeat' split at h) <;> first
    | (cases h; done)
    | (injection h with h; exact ⟨_, _, h.symm⟩)

theorem parseBoolOperands_error (a b : String) (e : CoreError)
    (h : parseBoolOperands a b = .error e) : ∃ r v, e = .CalculationError r v := by
  unfold parseBoolOperands at h
  (repeat' split at h) <;> first
    | (cases h; done)
    | (injection h with h; exact ⟨_, _, h.symm⟩)

/-- An operator fails with a `CalculationError` only. -/
theorem operator_error_kind (L : FloatLib) (key : String) (hk : key ∈ operatorKeys) :
    ∃ f, operatorFuncs L key = some f ∧
      ∀ (x y : Token) (e : CoreError), f x y = .error e → ∃ r v, e = .CalculationError r v := by
  simp only [operatorKeys, List.mem_cons, List.mem_singleton, List.not_mem_nil, or_false] at hk
  rcases hk with h | h | h | h | h | h | h | h | h | h | h | h <;> subst h
  · refine ⟨addOperator L, by simp [operatorFuncs], fun x y e h => ?_⟩
    unfold addOperator at h
    split at h
    · injection h with h; exact ⟨_, _, h.symm⟩
    · split at h
      · cases hp : parseFloatOperands L x.Value y.Value with
        | error err =>
          rw [hp] at h; injection h with h; subst h
          exact parseFloatOperands_error L _ _ _ hp
        | ok op => rw [hp] at h; cases h
      · injection h with h; exact ⟨_, _, h.symm⟩
  · refine ⟨subOperator L, by simp [operatorFuncs], fun x y e h => ?_⟩
    unfold subOperator at h
    split at h
    · injection h with h; exact ⟨_, _, h.symm⟩
    · split at h
      · cases hp : parseFloatOperands L x.Value y.Value with
        | error err =>
          rw [hp] at h; injection h with h; subst h
          exact parseFloatOperands_error L _ _ _ hp
        | ok op => rw [hp] at h; cases h
      · injection h with h; exact ⟨_, _, h.symm⟩
  · refine ⟨mulOperator L, by simp [operatorFuncs], fun x y e h => ?_⟩
    unfold mulOperator at h
    split at h
    · injection h with h; exact ⟨_, _, h.symm⟩
    · split at h
      · cases hp : parseFloatOperands L x.Value y.Value with
        | error err =>
          rw [hp] at h; injection h with h; subst h
          exact parseFloatOperands_error L _ _ _ hp
        | ok op => rw [hp] at h; cases h
      · injection h with h; exact ⟨_, _, h.symm⟩
  · refine ⟨divOperator L, by simp [operatorFuncs], fun x y e h => ?_⟩
    unfold divOperator at h
    split at h
    · injection h with h; exact ⟨_, _, h.symm⟩
    · split at h
      · cases hp : parseFloatOperands L x.Value y.Value with
        | error err =>
          rw [hp] at h; injection h with h; subst h
          exact parseFloatOperands_error L _ _ _ hp
        | ok op =>
          rw [hp] at h
          simp only [] at h
          split at h
          · injection h with h; exact ⟨_, _, h.symm⟩
          · cases h
      · injection h with h; exact ⟨_, _, h.symm⟩
  · refine ⟨moreOperator L, by simp [operatorFuncs], fun x y e h => ?_⟩
    unfold moreOperator at h
    split at h
    · injection h with h; exact ⟨_, _, h.symm⟩
    · split at h
      · cases hp : parseFloatOperands L x.Value y.Value with
        | error err =>
          rw [hp] at h; injection h with h; subst h
          exact parseFloatOperands_error L _ _ _ hp
        | ok op => rw [hp] at h; cases h
      · injection h with h; exact ⟨_, _, h.symm⟩
  · refine ⟨lessOperator L, by simp [operatorFuncs], fun x y e h => ?_⟩
    unfold lessOperator at h
    split at h
    · injection h with h; exact ⟨_, _, h.symm⟩
    · split at h
      · cases hp : parseFloatOperands L x.Value y.Value with
        | error err =>
          rw [hp] at h; injection h with h; subst h
          exact parseFloatOperands_error L _ _ _ hp
        | ok op => rw [hp] at h; cases h
      · injection h with h; exact ⟨_, _, h.symm⟩
  · refine ⟨moreEqualOperator L, by simp [operatorFuncs], fun x y e h => ?_⟩
    unfold moreEqualOperator at h
    split at h
    · injection h with h; exact ⟨_, _, h.symm⟩
    · split at h
      · cases hp : parseFloatOperands L x.Value y.Value with
        | error err =>
          rw [hp] at h; injection h with h; subst h
          exact parseFloatOperands_error L _ _ _ hp
        | ok op => rw [hp] at h; cases h
      · injection h with h; exact ⟨_, _, h.symm⟩
  · refine ⟨lessEqualOperator L, by simp [operatorFuncs], fun x y e h => ?_⟩
    unfold lessEqualOperator at h
    split at h
    · injection h with h; exact ⟨_, _, h.symm⟩
    · split at h
      · cases hp : parseFloatOperands L x.Value y.Value with
        | error err =>
          rw [hp] at h; injection h with h; subst h
          exact parseFloatOperands_error L _ _ _ hp
        | ok op => rw [hp] at h; cases h
      · injection h with h; exact ⟨_, _, h.symm⟩
  · refine ⟨equalOperator L, by simp [operatorFuncs], fun x y e h => ?_⟩
    unfold equalOperator at h
    split at h
    · injection h with h; exact ⟨_, _, h.symm⟩
    · split at h
      · cases hp : parseBoolOperands x.Value y.Value with
        | error err =>
          rw [hp] at h; injection h with h; subst h
          exact parseBoolOperands_error _ _ _ hp
        | ok op => rw [hp] at h; cases h
      · split at h
        · cases hp : parseFloatOperands L x.Value y.Value with
          | error err =>
            rw [hp] at h; injection h with h; subst h
            exact parseFloatOperands_error L _ _ _ hp
          | ok op => rw [hp] at h; cases h
        · injection h with h; exact ⟨_, _, h.symm⟩
  · refine ⟨notEqualOperator L, by simp [operatorFuncs], fun x y e h => ?_⟩
    unfold notEqualOperator at h
    split at h
    · injection h with h; exact ⟨_, _, h.symm⟩
    · split at h
      · cases hp : parseBoolOperands x.Value y.Value with
        | error err =>
          rw [hp] at h; injection h with h; subst h
          exact parseBoolOperands_error _ _ _ hp
        | ok op => rw [hp] at h; cases h
      · split at h
        · cases hp : parseFloatOperands L x.Value y.Value with
          | error err =>
            rw [hp] at h; injection h with h; subst h
            exact parseFloatOperands_error L _ _ _ hp
          | ok op => rw [hp] at h; cases h
        · injection h with h; exact ⟨_, _, h.symm⟩
  · refine ⟨andOperator, by simp [operatorFuncs], fun x y e h => ?_⟩
    unfold andOperator at h
    split at h
    · injection h with h; exact ⟨_, _, h.symm⟩
    · split at h
      · cases hp : parseBoolOperands x.Value y.Value with
        | error err =>
          rw [hp] at h; injection h with h; subst h
          exact parseBoolOperands_error _ _ _ hp
        | ok op => rw [hp] at h; cases h
      · injection h with h; exact ⟨_, _, h.symm⟩
  · refine ⟨orOperator, by simp [operatorFuncs], fun x y e h => ?_⟩
    unfold orOperator at h
    split at h
    · injection h with h; exact ⟨_, _, h.symm⟩
    · split at h
      · cases hp : parseBoolOperands x.Value y.Value with
        | error err =>
          rw [hp] at h; injection h with h; subst h
          exact parseBoolOperands_error _ _ _ hp
        | ok op => rw [hp] at h; cases h
      · injection h with h; exact ⟨_, _, h.symm⟩

theorem evalLoop_unknown_parameter (L : FloatLib) (rawSet : RawMessageSet)
    (tokens : List Token) :
    ∀ (st : TokenStack) (p : String),
      evalLoop L rawSet tokens st = .error (.UnknownParameterError p) →
      ∃ t ∈ tokens, t.Type_ = IDENT ∧ rawSet t.Value = none := by
  induction tokens with
  | nil => intro st p h; cases h
  | cons t rest ih =>
    intro st p h
    rw [evalLoop] at h
    revert h
    cases ht : t.Type_ with
    | LOG_OP | COMP_OP | ARITH_OP =>
      simp only []
      cases hf : operatorFuncs L t.Value with
      | none => intro h; cases h
      | some opFunc =>
        simp only []
        have hkey : t.Value ∈ operatorKeys := by
          unfold operatorFuncs at hf
          simp only [operatorKeys, List.mem_cons, List.mem_singleton, List.not_mem_nil,
            or_false]
          by_contra hne
          simp only [not_or] at hne
          obtain ⟨n1, n2, n3, n4, n5, n6, n7, n8, n9, n10, n11, n12⟩ := hne
          simp [n1, n2, n3, n4, n5, n6, n7, n8, n9, n10, n11, n12] at hf
        obtain ⟨f, hf2, hkind⟩ := operator_error_kind L t.Value hkey
        rw [hf] at hf2
        injection hf2 with hf2
        subst hf2
        cases hr : opFunc (TokenStack.Pop (TokenStack.Pop st).2.2).1 (TokenStack.Pop st).1 with
        | error e =>
          intro h
          injection h with h
          obtain ⟨r, v, he⟩ := hkind _ _ _ hr
          rw [he] at h
          cases h
        | ok res =>
          intro h
          obtain ⟨x, hx, h1, h2⟩ := ih _ p h
          exact ⟨x, List.mem_cons_of_mem _ hx, h1, h2⟩
    | NUMBER | BOOL =>
      intro h
      obtain ⟨x, hx, h1, h2⟩ := ih _ p h
      exact ⟨x, List.mem_cons_of_mem _ hx, h1, h2⟩
    | IDENT =>
      simp only []
      cases hraw : rawSet t.Value with
      | none => intro _; exact ⟨t, by simp, ht, hraw⟩
      | some v =>
        intro h
        obtain ⟨x, hx, h1, h2⟩ := ih _ p h
        exact ⟨x, List.mem_cons_of_mem _ hx, h1, h2⟩
    | LBR | RBR | EXISTS_FUNC | zero => intro h; cases h

theorem Evaluate_unknown_parameter (L : FloatLib) (rawSet : RawMessageSet)
    (tokens : List Token) (p : String)
    (h : Evaluate L tokens rawSet = .error (.UnknownParameterError p)) :
    ∃ t ∈ tokens, t.Type_ = IDENT ∧ rawSet t.Value = none := by
  unfold Evaluate at h
  cases hl : evalLoop L rawSet tokens [] with
  | error e =>
    rw [hl] at h
    injection h with h
    subst h
    exact evalLoop_unknown_parameter L rawSet tokens [] p hl
  | ok st =>
    rw [hl] at h
    simp only [] at h
    split at h
    · cases h
    · split at h
      · cases h
      · cases h

/-- The postfix form of an accepted sequence of arithmetic tokens ends with an
arithmetic operator when the sequence has one, and is the single operand
otherwise. -/
theorem pure_arith_postfix (rawSet : RawMessageSet) (tokens c : List Token)
    (hc : calcTokensOf tokens rawSet = some c)
    (hpure : ∀ t ∈ tokens, isArithToken t) (hwf : arithWellFormed tokens) :
    c = tokens ∧ ∃ exp, ToPostfixExp tokens = .ok exp ∧
      (hasArithOp tokens → endsWithArithOp exp) ∧
      (¬ hasArithOp tokens →
        ∃ x ∈ tokens, (x.Type_ = NUMBER ∨ x.Type_ = IDENT) ∧ exp = [x]) := by
  have hd := calcTokensOf_derives tokens rawSet c hc
  obtain ⟨hct, hda, _⟩ := Derives_pure rawSet _ _ _ hd hpure
  refine ⟨hct, ?_⟩
  have hs := Derives_shunts rawSet _ _ _ (hda (Or.inr rfl))
  obtain ⟨ops2, post, h1, hops2, h2, h3⟩ := hs [] [] [] (Or.inl rfl) hwf
  simp only [List.append_nil, List.nil_append, toPostfixLoop] at h1
  refine ⟨post ++ ops2, by rw [ToPostfixExp, h1], ?_, ?_⟩
  · intro hop
    rcases List.eq_nil_or_concat ops2 with hnil | ⟨pre, o, hpre⟩
    · rcases h2 hop with h | h
      · exact absurd hnil h
      · rw [hnil, List.append_nil]; exact h
    · have ho := hops2 o (by rw [hpre]; simp)
      exact ⟨post ++ pre, o, by rw [hpre]; simp, ho.1, ho.2⟩
  · intro hno
    obtain ⟨hnil, x, hx, hxt, hpost⟩ := h3 hno
    exact ⟨x, hx, hxt, by rw [hnil, hpost]; rfl⟩

/-- The evaluation of a postfix sequence that ends with an arithmetic operator
fails or returns a number written by the `%f` verb. -/
theorem Evaluate_endsWithArithOp (L : FloatLib) (rawSet : RawMessageSet) (exp : List Token)
    (h : endsWithArithOp exp) :
    (∃ e, Evaluate L exp rawSet = .error e) ∨
    ∃ v, Evaluate L exp rawSet = .ok ⟨NUMBER, L.Sprintf_f v, NUMBER_TYPE⟩ := by
  obtain ⟨pre, o, hexp, ho, hov⟩ := h
  obtain ⟨f, hf, hfmt⟩ := arithmetic_result_format L o.Value hov
  subst hexp
  unfold Evaluate
  rw [evalLoop_append]
  cases hpre : evalLoop L rawSet pre [] with
  | error e => exact Or.inl ⟨e, rfl⟩
  | ok st =>
    simp only []
    rw [evalLoop, ho]
    simp only [hf]
    cases hr : f (TokenStack.Pop (TokenStack.Pop st).2.2).1 (TokenStack.Pop st).1 with
    | error e => exact Or.inl ⟨e, rfl⟩
    | ok res =>
      obtain ⟨_, hvt, v, hv⟩ := hfmt _ _ res hr
      right
      refine ⟨v, ?_⟩
      have hnb : ¬ (NUMBER_TYPE = BOOL_TYPE) := by decide
      simp only [evalLoop, TokenStack.Push, TokenStack.Pop, hvt, hnb, if_false, if_true, hv]

theorem verdict_of_calculation (L : FloatLib) (paramTypes : String → Option ValueType)
    (f : Formula) (rawSet : RawMessageSet) (tokens c : List Token)
    (ht : tokenize L f.Expression paramTypes = some (.ok tokens))
    (hc : calcTokensOf tokens rawSet = some c) :
    verdict L paramTypes f rawSet =
      match parser.calculation L c rawSet with
      | .ok resToken => strconv.ParseBool resToken.Value
      | .error _ => none := by
  rw [verdict]
  simp only [ht]
  rw [verdictOfTokens, start_eq, hc]
  simp only []
  cases parser.calculation L c rawSet <;> rfl

/-- C11 as amended: for an enabled formula whose tokens are accepted by the
grammar and are all numbers, identifiers present in the row, arithmetic
operators and brackets: if there is at least one arithmetic operator, the
formula has no verdict and `Calculate` fails with Black (an operator fails, or
the final number, written by the `%f` verb, is not a boolean); if there is
none, the verdict is the boolean parse of the text of the single number literal
or of the raw text of the single identifier, so that `1` and `0` do have a
verdict.  A formula without a verdict makes `Calculate` fail with Black. -/
theorem C11_pure_arithmetic_amended (L : FloatLib)
    (hfmt : ∀ v, strconv.ParseBool (L.Sprintf_f v) = none)
    (formulas : List Formula) (rawSets : List RawMessageSet)
    (paramTypes : String → Option ValueType) (f : Formula) (rawSet : RawMessageSet)
    (tokens : List Token)
    (hf : f ∈ formulas) (hen : f.IsEnable = true) (hr : rawSet ∈ effectiveRows rawSets)
    (ht : tokenize L f.Expression paramTypes = some (.ok tokens))
    (hgram : (calcTokensOf tokens rawSet).isSome = true)
    (hpure : ∀ t ∈ tokens, isArithToken t)
    (hpresent : ∀ t ∈ tokens, t.Type_ = IDENT → ∃ raw, rawSet t.Value = some raw) :
    (hasArithOp tokens →
      verdict L paramTypes f rawSet = none ∧
      ∃ err, Calculate L formulas rawSets paramTypes = some ⟨BlackColor, none, some err⟩) ∧
    (¬ hasArithOp tokens → (∀ t ∈ tokens, t.Type_ = IDENT → t.ValueType = NUMBER_TYPE) →
      ∃ x ∈ tokens,
        (x.Type_ = NUMBER ∧ verdict L paramTypes f rawSet = strconv.ParseBool x.Value) ∨
        (x.Type_ = IDENT ∧ ∃ raw, rawSet x.Value = some raw ∧
          verdict L paramTypes f rawSet = strconv.ParseBool raw)) ∧
    (verdict L paramTypes f rawSet = none →
      ∃ err, Calculate L formulas rawSets paramTypes = some ⟨BlackColor, none, some err⟩) := by
  obtain ⟨c, hc⟩ := Option.isSome_iff_exists.1 hgram
  have hwf := tokenize_arithWellFormed L f.Expression paramTypes tokens ht
  obtain ⟨hct, exp, hpost, hends, hsingle⟩ := pure_arith_postfix rawSet tokens c hc hpure hwf
  subst hct
  have hv := verdict_of_calculation L paramTypes f rawSet c c ht hc
  have hfail : verdict L paramTypes f rawSet = none →
      ∃ err, Calculate L formulas rawSets paramTypes = some ⟨BlackColor, none, some err⟩ :=
    Calculate_fails_of_verdict_none L formulas rawSets paramTypes f hf hen rawSet hr
  have hnb : ¬ (NUMBER_TYPE = BOOL_TYPE) := by decide
  refine ⟨fun hop => ?_, fun hno htyped => ?_, hfail⟩
  · have hnone : verdict L paramTypes f rawSet = none := by
      rw [hv, parser.calculation, core.Calculate, hpost]
      simp only []
      rcases Evaluate_endsWithArithOp L rawSet exp (hends hop) with ⟨e, he⟩ | ⟨v, he⟩
      · rw [he]
        cases e with
        | UnknownParameterError p =>
          exfalso
          obtain ⟨t, ht1, ht2, ht3⟩ := Evaluate_unknown_parameter L rawSet exp p he
          obtain ⟨raw, hraw⟩ := hpresent t (ToPostfixExp_mem c exp hpost t ht1) ht2
          rw [hraw] at ht3
          cases ht3
        | UnknownTokenTypeError t => rfl
        | CalculationError r v => rfl
      · rw [he]
        exact hfmt v
    exact ⟨hnone, hfail hnone⟩
  · obtain ⟨x, hx, hxt, hexp⟩ := hsingle hno
    subst hexp
    refine ⟨x, hx, ?_⟩
    rcases hxt with hxn | hxi
    · left
      refine ⟨hxn, ?_⟩
      have hvt := (hwf x hx).2.2 hxn
      rw [hv, parser.calculation, core.Calculate, hpost]
      simp only [Evaluate, evalLoop, hxn, TokenStack.Push, TokenStack.Pop, hvt, hnb, if_false,
        if_true]
    · right
      obtain ⟨raw, hraw⟩ := hpresent x hx hxi
      refine ⟨hxi, raw, hraw, ?_⟩
      have hvt := htyped x hx hxi
      rw [hv, parser.calculation, core.Calculate, hpost]
      simp only [Evaluate, evalLoop, hxi, hraw, TokenStack.Push, TokenStack.Pop, hvt, hnb,
        if_false, if_true]

theorem decimal_format_not_bool (q : decimal.Frac) :
    strconv.ParseBool (decimal.format q) = none := by
  have hdot : '.' ∈ (decimal.format q).data := by
    simp [decimal.format, String.data_append]
  have hno : ∀ s : String, '.' ∉ s.data → decimal.format q ≠ s := by
    intro s hs heq
    rw [heq] at hdot
    exact hs hdot
  unfold strconv.ParseBool
  rw [if_neg, if_neg]
  · intro h
    rcases h with h | h | h | h | h | h <;> exact hno _ (by decide) h
  · intro h
    rcases h with h | h | h | h | h | h <;> exact hno _ (by decide) h

theorem C11_pure_arithmetic_amended_witness :
    tokenize decimalLib "5 + 6 / s6004" testTypes =
      some (.ok [⟨NUMBER, "5", NUMBER_TYPE⟩, ⟨ARITH_OP, "+", ""⟩, ⟨NUMBER, "6", NUMBER_TYPE⟩,
        ⟨ARITH_OP, "/", ""⟩, ⟨IDENT, "s6004", NUMBER_TYPE⟩]) ∧
    Calculate decimalLib [⟨"formula_1", "5 + 6 / s6004", GreenColor, 0, true⟩] [testRowOne]
        testTypes =
      some ⟨BlackColor, none, some (.NumError "ParseBool" "5.600000")⟩ ∧
    (verdict decimalLib testTypes ⟨"formula_1", "5 + 6 / s6004", GreenColor, 0, true⟩
        testRowOne = none ∧
      ∃ err, Calculate decimalLib [⟨"formula_1", "5 + 6 / s6004", GreenColor, 0, true⟩]
        [testRowOne] testTypes = some ⟨BlackColor, none, some err⟩) :=
  ⟨by decide!, by decide!,
    (C11_pure_arithmetic_amended decimalLib decimal_format_not_bool
      [⟨"formula_1", "5 + 6 / s6004", GreenColor, 0, true⟩] [testRowOne] testTypes
      ⟨"formula_1", "5 + 6 / s6004", GreenColor, 0, true⟩ testRowOne
      [⟨NUMBER, "5", NUMBER_TYPE⟩, ⟨ARITH_OP, "+", ""⟩, ⟨NUMBER, "6", NUMBER_TYPE⟩,
        ⟨ARITH_OP, "/", ""⟩, ⟨IDENT, "s6004", NUMBER_TYPE⟩]
      (by simp) rfl (by simp [effectiveRows]) (by decide!) (by decide!)
      (by
        intro t ht
        simp only [List.mem_cons, List.mem_singleton, List.not_mem_nil, or_false] at ht
        rcases ht with h | h | h | h | h <;> subst h <;> simp [isArithToken])
      (by
        intro t ht hid
        simp only [List.mem_cons, List.mem_singleton, List.not_mem_nil, or_false] at ht
        rcases ht with h | h | h | h | h <;> subst h
        · cases hid
        · cases hid
        · cases hid
        · cases hid
        · exact ⟨"10", by decide⟩)).1
      ⟨⟨ARITH_OP, "+", ""⟩, by simp, rfl⟩⟩

/-- C11 fails as stated: the formula `1` is a grammatical, purely arithmetic
expression (a single number literal), and so is `(0)`; yet `Calculate` returns
no error: the text of the final Number token is a spelling that
`strconv.ParseBool` accepts, so the formulas have the verdicts true and
false. -/
theorem C11_counterexample :
    tokenize decimalLib "1" (fun _ => none) = some (.ok [⟨NUMBER, "1", NUMBER_TYPE⟩]) ∧
    calcTokensOf [⟨NUMBER, "1", NUMBER_TYPE⟩] nilRawSet = some [⟨NUMBER, "1", NUMBER_TYPE⟩] ∧
    core.Calculate decimalLib [⟨NUMBER, "1", NUMBER_TYPE⟩] nilRawSet =
      .ok ⟨NUMBER, "1", NUMBER_TYPE⟩ ∧
    Calculate decimalLib [⟨"formula_1", "1", GreenColor, 0, true⟩] [] (fun _ => none) =
      some ⟨GreenColor, some [[("formula_1", ⟨0, GreenColor, true⟩)]], none⟩ ∧
    Calculate decimalLib [⟨"formula_1", "(0)", GreenColor, 0, true⟩] [] (fun _ => none) =
      some ⟨GreyColor, some [[("formula_1", ⟨0, GreenColor, false⟩)]], none⟩ :=
  ⟨by decide!, by decide!, by decide!, by decide!, by decide!⟩

/-! ## The scan of the tokenizer -/

/-- The scanning loop of `tokenize` runs `scanStep` turn after turn. -/
theorem tokenizeLoop_step (L : FloatLib) (paramTypes : String → Option ValueType)
    (chars : List Char) (inputLen fuel i : Nat) (tokens : List Token) :
    tokenizeLoop L paramTypes chars inputLen (fuel + 1) i tokens =
      if i < inputLen then
        match scanStep L paramTypes chars inputLen i with
        | none => none
        | some (.error err) => some (.error err)
        | some (.ok (i2, ts)) => tokenizeLoop L paramTypes chars inputLen fuel i2 (tokens ++ ts)
      else some (.ok tokens) := by
  rw [tokenizeLoop, scanStep]
  split
  · cases chars[i]? with
    | none => rfl
    | some char =>
      simp only []
      split
      · simp
      split
      · rfl
      split
      · rfl
      split
      · rfl
      split
      · rfl
      split
      · rfl
      split
      · rfl
      · rfl
  · rfl

theorem scanStep_gt (L : FloatLib) (paramTypes : String → Option ValueType)
    (chars : List Char) (i i2 : Nat) (ts : List Token)
    (h : scanStep L paramTypes chars chars.length i = some (.ok (i2, ts))) : i < i2 := by
  rw [scanStep] at h
  split at h
  · cases h
  simp only [] at h
  split at h
  · injection h with h; injection h with h; injection h with h1 h2; omega
  split at h
  · injection h with h; injection h with h; injection h with h1 h2
    have := identLoop_ge (chars.drop (i + 1)) (i + 1); omega
  split at h
  · injection h with h; injection h with h; injection h with h1 h2; omega
  split at h
  · injection h with h; injection h with h; injection h with h1 h2; omega
  split at h
  · injection h with h; injection h with h; injection h with h1 h2; omega
  split at h
  · injection h with h; injection h with h; injection h with h1 h2
    have := isLogicOp_ge chars i chars.length; omega
  next hlo =>
    have h2 := isLogicOp_false chars i chars.length (by simpa using hlo)
    split at h
    next hnum =>
      injection h with h; injection h with h; injection h with h1 h3
      have := isNumber_gt L chars _ hnum
      rw [h2] at this h1
      omega
    · cases h

/-- From a state of the scan the loop returns what `tokenize` returns. -/
theorem Scan_loop (L : FloatLib) (paramTypes : String → Option ValueType) (input : String)
    (i : Nat) (tokens : List Token) (h : Scan L paramTypes input.data i tokens) :
    ∀ k, tokenizeLoop L paramTypes input.data input.data.length (input.data.length + k) i tokens =
      tokenize L input paramTypes := by
  induction h with
  | start =>
    intro k
    obtain ⟨r, hr⟩ := tokenize_total L input paramTypes
    rw [hr]
    exact tokenizeLoop_mono L paramTypes input.data k input.data.length 0 [] r hr
  | step i i2 tokens ts _ hlt hstep ih =>
    intro k
    have := ih (k + 1)
    rw [← Nat.add_assoc, tokenizeLoop_step, if_pos hlt, hstep] at this
    exact this

theorem tokenizeLoop_scan (L : FloatLib) (paramTypes : String → Option ValueType)
    (chars : List Char) (fuel : Nat) :
    ∀ (i : Nat) (tokens : List Token) (r : Except Error (List Token)),
      Scan L paramTypes chars i tokens →
      tokenizeLoop L paramTypes chars chars.length fuel i tokens = some r →
      ∃ i2 tokens2, Scan L paramTypes chars i2 tokens2 ∧
        ((chars.length ≤ i2 ∧ r = .ok tokens2) ∨
          (i2 < chars.length ∧ ∃ err, r = .error err ∧
            scanStep L paramTypes chars chars.length i2 = some (.error err))) := by
  induction fuel with
  | zero =>
    intro i tokens r hs h
    rw [tokenizeLoop] at h
    split at h
    · cases h
    next hlt =>
      injection h with h
      exact ⟨i, tokens, hs, Or.inl ⟨by omega, h.symm⟩⟩
  | succ fuel ih =>
    intro i tokens r hs h
    rw [tokenizeLoop_step] at h
    split at h
    next hlt =>
      split at h
      · cases h
      next err hstep =>
        injection h with h
        exact ⟨i, tokens, hs, Or.inr ⟨hlt, err, h.symm, hstep⟩⟩
      next i2 ts hstep =>
        exact ih i2 (tokens ++ ts) r (Scan.step i i2 tokens ts hs hlt hstep) h
    next hlt =>
      injection h with h
      exact ⟨i, tokens, hs, Or.inl ⟨by omega, h.symm⟩⟩

/-- The tokens `tokenize` returns are the tokens written when the scan has
passed the last character. -/
theorem tokenize_ok_iff (L : FloatLib) (paramTypes : String → Option ValueType) (input : String)
    (res : List Token) :
    tokenize L input paramTypes = some (.ok res) ↔
      ∃ i, input.data.length ≤ i ∧ Scan L paramTypes input.data i res := by
  constructor
  · intro h
    obtain ⟨i2, tokens2, hs, h2 | ⟨_, err, h2, _⟩⟩ :=
      tokenizeLoop_scan L paramTypes input.data input.data.length 0 [] _ Scan.start h
    · injection h2.2 with h3
      rw [h3]
      exact ⟨i2, h2.1, hs⟩
    · cases h2
  · rintro ⟨i, hi, hs⟩
    rw [← Scan_loop L paramTypes input i res hs 0]
    exact tokenizeLoop_end L paramTypes input.data _ i res hi

/-- The error `tokenize` returns is the error of the turn at which the scan
stops. -/
theorem tokenize_error_iff (L : FloatLib) (paramTypes : String → Option ValueType)
    (input : String) (err : Error) :
    tokenize L input paramTypes = some (.error err) ↔
      ∃ i tokens, Scan L paramTypes input.data i tokens ∧ i < input.data.length ∧
        scanStep L paramTypes input.data input.data.length i = some (.error err) := by
  constructor
  · intro h
    obtain ⟨i2, tokens2, hs, h2 | ⟨hlt, err2, h2, h3⟩⟩ :=
      tokenizeLoop_scan L paramTypes input.data input.data.length 0 [] _ Scan.start h
    · cases h2.2
    · injection h2 with h4
      rw [h4]
      exact ⟨i2, tokens2, hs, hlt, h3⟩
  · rintro ⟨i, tokens, hs, hlt, hstep⟩
    rw [← Scan_loop L paramTypes input i tokens hs 1, tokenizeLoop_step, if_pos hlt, hstep]

theorem tokenizeLoop_extends (L : FloatLib) (paramTypes : String → Option ValueType)
    (chars : List Char) (inputLen fuel : Nat) :
    ∀ (i : Nat) (tokens res : List Token),
      tokenizeLoop L paramTypes chars inputLen fuel i tokens = some (.ok res) →
      ∃ more, res = tokens ++ more := by
  induction fuel with
  | zero =>
    intro i tokens res h
    rw [tokenizeLoop] at h
    split at h
    · cases h
    · injection h with h
      injection h with h
      exact ⟨[], by rw [h, List.append_nil]⟩
  | succ fuel ih =>
    intro i tokens res h
    rw [tokenizeLoop_step] at h
    split at h
    · split at h
      · cases h
      · cases h
      next i2 ts _ =>
        obtain ⟨more, hm⟩ := ih i2 _ res h
        exact ⟨ts ++ more, by rw [hm, List.append_assoc]⟩
    · injection h with h
      injection h with h
      exact ⟨[], by rw [h, List.append_nil]⟩

/-- The tokens written at a state of the scan open the token sequence that
`tokenize` returns. -/
theorem Scan_opens (L : FloatLib) (paramTypes : String → Option ValueType) (input : String)
    (i : Nat) (tokens res : List Token) (h1 : Scan L paramTypes input.data i tokens)
    (h : tokenize L input paramTypes = some (.ok res)) : ∃ more, res = tokens ++ more := by
  rw [← Scan_loop L paramTypes input i tokens h1 0] at h
  exact tokenizeLoop_extends L paramTypes input.data _ _ i tokens res h

theorem getElem_drop (chars : List Char) (i : Nat) (c : Char) (h : chars[i]? = some c) :
    i < chars.length ∧ chars.drop i = c :: chars.drop (i + 1) := by
  have hlt : i < chars.length := by
    by_contra hc
    rw [List.getElem?_eq_none (by omega)] at h
    cases h
  refine ⟨hlt, ?_⟩
  rw [List.drop_eq_getElem_cons hlt]
  rw [List.getElem?_eq_getElem hlt] at h
  injection h with h
  rw [h]

theorem identLoop_spec (rest : List Char) : ∀ j : Nat,
    ∃ cs tail, rest = cs ++ tail ∧ (∀ x ∈ cs, isIdentChar x = true) ∧
      (∀ x, tail.head? = some x → isIdentChar x = false) ∧ identLoop rest j = j + cs.length := by
  induction rest with
  | nil =>
    intro j
    exact ⟨[], [], rfl, fun _ h => (by cases h), fun _ h => (by cases h), rfl⟩
  | cons x rest ih =>
    intro j
    by_cases hx : isIdentChar x = true
    · obtain ⟨cs, tail, h1, h2, h3, h4⟩ := ih (j + 1)
      refine ⟨x :: cs, tail, by rw [h1]; rfl, ?_, h3, ?_⟩
      · intro y hy
        rcases List.mem_cons.1 hy with h | h
        · rw [h]; exact hx
        · exact h2 y h
      · rw [identLoop, if_pos (by simpa [isIdentChar] using hx), h4]
        simp only [List.length_cons]
        omega
    · refine ⟨[], x :: rest, rfl, fun _ h => (by cases h), ?_, ?_⟩
      · intro y hy
        injection hy with hy
        rw [← hy]
        simpa using hx
      · rw [identLoop, if_neg (by simpa [isIdentChar] using hx)]
        rfl

/-- The loop of `isNumber`, started when `c` characters from `i0` on are
accepted: every longer prefix up to the final count is accepted by the float
parser, and the prefix with one more character is not. -/
theorem isNumberLoop_prefixes (L : FloatLib) (chars : List Char) (i0 : Nat) :
    ∀ (rest : List Char) (c : Nat), rest = chars.drop (i0 + c) → i0 + c ≤ chars.length →
      ∃ n, isNumberLoop L chars rest (i0 + c) c = (i0 + n, n) ∧ c ≤ n ∧ i0 + n ≤ chars.length ∧
        (∀ k, c < k → k ≤ n →
          (L.ParseFloat (String.mk ((chars.drop i0).take k))).isSome = true) ∧
        (i0 + n < chars.length →
          L.ParseFloat (String.mk ((chars.drop i0).take (n + 1))) = none) := by
  intro rest
  induction rest with
  | nil =>
    intro c hrest hle
    have hlen : chars.length ≤ i0 + c := by
      by_contra hc
      have := congrArg List.length hrest
      simp only [List.length_nil, List.length_drop] at this
      omega
    exact ⟨c, rfl, Nat.le_refl c, hle, fun k h1 h2 => by omega, fun h => by omega⟩
  | cons x rest ih =>
    intro c hrest hle
    have hlt : i0 + c < chars.length := by
      by_contra hc
      rw [List.drop_of_length_le (by omega)] at hrest
      cases hrest
    have hs : slice chars (i0 + c - c) (i0 + c + 1) = (chars.drop i0).take (c + 1) := by
      rw [Nat.add_sub_cancel, Nat.add_assoc, slice_eq]
    rw [isNumberLoop, hs]
    cases hpf : L.ParseFloat (String.mk ((chars.drop i0).take (c + 1))) with
    | none =>
      exact ⟨c, rfl, Nat.le_refl c, hle, fun k h1 h2 => by omega, fun _ => hpf⟩
    | some v =>
      simp only []
      have hrest2 : rest = chars.drop (i0 + (c + 1)) := by
        have h1 : (chars.drop (i0 + c)).drop 1 = rest := by rw [← hrest]; rfl
        rw [List.drop_drop] at h1
        rw [← h1, Nat.add_assoc]
      obtain ⟨n, h1, h2, h3, h4, h5⟩ := ih (c + 1) hrest2 (by omega)
      refine ⟨n, h1, by omega, h3, ?_, h5⟩
      intro k hk1 hk2
      by_cases hk : k = c + 1
      · rw [hk, hpf]; rfl
      · exact h4 k (by omega) hk2

theorem isNumber_spec (L : FloatLib) (chars : List Char) (i : Nat) (hi : i < chars.length) :
    ∃ n, isNumber L chars i = (decide (n > 0), i + n) ∧ i + n ≤ chars.length ∧
      (∀ k, 0 < k → k ≤ n → (L.ParseFloat (String.mk ((chars.drop i).take k))).isSome = true) ∧
      (i + n < chars.length → L.ParseFloat (String.mk ((chars.drop i).take (n + 1))) = none) := by
  obtain ⟨n, h1, _, h3, h4, h5⟩ :=
    isNumberLoop_prefixes L chars i (chars.drop i) 0 rfl (by omega)
  rw [Nat.add_zero] at h1
  exact ⟨n, by rw [isNumber, h1], h3, h4, h5⟩

theorem isLogicOp_true_iff (chars : List Char) (i : Nat) (c : Char) (hc : chars[i]? = some c) :
    (isLogicOp chars i chars.length).1 = true ↔
      c = '>' ∨ c = '<' ∨ c = '=' ∨ (c = '!' ∧ chars[i + 1]? = some '=') := by
  obtain ⟨hlt, _⟩ := getElem_drop chars i c hc
  rw [isLogicOp, if_pos hlt, hc]
  simp only [Option.some.injEq]
  by_cases h1 : c = '>'
  · simp only [h1, true_or, if_true]
    split <;> simp
  by_cases h2 : c = '<'
  · simp only [h2, true_or, or_true, if_true]
    split <;> simp
  by_cases h3 : c = '='
  · simp [h3]
  by_cases h4 : c = '!'
  · subst h4
    by_cases h5 : chars[i + 1]? = some '='
    · have : i + 1 < chars.length := (getElem_drop chars (i + 1) _ h5).1
      simp [h5, this]
    · simp [h5]
  · simp [h1, h2, h3, h4]

theorem isLogicOp_spec (chars : List Char) (i : Nat) (c : Char) (hc : chars[i]? = some c)
    (h : (isLogicOp chars i chars.length).1 = true) :
    ∃ w, String.mk w ∈ compTexts ∧
      chars.drop i = w ++ chars.drop ((isLogicOp chars i chars.length).2 + 1) ∧
      (isLogicOp chars i chars.length).2 + 1 = i + w.length := by
  obtain ⟨hlt, hd⟩ := getElem_drop chars i c hc
  have two : ∀ x, chars[i + 1]? = some x → chars.drop i = [c, x] ++ chars.drop (i + 1 + 1) := by
    intro x hx
    rw [hd, (getElem_drop chars (i + 1) x hx).2]
    rfl
  have one : chars.drop i = [c] ++ chars.drop (i + 1) := hd
  rw [isLogicOp, if_pos hlt, hc] at h ⊢
  simp only [Option.some.injEq] at h ⊢
  by_cases h1 : c = '>' ∨ c = '<'
  · rw [if_pos h1] at h ⊢
    by_cases h5 : i + 1 < chars.length ∧ chars[i + 1]? = some '='
    · rw [if_pos h5]
      refine ⟨[c, '='], ?_, two _ h5.2, rfl⟩
      rcases h1 with h1 | h1 <;> rw [h1] <;> decide
    · rw [if_neg h5]
      refine ⟨[c], ?_, one, rfl⟩
      rcases h1 with h1 | h1 <;> rw [h1] <;> decide
  · rw [if_neg h1] at h ⊢
    by_cases h3 : c = '='
    · rw [if_pos h3]
      refine ⟨[c], ?_, one, rfl⟩
      rw [h3]; decide
    · rw [if_neg h3] at h ⊢
      by_cases h4 : c = '!'
      · rw [if_pos h4] at h ⊢
        by_cases h5 : i + 1 < chars.length ∧ chars[i + 1]? = some '='
        · rw [if_pos h5]
          refine ⟨[c, '='], ?_, two _ h5.2, rfl⟩
          rw [h4]; decide
        · rw [if_neg h5] at h
          cases h
      · rw [if_neg h4] at h
        cases h

/-- What a turn of the scan that goes on has read: one white-space character,
or the text `w` of the one token it has written. -/
theorem scanStep_spec (L : FloatLib) (paramTypes : String → Option ValueType)
    (chars : List Char) (i i2 : Nat) (ts : List Token)
    (h : scanStep L paramTypes chars chars.length i = some (.ok (i2, ts))) :
    ∃ w, chars.drop i = w ++ chars.drop i2 ∧ i2 = i + w.length ∧
      ((ts = [] ∧ ∃ c, w = [c] ∧ unicode.IsSpace c = true) ∨
        ∃ t, ts = [t] ∧ Lexeme L paramTypes w t) := by
  rw [scanStep] at h
  split at h
  · cases h
  next c hc =>
    obtain ⟨hlt, hd⟩ := getElem_drop chars i c hc
    have one : chars.drop i = [c] ++ chars.drop (i + 1) := hd
    simp only [] at h
    split at h
    next hsp =>
      injection h with h; injection h with h; injection h with h1 h2
      rw [← h1, ← h2]
      exact ⟨[c], one, rfl, Or.inl ⟨rfl, c, rfl, hsp⟩⟩
    split at h
    next hal =>
      injection h with h; injection h with h; injection h with h1 h2
      obtain ⟨cs, tail, e1, e2, e3, e4⟩ := identLoop_spec (chars.drop (i + 1)) (i + 1)
      have hd2 : chars.drop i = (c :: cs) ++ tail := by rw [hd, e1]; rfl
      obtain ⟨f1, f2⟩ := drop_append_facts chars i (c :: cs) tail hd2
      have hi2 : i2 = i + (c :: cs).length := by
        rw [← h1, e4]; simp only [List.length_cons]; omega
      refine ⟨c :: cs, by rw [hi2, f1]; exact hd2, hi2, Or.inr ⟨_, h2.symm, Or.inl ⟨c, cs, rfl, hal, e2, ?_⟩⟩⟩
      rw [e4, show i + 1 + cs.length = i + (c :: cs).length by simp only [List.length_cons]; omega,
        slice_eq, f2]
    split at h
    next har =>
      injection h with h; injection h with h; injection h with h1 h2
      rw [← h1, ← h2]
      exact ⟨[c], one, rfl, Or.inr ⟨_, rfl, Or.inr (Or.inl ⟨c, rfl, har, rfl⟩)⟩⟩
    split at h
    next hl =>
      injection h with h; injection h with h; injection h with h1 h2
      rw [← h1, ← h2]
      have : c = '(' := by simpa [isLeftBracket] using hl
      subst this
      exact ⟨['('], one, rfl, Or.inr ⟨_, rfl, Or.inr (Or.inr (Or.inl ⟨rfl, rfl⟩))⟩⟩
    split at h
    next hr =>
      injection h with h; injection h with h; injection h with h1 h2
      rw [← h1, ← h2]
      have : c = ')' := by simpa [isRightBracket] using hr
      subst this
      exact ⟨[')'], one, rfl, Or.inr ⟨_, rfl, Or.inr (Or.inr (Or.inr (Or.inl ⟨rfl, rfl⟩)))⟩⟩
    split at h
    next hlo =>
      injection h with h; injection h with h; injection h with h1 h2
      obtain ⟨w, g1, g2, g3⟩ := isLogicOp_spec chars i c hc hlo
      rw [h1] at g2 g3
      have hs : slice chars i i2 = w := by
        rw [g3, slice_eq, g2]; simp
      rw [h1, hs] at h2
      exact ⟨w, g2, g3, Or.inr ⟨_, h2.symm, Or.inr (Or.inr (Or.inr (Or.inr (Or.inl ⟨g1, rfl⟩))))⟩⟩
    next hlo =>
      have hlo2 := isLogicOp_false chars i chars.length (by simpa using hlo)
      rw [hlo2] at h
      obtain ⟨n, k1, k2, k3, k4⟩ := isNumber_spec L chars i hlt
      rw [k1] at h
      simp only [] at h
      split at h
      next hn =>
        injection h with h; injection h with h; injection h with h1 h2
        have hn0 : 0 < n := by simpa using hn
        have hw : chars.drop i = (chars.drop i).take n ++ chars.drop (i + n) := by
          rw [← List.drop_drop, List.take_append_drop]
        have hl : ((chars.drop i).take n).length = n := by
          rw [List.length_take, List.length_drop]; omega
        have hs : slice chars i (i + n) = (chars.drop i).take n := slice_eq chars i n
        rw [hs] at h2
        refine ⟨(chars.drop i).take n, by rw [← h1]; exact hw, by rw [← h1, hl], Or.inr ⟨_, h2.symm,
          Or.inr (Or.inr (Or.inr (Or.inr (Or.inr ⟨?_, ?_, rfl⟩))))⟩⟩
        · intro hnil
          rw [hnil] at hl
          simp at hl
          omega
        · intro k hk1 hk2
          rw [hl] at hk2
          rw [List.take_take, Nat.min_eq_left hk2]
          exact k3 k hk1 hk2
      · cases h

theorem isArithmeticOp_mem (c : Char) :
    isArithmeticOp c = true ↔ c = '+' ∨ c = '-' ∨ c = '*' ∨ c = '/' := by
  rw [isArithmeticOp_iff, char_eq_iff, char_eq_iff, char_eq_iff, char_eq_iff]
  rfl

theorem isNumber_first (L : FloatLib) (chars : List Char) (i : Nat) (c : Char)
    (hc : chars[i]? = some c) :
    ((isNumber L chars i).1 = true ↔ (L.ParseFloat (String.mk [c])).isSome = true) ∧
      ((isNumber L chars i).1 = false → (isNumber L chars i).2 = i) := by
  obtain ⟨hlt, hd⟩ := getElem_drop chars i c hc
  obtain ⟨n, k1, k2, k3, k4⟩ := isNumber_spec L chars i hlt
  have h1 : (chars.drop i).take 1 = [c] := by rw [hd]; rfl
  rw [k1]
  by_cases hn : n = 0
  · subst hn
    have := k4 (by omega)
    rw [h1] at this
    simp [this]
  · have := k3 1 (by omega) (by omega)
    rw [h1] at this
    simp only [this, iff_true, decide_eq_true_eq, decide_eq_false_iff_not]
    exact ⟨by omega, fun h => by omega⟩

/-- A turn of the scan returns an error exactly at a character that cannot
start a token, and the error carries the position of that character. -/
theorem scanStep_error_iff (L : FloatLib) (hL : digitProbe L)
    (paramTypes : String → Option ValueType) (chars : List Char) (i : Nat) (err : Error) :
    scanStep L paramTypes chars chars.length i = some (.error err) ↔
      cannotStart chars i ∧ err = .InvalidTokenError i := by
  unfold cannotStart
  cases hc : chars[i]? with
  | none =>
    rw [scanStep, hc]
    constructor
    · intro h; cases h
    · rintro ⟨⟨c, h, _⟩, _⟩; cases h
  | some c =>
    obtain ⟨hnum, hnum2⟩ := isNumber_first L chars i c hc
    have hlog := isLogicOp_true_iff chars i c hc
    rw [hL c] at hnum
    rw [scanStep, hc]
    simp only [Option.some.injEq, exists_eq_left', List.mem_cons, List.mem_singleton,
      List.not_mem_nil, or_false, not_or]
    by_cases h1 : unicode.IsSpace c = true
    · simp [h1]
    rw [if_neg h1]
    by_cases h2 : isAlpha c = true
    · simp [h2]
    rw [if_neg h2]
    by_cases h3 : isArithmeticOp c = true
    · rw [if_pos h3]
      rw [isArithmeticOp_mem] at h3
      constructor
      · intro h; cases h
      · rintro ⟨⟨_, _, ⟨a, b, c1, d, _⟩, _⟩, _⟩
        rcases h3 with h | h | h | h
        · exact absurd h a
        · exact absurd h b
        · exact absurd h c1
        · exact absurd h d
    rw [if_neg h3]
    by_cases h4 : isLeftBracket c = true
    · rw [if_pos h4]
      have : c = '(' := by simpa [isLeftBracket] using h4
      constructor
      · intro h; cases h
      · rintro ⟨⟨_, _, ⟨_, _, _, _, a, _⟩, _⟩, _⟩
        exact absurd this a
    rw [if_neg h4]
    by_cases h5 : isRightBracket c = true
    · rw [if_pos h5]
      have : c = ')' := by simpa [isRightBracket] using h5
      constructor
      · intro h; cases h
      · rintro ⟨⟨_, _, ⟨_, _, _, _, _, a, _⟩, _⟩, _⟩
        exact absurd this a
    rw [if_neg h5]
    by_cases h6 : (isLogicOp chars i chars.length).1 = true
    · rw [if_pos h6]
      constructor
      · intro h; cases h
      · rintro ⟨⟨_, _, ⟨_, _, _, _, _, _, a, b, c1⟩, d, _⟩, _⟩
        rcases hlog.1 h6 with h | h | h | h
        · exact absurd h a
        · exact absurd h b
        · exact absurd h c1
        · exact absurd h d
    rw [if_neg h6]
    have h7 := isLogicOp_false chars i chars.length (by simpa using h6)
    rw [h7]
    by_cases h8 : (isNumber L chars i).1 = true
    · rw [if_pos h8]
      constructor
      · intro h; cases h
      · rintro ⟨⟨_, _, _, _, a⟩, _⟩
        rw [hnum.1 h8] at a
        cases a
    rw [if_neg h8, hnum2 (by simpa using h8)]
    have h9 : isDigit c = false := by
      cases hd : isDigit c with
      | false => rfl
      | true => exact absurd (hnum.2 hd) h8
    rw [isArithmeticOp_mem] at h3
    have h4' : c ≠ '(' := by simpa [isLeftBracket] using h4
    have h5' : c ≠ ')' := by simpa [isRightBracket] using h5
    rw [hlog] at h6
    constructor
    · intro h
      injection h with h
      injection h with h
      refine ⟨⟨by simpa using h1, by simpa using h2, ⟨?_, ?_, ?_, ?_, h4', h5', ?_, ?_, ?_⟩, ?_, h9⟩, ?_⟩
      · exact fun e => h3 (Or.inl e)
      · exact fun e => h3 (Or.inr (Or.inl e))
      · exact fun e => h3 (Or.inr (Or.inr (Or.inl e)))
      · exact fun e => h3 (Or.inr (Or.inr (Or.inr e)))
      · exact fun e => h6 (Or.inl e)
      · exact fun e => h6 (Or.inr (Or.inl e))
      · exact fun e => h6 (Or.inr (Or.inr (Or.inl e)))
      · exact fun e => h6 (Or.inr (Or.inr (Or.inr e)))
      · exact h.symm
    · rintro ⟨_, h⟩
      rw [h]

theorem classify_value (paramTypes : String → Option ValueType) (w : List Char) :
    (classify paramTypes w).Value = String.mk w := by
  unfold classify
  split
  · rfl
  split
  · rfl
  split
  · rfl
  split <;> rfl

theorem Lexeme_value (L : FloatLib) (paramTypes : String → Option ValueType) (w : List Char)
    (t : Token) (h : Lexeme L paramTypes w t) : t.Value = String.mk w := by
  rcases h with ⟨_, _, _, _, _, h⟩ | ⟨_, _, _, h⟩ | ⟨_, h⟩ | ⟨_, h⟩ | ⟨_, h⟩ | ⟨_, _, h⟩
  · rw [h, classify_value]
  all_goals rw [h]

/-- Every token written by the scan is the token of a text. -/
theorem Scan_lexemes (L : FloatLib) (paramTypes : String → Option ValueType) (chars : List Char)
    (i : Nat) (tokens : List Token) (h : Scan L paramTypes chars i tokens) :
    ∀ t ∈ tokens, ∃ w, Lexeme L paramTypes w t := by
  induction h with
  | start => intro t ht; cases ht
  | step i i2 tokens ts _ _ hstep ih =>
    intro t ht
    rcases List.mem_append.1 ht with ht | ht
    · exact ih t ht
    · obtain ⟨w, _, _, ⟨h1, _⟩ | ⟨t2, h1, h2⟩⟩ := scanStep_spec L paramTypes chars i i2 ts hstep
      · rw [h1] at ht; cases ht
      · rw [h1, List.mem_singleton] at ht
        rw [ht]
        exact ⟨w, h2⟩

theorem tokenize_lexemes (L : FloatLib) (paramTypes : String → Option ValueType) (input : String)
    (tokens : List Token) (h : tokenize L input paramTypes = some (.ok tokens)) :
    ∀ t ∈ tokens, ∃ w, Lexeme L paramTypes w t := by
  obtain ⟨i, _, hs⟩ := (tokenize_ok_iff L paramTypes input tokens).1 h
  exact Scan_lexemes L paramTypes input.data i tokens hs

/-- The scan that arrives at a word writes the token of the word. -/
theorem scanStep_word (L : FloatLib) (paramTypes : String → Option ValueType)
    (chars : List Char) (i : Nat) (c : Char) (cs rest : List Char)
    (h : chars.drop i = (c :: cs) ++ rest) (hc : isAlpha c = true)
    (hcs : ∀ x ∈ cs, isIdentChar x = true)
    (hrest : ∀ x, rest.head? = some x → isIdentChar x = false) :
    scanStep L paramTypes chars chars.length i =
      some (.ok (i + (c :: cs).length, [classify paramTypes (c :: cs)])) := by
  obtain ⟨hlt, hget, hd1⟩ := drop_facts chars i c (cs ++ rest) h
  obtain ⟨_, htake⟩ := drop_append_facts chars i (c :: cs) rest h
  rw [scanStep, hget]
  simp only [alpha_not_space c hc, hc, if_true, Bool.false_eq_true, if_false]
  rw [hd1, identLoop_append cs rest (i + 1) hcs hrest]
  have e : i + 1 + cs.length = i + (c :: cs).length := by simp; omega
  rw [e, slice_eq, htake]

/-- The scan that arrives at a digit writes the number token of the longest
text from there on that the float parser accepts prefix by prefix. -/
theorem scanStep_number (L : FloatLib) (paramTypes : String → Option ValueType)
    (chars : List Char) (i : Nat) (d : Char) (ds rest : List Char)
    (h : chars.drop i = (d :: ds) ++ rest) (hd : isDigit d = true)
    (hpre : ∀ k, 0 < k → k ≤ (d :: ds).length →
      (L.ParseFloat (String.mk ((d :: ds).take k))).isSome = true)
    (hstop : ∀ x, rest.head? = some x → L.ParseFloat (String.mk ((d :: ds) ++ [x])) = none) :
    scanStep L paramTypes chars chars.length i =
      some (.ok (i + (d :: ds).length, [⟨NUMBER, String.mk (d :: ds), NUMBER_TYPE⟩])) := by
  obtain ⟨hlt, hget, _⟩ := drop_facts chars i d (ds ++ rest) h
  obtain ⟨_, htake⟩ := drop_append_facts chars i (d :: ds) rest h
  obtain ⟨h1, h2, h3, h4, h5, n1, n2, n3, n4⟩ := digit_facts d hd
  rw [scanStep, hget]
  have h6 : isLogicOp chars i chars.length = (false, i) := by
    rw [isLogicOp, if_pos hlt, hget]
    simp [n1, n2, n3, n4]
  have h7 : isNumber L chars i = (true, i + (d :: ds).length) := by
    have := isNumberLoop_run L chars i (d :: ds) rest h hstop (d :: ds).length 0 (by simp)
      (fun k hk1 hk2 => hpre k hk1 hk2)
    rw [Nat.add_zero] at this
    simp [isNumber, this]
  simp only [h1, h2, h3, h4, h5, h6, h7, if_true, Bool.false_eq_true, if_false]
  rw [slice_eq, htake]

/-- The scan that arrives at one of the four arithmetic signs writes it as an
arithmetic-operator token of its own. -/
theorem scanStep_arith (L : FloatLib) (paramTypes : String → Option ValueType)
    (chars : List Char) (i : Nat) (c : Char) (hget : chars[i]? = some c)
    (hc : isArithmeticOp c = true) :
    scanStep L paramTypes chars chars.length i =
      some (.ok (i + 1, [⟨ARITH_OP, String.singleton c, ""⟩])) := by
  have h1 : unicode.IsSpace c = false := by
    have : ¬ unicode.IsSpace c = true := by
      rw [IsSpace_iff]; rw [isArithmeticOp_iff] at hc; omega
    simpa using this
  have h2 : isAlpha c = false := by
    have : ¬ isAlpha c = true := by
      rw [isAlpha_iff]; rw [isArithmeticOp_iff] at hc; omega
    simpa using this
  rw [scanStep, hget]
  simp only [h1, h2, hc, if_true, Bool.false_eq_true, if_false]

theorem classify_eq (paramTypes : String → Option ValueType) (w : List Char) :
    classify paramTypes w =
      if String.mk w = "true" ∨ String.mk w = "false" then ⟨BOOL, String.mk w, BOOL_TYPE⟩
      else if String.mk w = "AND" ∨ String.mk w = "OR" then ⟨LOG_OP, String.mk w, ""⟩
      else if String.mk w = "exists" then ⟨EXISTS_FUNC, String.mk w, ""⟩
      else ⟨IDENT, String.mk w, (paramTypes (String.mk w)).getD UNKNOWN_TYPE⟩ := by
  unfold classify isBool isOrAnd isExistsFunc
  by_cases h1 : String.mk w = "true" ∨ String.mk w = "false"
  · rw [if_pos h1, if_pos (by simpa using h1)]
  rw [if_neg h1, if_neg (by simpa using h1)]
  by_cases h2 : String.mk w = "AND" ∨ String.mk w = "OR"
  · rw [if_pos h2, if_pos (by simpa [or_comm] using h2)]
  rw [if_neg h2, if_neg (by simpa [or_comm] using h2)]
  by_cases h3 : String.mk w = "exists"
  · rw [if_pos h3, if_pos (by simpa using h3)]
  rw [if_neg h3, if_neg (by simpa using h3)]
  cases paramTypes (String.mk w) <;> rfl

/-- C21: when the scan of `tokenize` arrives at a letter, the maximal run of
ASCII letters, digits and underscores that starts there becomes exactly one
token, which stands in the returned sequence right after the tokens written
before; it is classified in this priority: BOOL with value type Bool for
`true` and `false`, LOG_OP for `AND` and `OR`, EXISTS_FUNC for `exists`, and
otherwise IDENT with the type declared for that exact name or Unknown.  The
comparison is by the exact text, and the keywords do not consult the table of
declared types. -/
theorem C21_word_tokens (L : FloatLib) (paramTypes : String → Option ValueType) (input : String)
    (i : Nat) (tokens : List Token) (c : Char) (cs rest : List Char)
    (hscan : Scan L paramTypes input.data i tokens)
    (hrun : input.data.drop i = (c :: cs) ++ rest) (hc : isAlpha c = true)
    (hcs : ∀ x ∈ cs, isIdentChar x = true)
    (hmax : ∀ x, rest.head? = some x → isIdentChar x = false) :
    Scan L paramTypes input.data (i + (c :: cs).length)
      (tokens ++ [classify paramTypes (c :: cs)]) ∧
    (∀ res, tokenize L input paramTypes = some (.ok res) →
      ∃ more, res = tokens ++ [classify paramTypes (c :: cs)] ++ more) ∧
    classify paramTypes (c :: cs) =
      (if String.mk (c :: cs) = "true" ∨ String.mk (c :: cs) = "false" then
        ⟨BOOL, String.mk (c :: cs), BOOL_TYPE⟩
      else if String.mk (c :: cs) = "AND" ∨ String.mk (c :: cs) = "OR" then
        ⟨LOG_OP, String.mk (c :: cs), ""⟩
      else if String.mk (c :: cs) = "exists" then ⟨EXISTS_FUNC, String.mk (c :: cs), ""⟩
      else ⟨IDENT, String.mk (c :: cs), (paramTypes (String.mk (c :: cs))).getD UNKNOWN_TYPE⟩) ∧
    (∀ types : String → Option ValueType,
      classify types "true".data = ⟨BOOL, "true", BOOL_TYPE⟩ ∧
      classify types "false".data = ⟨BOOL, "false", BOOL_TYPE⟩ ∧
      classify types "AND".data = ⟨LOG_OP, "AND", ""⟩ ∧
      classify types "OR".data = ⟨LOG_OP, "OR", ""⟩ ∧
      classify types "exists".data = ⟨EXISTS_FUNC, "exists", ""⟩ ∧
      classify types "True".data = ⟨IDENT, "True", (types "True").getD UNKNOWN_TYPE⟩ ∧
      classify types "and".data = ⟨IDENT, "and", (types "and").getD UNKNOWN_TYPE⟩ ∧
      classify types "Exists".data = ⟨IDENT, "Exists", (types "Exists").getD UNKNOWN_TYPE⟩) := by
  have hlt : i < input.data.length := (drop_facts input.data i c (cs ++ rest) hrun).1
  have hstep := scanStep_word L paramTypes input.data i c cs rest hrun hc hcs hmax
  have hs2 := Scan.step i _ tokens _ hscan hlt hstep
  refine ⟨hs2, fun res hres => Scan_opens L paramTypes input _ _ res hs2 hres,
    classify_eq paramTypes (c :: cs), ?_⟩
  intro types
  refine ⟨?_, ?_, ?_, ?_, ?_, ?_, ?_, ?_⟩ <;> rw [classify_eq] <;> rfl

theorem decimalLib_digitProbe : digitProbe decimalLib := by
  intro c
  show (decimal.parse (String.mk [c])).isSome = isDigit c
  unfold decimal.parse
  simp only [List.head?_cons, Option.some.injEq, List.tail_cons]
  by_cases h1 : c = '-'
  · subst h1; decide
  by_cases h2 : c = '+'
  · subst h2; decide
  have hs : ¬ (c = '-' ∨ c = '+') := fun h => h.elim h1 h2
  simp only [if_neg hs]
  by_cases h3 : isDigit c = true
  · have e1 : List.takeWhile isDigit [c] = [c] := by
      rw [List.takeWhile_cons, if_pos h3]; rfl
    have e2 : List.dropWhile isDigit [c] = [] := by
      rw [List.dropWhile_cons, if_pos h3]; rfl
    rw [e1, e2, h3]
    simp
  · have h3' : isDigit c = false := by simpa using h3
    have e1 : List.takeWhile isDigit [c] = [] := by
      rw [List.takeWhile_cons, if_neg h3]
    have e2 : List.dropWhile isDigit [c] = [c] := by
      rw [List.dropWhile_cons, if_neg h3]
    rw [e1, e2, h3']
    simp

/-- C22: `tokenize` always returns; it returns an error, hence no tokens,
exactly when the left-to-right scan arrives at a character that cannot start a
token (not a white space, not an ASCII letter, not one of `+ - * / ( ) > < =`,
not a `!` immediately followed by `=`, not a decimal digit); the error is
InvalidTokenError with the zero-based index of that character, and the scan
arrives at one such character at most.  In particular the scan stops at a `!`
that is not followed by `=`, at a point and at an underscore. -/
theorem C22_invalid_token (L : FloatLib) (hL : digitProbe L) (input : String)
    (paramTypes : String → Option ValueType) :
    (∃ r, tokenize L input paramTypes = some r) ∧
    (∀ err, tokenize L input paramTypes = some (.error err) ↔
      ∃ i tokens, Scan L paramTypes input.data i tokens ∧ cannotStart input.data i ∧
        err = .InvalidTokenError i) ∧
    (∀ i j t1 t2, Scan L paramTypes input.data i t1 → cannotStart input.data i →
      Scan L paramTypes input.data j t2 → cannotStart input.data j → i = j) ∧
    (∀ i tokens, Scan L paramTypes input.data i tokens →
      (input.data[i]? = some '!' ∧ input.data[i + 1]? ≠ some '=') ∨
        input.data[i]? = some '.' ∨ input.data[i]? = some '_' →
      tokenize L input paramTypes = some (.error (.InvalidTokenError i))) := by
  have key : ∀ err, tokenize L input paramTypes = some (.error err) ↔
      ∃ i tokens, Scan L paramTypes input.data i tokens ∧ cannotStart input.data i ∧
        err = .InvalidTokenError i := by
    intro err
    rw [tokenize_error_iff]
    constructor
    · rintro ⟨i, tokens, hs, _, hstep⟩
      exact ⟨i, tokens, hs, (scanStep_error_iff L hL paramTypes input.data i err).1 hstep⟩
    · rintro ⟨i, tokens, hs, hc, he⟩
      obtain ⟨c, hget, _⟩ := hc
      exact ⟨i, tokens, hs, (getElem_drop input.data i c hget).1,
        (scanStep_error_iff L hL paramTypes input.data i err).2 ⟨⟨c, hget, ‹_›⟩, he⟩⟩
  refine ⟨tokenize_total L input paramTypes, key, ?_, ?_⟩
  · intro i j t1 t2 h1 c1 h2 c2
    have e1 := (key _).2 ⟨i, t1, h1, c1, rfl⟩
    have e2 := (key _).2 ⟨j, t2, h2, c2, rfl⟩
    rw [e1] at e2
    injection e2 with e2
    injection e2 with e2
    injection e2
  · intro i tokens hs hc
    refine (key _).2 ⟨i, tokens, hs, ?_, rfl⟩
    rcases hc with ⟨h1, h2⟩ | h1 | h1
    · exact ⟨'!', h1, by decide, by decide, by decide, fun h => h2 h.2, by decide⟩
    · exact ⟨'.', h1, by decide, by decide, by decide, fun h => (by cases h.1), by decide⟩
    · exact ⟨'_', h1, by decide, by decide, by decide, fun h => (by cases h.1), by decide⟩

theorem C22_invalid_token_witness :
    digitProbe decimalLib ∧
    tokenize decimalLib "a ! b" (fun _ => none) = some (.error (.InvalidTokenError 2)) :=
  ⟨decimalLib_digitProbe,
    (C22_invalid_token decimalLib decimalLib_digitProbe "a ! b" (fun _ => none)).2.2.2 2
      [⟨IDENT, "a", UNKNOWN_TYPE⟩]
      (Scan.step 1 2 [⟨IDENT, "a", UNKNOWN_TYPE⟩] []
        (Scan.step 0 1 [] [⟨IDENT, "a", UNKNOWN_TYPE⟩] Scan.start (by decide) (by decide!))
        (by decide) (by decide!))
      (Or.inl ⟨by decide, by decide⟩)⟩

theorem C21_word_tokens_witness :
    tokenize decimalLib "exists (s2001)" testTypes =
      some (.ok [⟨EXISTS_FUNC, "exists", ""⟩, ⟨LBR, "(", ""⟩, ⟨IDENT, "s2001", NUMBER_TYPE⟩,
        ⟨RBR, ")", ""⟩]) ∧
    (∃ more, [⟨EXISTS_FUNC, "exists", ""⟩, ⟨LBR, "(", ""⟩, ⟨IDENT, "s2001", NUMBER_TYPE⟩,
        ⟨RBR, ")", ""⟩] =
      [⟨EXISTS_FUNC, "exists", ""⟩, ⟨LBR, "(", ""⟩] ++ [classify testTypes ('s' :: "2001".data)] ++
        more) :=
  ⟨by decide!,
    (C21_word_tokens decimalLib testTypes "exists (s2001)" 8
      [⟨EXISTS_FUNC, "exists", ""⟩, ⟨LBR, "(", ""⟩] 's' "2001".data [')']
      (Scan.step 7 8 [⟨EXISTS_FUNC, "exists", ""⟩] [⟨LBR, "(", ""⟩]
        (Scan.step 6 7 [⟨EXISTS_FUNC, "exists", ""⟩] []
          (Scan.step 0 6 [] [⟨EXISTS_FUNC, "exists", ""⟩] Scan.start (by decide) (by decide!))
          (by decide) (by decide!)) (by decide) (by decide!))
      (by decide) (by decide) (by decide) (by decide)).2.1
      [⟨EXISTS_FUNC, "exists", ""⟩, ⟨LBR, "(", ""⟩, ⟨IDENT, "s2001", NUMBER_TYPE⟩, ⟨RBR, ")", ""⟩]
      (by decide!)⟩

/-- C23, counterexample: the float parser accepts `1e5` and `2.5e3`, but
neither is tokenized as one NUMBER token: the prefixes `1e` and `2.5e` are not
floats, so the number token ends before the letter and an identifier
follows. -/
theorem C23_counterexample :
    scientificLib.ParseFloat "1e5" = some ⟨100000, 1⟩ ∧
    scientificLib.ParseFloat "2.5e3" = some ⟨25000, 10⟩ ∧
    scientificLib.ParseFloat "1e" = none ∧
    tokenize scientificLib "1e5" (fun _ => none) =
      some (.ok [⟨NUMBER, "1", NUMBER_TYPE⟩, ⟨IDENT, "e5", UNKNOWN_TYPE⟩]) ∧
    tokenize scientificLib "2.5e3" (fun _ => none) =
      some (.ok [⟨NUMBER, "2.5", NUMBER_TYPE⟩, ⟨IDENT, "e3", UNKNOWN_TYPE⟩]) ∧
    tokenize scientificLib "2.45" (fun _ => none) = some (.ok [⟨NUMBER, "2.45", NUMBER_TYPE⟩]) := by
  refine ⟨?_, ?_, ?_, ?_, ?_, ?_⟩
  · show decimal.parseSci "1e5" = some ⟨100000, 1⟩
    decide!
  · show decimal.parseSci "2.5e3" = some ⟨25000, 10⟩
    decide!
  · show decimal.parseSci "1e" = none
    decide!
  · decide!
  · decide!
  · decide!

/-- C23, amended: when the scan arrives at a digit, the number token is the
run of characters from there on that is extended as long as the text read so
far is accepted by the float parser: if every non-empty prefix of the run is
accepted and the run with the next character is not, the run becomes one
NUMBER token with that text and value type Number; conversely the text of
every NUMBER token that `tokenize` returns is accepted prefix by prefix.  So
`2.45` is a single NUMBER token whenever `2`, `2.`, `2.4` and `2.45` are
floats. -/
theorem C23_number_tokens_amended (L : FloatLib) (paramTypes : String → Option ValueType)
    (input : String) (i : Nat) (tokens : List Token) (d : Char) (ds rest : List Char)
    (hscan : Scan L paramTypes input.data i tokens)
    (hrun : input.data.drop i = (d :: ds) ++ rest) (hd : isDigit d = true)
    (hpre : ∀ k, 0 < k → k ≤ (d :: ds).length →
      (L.ParseFloat (String.mk ((d :: ds).take k))).isSome = true)
    (hstop : ∀ x, rest.head? = some x → L.ParseFloat (String.mk ((d :: ds) ++ [x])) = none) :
    Scan L paramTypes input.data (i + (d :: ds).length)
      (tokens ++ [⟨NUMBER, String.mk (d :: ds), NUMBER_TYPE⟩]) ∧
    (∀ res, tokenize L input paramTypes = some (.ok res) →
      ∃ more, res = tokens ++ [⟨NUMBER, String.mk (d :: ds), NUMBER_TYPE⟩] ++ more) ∧
    (∀ res, tokenize L input paramTypes = some (.ok res) → ∀ t ∈ res, t.Type_ = NUMBER →
      t.Value.data ≠ [] ∧ t.ValueType = NUMBER_TYPE ∧
      ∀ k, 0 < k → k ≤ t.Value.data.length →
        (L.ParseFloat (String.mk (t.Value.data.take k))).isSome = true) ∧
    ((L.ParseFloat "2").isSome = true → (L.ParseFloat "2.").isSome = true →
      (L.ParseFloat "2.4").isSome = true → (L.ParseFloat "2.45").isSome = true →
      tokenize L "2.45" paramTypes = some (.ok [⟨NUMBER, "2.45", NUMBER_TYPE⟩])) := by
  have hlt : i < input.data.length := (drop_facts input.data i d (ds ++ rest) hrun).1
  have hstep := scanStep_number L paramTypes input.data i d ds rest hrun hd hpre hstop
  have hs2 := Scan.step i _ tokens _ hscan hlt hstep
  refine ⟨hs2, fun res hres => Scan_opens L paramTypes input _ _ res hs2 hres, ?_, ?_⟩
  · intro res hres t ht hty
    obtain ⟨w, hw⟩ := tokenize_lexemes L paramTypes input res hres t ht
    rcases hw with ⟨_, _, _, _, _, h⟩ | ⟨_, _, _, h⟩ | ⟨_, h⟩ | ⟨_, h⟩ | ⟨_, h⟩ | ⟨h1, h2, h⟩
    · rcases classify_type paramTypes w with h3 | h3 | h3 | h3 <;>
        (rw [h, h3] at hty; cases hty)
    · rw [h] at hty; cases hty
    · rw [h] at hty; cases hty
    · rw [h] at hty; cases hty
    · rw [h] at hty; cases hty
    · rw [h]
      exact ⟨h1, rfl, h2⟩
  · intro h1 h2 h3 h4
    have hstep2 := scanStep_number L paramTypes "2.45".data 0 '2' ".45".data [] rfl (by decide)
      (by
        intro k hk1 hk2
        have hk : k = 1 ∨ k = 2 ∨ k = 3 ∨ k = 4 := by
          simp only [List.length_cons, String.data] at hk2
          have : k ≤ 4 := hk2
          omega
        rcases hk with rfl | rfl | rfl | rfl
        · exact h1
        · exact h2
        · exact h3
        · exact h4)
      (fun x hx => by cases hx)
    exact (tokenize_ok_iff L paramTypes "2.45" _).2
      ⟨4, by decide, Scan.step 0 4 [] _ Scan.start (by decide) hstep2⟩

theorem C23_number_tokens_amended_witness :
    tokenize scientificLib "s2001 > 2.45" testTypes =
      some (.ok [⟨IDENT, "s2001", NUMBER_TYPE⟩, ⟨COMP_OP, ">", ""⟩,
        ⟨NUMBER, "2.45", NUMBER_TYPE⟩]) ∧
    (∃ more : List Token,
      ([⟨IDENT, "s2001", NUMBER_TYPE⟩, ⟨COMP_OP, ">", ""⟩, ⟨NUMBER, "2.45", NUMBER_TYPE⟩] :
        List Token) =
      [⟨IDENT, "s2001", NUMBER_TYPE⟩, ⟨COMP_OP, ">", ""⟩] ++
        [⟨NUMBER, String.mk ('2' :: ".45".data), NUMBER_TYPE⟩] ++ more) :=
  ⟨by decide!,
    (C23_number_tokens_amended scientificLib testTypes "s2001 > 2.45" 8
      [⟨IDENT, "s2001", NUMBER_TYPE⟩, ⟨COMP_OP, ">", ""⟩] '2' ".45".data []
      (Scan.step 7 8 [⟨IDENT, "s2001", NUMBER_TYPE⟩, ⟨COMP_OP, ">", ""⟩] []
        (Scan.step 6 7 [⟨IDENT, "s2001", NUMBER_TYPE⟩] [⟨COMP_OP, ">", ""⟩]
          (Scan.step 5 6 [⟨IDENT, "s2001", NUMBER_TYPE⟩] []
            (Scan.step 0 5 [] [⟨IDENT, "s2001", NUMBER_TYPE⟩] Scan.start (by decide) (by decide!))
            (by decide) (by decide!)) (by decide) (by decide!)) (by decide) (by decide!))
      (by decide) (by decide)
      (by
        intro k hk1 hk2
        have hk : k = 1 ∨ k = 2 ∨ k = 3 ∨ k = 4 := by
          have : k ≤ 4 := hk2
          omega
        rcases hk with rfl | rfl | rfl | rfl
        · show (decimal.parseSci "2").isSome = true
          decide!
        · show (decimal.parseSci "2.").isSome = true
          decide!
        · show (decimal.parseSci "2.4").isSome = true
          decide!
        · show (decimal.parseSci "2.45").isSome = true
          decide!)
      (fun x hx => by cases hx)).2.1
      [⟨IDENT, "s2001", NUMBER_TYPE⟩, ⟨COMP_OP, ">", ""⟩, ⟨NUMBER, "2.45", NUMBER_TYPE⟩]
      (by decide!)⟩

theorem identChar_not_space (x : Char) (h : isIdentChar x = true) : unicode.IsSpace x = false := by
  simp only [isIdentChar, Bool.or_eq_true, decide_eq_true_eq] at h
  rcases h with (h | h) | h
  · exact alpha_not_space x h
  · exact (digit_facts x h).1
  · rw [h]; decide

theorem arith_not_space (c : Char) (hc : isArithmeticOp c = true) : unicode.IsSpace c = false := by
  have : ¬ unicode.IsSpace c = true := by
    rw [IsSpace_iff]; rw [isArithmeticOp_iff] at hc; omega
  simpa using this

theorem space_not_floatChar (x : Char) (h : unicode.IsSpace x = true) : isFloatChar x = false := by
  have h1 : ¬ isDigit x = true := by rw [isDigit_iff]; rw [IsSpace_iff] at h; omega
  have h2 : ¬ isAlpha x = true := by rw [isAlpha_iff]; rw [IsSpace_iff] at h; omega
  have e1 : ('.' : Char).toNat = 46 := rfl
  have e2 : ('+' : Char).toNat = 43 := rfl
  have e3 : ('-' : Char).toNat = 45 := rfl
  have e4 : ('_' : Char).toNat = 95 := rfl
  have h3 : x ≠ '.' := by rw [ne_eq, char_eq_iff, e1]; rw [IsSpace_iff] at h; omega
  have h4 : x ≠ '+' := by rw [ne_eq, char_eq_iff, e2]; rw [IsSpace_iff] at h; omega
  have h5 : x ≠ '-' := by rw [ne_eq, char_eq_iff, e3]; rw [IsSpace_iff] at h; omega
  have h6 : x ≠ '_' := by rw [ne_eq, char_eq_iff, e4]; rw [IsSpace_iff] at h; omega
  simp [isFloatChar, h1, h2, h3, h4, h5, h6]

theorem compTexts_chars (w : List Char) (h : String.mk w ∈ compTexts) :
    w = ['>'] ∨ w = ['<'] ∨ w = ['='] ∨ w = ['>', '='] ∨ w = ['<', '='] ∨ w = ['!', '='] := by
  simp only [compTexts, List.mem_cons, List.mem_singleton, List.not_mem_nil, or_false] at h
  have e : ∀ s : String, String.mk w = s → w = s.data := fun s hs => by rw [← hs]
  rcases h with h | h | h | h | h | h
  · exact Or.inl (e _ h)
  · exact Or.inr (Or.inl (e _ h))
  · exact Or.inr (Or.inr (Or.inl (e _ h)))
  · exact Or.inr (Or.inr (Or.inr (Or.inl (e _ h))))
  · exact Or.inr (Or.inr (Or.inr (Or.inr (Or.inl (e _ h)))))
  · exact Or.inr (Or.inr (Or.inr (Or.inr (Or.inr (e _ h)))))

/-- The text of a token has no white space. -/
theorem Lexeme_no_space (L : FloatLib) (hL : floatAlphabet L)
    (paramTypes : String → Option ValueType) (w : List Char) (t : Token)
    (h : Lexeme L paramTypes w t) : w ≠ [] ∧ ∀ x ∈ w, unicode.IsSpace x = false := by
  rcases h with ⟨c, cs, h1, h2, h3, _⟩ | ⟨c, h1, h2, _⟩ | ⟨h1, _⟩ | ⟨h1, _⟩ | ⟨h1, _⟩ | ⟨h1, h2, _⟩
  · rw [h1]
    refine ⟨by simp, fun x hx => ?_⟩
    rcases List.mem_cons.1 hx with hx | hx
    · rw [hx]; exact alpha_not_space c h2
    · exact identChar_not_space x (h3 x hx)
  · rw [h1]
    refine ⟨by simp, fun x hx => ?_⟩
    rw [List.mem_singleton] at hx
    rw [hx]; exact arith_not_space c h2
  · rw [h1]; exact ⟨by simp, by decide⟩
  · rw [h1]; exact ⟨by simp, by decide⟩
  · rcases compTexts_chars w h1 with h | h | h | h | h | h <;> rw [h] <;>
      exact ⟨by simp, by decide⟩
  · refine ⟨h1, fun x hx => ?_⟩
    have hw := h2 w.length (List.length_pos.2 h1) (Nat.le_refl _)
    rw [List.take_length] at hw
    cases hsp : unicode.IsSpace x with
    | false => rfl
    | true =>
      rw [hL (String.mk w) x hx (space_not_floatChar x hsp)] at hw
      cases hw

/-- The texts of the tokens written so far, put together, are the characters
read so far without the white space. -/
theorem Scan_texts (L : FloatLib) (hL : floatAlphabet L) (paramTypes : String → Option ValueType)
    (chars : List Char) (i : Nat) (tokens : List Token) (h : Scan L paramTypes chars i tokens) :
    (tokens.map (fun t => t.Value.data)).flatten =
      (chars.take i).filter (fun c => !unicode.IsSpace c) := by
  induction h with
  | start => rfl
  | step i i2 tokens ts _ _ hstep ih =>
    obtain ⟨w, h1, h2, h3⟩ := scanStep_spec L paramTypes chars i i2 ts hstep
    have htake : chars.take i2 = chars.take i ++ w := by
      rw [h2, List.take_add, h1, List.take_left']
      rfl
    rw [htake, List.filter_append, List.map_append, List.flatten_append, ih]
    congr 1
    rcases h3 with ⟨h4, c, h5, h6⟩ | ⟨t, h4, h5⟩
    · rw [h4, h5]
      simp [h6]
    · rw [h4, List.map_singleton, List.flatten_singleton, Lexeme_value L paramTypes w t h5]
      symm
      rw [List.filter_eq_self]
      intro x hx
      rw [(Lexeme_no_space L hL paramTypes w t h5).2 x hx]
      rfl

/-- C30: whenever `tokenize` succeeds on an expression, the texts of the
returned tokens, concatenated in order, are exactly the expression with all
its white-space characters removed; every token has a non-empty text without
white space. -/
theorem C30_tokenize_lossless (L : FloatLib) (hL : floatAlphabet L) (input : String)
    (paramTypes : String → Option ValueType) (tokens : List Token)
    (h : tokenize L input paramTypes = some (.ok tokens)) :
    String.join (tokens.map Token.Value) =
      String.mk (input.data.filter (fun c => !unicode.IsSpace c)) ∧
    (tokens.map (fun t => t.Value.data)).flatten =
      input.data.filter (fun c => !unicode.IsSpace c) ∧
    (∀ t ∈ tokens, t.Value.data ≠ [] ∧ ∀ x ∈ t.Value.data, unicode.IsSpace x = false) := by
  obtain ⟨i, hi, hs⟩ := (tokenize_ok_iff L paramTypes input tokens).1 h
  have key := Scan_texts L hL paramTypes input.data i tokens hs
  rw [List.take_of_length_le hi] at key
  refine ⟨?_, key, ?_⟩
  · rw [String.join_eq, List.map_map]
    exact congrArg String.mk key
  · intro t ht
    obtain ⟨w, hw⟩ := Scan_lexemes L paramTypes input.data i tokens hs t ht
    rw [Lexeme_value L paramTypes w t hw]
    exact Lexeme_no_space L hL paramTypes w t hw

theorem C30_tokenize_lossless_witness :
    floatAlphabet decimalLib ∧
    tokenize decimalLib " s2001 >= (0.5 +s6004) " testTypes =
      some (.ok [⟨IDENT, "s2001", NUMBER_TYPE⟩, ⟨COMP_OP, ">=", ""⟩, ⟨LBR, "(", ""⟩,
        ⟨NUMBER, "0.5", NUMBER_TYPE⟩, ⟨ARITH_OP, "+", ""⟩, ⟨IDENT, "s6004", NUMBER_TYPE⟩,
        ⟨RBR, ")", ""⟩]) ∧
    String.join (List.map Token.Value [⟨IDENT, "s2001", NUMBER_TYPE⟩, ⟨COMP_OP, ">=", ""⟩,
        ⟨LBR, "(", ""⟩, ⟨NUMBER, "0.5", NUMBER_TYPE⟩, ⟨ARITH_OP, "+", ""⟩,
        ⟨IDENT, "s6004", NUMBER_TYPE⟩, ⟨RBR, ")", ""⟩]) =
      String.mk (" s2001 >= (0.5 +s6004) ".data.filter (fun c => !unicode.IsSpace c)) :=
  ⟨decimalLib_floatAlphabet, by decide!,
    (C30_tokenize_lossless decimalLib decimalLib_floatAlphabet " s2001 >= (0.5 +s6004) " testTypes
      _ (by decide!)).1⟩

theorem signsPlaced_cons_of_ne (b : Bool) (t : Token) (rest : List Token)
    (h : t.Type_ ≠ ARITH_OP) : signsPlaced b (t :: rest) = signsPlaced (opensOperand t) rest := by
  simp [signsPlaced, h]

/-- In a phrase of the grammar no arithmetic operator stands first or directly
after an operator or an opening bracket. -/
theorem Derives_signsPlaced (rawSet : RawMessageSet) (X : NT) (s c : List Token)
    (h : Derives rawSet X s c) :
    ((X = NT.ArithRest ∨ X = NT.LogicRest) →
      ∀ rest, signsPlaced false (s ++ rest) = signsPlaced false rest) ∧
    ((X = NT.ArithTerm ∨ X = NT.ArithExp ∨ X = NT.LogicTerm ∨ X = NT.LogicExp) →
      ∀ b rest, signsPlaced b (s ++ rest) = signsPlaced false rest) := by
  induction h with
  | num t ht =>
    refine ⟨by simp, fun _ b rest => ?_⟩
    rw [List.singleton_append, signsPlaced_cons_of_ne b t rest (by rw [ht]; decide)]
    simp [opensOperand, ht]
  | ident t ht =>
    refine ⟨by simp, fun _ b rest => ?_⟩
    rw [List.singleton_append, signsPlaced_cons_of_ne b t rest (by rw [ht]; decide)]
    simp [opensOperand, ht]
  | arithBr l r e c hl _ hr ih =>
    refine ⟨by simp, fun _ b rest => ?_⟩
    simp only [List.cons_append, List.append_assoc, List.singleton_append, List.nil_append]
    rw [signsPlaced_cons_of_ne b l _ (by rw [hl]; decide), ih.2 (by simp),
      signsPlaced_cons_of_ne _ r rest (by rw [hr]; decide)]
    simp [opensOperand, hr]
  | arithNil => exact ⟨fun _ rest => rfl, by simp⟩
  | arithMore o t ct e ce ho _ _ iht ihe =>
    refine ⟨fun _ rest => ?_, by simp⟩
    simp only [List.cons_append, List.append_assoc]
    rw [signsPlaced]
    simp only [Bool.not_false, Bool.or_true, Bool.true_and]
    rw [iht.2 (by simp), ihe.1 (by simp)]
  | arithExp t ct e ce _ _ iht ihe =>
    refine ⟨by simp, fun _ b rest => ?_⟩
    rw [List.append_assoc, iht.2 (by simp), ihe.1 (by simp)]
  | bool t ht =>
    refine ⟨by simp, fun _ b rest => ?_⟩
    rw [List.singleton_append, signsPlaced_cons_of_ne b t rest (by rw [ht]; decide)]
    simp [opensOperand, ht]
  | existsCall k l x r hk hl hx hr =>
    refine ⟨by simp, fun _ b rest => ?_⟩
    show signsPlaced b (k :: l :: x :: r :: rest) = _
    rw [signsPlaced_cons_of_ne b k _ (by rw [hk]; decide),
      signsPlaced_cons_of_ne _ l _ (by rw [hl]; decide),
      signsPlaced_cons_of_ne _ x _ (by rw [hx]; decide),
      signsPlaced_cons_of_ne _ r _ (by rw [hr]; decide)]
    simp [opensOperand, hr]
  | arith e c _ ih => exact ⟨by simp, fun _ b rest => ih.2 (by simp) b rest⟩
  | logicBr l r e c hl _ hr ih =>
    refine ⟨by simp, fun _ b rest => ?_⟩
    simp only [List.cons_append, List.append_assoc, List.singleton_append, List.nil_append]
    rw [signsPlaced_cons_of_ne b l _ (by rw [hl]; decide), ih.2 (by simp),
      signsPlaced_cons_of_ne _ r rest (by rw [hr]; decide)]
    simp [opensOperand, hr]
  | logicNil => exact ⟨fun _ rest => rfl, by simp⟩
  | logicMore o t ct e ce ho _ _ iht ihe =>
    refine ⟨fun _ rest => ?_, by simp⟩
    simp only [List.cons_append, List.append_assoc]
    rw [signsPlaced_cons_of_ne _ o _ (by rcases ho with h | h <;> rw [h] <;> decide),
      iht.2 (by simp), ihe.1 (by simp)]
  | logicExp t ct e ce _ _ iht ihe =>
    refine ⟨by simp, fun _ b rest => ?_⟩
    rw [List.append_assoc, iht.2 (by simp), ihe.1 (by simp)]

theorem signsPlaced_false_of_pair (pre : List Token) (a o : Token) (post : List Token)
    (ho : o.Type_ = ARITH_OP)
    (ha : a.Type_ = ARITH_OP ∨ a.Type_ = COMP_OP ∨ a.Type_ = LOG_OP ∨ a.Type_ = LBR) :
    ∀ b, signsPlaced b (pre ++ a :: o :: post) = false := by
  induction pre with
  | nil =>
    intro b
    have h1 : opensOperand a = true := by
      rcases ha with h | h | h | h <;> simp [opensOperand, h]
    simp [signsPlaced, h1, ho]
  | cons p pre ih =>
    intro b
    rw [List.cons_append, signsPlaced, ih, Bool.and_false]

theorem signMisplaced_not_placed (tokens : List Token) (h : signMisplaced tokens) :
    signsPlaced true tokens = false := by
  rcases h with ⟨o, post, h1, h2⟩ | ⟨pre, a, o, post, h1, h2, h3⟩
  · rw [h1]
    simp [signsPlaced, h2]
  · rw [h1]
    exact signsPlaced_false_of_pair pre a o post h2 h3 true

theorem start_of_signMisplaced (L : FloatLib) (tokens : List Token) (h : signMisplaced tokens)
    (rawSet : RawMessageSet) :
    (newParser tokens rawSet).start L = some (.error (.ParseError errSyntax)) := by
  apply start_syntax_error_of_not_derives
  intro c hd
  have h1 := (Derives_signsPlaced rawSet _ _ _ hd).2 (by simp) true []
  rw [List.append_nil, signMisplaced_not_placed tokens h] at h1
  cases h1

/-- `Calculate` on one enabled formula that the grammar parser rejects for the
first row returns Black, the nil slice and the syntax error. -/
theorem Calculate_single_rejected (L : FloatLib) (paramTypes : String → Option ValueType)
    (f : Formula) (rawSets : List RawMessageSet) (tokens : List Token)
    (hen : f.IsEnable = true) (ht : tokenize L f.Expression paramTypes = some (.ok tokens))
    (hs : ∀ rawSet, (newParser tokens rawSet).start L = some (.error (.ParseError errSyntax))) :
    Calculate L [f] rawSets paramTypes =
      some ⟨BlackColor, none, some (.ParseError errSyntax)⟩ := by
  obtain ⟨r, rest, hrows⟩ : ∃ r rest, (if rawSets.length = 0 then [nilRawSet] else rawSets) =
      r :: rest := by
    cases rawSets with
    | nil => exact ⟨nilRawSet, [], rfl⟩
    | cons r rest => exact ⟨r, rest, rfl⟩
  simp only [Calculate, getTokenizedFormulas, getTokenizedFormulasLoop, hen, Bool.not_true,
    Bool.false_eq_true, if_false, ht, List.nil_append, hrows, rowsLoop, formulasLoop, hs]

theorem sign_not_identChar (c : Char) (h : c = '+' ∨ c = '-') :
    isAlpha c = false ∧ isIdentChar c = false := by
  rcases h with h | h <;> rw [h] <;> exact ⟨by decide, by decide⟩

/-- The text of a number token starts with a digit and has no sign; a token
whose text has a sign is the arithmetic-operator token of that sign. -/
theorem Lexeme_signs (L : FloatLib) (hd : digitProbe L) (hs : signProbe L)
    (paramTypes : String → Option ValueType) (w : List Char) (t : Token)
    (h : Lexeme L paramTypes w t) :
    (t.Type_ = NUMBER → (∃ d ds, t.Value.data = d :: ds ∧ isDigit d = true) ∧
      '+' ∉ t.Value.data ∧ '-' ∉ t.Value.data) ∧
    (('+' ∈ t.Value.data ∨ '-' ∈ t.Value.data) →
      t = ⟨ARITH_OP, "+", ""⟩ ∨ t = ⟨ARITH_OP, "-", ""⟩) := by
  have hval := Lexeme_value L paramTypes w t h
  have hmem : ∀ c, c = '+' ∨ c = '-' → (c ∈ t.Value.data ↔ c ∈ w) := by
    intro c _
    rw [hval]
  have hnum : (∀ k, 0 < k → k ≤ w.length →
      (L.ParseFloat (String.mk (w.take k))).isSome = true) →
      ∀ c, c = '+' ∨ c = '-' → c ∉ w := by
    intro hpre c hc hin
    obtain ⟨pre, post, hw⟩ := List.append_of_mem hin
    have h1 := hpre (pre.length + 1) (by omega) (by rw [hw]; simp)
    have h2 : w.take (pre.length + 1) = pre ++ [c] := by
      rw [hw, List.take_append_eq_append_take]
      simp
    rw [h2, hs pre c hc] at h1
    cases h1
  rcases h with ⟨c, cs, h1, h2, h3, h4⟩ | ⟨c, h1, h2, h4⟩ | ⟨h1, h4⟩ | ⟨h1, h4⟩ | ⟨h1, h4⟩ |
      ⟨h1, h2, h4⟩
  · have hw : ∀ x, x = '+' ∨ x = '-' → x ∉ w := by
      intro x hx hin
      rw [h1] at hin
      rcases List.mem_cons.1 hin with e | e
      · subst e
        rw [(sign_not_identChar x hx).1] at h2
        cases h2
      · have := h3 x e
        rw [(sign_not_identChar x hx).2] at this
        cases this
    refine ⟨fun hty => ?_, fun hin => ?_⟩
    · rcases classify_type paramTypes w with h5 | h5 | h5 | h5 <;>
        (rw [h4, h5] at hty; cases hty)
    · rcases hin with hin | hin
      · exact absurd ((hmem _ (Or.inl rfl)).1 hin) (hw _ (Or.inl rfl))
      · exact absurd ((hmem _ (Or.inr rfl)).1 hin) (hw _ (Or.inr rfl))
  · refine ⟨fun hty => (by rw [h4] at hty; cases hty), fun hin => ?_⟩
    rcases hin with hin | hin
    · have := (hmem _ (Or.inl rfl)).1 hin
      rw [h1, List.mem_singleton] at this
      rw [h4, h1, ← this]
      exact Or.inl rfl
    · have := (hmem _ (Or.inr rfl)).1 hin
      rw [h1, List.mem_singleton] at this
      rw [h4, h1, ← this]
      exact Or.inr rfl
  · refine ⟨fun hty => (by rw [h4] at hty; cases hty), fun hin => ?_⟩
    rw [hval, h1] at hin
    simp at hin
  · refine ⟨fun hty => (by rw [h4] at hty; cases hty), fun hin => ?_⟩
    rw [hval, h1] at hin
    simp at hin
  · refine ⟨fun hty => (by rw [h4] at hty; cases hty), fun hin => ?_⟩
    rw [hval] at hin
    rcases compTexts_chars w h1 with e | e | e | e | e | e <;> rw [e] at hin <;>
      simp at hin
  · refine ⟨fun _ => ⟨?_, ?_, ?_⟩, fun hin => ?_⟩
    · cases hw : w with
      | nil => exact absurd hw h1
      | cons d ds =>
        have := h2 1 (by omega) (by rw [hw]; simp)
        rw [hw] at this
        rw [hval, hw]
        refine ⟨d, ds, rfl, ?_⟩
        rw [← hd d]
        exact this
    · rw [hval]; exact hnum h2 _ (Or.inl rfl)
    · rw [hval]; exact hnum h2 _ (Or.inr rfl)
    · rcases hin with hin | hin
      · exact absurd ((hmem _ (Or.inl rfl)).1 hin) (hnum h2 _ (Or.inl rfl))
      · exact absurd ((hmem _ (Or.inr rfl)).1 hin) (hnum h2 _ (Or.inr rfl))

theorem scanStep_space (L : FloatLib) (paramTypes : String → Option ValueType)
    (chars : List Char) (i : Nat) (c : Char) (hget : chars[i]? = some c)
    (hc : unicode.IsSpace c = true) :
    scanStep L paramTypes chars chars.length i = some (.ok (i + 1, [])) := by
  rw [scanStep, hget]
  simp only [hc, if_true]

/-- The tokens of `s2001 > -10`: the sign is a token of its own. -/
theorem tokenize_signed_right (L : FloatLib) (hd : digitProbe L)
    (paramTypes : String → Option ValueType) :
    ∃ more, tokenize L "s2001 > -10" paramTypes =
      some (.ok ([classify paramTypes "s2001".data, ⟨COMP_OP, ">", ""⟩, ⟨ARITH_OP, "-", ""⟩] ++
        more)) := by
  have s1 : Scan L paramTypes "s2001 > -10".data 5 [classify paramTypes "s2001".data] :=
    Scan.step 0 5 [] _ Scan.start (by decide)
      (scanStep_word L paramTypes _ 0 's' "2001".data " > -10".data rfl (by decide) (by decide)
        (by decide))
  have s2 := Scan.step 5 6 _ [] s1 (by decide) (scanStep_space L paramTypes _ 5 ' ' rfl (by decide))
  have s3 := Scan.step 6 7 _ [⟨COMP_OP, ">", ""⟩] s2 (by decide) rfl
  have s4 := Scan.step 7 8 _ [] s3 (by decide) (scanStep_space L paramTypes _ 7 ' ' rfl (by decide))
  have s5 := Scan.step 8 9 _ [⟨ARITH_OP, "-", ""⟩] s4 (by decide)
    (scanStep_arith L paramTypes _ 8 '-' rfl (by decide))
  have one : ∀ c, isDigit c = true → ∀ k, 0 < k → k ≤ [c].length →
      (L.ParseFloat (String.mk ([c].take k))).isSome = true := by
    intro c hc k hk1 hk2
    have : k = 1 := by simp at hk2; omega
    subst this
    show (L.ParseFloat (String.mk [c])).isSome = true
    rw [hd c]
    exact hc
  cases h10 : L.ParseFloat "10" with
  | some v =>
    have s6 := Scan.step 9 11 _ _ s5 (by decide)
      (scanStep_number L paramTypes _ 9 '1' ['0'] [] rfl (by decide)
        (by
          intro k hk1 hk2
          have hk : k = 1 ∨ k = 2 := by
            have : k ≤ 2 := hk2
            omega
          rcases hk with rfl | rfl
          · exact one '1' (by decide) 1 (by omega) (by simp)
          · show (L.ParseFloat "10").isSome = true
            rw [h10]; rfl)
        (fun x hx => by cases hx))
    refine ⟨[⟨NUMBER, "10", NUMBER_TYPE⟩], ?_⟩
    have := (tokenize_ok_iff L paramTypes "s2001 > -10" _).2 ⟨11, by decide, s6⟩
    simp only [List.append_assoc, List.nil_append, List.append_nil, List.singleton_append,
      List.cons_append] at this ⊢
    exact this
  | none =>
    have s6 := Scan.step 9 10 _ _ s5 (by decide)
      (scanStep_number L paramTypes _ 9 '1' [] ['0'] rfl (by decide) (one '1' (by decide))
        (fun x hx => by
          injection hx with hx
          rw [← hx]
          exact h10))
    have s7 := Scan.step 10 11 _ _ s6 (by decide)
      (scanStep_number L paramTypes _ 10 '0' [] [] rfl (by decide) (one '0' (by decide))
        (fun x hx => by cases hx))
    refine ⟨[⟨NUMBER, "1", NUMBER_TYPE⟩, ⟨NUMBER, "0", NUMBER_TYPE⟩], ?_⟩
    have := (tokenize_ok_iff L paramTypes "s2001 > -10" _).2 ⟨11, by decide, s7⟩
    simp only [List.append_assoc, List.nil_append, List.append_nil, List.singleton_append,
      List.cons_append] at this ⊢
    exact this

/-- The tokens of `-1 < 0`: the sign is a token of its own. -/
theorem tokenize_signed_left (L : FloatLib) (hd : digitProbe L) (ha : floatAlphabet L)
    (paramTypes : String → Option ValueType) :
    tokenize L "-1 < 0" paramTypes =
      some (.ok [⟨ARITH_OP, "-", ""⟩, ⟨NUMBER, "1", NUMBER_TYPE⟩, ⟨COMP_OP, "<", ""⟩,
        ⟨NUMBER, "0", NUMBER_TYPE⟩]) := by
  have one : ∀ c, isDigit c = true → ∀ k, 0 < k → k ≤ [c].length →
      (L.ParseFloat (String.mk ([c].take k))).isSome = true := by
    intro c hc k hk1 hk2
    have : k = 1 := by simp at hk2; omega
    subst this
    show (L.ParseFloat (String.mk [c])).isSome = true
    rw [hd c]
    exact hc
  have s1 : Scan L paramTypes "-1 < 0".data 1 [⟨ARITH_OP, "-", ""⟩] :=
    Scan.step 0 1 [] _ Scan.start (by decide) (scanStep_arith L paramTypes _ 0 '-' rfl (by decide))
  have s2 := Scan.step 1 2 _ _ s1 (by decide)
    (scanStep_number L paramTypes _ 1 '1' [] " < 0".data rfl (by decide) (one '1' (by decide))
      (fun x hx => by
        injection hx with hx
        rw [← hx]
        exact ha _ ' ' (by simp) (by decide)))
  have s3 := Scan.step 2 3 _ [] s2 (by decide) (scanStep_space L paramTypes _ 2 ' ' rfl (by decide))
  have s4 := Scan.step 3 4 _ [⟨COMP_OP, "<", ""⟩] s3 (by decide) rfl
  have s5 := Scan.step 4 5 _ [] s4 (by decide) (scanStep_space L paramTypes _ 4 ' ' rfl (by decide))
  have s6 := Scan.step 5 6 _ _ s5 (by decide)
    (scanStep_number L paramTypes _ 5 '0' [] [] rfl (by decide) (one '0' (by decide))
      (fun x hx => by cases hx))
  exact (tokenize_ok_iff L paramTypes "-1 < 0" _).2 ⟨6, by decide, s6⟩

theorem decimal_parse_body (s : String) (h : decimal.parse s ≠ none) :
    ∃ cs : List Char,
      cs = (if s.data.head? = some '-' ∨ s.data.head? = some '+' then s.data.tail else s.data) ∧
      cs ≠ [] ∧ ∀ x ∈ cs, isDigit x = true ∨ x = '.' := by
  obtain ⟨cs, hcs, hc⟩ := decimal_parse_cond s h
  refine ⟨cs, hcs, ?_, ?_⟩
  · intro hnil
    rw [hnil] at hc
    simp at hc
  · intro x hx
    rw [← List.takeWhile_append_dropWhile isDigit cs, List.mem_append] at hx
    rcases hx with hx | hx
    · exact Or.inl (List.mem_takeWhile_imp hx)
    · rcases hc with ⟨h1, _⟩ | ⟨h1, h2, _⟩
      · rw [h1] at hx; cases hx
      · cases hd : cs.dropWhile isDigit with
        | nil => rw [hd] at hx; cases hx
        | cons y ys =>
          rw [hd] at hx h1 h2
          simp only [List.head?_cons, Option.some.injEq] at h1
          simp only [List.tail_cons, List.all_eq_true] at h2
          rcases List.mem_cons.1 hx with e | hx
          · exact Or.inr (by rw [e, h1])
          · exact Or.inl (h2 x hx)

theorem decimalLib_signProbe : signProbe decimalLib := by
  intro w c hc
  show decimal.parse (String.mk (w ++ [c])) = none
  by_contra hne
  obtain ⟨cs, hcs, hnil, hall⟩ := decimal_parse_body _ hne
  have hsign : ¬ (isDigit c = true ∨ c = '.') := by
    rcases hc with h | h <;> rw [h] <;> decide
  have hin : c ∈ cs := by
    cases w with
    | nil =>
      simp only [List.nil_append, List.head?_cons, Option.some.injEq, List.tail_cons] at hcs
      rw [if_pos (by rcases hc with h | h <;> simp [h])] at hcs
      exact absurd hcs hnil
    | cons x w =>
      simp only [List.cons_append, List.head?_cons, Option.some.injEq, List.tail_cons] at hcs
      rw [hcs]
      split <;> simp
  exact hsign (hall c hin)

/-- C28: signs are never part of a number literal.  `tokenize` writes every
`+` and `-` at which its scan arrives as an arithmetic-operator token of its
own; in the token sequences it returns every NUMBER token text starts with a
digit and has no sign, and a token with a sign in its text is the operator
token of that sign.  The grammar parser rejects, with the syntax error and for
every row, every token sequence in which an arithmetic operator is the first
token or directly follows an operator or a `(`; `Calculate` on an enabled
formula that tokenizes to such a sequence returns an error and Black, and for
the lone formulas `s2001 > -10` and `-1 < 0` it returns the syntax error,
Black and the nil slice. -/
theorem C28_signs_are_operators (L : FloatLib) (hd : digitProbe L) (hs : signProbe L)
    (ha : floatAlphabet L) (paramTypes : String → Option ValueType) :
    (∀ (input : String) (i : Nat) (tokens : List Token) (c : Char),
      Scan L paramTypes input.data i tokens → input.data[i]? = some c → c = '+' ∨ c = '-' →
      Scan L paramTypes input.data (i + 1) (tokens ++ [⟨ARITH_OP, String.singleton c, ""⟩])) ∧
    (∀ (input : String) (tokens : List Token),
      tokenize L input paramTypes = some (.ok tokens) → ∀ t ∈ tokens,
        (t.Type_ = NUMBER → (∃ d ds, t.Value.data = d :: ds ∧ isDigit d = true) ∧
          '+' ∉ t.Value.data ∧ '-' ∉ t.Value.data) ∧
        (('+' ∈ t.Value.data ∨ '-' ∈ t.Value.data) →
          t = ⟨ARITH_OP, "+", ""⟩ ∨ t = ⟨ARITH_OP, "-", ""⟩)) ∧
    (∀ tokens : List Token, signMisplaced tokens →
      (∀ rawSet, (newParser tokens rawSet).start L = some (.error (.ParseError errSyntax))) ∧
      ∀ (formulas : List Formula) (rawSets : List RawMessageSet) (f : Formula),
        f ∈ formulas → f.IsEnable = true →
        tokenize L f.Expression paramTypes = some (.ok tokens) →
        ∃ err, Calculate L formulas rawSets paramTypes = some ⟨BlackColor, none, some err⟩) ∧
    (∀ (name : String) (color : Color) (version : Int) (rawSets : List RawMessageSet),
      Calculate L [⟨name, "s2001 > -10", color, version, true⟩] rawSets paramTypes =
        some ⟨BlackColor, none, some (.ParseError errSyntax)⟩ ∧
      Calculate L [⟨name, "-1 < 0", color, version, true⟩] rawSets paramTypes =
        some ⟨BlackColor, none, some (.ParseError errSyntax)⟩) := by
  refine ⟨?_, ?_, ?_, ?_⟩
  · intro input i tokens c hscan hget hc
    have har : isArithmeticOp c = true := by
      rcases hc with h | h <;> rw [h] <;> decide
    exact Scan.step i (i + 1) tokens _ hscan (getElem_drop input.data i c hget).1
      (scanStep_arith L paramTypes input.data i c hget har)
  · intro input tokens ht t hmem
    obtain ⟨w, hw⟩ := tokenize_lexemes L paramTypes input tokens ht t hmem
    exact Lexeme_signs L hd hs paramTypes w t hw
  · intro tokens hbad
    have hsyn := start_of_signMisplaced L tokens hbad
    refine ⟨hsyn, ?_⟩
    intro formulas rawSets f hf hen ht
    obtain ⟨r, hr⟩ := List.exists_mem_of_ne_nil _ (effectiveRows_ne_nil rawSets)
    exact Calculate_fails_of_verdict_none L formulas rawSets paramTypes f hf hen r hr
      (verdict_none_of_rejected L paramTypes f tokens r ht (hsyn r))
  · intro name color version rawSets
    constructor
    · obtain ⟨more, hmore⟩ := tokenize_signed_right L hd paramTypes
      exact Calculate_single_rejected L paramTypes _ rawSets _ rfl hmore
        (start_of_signMisplaced L _ (Or.inr ⟨[classify paramTypes "s2001".data],
          ⟨COMP_OP, ">", ""⟩, ⟨ARITH_OP, "-", ""⟩, more, rfl, rfl, Or.inr (Or.inl rfl)⟩))
    · exact Calculate_single_rejected L paramTypes _ rawSets _ rfl
        (tokenize_signed_left L hd ha paramTypes)
        (start_of_signMisplaced L _ (Or.inl ⟨_, _, rfl, rfl⟩))

theorem C28_signs_are_operators_witness :
    digitProbe decimalLib ∧ signProbe decimalLib ∧ floatAlphabet decimalLib ∧
    Calculate decimalLib [⟨"formula_1", "s2001 > -10", RedColor, 0, true⟩] testRows testTypes =
      some ⟨BlackColor, none, some (.ParseError errSyntax)⟩ ∧
    Calculate decimalLib [⟨"formula_1", "-1 < 0", RedColor, 0, true⟩] [] testTypes =
      some ⟨BlackColor, none, some (.ParseError errSyntax)⟩ :=
  ⟨decimalLib_digitProbe, decimalLib_signProbe, decimalLib_floatAlphabet,
    ((C28_signs_are_operators decimalLib decimalLib_digitProbe decimalLib_signProbe
      decimalLib_floatAlphabet testTypes).2.2.2 "formula_1" RedColor 0 testRows).1,
    ((C28_signs_are_operators decimalLib decimalLib_digitProbe decimalLib_signProbe
      decimalLib_floatAlphabet testTypes).2.2.2 "formula_1" RedColor 0 []).2⟩

/-! ## The calculation tokens and the reads of the parser -/

theorem existsReplaced_of_no_exists (rawSet : RawMessageSet) (tokens : List Token)
    (h : ∀ t ∈ tokens, t.Type_ ≠ EXISTS_FUNC) : existsReplaced rawSet tokens = tokens := by
  induction tokens with
  | nil => rfl
  | cons k rest ih =>
    rw [existsReplaced_cons_of_ne rawSet k rest (h k (by simp)),
      ih (fun t ht => h t (List.mem_cons_of_mem _ ht))]

theorem existsReplacedFrom_length (rawSet : RawMessageSet) (tokens : List Token) :
    ∀ skip : Nat, (existsReplacedFrom rawSet skip tokens).length ≤ tokens.length := by
  induction tokens with
  | nil => intro skip; cases skip <;> simp [existsReplacedFrom]
  | cons k rest ih =>
    intro skip
    cases skip with
    | succ skip =>
      simp only [existsReplacedFrom, List.length_cons]
      exact Nat.le_succ_of_le (ih skip)
    | zero =>
      simp only [existsReplacedFrom]
      split
      · simp only [List.length_cons]
        exact Nat.succ_le_succ (ih 3)
      · simp only [List.length_cons]
        exact Nat.succ_le_succ (ih 0)

theorem existsReplacedFrom_mem2 (rawSet : RawMessageSet) (tokens : List Token) :
    ∀ (skip : Nat) (t : Token), t ∈ existsReplacedFrom rawSet skip tokens →
      t ∈ tokens ∨ t = ⟨BOOL, "true", BOOL_TYPE⟩ ∨ t = ⟨BOOL, "false", BOOL_TYPE⟩ := by
  induction tokens with
  | nil => intro skip t h; cases skip <;> simp [existsReplacedFrom] at h
  | cons k rest ih =>
    intro skip t h
    cases skip with
    | succ skip =>
      simp only [existsReplacedFrom] at h
      rcases ih skip t h with h1 | h1
      · exact Or.inl (List.mem_cons_of_mem _ h1)
      · exact Or.inr h1
    | zero =>
      simp only [existsReplacedFrom] at h
      split at h
      next x _ =>
        rcases List.mem_cons.1 h with h1 | h1
        · right
          rw [h1]
          cases (rawSet x.Value).isSome
          · exact Or.inr rfl
          · exact Or.inl rfl
        · rcases ih 3 t h1 with h2 | h2
          · exact Or.inl (List.mem_cons_of_mem _ h2)
          · exact Or.inr h2
      · rcases List.mem_cons.1 h with h1 | h1
        · exact Or.inl (by rw [h1]; simp)
        · rcases ih 0 t h1 with h2 | h2
          · exact Or.inl (List.mem_cons_of_mem _ h2)
          · exact Or.inr h2

/-- C25: whenever the grammar parser accepts a token sequence, the calculation
tokens it passes to `core.Calculate` (which converts them to postfix form
first) are the input sequence in its order with every group `exists ( IDENT )`
replaced by the one BOOL token whose text tells whether the identifier is
present in the row, and every other token, brackets included, copied; they are
the input itself when it has no `exists` token; no other token occurs in
them, and they are not more than the input tokens. -/
theorem C25_calculation_tokens (L : FloatLib) (tokens c : List Token) (rawSet : RawMessageSet)
    (h : calcTokensOf tokens rawSet = some c) :
    c = existsReplaced rawSet tokens ∧
    (newParser tokens rawSet).start L =
      some (parser.calculation L (existsReplaced rawSet tokens) rawSet) ∧
    core.Calculate L c rawSet =
      (match core.ToPostfixExp c with
        | .error err => .error err
        | .ok exp => core.Evaluate L exp rawSet) ∧
    ((∀ t ∈ tokens, t.Type_ ≠ EXISTS_FUNC) → c = tokens) ∧
    (∀ t ∈ c, t ∈ tokens ∨ t = ⟨BOOL, "true", BOOL_TYPE⟩ ∨ t = ⟨BOOL, "false", BOOL_TYPE⟩) ∧
    c.length ≤ tokens.length ∧
    existsReplaced rawSet [] = [] ∧
    (∀ (k l x r : Token) (rest : List Token), k.Type_ = EXISTS_FUNC → l.Type_ = LBR →
      x.Type_ = IDENT → r.Type_ = RBR →
      existsReplaced rawSet (k :: l :: x :: r :: rest) =
        ⟨BOOL, (if (rawSet x.Value).isSome then "true" else "false"), BOOL_TYPE⟩ ::
          existsReplaced rawSet rest) ∧
    (∀ (k : Token) (rest : List Token), k.Type_ ≠ EXISTS_FUNC →
      existsReplaced rawSet (k :: rest) = k :: existsReplaced rawSet rest) := by
  have hc := calcTokensOf_eq_existsReplaced tokens c rawSet h
  refine ⟨hc, ?_, ?_, ?_, ?_, ?_, rfl, ?_, ?_⟩
  · rw [start_eq, h, hc]
  · rw [core.Calculate]
    cases core.ToPostfixExp c with
    | error e => rfl
    | ok exp =>
      simp only []
      cases core.Evaluate L exp rawSet <;> rfl
  · intro hno
    rw [hc, existsReplaced_of_no_exists rawSet tokens hno]
  · intro t ht
    rw [hc] at ht
    exact existsReplacedFrom_mem2 rawSet tokens 0 t ht
  · rw [hc]
    exact existsReplacedFrom_length rawSet tokens 0
  · intro k l x r rest hk hl hx hr
    rw [existsReplaced_call rawSet k l x r rest hk hl hx hr]
    rfl
  · intro k rest hk
    exact existsReplaced_cons_of_ne rawSet k rest hk

theorem C25_calculation_tokens_witness :
    calcTokensOf [⟨EXISTS_FUNC, "exists", ""⟩, ⟨LBR, "(", ""⟩, ⟨IDENT, "s6004", NUMBER_TYPE⟩,
        ⟨RBR, ")", ""⟩, ⟨LOG_OP, "AND", ""⟩, ⟨LBR, "(", ""⟩, ⟨IDENT, "s2001", NUMBER_TYPE⟩,
        ⟨COMP_OP, ">", ""⟩, ⟨NUMBER, "1", NUMBER_TYPE⟩, ⟨RBR, ")", ""⟩] testRowOne =
      some [⟨BOOL, "true", BOOL_TYPE⟩, ⟨LOG_OP, "AND", ""⟩, ⟨LBR, "(", ""⟩,
        ⟨IDENT, "s2001", NUMBER_TYPE⟩, ⟨COMP_OP, ">", ""⟩, ⟨NUMBER, "1", NUMBER_TYPE⟩,
        ⟨RBR, ")", ""⟩] ∧
    [⟨BOOL, "true", BOOL_TYPE⟩, ⟨LOG_OP, "AND", ""⟩, ⟨LBR, "(", ""⟩,
        ⟨IDENT, "s2001", NUMBER_TYPE⟩, ⟨COMP_OP, ">", ""⟩, ⟨NUMBER, "1", NUMBER_TYPE⟩,
        ⟨RBR, ")", ""⟩] =
      existsReplaced testRowOne [⟨EXISTS_FUNC, "exists", ""⟩, ⟨LBR, "(", ""⟩,
        ⟨IDENT, "s6004", NUMBER_TYPE⟩, ⟨RBR, ")", ""⟩, ⟨LOG_OP, "AND", ""⟩, ⟨LBR, "(", ""⟩,
        ⟨IDENT, "s2001", NUMBER_TYPE⟩, ⟨COMP_OP, ">", ""⟩, ⟨NUMBER, "1", NUMBER_TYPE⟩,
        ⟨RBR, ")", ""⟩] :=
  ⟨by decide!,
    (C25_calculation_tokens decimalLib
      [⟨EXISTS_FUNC, "exists", ""⟩, ⟨LBR, "(", ""⟩, ⟨IDENT, "s6004", NUMBER_TYPE⟩,
        ⟨RBR, ")", ""⟩, ⟨LOG_OP, "AND", ""⟩, ⟨LBR, "(", ""⟩, ⟨IDENT, "s2001", NUMBER_TYPE⟩,
        ⟨COMP_OP, ">", ""⟩, ⟨NUMBER, "1", NUMBER_TYPE⟩, ⟨RBR, ")", ""⟩]
      [⟨BOOL, "true", BOOL_TYPE⟩, ⟨LOG_OP, "AND", ""⟩, ⟨LBR, "(", ""⟩,
        ⟨IDENT, "s2001", NUMBER_TYPE⟩, ⟨COMP_OP, ">", ""⟩, ⟨NUMBER, "1", NUMBER_TYPE⟩,
        ⟨RBR, ")", ""⟩] testRowOne (by decide!)).1⟩

/-- The scan passes over white space without writing a token. -/
theorem Scan_spaces (L : FloatLib) (paramTypes : String → Option ValueType) (chars : List Char)
    (h : ∀ c ∈ chars, unicode.IsSpace c = true) :
    ∀ i, i ≤ chars.length → Scan L paramTypes chars i [] := by
  intro i
  induction i with
  | zero => intro _; exact Scan.start
  | succ i ih =>
    intro hi
    have hlt : i < chars.length := hi
    have hget : chars[i]? = some chars[i] := List.getElem?_eq_getElem hlt
    exact Scan.step i (i + 1) [] [] (ih (by omega)) hlt
      (scanStep_space L paramTypes chars i _ hget (h _ (List.getElem_mem _)))

/-- C29: for every token sequence and every row the grammar parser returns a
result: no terminal check, operator or bracket read and no slice of the token
array is out of range (every such read of the embedding would make the result
`none`).  A terminal check behind `checkNext` reads the token after the cursor
only when there is one; from every state with the cursor between -1 and the
last index each grammar function returns and leaves the cursor in that range,
not before where it was; the slice `tokens[startIt+1 : it+1]` taken after
`ArithmeticExp` is in range and is the tokens just consumed.  The empty token
sequence, which is what an empty or white-space-only expression tokenizes to,
is rejected with the syntax error. -/
theorem C29_reads_in_range (L : FloatLib) (tokens : List Token) (rawSet : RawMessageSet) :
    (∃ r, (newParser tokens rawSet).start L = some r) ∧
    (newParser tokens rawSet).wf ∧
    (∀ (p : parser) (t : TokenType), p.wf →
      (p.it + 1 < p.tokensSize →
        ∃ tok, p.tokens[(p.it + 1).toNat]? = some tok ∧
          p.checkNext (fun q => q.terminal t) = some (decide (tok.Type_ = t), p.move 1 [])) ∧
      (¬ p.it + 1 < p.tokensSize → p.checkNext (fun q => q.terminal t) = some (false, p))) ∧
    (∀ (p : parser) (X : NT) (fuel : Nat), p.wf → 3 * p.rest.length + X.fuel ≤ fuel →
      ∃ b n c, p.run fuel X = some (b, p.move n c) ∧ n ≤ p.rest.length ∧ (p.move n c).wf) ∧
    (∀ (p q : parser) (fuel : Nat), p.wf → 3 * p.rest.length + 2 ≤ fuel →
      p.ArithmeticExp fuel = some (true, q) →
      0 ≤ p.it + 1 ∧ p.it + 1 ≤ q.it + 1 ∧ q.it + 1 ≤ q.tokens.length ∧
        ∃ span, q.span (p.it + 1) (q.it + 1) = some span) ∧
    (newParser [] rawSet).start L = some (.error (.ParseError errSyntax)) ∧
    (∀ (paramTypes : String → Option ValueType) (input : String),
      (∀ x ∈ input.data, unicode.IsSpace x = true) →
      tokenize L input paramTypes = some (.ok [])) := by
  refine ⟨start_total L tokens rawSet, newParser_wf tokens rawSet, ?_, ?_, ?_, rfl, ?_⟩
  · intro p t hwf
    have hl := parser.rest_length p hwf
    have hct := parser.checkNext_terminal p hwf t (fun q => q.terminal t) (fun _ => rfl)
    constructor
    · intro hlt
      cases hr : p.rest with
      | nil =>
        rw [hr] at hl
        simp only [List.length_nil, Nat.cast_zero] at hl
        omega
      | cons tok r =>
        rw [hr] at hct
        refine ⟨tok, ?_, hct⟩
        have : (p.tokens.drop (p.it + 1).toNat)[0]? = some tok := by
          have h2 : p.tokens.drop (p.it + 1).toNat = tok :: r := hr
          rw [h2]; simp
        simpa using this
    · intro hge
      cases hr : p.rest with
      | nil => rw [hr] at hct; exact hct
      | cons tok r =>
        rw [hr] at hl
        simp only [List.length_cons, Nat.cast_add, Nat.cast_one] at hl
        omega
  · intro p X fuel hwf hfuel
    cases X with
    | ArithTerm =>
      obtain ⟨b, n, h1, h2, _⟩ := (arith_spec fuel).1 p hwf hfuel
      exact ⟨b, n, [], h1, h2, parser.wf_move p hwf n [] h2⟩
    | ArithRest =>
      obtain ⟨n, h1, h2, _⟩ := (arith_spec fuel).2.2 p hwf hfuel
      exact ⟨true, n, [], h1, h2, parser.wf_move p hwf n [] h2⟩
    | ArithExp =>
      obtain ⟨b, n, h1, h2, _⟩ := (arith_spec fuel).2.1 p hwf hfuel
      exact ⟨b, n, [], h1, h2, parser.wf_move p hwf n [] h2⟩
    | LogicTerm =>
      obtain ⟨b, n, c, h1, h2, _⟩ := (logic_spec fuel).1 p hwf hfuel
      exact ⟨b, n, c, h1, h2, parser.wf_move p hwf n c h2⟩
    | LogicRest =>
      obtain ⟨n, c, h1, h2, _⟩ := (logic_spec fuel).2.2 p hwf hfuel
      exact ⟨true, n, c, h1, h2, parser.wf_move p hwf n c h2⟩
    | LogicExp =>
      obtain ⟨b, n, c, h1, h2, _⟩ := (logic_spec fuel).2.1 p hwf hfuel
      exact ⟨b, n, c, h1, h2, parser.wf_move p hwf n c h2⟩
  · intro p q fuel hwf hfuel hq
    obtain ⟨b, n, h1, h2, _⟩ := (arith_spec fuel).2.1 p hwf hfuel
    rw [h1] at hq
    injection hq with hq
    injection hq with _ hq
    rw [← hq]
    have hl := parser.rest_length p hwf
    have hs := parser.span_move p hwf n [] h2
    obtain ⟨w1, w2, w3⟩ := hwf
    refine ⟨by omega, by simp only [parser.move]; omega, ?_, _, hs⟩
    simp only [parser.move]
    omega
  · intro paramTypes input hsp
    exact (tokenize_ok_iff L paramTypes input []).2
      ⟨input.data.length, Nat.le_refl _,
        Scan_spaces L paramTypes input.data hsp _ (Nat.le_refl _)⟩

/-! ## The strict evaluation of the logic operators -/

/-- `Calculate` on one enabled formula for which `start` returns an error
returns Black, the nil slice and that error. -/
theorem Calculate_single_error (L : FloatLib) (paramTypes : String → Option ValueType)
    (f : Formula) (rawSets : List RawMessageSet) (tokens : List Token) (err : Error)
    (hen : f.IsEnable = true) (ht : tokenize L f.Expression paramTypes = some (.ok tokens))
    (hs : ∀ rawSet, (newParser tokens rawSet).start L = some (.error err)) :
    Calculate L [f] rawSets paramTypes = some ⟨BlackColor, none, some err⟩ := by
  obtain ⟨r, rest, hrows⟩ : ∃ r rest, (if rawSets.length = 0 then [nilRawSet] else rawSets) =
      r :: rest := by
    cases rawSets with
    | nil => exact ⟨nilRawSet, [], rfl⟩
    | cons r rest => exact ⟨r, rest, rfl⟩
  simp only [Calculate, getTokenizedFormulas, getTokenizedFormulasLoop, hen, Bool.not_true,
    Bool.false_eq_true, if_false, ht, List.nil_append, hrows, rowsLoop, formulasLoop, hs]

theorem digit_prefixes (L : FloatLib) (hd : digitProbe L) (c : Char) (hc : isDigit c = true) :
    ∀ k, 0 < k → k ≤ [c].length →
      (L.ParseFloat (String.mk ([c].take k))).isSome = true := by
  intro k hk1 hk2
  have : k = 1 := by simp at hk2; omega
  subst this
  show (L.ParseFloat (String.mk [c])).isSome = true
  rw [hd c]
  exact hc

/-- The tokens of `false AND 1/0 > 0`. -/
theorem tokenize_false_and (L : FloatLib) (hd : digitProbe L) (ha : floatAlphabet L)
    (paramTypes : String → Option ValueType) :
    tokenize L "false AND 1/0 > 0" paramTypes =
      some (.ok [⟨BOOL, "false", BOOL_TYPE⟩, ⟨LOG_OP, "AND", ""⟩, ⟨NUMBER, "1", NUMBER_TYPE⟩,
        ⟨ARITH_OP, "/", ""⟩, ⟨NUMBER, "0", NUMBER_TYPE⟩, ⟨COMP_OP, ">", ""⟩,
        ⟨NUMBER, "0", NUMBER_TYPE⟩]) := by
  have s1 : Scan L paramTypes "false AND 1/0 > 0".data 5 [⟨BOOL, "false", BOOL_TYPE⟩] :=
    Scan.step 0 5 [] _ Scan.start (by decide)
      (scanStep_word L paramTypes _ 0 'f' "alse".data " AND 1/0 > 0".data rfl (by decide)
        (by decide) (by decide))
  have s2 := Scan.step 5 6 _ [] s1 (by decide) (scanStep_space L paramTypes _ 5 ' ' rfl (by decide))
  have s3 := Scan.step 6 9 _ [⟨LOG_OP, "AND", ""⟩] s2 (by decide)
    (scanStep_word L paramTypes _ 6 'A' "ND".data " 1/0 > 0".data rfl (by decide)
      (by decide) (by decide))
  have s4 := Scan.step 9 10 _ [] s3 (by decide) (scanStep_space L paramTypes _ 9 ' ' rfl (by decide))
  have s5 := Scan.step 10 11 _ _ s4 (by decide)
    (scanStep_number L paramTypes _ 10 '1' [] "/0 > 0".data rfl (by decide)
      (digit_prefixes L hd '1' (by decide))
      (fun x hx => by
        injection hx with hx
        rw [← hx]
        exact ha _ '/' (by simp) (by decide)))
  have s6 := Scan.step 11 12 _ [⟨ARITH_OP, "/", ""⟩] s5 (by decide)
    (scanStep_arith L paramTypes _ 11 '/' rfl (by decide))
  have s7 := Scan.step 12 13 _ _ s6 (by decide)
    (scanStep_number L paramTypes _ 12 '0' [] " > 0".data rfl (by decide)
      (digit_prefixes L hd '0' (by decide))
      (fun x hx => by
        injection hx with hx
        rw [← hx]
        exact ha _ ' ' (by simp) (by decide)))
  have s8 := Scan.step 13 14 _ [] s7 (by decide)
    (scanStep_space L paramTypes _ 13 ' ' rfl (by decide))
  have s9 := Scan.step 14 15 _ [⟨COMP_OP, ">", ""⟩] s8 (by decide) rfl
  have s10 := Scan.step 15 16 _ [] s9 (by decide)
    (scanStep_space L paramTypes _ 15 ' ' rfl (by decide))
  have s11 := Scan.step 16 17 _ _ s10 (by decide)
    (scanStep_number L paramTypes _ 16 '0' [] [] rfl (by decide)
      (digit_prefixes L hd '0' (by decide)) (fun x hx => by cases hx))
  exact (tokenize_ok_iff L paramTypes "false AND 1/0 > 0" _).2 ⟨17, by decide, s11⟩

/-- The tokens of `true OR 1/0 > 0`. -/
theorem tokenize_true_or (L : FloatLib) (hd : digitProbe L) (ha : floatAlphabet L)
    (paramTypes : String → Option ValueType) :
    tokenize L "true OR 1/0 > 0" paramTypes =
      some (.ok [⟨BOOL, "true", BOOL_TYPE⟩, ⟨LOG_OP, "OR", ""⟩, ⟨NUMBER, "1", NUMBER_TYPE⟩,
        ⟨ARITH_OP, "/", ""⟩, ⟨NUMBER, "0", NUMBER_TYPE⟩, ⟨COMP_OP, ">", ""⟩,
        ⟨NUMBER, "0", NUMBER_TYPE⟩]) := by
  have s1 : Scan L paramTypes "true OR 1/0 > 0".data 4 [⟨BOOL, "true", BOOL_TYPE⟩] :=
    Scan.step 0 4 [] _ Scan.start (by decide)
      (scanStep_word L paramTypes _ 0 't' "rue".data " OR 1/0 > 0".data rfl (by decide)
        (by decide) (by decide))
  have s2 := Scan.step 4 5 _ [] s1 (by decide) (scanStep_space L paramTypes _ 4 ' ' rfl (by decide))
  have s3 := Scan.step 5 7 _ [⟨LOG_OP, "OR", ""⟩] s2 (by decide)
    (scanStep_word L paramTypes _ 5 'O' "R".data " 1/0 > 0".data rfl (by decide)
      (by decide) (by decide))
  have s4 := Scan.step 7 8 _ [] s3 (by decide) (scanStep_space L paramTypes _ 7 ' ' rfl (by decide))
  have s5 := Scan.step 8 9 _ _ s4 (by decide)
    (scanStep_number L paramTypes _ 8 '1' [] "/0 > 0".data rfl (by decide)
      (digit_prefixes L hd '1' (by decide))
      (fun x hx => by
        injection hx with hx
        rw [← hx]
        exact ha _ '/' (by simp) (by decide)))
  have s6 := Scan.step 9 10 _ [⟨ARITH_OP, "/", ""⟩] s5 (by decide)
    (scanStep_arith L paramTypes _ 9 '/' rfl (by decide))
  have s7 := Scan.step 10 11 _ _ s6 (by decide)
    (scanStep_number L paramTypes _ 10 '0' [] " > 0".data rfl (by decide)
      (digit_prefixes L hd '0' (by decide))
      (fun x hx => by
        injection hx with hx
        rw [← hx]
        exact ha _ ' ' (by simp) (by decide)))
  have s8 := Scan.step 11 12 _ [] s7 (by decide)
    (scanStep_space L paramTypes _ 11 ' ' rfl (by decide))
  have s9 := Scan.step 12 13 _ [⟨COMP_OP, ">", ""⟩] s8 (by decide) rfl
  have s10 := Scan.step 13 14 _ [] s9 (by decide)
    (scanStep_space L paramTypes _ 13 ' ' rfl (by decide))
  have s11 := Scan.step 14 15 _ _ s10 (by decide)
    (scanStep_number L paramTypes _ 14 '0' [] [] rfl (by decide)
      (digit_prefixes L hd '0' (by decide)) (fun x hx => by cases hx))
  exact (tokenize_ok_iff L paramTypes "true OR 1/0 > 0" _).2 ⟨15, by decide, s11⟩

theorem calcTokensOf_plain (tokens : List Token) (rawSet : RawMessageSet)
    (h : calcTokensOf tokens nilRawSet = some tokens)
    (hno : ∀ t ∈ tokens, t.Type_ ≠ EXISTS_FUNC) :
    calcTokensOf tokens rawSet = some tokens := by
  rw [calcTokensOf_row tokens tokens nilRawSet rawSet h,
    existsReplaced_of_no_exists rawSet tokens hno]

theorem div_one_zero (L : FloatLib) (hd : digitProbe L)
    (hz : ∀ z, L.ParseFloat "0" = some z → L.eq z L.zero = true) :
    divOperator L ⟨NUMBER, "1", NUMBER_TYPE⟩ ⟨NUMBER, "0", NUMBER_TYPE⟩ =
      .error (.CalculationError errDivisionByZero "") := by
  have h1 : (L.ParseFloat "1").isSome = true := by
    have := hd '1'
    exact this.trans (by decide)
  have h0 : (L.ParseFloat "0").isSome = true := by
    have := hd '0'
    exact this.trans (by decide)
  obtain ⟨a, ha⟩ := Option.isSome_iff_exists.1 h1
  obtain ⟨z, hz0⟩ := Option.isSome_iff_exists.1 h0
  rw [divOperator_cases L _ _ a z rfl rfl ha hz0, if_pos (hz z hz0)]

/-- The division `1/0` of `false AND 1/0 > 0` fails although the left operand
of `AND` is false. -/
theorem start_false_and (L : FloatLib) (hd : digitProbe L)
    (hz : ∀ z, L.ParseFloat "0" = some z → L.eq z L.zero = true) (rawSet : RawMessageSet) :
    (newParser [⟨BOOL, "false", BOOL_TYPE⟩, ⟨LOG_OP, "AND", ""⟩, ⟨NUMBER, "1", NUMBER_TYPE⟩,
        ⟨ARITH_OP, "/", ""⟩, ⟨NUMBER, "0", NUMBER_TYPE⟩, ⟨COMP_OP, ">", ""⟩,
        ⟨NUMBER, "0", NUMBER_TYPE⟩] rawSet).start L =
      some (.error (.ParseError (errCalc ++ ": " ++ (errDivisionByZero ++ ": " ++ "")))) := by
  rw [start_eq]
  have hc : calcTokensOf [⟨BOOL, "false", BOOL_TYPE⟩, ⟨LOG_OP, "AND", ""⟩,
      ⟨NUMBER, "1", NUMBER_TYPE⟩, ⟨ARITH_OP, "/", ""⟩, ⟨NUMBER, "0", NUMBER_TYPE⟩,
      ⟨COMP_OP, ">", ""⟩, ⟨NUMBER, "0", NUMBER_TYPE⟩] rawSet =
        some [⟨BOOL, "false", BOOL_TYPE⟩, ⟨LOG_OP, "AND", ""⟩,
      ⟨NUMBER, "1", NUMBER_TYPE⟩, ⟨ARITH_OP, "/", ""⟩, ⟨NUMBER, "0", NUMBER_TYPE⟩,
      ⟨COMP_OP, ">", ""⟩, ⟨NUMBER, "0", NUMBER_TYPE⟩] := by
    exact calcTokensOf_plain _ rawSet (by decide!) (by decide)
  rw [hc]
  simp only []
  rw [calculation_operator_error L rawSet _
    [⟨BOOL, "false", BOOL_TYPE⟩, ⟨NUMBER, "1", NUMBER_TYPE⟩, ⟨NUMBER, "0", NUMBER_TYPE⟩]
    [⟨NUMBER, "0", NUMBER_TYPE⟩, ⟨COMP_OP, ">", ""⟩, ⟨LOG_OP, "AND", ""⟩]
    ⟨ARITH_OP, "/", ""⟩ ⟨NUMBER, "1", NUMBER_TYPE⟩ ⟨NUMBER, "0", NUMBER_TYPE⟩
    [⟨BOOL, "false", BOOL_TYPE⟩] (divOperator L) errDivisionByZero "" (by decide!)
    (Or.inr (Or.inr rfl)) rfl rfl (div_one_zero L hd hz)]

/-- The division `1/0` of `true OR 1/0 > 0` fails although the left operand
of `OR` is true. -/
theorem start_true_or (L : FloatLib) (hd : digitProbe L)
    (hz : ∀ z, L.ParseFloat "0" = some z → L.eq z L.zero = true) (rawSet : RawMessageSet) :
    (newParser [⟨BOOL, "true", BOOL_TYPE⟩, ⟨LOG_OP, "OR", ""⟩, ⟨NUMBER, "1", NUMBER_TYPE⟩,
        ⟨ARITH_OP, "/", ""⟩, ⟨NUMBER, "0", NUMBER_TYPE⟩, ⟨COMP_OP, ">", ""⟩,
        ⟨NUMBER, "0", NUMBER_TYPE⟩] rawSet).start L =
      some (.error (.ParseError (errCalc ++ ": " ++ (errDivisionByZero ++ ": " ++ "")))) := by
  rw [start_eq]
  have hc : calcTokensOf [⟨BOOL, "true", BOOL_TYPE⟩, ⟨LOG_OP, "OR", ""⟩,
      ⟨NUMBER, "1", NUMBER_TYPE⟩, ⟨ARITH_OP, "/", ""⟩, ⟨NUMBER, "0", NUMBER_TYPE⟩,
      ⟨COMP_OP, ">", ""⟩, ⟨NUMBER, "0", NUMBER_TYPE⟩] rawSet =
        some [⟨BOOL, "true", BOOL_TYPE⟩, ⟨LOG_OP, "OR", ""⟩,
      ⟨NUMBER, "1", NUMBER_TYPE⟩, ⟨ARITH_OP, "/", ""⟩, ⟨NUMBER, "0", NUMBER_TYPE⟩,
      ⟨COMP_OP, ">", ""⟩, ⟨NUMBER, "0", NUMBER_TYPE⟩] := by
    exact calcTokensOf_plain _ rawSet (by decide!) (by decide)
  rw [hc]
  simp only []
  rw [calculation_operator_error L rawSet _
    [⟨BOOL, "true", BOOL_TYPE⟩, ⟨NUMBER, "1", NUMBER_TYPE⟩, ⟨NUMBER, "0", NUMBER_TYPE⟩]
    [⟨NUMBER, "0", NUMBER_TYPE⟩, ⟨COMP_OP, ">", ""⟩, ⟨LOG_OP, "OR", ""⟩]
    ⟨ARITH_OP, "/", ""⟩ ⟨NUMBER, "1", NUMBER_TYPE⟩ ⟨NUMBER, "0", NUMBER_TYPE⟩
    [⟨BOOL, "true", BOOL_TYPE⟩] (divOperator L) errDivisionByZero "" (by decide!)
    (Or.inr (Or.inr rfl)) rfl rfl (div_one_zero L hd hz)]

theorem boolOperands_cases (a b : String) :
    (∃ p q, strconv.ParseBool a = some p ∧ strconv.ParseBool b = some q ∧
      parseBoolOperands a b = .ok (p, q)) ∨
    ((strconv.ParseBool a = none ∨ strconv.ParseBool b = none) ∧
      ∃ v, parseBoolOperands a b = .error (.CalculationError errTypeCast v)) := by
  unfold parseBoolOperands
  cases ha : strconv.ParseBool a with
  | none => exact Or.inr ⟨Or.inl rfl, _, rfl⟩
  | some p =>
    cases hb : strconv.ParseBool b with
    | none => exact Or.inr ⟨Or.inr rfl, _, rfl⟩
    | some q => exact Or.inl ⟨p, q, rfl, rfl, rfl⟩

theorem andOperator_ok (x y r : Token) (h : andOperator x y = .ok r) :
    ∃ p q, strconv.ParseBool x.Value = some p ∧ strconv.ParseBool y.Value = some q := by
  unfold andOperator at h
  split at h
  · cases h
  split at h
  · rcases boolOperands_cases x.Value y.Value with ⟨p, q, h1, h2, _⟩ | ⟨_, v, h3⟩
    · exact ⟨p, q, h1, h2⟩
    · rw [h3] at h; cases h
  · cases h

theorem orOperator_ok (x y r : Token) (h : orOperator x y = .ok r) :
    ∃ p q, strconv.ParseBool x.Value = some p ∧ strconv.ParseBool y.Value = some q := by
  unfold orOperator at h
  split at h
  · cases h
  split at h
  · rcases boolOperands_cases x.Value y.Value with ⟨p, q, h1, h2, _⟩ | ⟨_, v, h3⟩
    · exact ⟨p, q, h1, h2⟩
    · rw [h3] at h; cases h
  · cases h

theorem andOperator_strict (x y : Token) (hx : x.ValueType = BOOL_TYPE)
    (hy : y.ValueType = BOOL_TYPE)
    (h : strconv.ParseBool x.Value = none ∨ strconv.ParseBool y.Value = none) :
    ∃ v, andOperator x y = .error (.CalculationError errTypeCast v) := by
  rcases boolOperands_cases x.Value y.Value with ⟨p, q, h1, h2, _⟩ | ⟨_, v, h3⟩
  · rcases h with h | h
    · rw [h] at h1; cases h1
    · rw [h] at h2; cases h2
  · refine ⟨v, ?_⟩
    unfold andOperator
    rw [if_neg (by rw [hx, hy]; simp), if_pos hx, h3]

theorem orOperator_strict (x y : Token) (hx : x.ValueType = BOOL_TYPE)
    (hy : y.ValueType = BOOL_TYPE)
    (h : strconv.ParseBool x.Value = none ∨ strconv.ParseBool y.Value = none) :
    ∃ v, orOperator x y = .error (.CalculationError errTypeCast v) := by
  rcases boolOperands_cases x.Value y.Value with ⟨p, q, h1, h2, _⟩ | ⟨_, v, h3⟩
  · rcases h with h | h
    · rw [h] at h1; cases h1
    · rw [h] at h2; cases h2
  · refine ⟨v, ?_⟩
    unfold orOperator
    rw [if_neg (by rw [hx, hy]; simp), if_pos hx, h3]

theorem evalLoop_error_append (L : FloatLib) (rawSet : RawMessageSet) (pre rest : List Token)
    (st : TokenStack) (e : CoreError) (h : evalLoop L rawSet pre st = .error e) :
    evalLoop L rawSet (pre ++ rest) st = .error e := by
  rw [evalLoop_append, h]

theorem decimalLib_zero_divisor :
    ∀ z, decimalLib.ParseFloat "0" = some z → decimalLib.eq z decimalLib.zero = true := by
  intro z h
  have h0 : decimal.parse "0" = some ⟨0, 1⟩ := by rfl
  have h1 : decimal.parse "0" = some z := h
  rw [h0] at h1
  injection h1 with h1
  rw [← h1]
  rfl

/-- C27: AND and OR never short-circuit.  Both operators look at the texts of
both operands: they return a result only when both texts are boolean
spellings, and with an operand that is not one they fail whatever the other
operand is (false for AND and true for OR included).  `Evaluate` processes the
postfix tokens in order, so a failure before an operator is reached is the
result whatever follows.  Hence for an enabled formula that tokenizes and is
grammatical: when the evaluation of its postfix form reaches an operator
application that fails with a calculation error, `Calculate` returns an error,
Black and the nil slice, whatever stands after that operator (an AND or OR
whose other operand is already on the stack, for one).  The lone formulas
`false AND 1/0 > 0` and `true OR 1/0 > 0` fail with division by zero. -/
theorem C27_no_short_circuit (L : FloatLib) (hd : digitProbe L) (ha : floatAlphabet L)
    (hz : ∀ z, L.ParseFloat "0" = some z → L.eq z L.zero = true)
    (paramTypes : String → Option ValueType) :
    (operatorFuncs L "AND" = some andOperator ∧ operatorFuncs L "OR" = some orOperator) ∧
    (∀ x y r : Token, andOperator x y = .ok r ∨ orOperator x y = .ok r →
      ∃ p q, strconv.ParseBool x.Value = some p ∧ strconv.ParseBool y.Value = some q) ∧
    (∀ x y : Token, x.ValueType = BOOL_TYPE → y.ValueType = BOOL_TYPE →
      strconv.ParseBool x.Value = none ∨ strconv.ParseBool y.Value = none →
      (∃ v, andOperator x y = .error (.CalculationError errTypeCast v)) ∧
      ∃ v, orOperator x y = .error (.CalculationError errTypeCast v)) ∧
    (∀ (rawSet : RawMessageSet) (pre rest : List Token) (st : TokenStack) (e : CoreError),
      evalLoop L rawSet pre st = .error e → evalLoop L rawSet (pre ++ rest) st = .error e) ∧
    (∀ (formulas : List Formula) (rawSets : List RawMessageSet) (f : Formula)
        (rawSet : RawMessageSet) (tokens c pre post : List Token) (op x y : Token)
        (st : TokenStack) (g : Token → Token → Except CoreError Token) (reason value : String),
      f ∈ formulas → f.IsEnable = true → rawSet ∈ effectiveRows rawSets →
      tokenize L f.Expression paramTypes = some (.ok tokens) →
      calcTokensOf tokens rawSet = some c →
      ToPostfixExp c = .ok (pre ++ op :: post) →
      (op.Type_ = LOG_OP ∨ op.Type_ = COMP_OP ∨ op.Type_ = ARITH_OP) →
      operatorFuncs L op.Value = some g →
      evalLoop L rawSet pre [] = .ok (y :: x :: st) →
      g x y = .error (.CalculationError reason value) →
      ∃ err, Calculate L formulas rawSets paramTypes = some ⟨BlackColor, none, some err⟩) ∧
    (∀ (name : String) (color : Color) (version : Int) (rawSets : List RawMessageSet),
      Calculate L [⟨name, "false AND 1/0 > 0", color, version, true⟩] rawSets paramTypes =
        some ⟨BlackColor, none,
          some (.ParseError (errCalc ++ ": " ++ (errDivisionByZero ++ ": " ++ "")))⟩ ∧
      Calculate L [⟨name, "true OR 1/0 > 0", color, version, true⟩] rawSets paramTypes =
        some ⟨BlackColor, none,
          some (.ParseError (errCalc ++ ": " ++ (errDivisionByZero ++ ": " ++ "")))⟩) := by
  refine ⟨⟨rfl, rfl⟩, ?_, ?_, ?_, ?_, ?_⟩
  · intro x y r h
    rcases h with h | h
    · exact andOperator_ok x y r h
    · exact orOperator_ok x y r h
  · intro x y hx hy h
    exact ⟨andOperator_strict x y hx hy h, orOperator_strict x y hx hy h⟩
  · intro rawSet pre rest st e h
    exact evalLoop_error_append L rawSet pre rest st e h
  · intro formulas rawSets f rawSet tokens c pre post op x y st g reason value hf hen hr ht hc
      hpost hop hg hpre herr
    exact Calculate_fails_of_calculation_error L formulas rawSets paramTypes f rawSet tokens c _
      hf hen hr ht hc
      (calculation_operator_error L rawSet c pre post op x y st g reason value hpost hop hg
        hpre herr)
  · intro name color version rawSets
    exact ⟨Calculate_single_error L paramTypes _ rawSets _ _ rfl
        (tokenize_false_and L hd ha paramTypes) (start_false_and L hd hz),
      Calculate_single_error L paramTypes _ rawSets _ _ rfl
        (tokenize_true_or L hd ha paramTypes) (start_true_or L hd hz)⟩

theorem C27_no_short_circuit_witness :
    digitProbe decimalLib ∧ floatAlphabet decimalLib ∧
    (∀ z, decimalLib.ParseFloat "0" = some z → decimalLib.eq z decimalLib.zero = true) ∧
    errCalc ++ ": " ++ (errDivisionByZero ++ ": " ++ "") =
      "calculation failed: division by zero: " ∧
    Calculate decimalLib [⟨"formula_1", "false AND 1/0 > 0", RedColor, 0, true⟩] testRows
        testTypes =
      some ⟨BlackColor, none, some (.ParseError (errCalc ++ ": " ++ (errDivisionByZero ++ ": " ++ "")))⟩ ∧
    Calculate decimalLib [⟨"formula_1", "true OR 1/0 > 0", RedColor, 0, true⟩] [] testTypes =
      some ⟨BlackColor, none, some (.ParseError (errCalc ++ ": " ++ (errDivisionByZero ++ ": " ++ "")))⟩ :=
  ⟨decimalLib_digitProbe, decimalLib_floatAlphabet, decimalLib_zero_divisor, by decide,
    ((C27_no_short_circuit decimalLib decimalLib_digitProbe decimalLib_floatAlphabet
      decimalLib_zero_divisor testTypes).2.2.2.2.2 "formula_1" RedColor 0 testRows).1,
    ((C27_no_short_circuit decimalLib decimalLib_digitProbe decimalLib_floatAlphabet
      decimalLib_zero_divisor testTypes).2.2.2.2.2 "formula_1" RedColor 0 []).2⟩

/-! ## The postfix form of a grammatical token sequence -/

theorem postfixDepth_append (a b : List Token) :
    ∀ d, postfixDepth (a ++ b) d = (postfixDepth a d).bind (postfixDepth b) := by
  induction a with
  | nil => intro d; rfl
  | cons t a ih =>
    intro d
    simp only [List.cons_append, postfixDepth]
    split
    · split
      · exact ih _
      · rfl
    · split
      · exact ih _
      · rfl

theorem postfixDepth_ops (ops : List Token) (h : ∀ o ∈ ops, isOperator o = true) :
    ∀ d, ops.length + 1 ≤ d → postfixDepth ops d = some (d - ops.length) := by
  induction ops with
  | nil => intro d _; rfl
  | cons o ops ih =>
    intro d hd
    simp only [List.length_cons] at hd
    rw [postfixDepth, if_pos (h o (by simp)), if_pos (by omega),
      ih (fun x hx => h x (List.mem_cons_of_mem _ hx)) (d - 1) (by omega)]
    simp only [List.length_cons]
    congr 1
    omega

theorem postfixDepth_operand (out : List Token) (t : Token) (d : Nat) (ht : isOperand t = true)
    (h : postfixDepth out 0 = some d) : postfixDepth (out ++ [t]) 0 = some (d + 1) := by
  have hno : isOperator t = false := by
    unfold isOperand at ht
    unfold isOperator
    split at ht <;> simp_all
  rw [postfixDepth_append, h]
  simp [postfixDepth, hno, ht]

theorem postfixDepth_popped (out popped : List Token) (d : Nat)
    (hp : ∀ o ∈ popped, isOperator o = true) (hd : popped.length + 1 ≤ d)
    (h : postfixDepth out 0 = some d) :
    postfixDepth (out ++ popped) 0 = some (d - popped.length) := by
  rw [postfixDepth_append, h]
  exact postfixDepth_ops popped hp d hd

theorem operatorKeys_not_lbr (key : String) (hk : key ∈ operatorKeys) : key ≠ "(" := by
  intro h
  subst h
  revert hk
  decide

theorem operator_not_lbr (o : Token) (h : isOperator o = true) : o.Type_ ≠ LBR := by
  intro hl
  rw [isOperator, hl] at h
  cases h

theorem lbr_not_operator (o : Token) (h : o.Type_ = LBR) : isOperator o = false := by
  rw [isOperator, h]

theorem popGreater_split (w : Int) (hw : 10 < w) (st : TokenStack) (hst : pending st) :
    ∀ out : List Token, ∃ popped kept, st = popped ++ kept ∧
      popGreater w st out = (kept, out ++ popped) ∧ ∀ o ∈ popped, isOperator o = true := by
  induction st with
  | nil => intro out; exact ⟨[], [], rfl, by simp [popGreater], by simp⟩
  | cons o st ih =>
    intro out
    rw [popGreater]
    by_cases hgt : operatorPrecedenceD o.Value > w
    · rw [if_pos hgt]
      obtain ⟨popped, kept, h1, h2, h3⟩ :=
        ih (fun x hx => hst x (List.mem_cons_of_mem _ hx)) (out ++ [o])
      have ho : isOperator o = true := by
        rcases hst o (by simp) with h | h
        · exact h.1
        · exfalso
          rw [operatorPrecedenceD, h.2] at hgt
          have : operatorPrecedence "(" = some 10 := rfl
          rw [this] at hgt
          simp only [Option.getD_some] at hgt
          omega
      refine ⟨o :: popped, kept, by rw [h1]; rfl, by rw [h2]; simp, ?_⟩
      intro x hx
      rcases List.mem_cons.1 hx with e | hx
      · rw [e]; exact ho
      · exact h3 x hx
    · rw [if_neg hgt]
      exact ⟨[], o :: st, rfl, by simp, by simp⟩

theorem popToLeftBracket_split (st : TokenStack) (hst : pending st)
    (hopen : 0 < st.countP (fun o => decide (o.Type_ = LBR))) :
    ∀ out : List Token, ∃ popped l kept, st = popped ++ l :: kept ∧
      popToLeftBracket st out = (kept, out ++ popped) ∧ l.Type_ = LBR ∧
      ∀ o ∈ popped, isOperator o = true := by
  induction st with
  | nil => simp at hopen
  | cons o st ih =>
    intro out
    rw [popToLeftBracket]
    rcases hst o (by simp) with h | h
    · rw [if_neg (operatorKeys_not_lbr _ h.2)]
      have hcount : 0 < st.countP (fun o => decide (o.Type_ = LBR)) := by
        rw [List.countP_cons_of_neg] at hopen
        · exact hopen
        · simpa using operator_not_lbr o h.1
      obtain ⟨popped, l, kept, h1, h2, h3, h4⟩ :=
        ih (fun x hx => hst x (List.mem_cons_of_mem _ hx)) hcount (out ++ [o])
      refine ⟨o :: popped, l, kept, by rw [h1]; rfl, by rw [h2]; simp, h3, ?_⟩
      intro x hx
      rcases List.mem_cons.1 hx with e | hx
      · rw [e]; exact h.1
      · exact h4 x hx
    · rw [if_pos h.2]
      exact ⟨[], o, st, rfl, by simp, h.1, by simp⟩

theorem operator_not_operand (o : Token) (h : isOperator o = true) : isOperand o = false := by
  unfold isOperator at h
  unfold isOperand
  split at h <;> simp_all

theorem operator_not_bracket (o : Token) (h : isOperator o = true) : isBracket o = false := by
  unfold isOperator at h
  unfold isBracket
  split at h <;> simp_all

theorem operand_not_operator (o : Token) (h : isOperand o = true) : isOperator o = false := by
  unfold isOperand at h
  unfold isOperator
  split at h <;> simp_all

theorem operand_not_bracket (o : Token) (h : isOperand o = true) : isBracket o = false := by
  unfold isOperand at h
  unfold isBracket
  split at h <;> simp_all

theorem operators_facts (ops : List Token) (h : ∀ o ∈ ops, isOperator o = true) :
    ops.countP (fun o => decide (o.Type_ = LBR)) = 0 ∧ ops.countP isOperator = ops.length ∧
    ops.filter isOperator = ops ∧ ops.filter isOperand = [] := by
  refine ⟨?_, ?_, ?_, ?_⟩
  · rw [List.countP_eq_zero]
    intro o ho
    simpa using operator_not_lbr o (h o ho)
  · rw [List.countP_eq_length]
    exact h
  · rw [List.filter_eq_self]
    exact h
  · rw [List.filter_eq_nil_iff]
    intro o ho
    rw [operator_not_operand o (h o ho)]
    simp

theorem pending_closed (st : TokenStack) (hst : pending st)
    (h : st.countP (fun o => decide (o.Type_ = LBR)) = 0) : ∀ o ∈ st, isOperator o = true := by
  intro o ho
  rcases hst o ho with h1 | h1
  · exact h1.1
  · rw [List.countP_eq_zero] at h
    have := h o ho
    simp [h1.1] at this

/-- The main loop of `ToPostfixExp` on a token sequence of the grammatical
shape with the operator texts of the table: it returns, with operators only
left on the stack, and the output followed by the stack is a well-formed
postfix sequence that holds the tokens read, the brackets apart, with the
operands in their order. -/
theorem toPostfixLoop_shaped (tokens : List Token) :
    ∀ (expecting : Bool) (k : Nat) (st : TokenStack) (out : List Token),
      tableTexts tokens → shaped expecting k tokens = true → pending st →
      st.countP (fun o => decide (o.Type_ = LBR)) = k →
      ∃ st2 out2, toPostfixLoop tokens st out = .ok (st2, out2) ∧
        (∀ o ∈ st2, isOperator o = true) ∧
        (∀ d, postfixDepth out 0 = some d →
          d = st.countP isOperator + (if expecting = true then 0 else 1) →
          postfixDepth (out2 ++ st2) 0 = some 1) ∧
        (∀ x, (out2 ++ st2).count x =
          out.count x + (st.filter isOperator).count x +
            (tokens.filter (fun t => !isBracket t)).count x) ∧
        (out2 ++ st2).filter isOperand = out.filter isOperand ++ tokens.filter isOperand := by
  induction tokens with
  | nil =>
    intro expecting k st out _ hs hst hk
    simp only [shaped, Bool.and_eq_true, Bool.not_eq_true', decide_eq_true_eq] at hs
    obtain ⟨he, hk0⟩ := hs
    subst he
    subst hk0
    have hall := pending_closed st hst hk
    obtain ⟨_, f2, f3, f4⟩ := operators_facts st hall
    refine ⟨st, out, rfl, hall, ?_, ?_, ?_⟩
    · intro d hd hdn
      rw [f2] at hdn
      rw [postfixDepth_popped out st d hall (by simp at hdn; omega) hd]
      congr 1
      simp at hdn
      omega
    · intro x
      rw [f3]
      simp
    · simp [f4]
  | cons t rest ih =>
    intro expecting k st out htt hs hst hk
    have htt2 : tableTexts rest := fun x hx => htt x (List.mem_cons_of_mem _ hx)
    have operandCase : isOperand t = true → shaped expecting k (t :: rest) = true →
        (expecting = true ∧ shaped false k rest = true) := by
      intro ho h
      unfold isOperand at ho
      rw [shaped] at h
      split at ho <;> simp_all
    cases hT : t.Type_ with
    | NUMBER | BOOL | IDENT =>
      have hop : isOperand t = true := by rw [isOperand, hT]
      obtain ⟨he, hs2⟩ := operandCase hop hs
      subst he
      obtain ⟨st2, out2, h1, h2, h3, h4, h5⟩ := ih false k st (out ++ [t]) htt2 hs2 hst hk
      refine ⟨st2, out2, ?_, h2, ?_, ?_, ?_⟩
      · rw [toPostfixLoop_operandToken t rest st out (by simp [isOperandToken, hT])]
        exact h1
      · intro d hd hdn
        exact h3 (d + 1) (postfixDepth_operand out t d hop hd) (by simp at hdn ⊢; omega)
      · intro x
        rw [h4 x]
        simp only [List.count_append, List.filter_cons, operand_not_bracket t hop,
          Bool.not_false, if_true, List.count_cons, List.count_nil]
        omega
      · rw [h5]
        simp [List.filter_cons, hop]
    | LBR =>
      rw [shaped, hT] at hs
      simp only [Bool.and_eq_true] at hs
      obtain ⟨he, hs2⟩ := hs
      subst he
      have hv := (htt t (by simp)).2 hT
      have hst2 : pending (t :: st) := by
        intro o ho
        rcases List.mem_cons.1 ho with e | ho
        · rw [e]; exact Or.inr ⟨hT, hv⟩
        · exact hst o ho
      have hk2 : (t :: st).countP (fun o => decide (o.Type_ = LBR)) = k + 1 := by
        rw [List.countP_cons_of_pos _ _ (by simpa using hT), hk]
      obtain ⟨st2, out2, h1, h2, h3, h4, h5⟩ := ih true (k + 1) (t :: st) out htt2 hs2 hst2 hk2
      have hno := lbr_not_operator t hT
      have hbr : isBracket t = true := by rw [isBracket, hT]
      have hnd : isOperand t = false := by rw [isOperand, hT]
      refine ⟨st2, out2, ?_, h2, ?_, ?_, ?_⟩
      · rw [toPostfixLoop_lbr t rest st out hT]
        exact h1
      · intro d hd hdn
        refine h3 d hd ?_
        rw [List.countP_cons_of_neg _ _ (by simp [hno])]
        exact hdn
      · intro x
        rw [h4 x]
        simp [List.filter_cons, hno, hbr]
      · rw [h5]
        simp [List.filter_cons, hnd]
    | RBR =>
      rw [shaped, hT] at hs
      simp only [Bool.and_eq_true, Bool.not_eq_true', decide_eq_true_eq] at hs
      obtain ⟨⟨he, hk0⟩, hs2⟩ := hs
      subst he
      obtain ⟨popped, l, kept, e1, e2, e3, e4⟩ :=
        popToLeftBracket_split st hst (by rw [hk]; exact hk0) out
      obtain ⟨f1, f2, f3, f4⟩ := operators_facts popped e4
      have hst2 : pending kept := by
        intro o ho
        exact hst o (by rw [e1]; simp [ho])
      have hk2 : kept.countP (fun o => decide (o.Type_ = LBR)) = k - 1 := by
        rw [e1, List.countP_append, f1, List.countP_cons_of_pos _ _ (by simpa using e3)] at hk
        omega
      obtain ⟨st2, out2, h1, h2, h3, h4, h5⟩ :=
        ih false (k - 1) kept (out ++ popped) htt2 hs2 hst2 hk2
      have hbr : isBracket t = true := by rw [isBracket, hT]
      have hnd : isOperand t = false := by rw [isOperand, hT]
      have hnl := lbr_not_operator l e3
      have hcount : st.countP isOperator = popped.length + kept.countP isOperator := by
        rw [e1, List.countP_append, f2, List.countP_cons_of_neg _ _ (by simp [hnl])]
      refine ⟨st2, out2, ?_, h2, ?_, ?_, ?_⟩
      · rw [toPostfixLoop_rbr t rest st out hT, e2]
        exact h1
      · intro d hd hdn
        rw [hcount] at hdn
        simp only [Bool.false_eq_true, if_false] at hdn
        refine h3 (d - popped.length) (postfixDepth_popped out popped d e4 (by omega) hd) ?_
        simp only [Bool.false_eq_true, if_false]
        omega
      · intro x
        rw [h4 x, e1]
        simp only [List.count_append, List.filter_append, f3, List.filter_cons, hnl, hbr,
          Bool.not_true, Bool.false_eq_true, if_false]
        omega
      · rw [h5]
        simp [List.filter_cons, hnd, f4]
    | LOG_OP | COMP_OP | ARITH_OP =>
      have hop : isOperator t = true := by rw [isOperator, hT]
      rw [shaped, hT] at hs
      simp only [Bool.and_eq_true, Bool.not_eq_true'] at hs
      obtain ⟨he, hs2⟩ := hs
      subst he
      have hv := (htt t (by simp)).1 hop
      obtain ⟨w, hw, _, hw10⟩ := operatorKeys_precedence t.Value hv
      obtain ⟨popped, kept, e1, e2, e4⟩ := popGreater_split w hw10 st hst out
      obtain ⟨f1, f2, f3, f4⟩ := operators_facts popped e4
      have hst2 : pending (t :: kept) := by
        intro o ho
        rcases List.mem_cons.1 ho with e | ho
        · rw [e]; exact Or.inl ⟨hop, hv⟩
        · exact hst o (by rw [e1]; simp [ho])
      have hk2 : (t :: kept).countP (fun o => decide (o.Type_ = LBR)) = k := by
        rw [e1, List.countP_append, f1] at hk
        rw [List.countP_cons_of_neg _ _ (by simpa using operator_not_lbr t hop)]
        omega
      obtain ⟨st2, out2, h1, h2, h3, h4, h5⟩ :=
        ih true k (t :: kept) (out ++ popped) htt2 hs2 hst2 hk2
      have hcount : st.countP isOperator = popped.length + kept.countP isOperator := by
        rw [e1, List.countP_append, f2]
      refine ⟨st2, out2, ?_, h2, ?_, ?_, ?_⟩
      · rw [toPostfixLoop_operatorToken t rest st out w (by simp [hT]) hw, e2]
        exact h1
      · intro d hd hdn
        rw [hcount] at hdn
        simp only [Bool.false_eq_true, if_false] at hdn
        refine h3 (d - popped.length) (postfixDepth_popped out popped d e4 (by omega) hd) ?_
        rw [List.countP_cons_of_pos _ _ hop]
        simp only [if_true]
        omega
      · intro x
        rw [h4 x, e1]
        simp only [List.count_append, List.filter_append, f3, List.filter_cons, hop,
          operator_not_bracket t hop, Bool.not_false, if_true, List.count_cons]
        omega
      · rw [h5]
        simp [List.filter_cons, operator_not_operand t hop, f4]
    | EXISTS_FUNC | zero =>
      rw [shaped, hT] at hs
      cases hs

theorem shaped_operand (e : Bool) (k : Nat) (t : Token) (rest : List Token)
    (h : t.Type_ = NUMBER ∨ t.Type_ = BOOL ∨ t.Type_ = IDENT) :
    shaped e k (t :: rest) = (e && shaped false k rest) := by
  rw [shaped]
  rcases h with h | h | h <;> rw [h]

theorem shaped_operator (e : Bool) (k : Nat) (t : Token) (rest : List Token)
    (h : t.Type_ = LOG_OP ∨ t.Type_ = COMP_OP ∨ t.Type_ = ARITH_OP) :
    shaped e k (t :: rest) = (!e && shaped true k rest) := by
  rw [shaped]
  rcases h with h | h | h <;> rw [h]

theorem shaped_lbr (e : Bool) (k : Nat) (t : Token) (rest : List Token) (h : t.Type_ = LBR) :
    shaped e k (t :: rest) = (e && shaped true (k + 1) rest) := by
  rw [shaped, h]

theorem shaped_rbr (e : Bool) (k : Nat) (t : Token) (rest : List Token) (h : t.Type_ = RBR) :
    shaped e k (t :: rest) = (!e && decide (0 < k) && shaped false (k - 1) rest) := by
  rw [shaped, h]

/-- The calculation tokens of a phrase of the grammar have the grammatical
shape: a term or an expression stands where an operand is expected and ends
after an operand, with the brackets it opens closed; a repetition `{op term}`
starts and ends after an operand. -/
theorem Derives_shaped (rawSet : RawMessageSet) (X : NT) (s c : List Token)
    (h : Derives rawSet X s c) :
    ((X = NT.ArithRest ∨ X = NT.LogicRest) →
      ∀ k rest, shaped false k (c ++ rest) = shaped false k rest) ∧
    ((X = NT.ArithTerm ∨ X = NT.ArithExp ∨ X = NT.LogicTerm ∨ X = NT.LogicExp) →
      ∀ k rest, shaped true k (c ++ rest) = shaped false k rest) := by
  induction h with
  | num t ht =>
    refine ⟨by simp, fun _ k rest => ?_⟩
    rw [List.singleton_append, shaped_operand true k t rest (Or.inl ht)]
    rfl
  | ident t ht =>
    refine ⟨by simp, fun _ k rest => ?_⟩
    rw [List.singleton_append, shaped_operand true k t rest (Or.inr (Or.inr ht))]
    rfl
  | arithBr l r e c hl _ hr ih =>
    refine ⟨by simp, fun _ k rest => ?_⟩
    simp only [List.cons_append, List.append_assoc, List.singleton_append, List.nil_append]
    rw [shaped_lbr true k l _ hl, Bool.true_and, ih.2 (by simp), shaped_rbr false (k + 1) r rest hr]
    simp
  | arithNil => exact ⟨fun _ k rest => rfl, by simp⟩
  | arithMore o t ct e ce ho _ _ iht ihe =>
    refine ⟨fun _ k rest => ?_, by simp⟩
    simp only [List.cons_append, List.append_assoc]
    rw [shaped_operator false k o _ (Or.inr (Or.inr ho)), iht.2 (by simp), ihe.1 (by simp)]
    rfl
  | arithExp t ct e ce _ _ iht ihe =>
    refine ⟨by simp, fun _ k rest => ?_⟩
    rw [List.append_assoc, iht.2 (by simp), ihe.1 (by simp)]
  | bool t ht =>
    refine ⟨by simp, fun _ k rest => ?_⟩
    rw [List.singleton_append, shaped_operand true k t rest (Or.inr (Or.inl ht))]
    rfl
  | existsCall k l x r hk hl hx hr =>
    refine ⟨by simp, fun _ k rest => ?_⟩
    rw [List.singleton_append, shaped_operand true k _ rest (Or.inr (Or.inl rfl))]
    rfl
  | arith e c _ ih => exact ⟨by simp, fun _ k rest => ih.2 (by simp) k rest⟩
  | logicBr l r e c hl _ hr ih =>
    refine ⟨by simp, fun _ k rest => ?_⟩
    simp only [List.cons_append, List.append_assoc, List.singleton_append, List.nil_append]
    rw [shaped_lbr true k l _ hl, Bool.true_and, ih.2 (by simp), shaped_rbr false (k + 1) r rest hr]
    simp
  | logicNil => exact ⟨fun _ k rest => rfl, by simp⟩
  | logicMore o t ct e ce ho _ _ iht ihe =>
    refine ⟨fun _ k rest => ?_, by simp⟩
    simp only [List.cons_append, List.append_assoc]
    rw [shaped_operator false k o _ (by rcases ho with h | h; exact Or.inl h; exact Or.inr (Or.inl h)),
      iht.2 (by simp), ihe.1 (by simp)]
    rfl
  | logicExp t ct e ce _ _ iht ihe =>
    refine ⟨by simp, fun _ k rest => ?_⟩
    rw [List.append_assoc, iht.2 (by simp), ihe.1 (by simp)]

theorem calcTokensOf_shaped (tokens c : List Token) (rawSet : RawMessageSet)
    (h : calcTokensOf tokens rawSet = some c) : shaped true 0 c = true := by
  have hd := calcTokensOf_derives tokens rawSet c h
  have := (Derives_shaped rawSet _ _ _ hd).2 (by simp) 0 []
  rw [List.append_nil] at this
  rw [this]
  rfl

theorem calcTokensOf_tableTexts (tokens c : List Token) (rawSet : RawMessageSet)
    (h : calcTokensOf tokens rawSet = some c) (ht : tableTexts tokens) : tableTexts c := by
  intro t hmem
  rw [calcTokensOf_eq_existsReplaced tokens c rawSet h] at hmem
  rcases existsReplacedFrom_mem2 rawSet tokens 0 t hmem with h1 | h1 | h1
  · exact ht t h1
  · rw [h1]; exact ⟨(by intro h; cases h), (by intro h; cases h)⟩
  · rw [h1]; exact ⟨(by intro h; cases h), (by intro h; cases h)⟩

/-- The postfix form of the calculation tokens of an accepted token sequence
with the operator texts of the table. -/
theorem ToPostfixExp_shaped (c : List Token) (hs : shaped true 0 c = true) (ht : tableTexts c) :
    ∃ post, ToPostfixExp c = .ok post ∧
      postfixDepth post 0 = some 1 ∧
      (∀ x, post.count x = (c.filter (fun t => !isBracket t)).count x) ∧
      post.filter isOperand = c.filter isOperand := by
  obtain ⟨st2, out2, h1, _, h3, h4, h5⟩ :=
    toPostfixLoop_shaped c true 0 [] [] ht hs (by intro o ho; cases ho) rfl
  refine ⟨out2 ++ st2, ?_, h3 0 rfl rfl, ?_, ?_⟩
  · rw [ToPostfixExp, h1]
  · intro x
    rw [h4 x]
    simp
  · rw [h5]
    simp

theorem isOperator_iff (t : Token) :
    isOperator t = true ↔ (t.Type_ = LOG_OP ∨ t.Type_ = COMP_OP ∨ t.Type_ = ARITH_OP) := by
  unfold isOperator
  cases t.Type_ <;> simp

theorem isOperand_iff (t : Token) :
    isOperand t = true ↔ (t.Type_ = NUMBER ∨ t.Type_ = BOOL ∨ t.Type_ = IDENT) := by
  unfold isOperand
  cases t.Type_ <;> simp

theorem isBracket_iff (t : Token) : isBracket t = true ↔ (t.Type_ = LBR ∨ t.Type_ = RBR) := by
  unfold isBracket
  cases t.Type_ <;> simp

/-- One turn of the loop of `Evaluate` at an operator token. -/
theorem evalLoop_operator_step (L : FloatLib) (rawSet : RawMessageSet) (op : Token)
    (rest : List Token) (st : TokenStack) (hop : isOperator op = true) :
    evalLoop L rawSet (op :: rest) st =
      match operatorFuncs L op.Value with
      | none => .error (.CalculationError errUnknownToken op.Value)
      | some opFunc =>
        match opFunc st.Pop.2.2.Pop.1 st.Pop.1 with
        | .error err => .error err
        | .ok res => evalLoop L rawSet rest (st.Pop.2.2.Pop.2.2.Push res) := by
  rw [evalLoop]
  rcases (isOperator_iff op).1 hop with h | h | h <;> rw [h]

/-- One turn of the loop of `Evaluate` at an operand token. -/
theorem evalLoop_operand_step (L : FloatLib) (rawSet : RawMessageSet) (t : Token)
    (rest : List Token) (st : TokenStack) (hop : isOperand t = true) :
    evalLoop L rawSet (t :: rest) st =
      if t.Type_ = IDENT then
        match rawSet t.Value with
        | none => .error (.UnknownParameterError t.Value)
        | some raw => evalLoop L rawSet rest (⟨t.Type_, raw, t.ValueType⟩ :: st)
      else evalLoop L rawSet rest (t :: st) := by
  rw [evalLoop]
  rcases (isOperand_iff t).1 hop with h | h | h <;> rw [h]
  · rfl
  · rfl
  · rw [if_pos rfl]
    cases rawSet t.Value <;> rfl

/-- The depth of the value stack of `Evaluate` is the depth of the postfix
sequence. -/
theorem evalLoop_depth (L : FloatLib) (rawSet : RawMessageSet) (post : List Token) :
    ∀ (st st2 : TokenStack) (d : Nat), postfixDepth post st.length = some d →
      evalLoop L rawSet post st = .ok st2 → st2.length = d := by
  induction post with
  | nil =>
    intro st st2 d hd h
    rw [evalLoop] at h
    rw [postfixDepth] at hd
    injection h with h
    injection hd with hd
    rw [← h, hd]
  | cons t rest ih =>
    intro st st2 d hd h
    rw [postfixDepth] at hd
    by_cases hop : isOperator t = true
    · rw [if_pos hop] at hd
      by_cases h2 : 2 ≤ st.length
      · rw [if_pos h2] at hd
        rw [evalLoop_operator_step L rawSet t rest st hop] at h
        cases hf : operatorFuncs L t.Value with
        | none => rw [hf] at h; cases h
        | some f =>
          rw [hf] at h
          simp only [] at h
          cases hr : f st.Pop.2.2.Pop.1 st.Pop.1 with
          | error e => rw [hr] at h; cases h
          | ok res =>
            rw [hr] at h
            simp only [] at h
            refine ih _ st2 d ?_ h
            have : (st.Pop.2.2.Pop.2.2.Push res).length = st.length - 1 := by
              match st, h2 with
              | y :: x :: s, _ => simp [TokenStack.Pop, TokenStack.Push]
            rw [this]
            exact hd
      · rw [if_neg h2] at hd; cases hd
    · rw [if_neg hop] at hd
      by_cases hnd : isOperand t = true
      · rw [if_pos hnd] at hd
        rw [evalLoop_operand_step L rawSet t rest st hnd] at h
        split at h
        · cases hraw : rawSet t.Value with
          | none => rw [hraw] at h; cases h
          | some raw =>
            rw [hraw] at h
            exact ih _ st2 d (by simpa using hd) h
        · exact ih _ st2 d (by simpa using hd) h
      · rw [if_neg hnd] at hd; cases hd

/-- When `Evaluate` arrives at an operator of a well-formed postfix sequence,
the value stack holds two tokens at least. -/
theorem evalLoop_two_operands (L : FloatLib) (rawSet : RawMessageSet)
    (pre rest : List Token) (op : Token) (st : TokenStack) (d : Nat)
    (hd : postfixDepth (pre ++ op :: rest) 0 = some d) (hop : isOperator op = true)
    (h : evalLoop L rawSet pre [] = .ok st) : ∃ y x s, st = y :: x :: s := by
  rw [postfixDepth_append] at hd
  cases hp : postfixDepth pre 0 with
  | none => rw [hp] at hd; cases hd
  | some d1 =>
    rw [hp] at hd
    have hlen := evalLoop_depth L rawSet pre [] st d1 hp h
    simp only [Option.some_bind, postfixDepth, hop, if_true] at hd
    have h2 : 2 ≤ d1 := by
      by_contra hlt
      rw [if_neg hlt] at hd
      cases hd
    match st, hlen with
    | [], hl => simp at hl; omega
    | [_], hl => simp at hl; omega
    | y :: x :: s, _ => exact ⟨y, x, s, rfl⟩

/-- The loop of `Evaluate` on a well-formed postfix sequence returns a stack
when every identifier is present and no operator fails. -/
theorem evalLoop_returns (L : FloatLib) (rawSet : RawMessageSet) (post : List Token) :
    ∀ (st : TokenStack) (d : Nat), postfixDepth post st.length = some d →
      (∀ t ∈ post, isOperator t = true → t.Value ∈ operatorKeys) →
      (∀ t ∈ post, t.Type_ = IDENT → rawSet t.Value ≠ none) →
      (∀ (pre rest : List Token) (op x y : Token) (s : TokenStack)
          (f : Token → Token → Except CoreError Token),
        post = pre ++ op :: rest → isOperator op = true →
        evalLoop L rawSet pre st = .ok (y :: x :: s) →
        operatorFuncs L op.Value = some f → ∃ r, f x y = .ok r) →
      ∃ st2, evalLoop L rawSet post st = .ok st2 := by
  induction post with
  | nil => intro st d _ _ _ _; exact ⟨st, rfl⟩
  | cons t rest ih =>
    intro st d hd hkeys hids hok
    rw [postfixDepth] at hd
    have hkeys2 : ∀ x ∈ rest, isOperator x = true → x.Value ∈ operatorKeys :=
      fun x hx => hkeys x (List.mem_cons_of_mem _ hx)
    have hids2 : ∀ x ∈ rest, x.Type_ = IDENT → rawSet x.Value ≠ none :=
      fun x hx => hids x (List.mem_cons_of_mem _ hx)
    by_cases hop : isOperator t = true
    · rw [if_pos hop] at hd
      by_cases h2 : 2 ≤ st.length
      · rw [if_pos h2] at hd
        match st, h2, hd, hok with
        | y :: x :: s, _, hd, hok =>
          obtain ⟨f, hf, _⟩ := operator_error_kind L t.Value (hkeys t (by simp) hop)
          obtain ⟨r, hr⟩ := hok [] rest t x y s f rfl hop rfl hf
          have hstep : ∀ more, evalLoop L rawSet (t :: more) (y :: x :: s) =
              evalLoop L rawSet more (r :: s) := fun more =>
            evalLoop_op L rawSet t x y r more s f ((isOperator_iff t).1 hop) hf hr
          rw [hstep rest]
          refine ih (r :: s) d (by simpa using hd) hkeys2 hids2 ?_
          intro pre rest2 op x2 y2 s2 f2 e hop2 hpre hf2
          refine hok (t :: pre) rest2 op x2 y2 s2 f2 (by rw [e]; rfl) hop2 ?_ hf2
          rw [hstep pre]
          exact hpre
      · rw [if_neg h2] at hd; cases hd
    · rw [if_neg hop] at hd
      by_cases hnd : isOperand t = true
      · rw [if_pos hnd] at hd
        by_cases hid : t.Type_ = IDENT
        · cases hraw : rawSet t.Value with
          | none => exact absurd hraw (hids t (by simp) hid)
          | some raw =>
            have hstep : ∀ more, evalLoop L rawSet (t :: more) st =
                evalLoop L rawSet more (⟨IDENT, raw, t.ValueType⟩ :: st) := fun more =>
              evalLoop_ident L rawSet t more st raw hid hraw
            rw [hstep rest]
            refine ih _ d (by simpa using hd) hkeys2 hids2 ?_
            intro pre rest2 op x2 y2 s2 f2 e hop2 hpre hf2
            refine hok (t :: pre) rest2 op x2 y2 s2 f2 (by rw [e]; rfl) hop2 ?_ hf2
            rw [hstep pre]
            exact hpre
        · have hstep : ∀ more, evalLoop L rawSet (t :: more) st =
              evalLoop L rawSet more (t :: st) := by
            intro more
            rw [evalLoop_operand_step L rawSet t more st hnd, if_neg hid]
          rw [hstep rest]
          refine ih _ d (by simpa using hd) hkeys2 hids2 ?_
          intro pre rest2 op x2 y2 s2 f2 e hop2 hpre hf2
          refine hok (t :: pre) rest2 op x2 y2 s2 f2 (by rw [e]; rfl) hop2 ?_ hf2
          rw [hstep pre]
          exact hpre
      · rw [if_neg hnd] at hd; cases hd

theorem compTexts_operatorKeys (s : String) (h : s ∈ compTexts) : s ∈ operatorKeys := by
  simp only [compTexts, List.mem_cons, List.mem_singleton, List.not_mem_nil, or_false] at h
  rcases h with h | h | h | h | h | h <;> subst h <;> decide

theorem arithmeticKeys_operatorKeys (s : String) (h : s ∈ arithmeticKeys) :
    s ∈ operatorKeys := by
  simp only [arithmeticKeys, List.mem_cons, List.mem_singleton, List.not_mem_nil, or_false] at h
  rcases h with h | h | h | h <;> subst h <;> decide

theorem classify_logic (paramTypes : String → Option ValueType) (w : List Char)
    (h : (classify paramTypes w).Type_ = LOG_OP) :
    (classify paramTypes w).Value = "AND" ∨ (classify paramTypes w).Value = "OR" := by
  rw [classify_eq] at h ⊢
  split at h
  · cases h
  split at h
  next _ h2 =>
    rw [if_neg (by assumption), if_pos h2]
    exact h2
  split at h
  · cases h
  · cases h

/-- The operator tokens that `tokenize` returns carry one of the twelve
operator texts, and its opening brackets the text `(`. -/
theorem tokenize_tableTexts (L : FloatLib) (input : String)
    (paramTypes : String → Option ValueType) (tokens : List Token)
    (h : tokenize L input paramTypes = some (.ok tokens)) : tableTexts tokens := by
  intro t hmem
  have hw := tokenize_arithWellFormed L input paramTypes tokens h t hmem
  refine ⟨fun hop => ?_, hw.2.1⟩
  rcases (isOperator_iff t).1 hop with hT | hT | hT
  · obtain ⟨w, hl⟩ := tokenize_lexemes L paramTypes input tokens h t hmem
    rcases hl with ⟨_, _, _, _, _, e⟩ | ⟨_, _, _, e⟩ | ⟨_, e⟩ | ⟨_, e⟩ | ⟨_, e⟩ | ⟨_, _, e⟩
    · rw [e] at hT ⊢
      rcases classify_logic paramTypes w hT with h1 | h1 <;> rw [h1] <;> decide
    all_goals (rw [e] at hT; cases hT)
  · obtain ⟨w, hl⟩ := tokenize_lexemes L paramTypes input tokens h t hmem
    rcases hl with ⟨_, _, _, _, _, e⟩ | ⟨_, _, _, e⟩ | ⟨_, e⟩ | ⟨_, e⟩ | ⟨hc, e⟩ | ⟨_, _, e⟩
    · exfalso
      rw [e] at hT
      rcases classify_type paramTypes w with h1 | h1 | h1 | h1 <;> rw [h1] at hT <;> cases hT
    · rw [e] at hT; cases hT
    · rw [e] at hT; cases hT
    · rw [e] at hT; cases hT
    · rw [e]
      exact compTexts_operatorKeys _ hc
    · rw [e] at hT; cases hT
  · exact arithmeticKeys_operatorKeys _ (hw.1 hT)

/-- The postfix form of the calculation tokens of an accepted token sequence
whose operator tokens carry one of the twelve operator texts and whose opening
brackets carry the text `(`: it holds no bracket, is a rearrangement of the
calculation tokens that are not brackets with the operands in their order, and
is a well-formed postfix sequence for `Evaluate`. -/
theorem postfix_form_of_tableTexts (L : FloatLib) (tokens c : List Token)
    (rawSet : RawMessageSet) (h : calcTokensOf tokens rawSet = some c)
    (ht : tableTexts tokens) :
    ∃ post, ToPostfixExp c = .ok post ∧
      (∀ t ∈ post, t.Type_ ≠ LBR ∧ t.Type_ ≠ RBR) ∧
      List.Perm post (c.filter (fun t => !isBracket t)) ∧
      post.filter isOperand = c.filter isOperand ∧
      postfixDepth post 0 = some 1 ∧
      (∀ (pre rest : List Token) (op : Token) (st : TokenStack), post = pre ++ op :: rest →
        (op.Type_ = LOG_OP ∨ op.Type_ = COMP_OP ∨ op.Type_ = ARITH_OP) →
        evalLoop L rawSet pre [] = .ok st →
        2 ≤ st.length ∧ st.Pop.2.1 = true ∧ st.Pop.2.2.Pop.2.1 = true) ∧
      (∀ st : TokenStack, evalLoop L rawSet post [] = .ok st → st.length = 1) ∧
      ((∀ t ∈ post, t.Type_ = IDENT → rawSet t.Value ≠ none) →
        (∀ (pre rest : List Token) (op x y : Token) (s : TokenStack)
            (f : Token → Token → Except CoreError Token),
          post = pre ++ op :: rest → isOperator op = true →
          evalLoop L rawSet pre [] = .ok (y :: x :: s) →
          operatorFuncs L op.Value = some f → ∃ r, f x y = .ok r) →
        ∃ v, evalLoop L rawSet post [] = .ok [v]) := by
  have htc := calcTokensOf_tableTexts tokens c rawSet h ht
  obtain ⟨post, h1, h2, h3, h4⟩ := ToPostfixExp_shaped c (calcTokensOf_shaped tokens c rawSet h) htc
  have hmem : ∀ t ∈ post, t ∈ c ∧ isBracket t = false := by
    intro t ht2
    have hpos : 0 < post.count t := List.count_pos_iff.2 ht2
    rw [h3 t] at hpos
    have := List.count_pos_iff.1 hpos
    rw [List.mem_filter] at this
    exact ⟨this.1, by simpa using this.2⟩
  have hone : ∀ st : TokenStack, evalLoop L rawSet post [] = .ok st → st.length = 1 :=
    fun st hst => evalLoop_depth L rawSet post [] st 1 h2 hst
  refine ⟨post, h1, ?_, List.perm_iff_count.2 h3, h4, h2, ?_, hone, ?_⟩
  · intro t ht2
    have hb := (hmem t ht2).2
    constructor
    · intro hl
      rw [isBracket, hl] at hb
      cases hb
    · intro hr
      rw [isBracket, hr] at hb
      cases hb
  · intro pre rest op st e hop hpre
    rw [e] at h2
    obtain ⟨y, x, s, hst⟩ :=
      evalLoop_two_operands L rawSet pre rest op st 1 h2 ((isOperator_iff op).2 hop) hpre
    rw [hst]
    exact ⟨by simp, rfl, rfl⟩
  · intro hids hok
    obtain ⟨st2, hst2⟩ := evalLoop_returns L rawSet post [] 1 h2
      (fun t ht2 hop => (htc t (hmem t ht2).1).1 hop) hids hok
    have hl := hone st2 hst2
    match st2, hl, hst2 with
    | [v], _, hst2 => exact ⟨v, hst2⟩

/-- C26: for every token sequence that the grammar parser accepts (the parser
is handed the token sequences that `tokenize` returns), `ToPostfixExp` returns
a postfix sequence for its calculation tokens; the sequence holds no bracket
token, is a rearrangement of the calculation tokens that are not brackets,
holds the operands in their original order, and is a well-formed postfix
sequence.  Whenever `Evaluate` arrives at an operator the value stack holds two
tokens at least, so neither Pop returns the default of the empty stack; when
the loop of `Evaluate` ends it leaves exactly one token; and it does end when
every identifier is present and no operator fails. -/
theorem C26_postfix_form (L : FloatLib) (input : String)
    (paramTypes : String → Option ValueType) (tokens c : List Token) (rawSet : RawMessageSet)
    (ht : tokenize L input paramTypes = some (.ok tokens))
    (h : calcTokensOf tokens rawSet = some c) :
    ∃ post, ToPostfixExp c = .ok post ∧
      (∀ t ∈ post, t.Type_ ≠ LBR ∧ t.Type_ ≠ RBR) ∧
      List.Perm post (c.filter (fun t => !isBracket t)) ∧
      post.filter isOperand = c.filter isOperand ∧
      postfixDepth post 0 = some 1 ∧
      (∀ (pre rest : List Token) (op : Token) (st : TokenStack), post = pre ++ op :: rest →
        (op.Type_ = LOG_OP ∨ op.Type_ = COMP_OP ∨ op.Type_ = ARITH_OP) →
        evalLoop L rawSet pre [] = .ok st →
        2 ≤ st.length ∧ st.Pop.2.1 = true ∧ st.Pop.2.2.Pop.2.1 = true) ∧
      (∀ st : TokenStack, evalLoop L rawSet post [] = .ok st → st.length = 1) ∧
      ((∀ t ∈ post, t.Type_ = IDENT → rawSet t.Value ≠ none) →
        (∀ (pre rest : List Token) (op x y : Token) (s : TokenStack)
            (f : Token → Token → Except CoreError Token),
          post = pre ++ op :: rest → isOperator op = true →
          evalLoop L rawSet pre [] = .ok (y :: x :: s) →
          operatorFuncs L op.Value = some f → ∃ r, f x y = .ok r) →
        ∃ v, evalLoop L rawSet post [] = .ok [v]) :=
  postfix_form_of_tableTexts L tokens c rawSet h (tokenize_tableTexts L input paramTypes tokens ht)

theorem C26_postfix_form_witness :
    tokenize decimalLib "(s2001 + 1) * 2 > 3 AND exists(s6004)" testTypes =
      some (.ok [⟨LBR, "(", ""⟩, ⟨IDENT, "s2001", NUMBER_TYPE⟩, ⟨ARITH_OP, "+", ""⟩,
        ⟨NUMBER, "1", NUMBER_TYPE⟩, ⟨RBR, ")", ""⟩, ⟨ARITH_OP, "*", ""⟩,
        ⟨NUMBER, "2", NUMBER_TYPE⟩, ⟨COMP_OP, ">", ""⟩, ⟨NUMBER, "3", NUMBER_TYPE⟩,
        ⟨LOG_OP, "AND", ""⟩, ⟨EXISTS_FUNC, "exists", ""⟩, ⟨LBR, "(", ""⟩,
        ⟨IDENT, "s6004", NUMBER_TYPE⟩, ⟨RBR, ")", ""⟩]) ∧
    calcTokensOf [⟨LBR, "(", ""⟩, ⟨IDENT, "s2001", NUMBER_TYPE⟩, ⟨ARITH_OP, "+", ""⟩,
        ⟨NUMBER, "1", NUMBER_TYPE⟩, ⟨RBR, ")", ""⟩, ⟨ARITH_OP, "*", ""⟩,
        ⟨NUMBER, "2", NUMBER_TYPE⟩, ⟨COMP_OP, ">", ""⟩, ⟨NUMBER, "3", NUMBER_TYPE⟩,
        ⟨LOG_OP, "AND", ""⟩, ⟨EXISTS_FUNC, "exists", ""⟩, ⟨LBR, "(", ""⟩,
        ⟨IDENT, "s6004", NUMBER_TYPE⟩, ⟨RBR, ")", ""⟩] testRowOne =
      some [⟨LBR, "(", ""⟩, ⟨IDENT, "s2001", NUMBER_TYPE⟩, ⟨ARITH_OP, "+", ""⟩,
        ⟨NUMBER, "1", NUMBER_TYPE⟩, ⟨RBR, ")", ""⟩, ⟨ARITH_OP, "*", ""⟩,
        ⟨NUMBER, "2", NUMBER_TYPE⟩, ⟨COMP_OP, ">", ""⟩, ⟨NUMBER, "3", NUMBER_TYPE⟩,
        ⟨LOG_OP, "AND", ""⟩, ⟨BOOL, "true", BOOL_TYPE⟩] ∧
    ToPostfixExp [⟨LBR, "(", ""⟩, ⟨IDENT, "s2001", NUMBER_TYPE⟩, ⟨ARITH_OP, "+", ""⟩,
        ⟨NUMBER, "1", NUMBER_TYPE⟩, ⟨RBR, ")", ""⟩, ⟨ARITH_OP, "*", ""⟩,
        ⟨NUMBER, "2", NUMBER_TYPE⟩, ⟨COMP_OP, ">", ""⟩, ⟨NUMBER, "3", NUMBER_TYPE⟩,
        ⟨LOG_OP, "AND", ""⟩, ⟨BOOL, "true", BOOL_TYPE⟩] =
      .ok [⟨IDENT, "s2001", NUMBER_TYPE⟩, ⟨NUMBER, "1", NUMBER_TYPE⟩, ⟨ARITH_OP, "+", ""⟩,
        ⟨NUMBER, "2", NUMBER_TYPE⟩, ⟨ARITH_OP, "*", ""⟩, ⟨NUMBER, "3", NUMBER_TYPE⟩,
        ⟨COMP_OP, ">", ""⟩, ⟨BOOL, "true", BOOL_TYPE⟩, ⟨LOG_OP, "AND", ""⟩] ∧
    ∃ post, ToPostfixExp [⟨LBR, "(", ""⟩, ⟨IDENT, "s2001", NUMBER_TYPE⟩, ⟨ARITH_OP, "+", ""⟩,
        ⟨NUMBER, "1", NUMBER_TYPE⟩, ⟨RBR, ")", ""⟩, ⟨ARITH_OP, "*", ""⟩,
        ⟨NUMBER, "2", NUMBER_TYPE⟩, ⟨COMP_OP, ">", ""⟩, ⟨NUMBER, "3", NUMBER_TYPE⟩,
        ⟨LOG_OP, "AND", ""⟩, ⟨BOOL, "true", BOOL_TYPE⟩] = .ok post ∧
      (∀ t ∈ post, t.Type_ ≠ LBR ∧ t.Type_ ≠ RBR) ∧
      postfixDepth post 0 = some 1 ∧
      ∀ st : TokenStack, evalLoop decimalLib testRowOne post [] = .ok st → st.length = 1 :=
  ⟨by decide!, by decide!, by decide!,
    (C26_postfix_form decimalLib "(s2001 + 1) * 2 > 3 AND exists(s6004)" testTypes
      [⟨LBR, "(", ""⟩, ⟨IDENT, "s2001", NUMBER_TYPE⟩, ⟨ARITH_OP, "+", ""⟩,
        ⟨NUMBER, "1", NUMBER_TYPE⟩, ⟨RBR, ")", ""⟩, ⟨ARITH_OP, "*", ""⟩,
        ⟨NUMBER, "2", NUMBER_TYPE⟩, ⟨COMP_OP, ">", ""⟩, ⟨NUMBER, "3", NUMBER_TYPE⟩,
        ⟨LOG_OP, "AND", ""⟩, ⟨EXISTS_FUNC, "exists", ""⟩, ⟨LBR, "(", ""⟩,
        ⟨IDENT, "s6004", NUMBER_TYPE⟩, ⟨RBR, ")", ""⟩]
      [⟨LBR, "(", ""⟩, ⟨IDENT, "s2001", NUMBER_TYPE⟩, ⟨ARITH_OP, "+", ""⟩,
        ⟨NUMBER, "1", NUMBER_TYPE⟩, ⟨RBR, ")", ""⟩, ⟨ARITH_OP, "*", ""⟩,
        ⟨NUMBER, "2", NUMBER_TYPE⟩, ⟨COMP_OP, ">", ""⟩, ⟨NUMBER, "3", NUMBER_TYPE⟩,
        ⟨LOG_OP, "AND", ""⟩, ⟨BOOL, "true", BOOL_TYPE⟩] testRowOne (by decide!) (by decide!)).imp
      (fun _ hp => ⟨hp.1, hp.2.1, hp.2.2.2.2.1, hp.2.2.2.2.2.2.1⟩)⟩

/-! ## The text of the arithmetic results -/

theorem arithmetic_cases (L : FloatLib) (x y : Token) (a b : L.F64)
    (hx : x.ValueType = NUMBER_TYPE) (hy : y.ValueType = NUMBER_TYPE)
    (ha : L.ParseFloat x.Value = some a) (hb : L.ParseFloat y.Value = some b) :
    addOperator L x y = .ok ⟨NUMBER, L.Sprintf_f (L.add a b), NUMBER_TYPE⟩ ∧
    subOperator L x y = .ok ⟨NUMBER, L.Sprintf_f (L.sub a b), NUMBER_TYPE⟩ ∧
    mulOperator L x y = .ok ⟨NUMBER, L.Sprintf_f (L.mul a b), NUMBER_TYPE⟩ := by
  refine ⟨?_, ?_, ?_⟩
  · simp [addOperator, hx, hy, parseFloatOperands, ha, hb]
  · simp [subOperator, hx, hy, parseFloatOperands, ha, hb]
  · simp [mulOperator, hx, hy, parseFloatOperands, ha, hb]

theorem digitChar_isDigit (d : Nat) (h : d < 10) : isDigit (Nat.digitChar d) = true := by
  interval_cases d <;> decide

theorem toDigitsCore_isDigit (f : Nat) :
    ∀ (n : Nat) (ds : List Char), (∀ c ∈ ds, isDigit c = true) →
      ∀ c ∈ Nat.toDigitsCore 10 f n ds, isDigit c = true := by
  induction f with
  | zero => intro n ds h c hc; exact h c hc
  | succ f ih =>
    intro n ds h c hc
    rw [Nat.toDigitsCore] at hc
    have hd := digitChar_isDigit (n % 10) (Nat.mod_lt _ (by decide))
    have hds : ∀ c ∈ Nat.digitChar (n % 10) :: ds, isDigit c = true := by
      intro c hc
      rcases List.mem_cons.1 hc with e | hc
      · rw [e]; exact hd
      · exact h c hc
    split at hc
    · exact hds c hc
    · exact ih _ _ hds c hc

theorem repr_isDigit (n : Nat) : ∀ c ∈ (Nat.repr n).data, isDigit c = true := by
  intro c hc
  exact toDigitsCore_isDigit _ n [] (fun _ h => by cases h) c hc

theorem pad6_facts (n : Nat) (h : n < 1000000) :
    (decimal.pad6 n).data.length = 6 ∧ ∀ c ∈ (decimal.pad6 n).data, isDigit c = true := by
  have hlen : (Nat.repr n).length ≤ 6 := Nat.repr_length n 6 (by decide) (by simpa using h)
  have hlen2 : (Nat.repr n).data.length ≤ 6 := hlen
  constructor
  · simp only [decimal.pad6, String.data_append, List.length_append, List.length_replicate]
    have : (Nat.repr n).length = (Nat.repr n).data.length := rfl
    omega
  · intro c hc
    simp only [decimal.pad6, String.data_append, List.mem_append] at hc
    rcases hc with hc | hc
    · have := List.eq_of_mem_replicate hc
      rw [this]; decide
    · exact repr_isDigit n c hc

theorem not_dot_of_isDigit (c : Char) (h : isDigit c = true) : c ≠ '.' := by
  intro e
  rw [e] at h
  revert h
  decide

/-- The `%f` text of the reference library has six digits after the point. -/
theorem format_sixDigits (q : decimal.Frac) : sixDigits (decimal.format q) := by
  unfold decimal.format
  simp only []
  generalize (if 2 * (q.num.natAbs * 1000000 % q.den) > q.den ∨
      2 * (q.num.natAbs * 1000000 % q.den) = q.den ∧ q.num.natAbs * 1000000 / q.den % 2 = 1 then
      q.num.natAbs * 1000000 / q.den + 1 else q.num.natAbs * 1000000 / q.den) = n
  obtain ⟨h1, h2⟩ := pad6_facts (n % 1000000) (Nat.mod_lt _ (by decide))
  refine ⟨(if q.num < 0 then "-" else "").data ++ (Nat.repr (n / 1000000)).data,
    (decimal.pad6 (n % 1000000)).data, ?_, ?_, h1, h2⟩
  · simp [String.data_append]
  · intro hmem
    rcases List.mem_append.1 hmem with h | h
    · split at h
      · simp at h
      · simp at h
    · exact not_dot_of_isDigit _ (repr_isDigit _ _ h) rfl

theorem sixDigits_minus (s : String) (h : sixDigits s) : sixDigits ("-" ++ s) := by
  obtain ⟨ip, fr, h1, h2, h3, h4⟩ := h
  refine ⟨'-' :: ip, fr, ?_, ?_, h3, h4⟩
  · simp [String.data_append, h1]
  · intro hmem
    rcases List.mem_cons.1 hmem with e | hmem
    · cases e
    · exact h2 hmem

/-- The `%f` text of an integer in the reference library. -/
theorem format_int (k : Int) : decimal.format ⟨k, 1⟩ = intText k ++ ".000000" := by
  unfold decimal.format intText
  simp only [Nat.div_one, Nat.mod_one, Nat.mul_zero, gt_iff_lt, Nat.not_lt_zero, false_or,
    Nat.zero_ne_one, false_and, if_false]
  have e1 : k.natAbs * 1000000 / 1000000 = k.natAbs := Nat.mul_div_cancel _ (by decide)
  have e2 : k.natAbs * 1000000 % 1000000 = 0 := Nat.mul_mod_left _ _
  rw [e1, e2]
  have e3 : decimal.pad6 0 = "000000" := by decide
  rw [e3, String.append_assoc]
  rfl

theorem sixDigits_intText (k : Int) : sixDigits (intText k ++ ".000000") := by
  rw [← format_int]
  exact format_sixDigits _

theorem digits_head (ds : List Char) (hne : ds ≠ []) (hd : ∀ c ∈ ds, isDigit c = true) :
    ds.head? ≠ some '-' ∧ ds.head? ≠ some '+' := by
  cases ds with
  | nil => exact absurd rfl hne
  | cons d ds =>
    have h := hd d (by simp)
    constructor
    · intro e
      simp only [List.head?_cons, Option.some.injEq] at e
      rw [e] at h; revert h; decide
    · intro e
      simp only [List.head?_cons, Option.some.injEq] at e
      rw [e] at h; revert h; decide

theorem parse_digits_body (ds : List Char) (hd : ∀ c ∈ ds, isDigit c = true) :
    ds.takeWhile isDigit = ds ∧ ds.dropWhile isDigit = [] := by
  constructor
  · rw [List.takeWhile_eq_self_iff]; exact hd
  · rw [List.dropWhile_eq_nil_iff]; exact hd

/-- The reference parser on a string of digits. -/
theorem parse_unsigned (ds : List Char) (hne : ds ≠ []) (hd : ∀ c ∈ ds, isDigit c = true) :
    decimal.parse (String.mk ds) = some ⟨(decimal.digitsVal ds 0 : Int), 1⟩ := by
  obtain ⟨h1, h2⟩ := digits_head ds hne hd
  obtain ⟨h3, h4⟩ := parse_digits_body ds hd
  unfold decimal.parse
  simp only [h1, h2, or_self, if_false, h3, h4, List.tail_nil, List.append_nil, List.length_nil,
    pow_zero, decide_False, Bool.false_eq_true, true_and, ne_eq, hne, not_false_eq_true, true_or,
    if_true]

/-- The reference parser on a minus sign followed by a string of digits. -/
theorem parse_minus (ds : List Char) (hne : ds ≠ []) (hd : ∀ c ∈ ds, isDigit c = true) :
    decimal.parse (String.mk ('-' :: ds)) = some ⟨-(decimal.digitsVal ds 0 : Int), 1⟩ := by
  obtain ⟨h3, h4⟩ := parse_digits_body ds hd
  unfold decimal.parse
  simp only [List.head?_cons, true_or, if_true, List.tail_cons, h3, h4, List.tail_nil,
    List.append_nil, List.length_nil, pow_zero, decide_True, true_and, ne_eq, hne,
    not_false_eq_true]

theorem signedLib_integerExact :
    integerExact signedLib (fun k => (⟨⟨k, 1⟩, false⟩ : decimal.Signed)) := by
  refine ⟨?_, ?_, ?_, ?_, ?_, ?_, ?_⟩
  · intro s m hm _
    obtain ⟨ds, hne, hd, ⟨hs, hv⟩ | ⟨hs, hv, hnz⟩⟩ := hm
    · show decimal.parseSigned s = _
      rw [decimal.parseSigned, hs, parse_unsigned ds hne hd, hv]
      simp [decimal.Signed.ofSign, (digits_head ds hne hd).1]
    · show decimal.parseSigned s = _
      rw [decimal.parseSigned, hs, parse_minus ds hne hd, hv]
      rw [hv] at hnz
      simp only [Option.map_some', decimal.Signed.ofSign, List.head?_cons, decide_True,
        Bool.and_true, Option.some.injEq, decimal.Signed.mk.injEq, true_and, decide_eq_false_iff_not]
      exact hnz
  · intro a b _ _ _
    show decimal.addSigned _ _ = _
    simp only [decimal.addSigned, decimal.Signed.ofSign, decimal.add, decimal.Signed.isNeg,
      Int.mul_one, Nat.mul_one, Nat.cast_one, decimal.Signed.mk.injEq, true_and,
      Bool.and_false, Bool.or_false]
    by_cases h : a + b = 0
    · have : ¬ (a < 0 ∧ b < 0) := by omega
      simp [h]
      omega
    · simp [h]
  · intro a b _ _ _
    show decimal.subSigned _ _ = _
    simp only [decimal.subSigned, decimal.Signed.ofSign, decimal.sub, decimal.Signed.isNeg,
      Int.mul_one, Nat.mul_one, Nat.cast_one, decimal.Signed.mk.injEq, true_and,
      Bool.and_false, Bool.or_false]
    by_cases h : a - b = 0
    · simp [h]
      omega
    · simp [h]
  · intro a b _ _ _ hc
    show decimal.mulSigned _ _ = _
    simp only [decimal.mulSigned, decimal.Signed.ofSign, decimal.mul, decimal.Signed.isNeg,
      Nat.mul_one, decimal.Signed.mk.injEq, true_and, Bool.and_false, Bool.or_false]
    by_cases h : a * b = 0
    · rcases hc with ⟨ha, hb⟩ | ⟨ha, hb⟩
      · exact absurd h (Int.mul_ne_zero ha hb)
      · have h1 : ¬ a < 0 := by omega
        have h2 : ¬ b < 0 := by omega
        simp [h, h1, h2]
    · simp [h]
  · intro k _
    show decimal.formatSigned _ = _
    rw [decimal.formatSigned, if_neg (by simp), format_int]
  · intro b _
    show decimal.eq ⟨b, 1⟩ ⟨0, 1⟩ = _
    simp [decimal.eq]
  · intro a b _ _ _
    show sixDigits (decimal.formatSigned _)
    rw [decimal.formatSigned]
    split
    · exact sixDigits_minus _ (format_sixDigits _)
    · exact format_sixDigits _

/-- With the signed zero of float64 the product of a zero and a negative
number is the negative zero, which is written with its sign: the text of the
result is not that of the exact integer result. -/
theorem C24_counterexample :
    intLiteral "0" 0 ∧ intLiteral "-5" (-5) ∧
    mulOperator signedLib ⟨NUMBER, "0", NUMBER_TYPE⟩ ⟨IDENT, "-5", NUMBER_TYPE⟩ =
      .ok ⟨NUMBER, "-0.000000", NUMBER_TYPE⟩ ∧
    intText (0 * -5) ++ ".000000" = "0.000000" ∧
    Evaluate signedLib [⟨IDENT, "s2001", NUMBER_TYPE⟩, ⟨NUMBER, "0", NUMBER_TYPE⟩,
        ⟨ARITH_OP, "*", ""⟩] (fun name => if name = "s2001" then some "-10" else none) =
      .ok ⟨NUMBER, "-0.000000", NUMBER_TYPE⟩ := by
  refine ⟨⟨['0'], by simp, by decide, Or.inl ⟨rfl, by decide⟩⟩,
    ⟨['5'], by simp, by decide, Or.inr ⟨rfl, by decide, by decide⟩⟩, ?_, by decide, ?_⟩
  · decide!
  · decide!

/-- C24 as amended: arithmetic results are written with six fractional digits.
For every float library that is exact on the integers below 2^53 as float64 is,
and Number-typed operands whose texts are integer literals `m` and `n` of
absolute value below 2^53 (digits, or a minus sign and digits that do not write
zero): `+` and `-` return the Number token whose text is the exact integer
result followed by `.000000` when the result is below 2^53 in absolute value;
so does `*`, when both factors are non-zero or both are non-negative; `/`
returns a Number token whose text has exactly six digits after the decimal
point when `n` is not 0, and the division-by-zero error when it is; and the
texts `k.000000` have exactly six digits after the point. -/
theorem C24_arithmetic_text_amended (L : FloatLib) (emb : Int → L.F64)
    (hL : integerExact L emb) (x y : Token) (m n : Int)
    (hx : x.ValueType = NUMBER_TYPE) (hy : y.ValueType = NUMBER_TYPE)
    (hm : intLiteral x.Value m) (hn : intLiteral y.Value n)
    (bm : |m| < 2 ^ 53) (bn : |n| < 2 ^ 53) :
    (|m + n| < 2 ^ 53 →
      addOperator L x y = .ok ⟨NUMBER, intText (m + n) ++ ".000000", NUMBER_TYPE⟩) ∧
    (|m - n| < 2 ^ 53 →
      subOperator L x y = .ok ⟨NUMBER, intText (m - n) ++ ".000000", NUMBER_TYPE⟩) ∧
    (|m * n| < 2 ^ 53 → (m ≠ 0 ∧ n ≠ 0) ∨ (0 ≤ m ∧ 0 ≤ n) →
      mulOperator L x y = .ok ⟨NUMBER, intText (m * n) ++ ".000000", NUMBER_TYPE⟩) ∧
    (n ≠ 0 → ∃ text, divOperator L x y = .ok ⟨NUMBER, text, NUMBER_TYPE⟩ ∧ sixDigits text) ∧
    (n = 0 → divOperator L x y = .error (.CalculationError errDivisionByZero "")) ∧
    (∀ r, divOperator L x y = .ok r → r.Type_ = NUMBER ∧ r.ValueType = NUMBER_TYPE ∧
      sixDigits r.Value) ∧
    (∀ k : Int, sixDigits (intText k ++ ".000000")) := by
  obtain ⟨hp, hadd, hsub, hmul, hfmt, heq, hdiv⟩ := hL
  have ha := hp x.Value m hm bm
  have hb := hp y.Value n hn bn
  obtain ⟨c1, c2, c3⟩ := arithmetic_cases L x y _ _ hx hy ha hb
  have c4 := divOperator_cases L x y _ _ hx hy ha hb
  rw [heq n bn] at c4
  refine ⟨?_, ?_, ?_, ?_, ?_, ?_, sixDigits_intText⟩
  · intro h
    rw [c1, hadd m n bm bn h, hfmt _ h]
  · intro h
    rw [c2, hsub m n bm bn h, hfmt _ h]
  · intro h hc
    rw [c3, hmul m n bm bn h hc, hfmt _ h]
  · intro hne
    rw [c4, if_neg (by simpa using hne)]
    exact ⟨_, rfl, hdiv m n bm bn hne⟩
  · intro h0
    rw [c4, if_pos (by simpa using h0)]
  · intro r hr
    rw [c4] at hr
    split at hr
    · cases hr
    next hne =>
      injection hr with hr
      rw [← hr]
      exact ⟨rfl, rfl, hdiv m n bm bn (by simpa using hne)⟩

theorem C24_arithmetic_text_amended_witness :
    integerExact signedLib (fun k => (⟨⟨k, 1⟩, false⟩ : decimal.Signed)) ∧
    intLiteral "1" 1 ∧ intLiteral "2" 2 ∧
    addOperator signedLib ⟨NUMBER, "1", NUMBER_TYPE⟩ ⟨NUMBER, "2", NUMBER_TYPE⟩ =
      .ok ⟨NUMBER, intText (1 + 2) ++ ".000000", NUMBER_TYPE⟩ ∧
    intText (1 + 2) ++ ".000000" = "3.000000" :=
  ⟨signedLib_integerExact,
    ⟨['1'], by simp, by decide, Or.inl ⟨rfl, by decide⟩⟩,
    ⟨['2'], by simp, by decide, Or.inl ⟨rfl, by decide⟩⟩,
    (C24_arithmetic_text_amended signedLib (fun k => (⟨⟨k, 1⟩, false⟩ : decimal.Signed))
      signedLib_integerExact ⟨NUMBER, "1", NUMBER_TYPE⟩ ⟨NUMBER, "2", NUMBER_TYPE⟩ 1 2 rfl rfl
      ⟨['1'], by simp, by decide, Or.inl ⟨rfl, by decide⟩⟩
      ⟨['2'], by simp, by decide, Or.inl ⟨rfl, by decide⟩⟩
      (by norm_num) (by norm_num)).1 (by norm_num),
    by decide⟩

end calculator
